import Mathlib

/-!
# Block partition engine (`block.cpp`): shallow embedding and verified properties

The embedding follows `src/examples/block.cpp`.

* Node identifiers, block indices, flags and owners are C++ `int`/`short`; they are
  modelled as `Int`.  All arithmetic in the modelled functions is index arithmetic
  inside allocated arrays or counting of list elements, so no wrap-around occurs.
* The arrays `flags[]`, `nodeBlocks[]`, `nNodesLinked[]`, `linkMat[]` are modelled as
  total maps `Int → Int`; a write `a[i] = v` is `upd a i v`.
* `std::list<node>` is a `List Int` of the `nodeNum` fields (the `score` field of a node
  record is never read by the functions modelled here).
* `vector<block>` is a `List block`; `blocks[i]` is `State.getB`, an assignment to a
  field of `blocks[i]` is `State.modB`.
* A `throw` of an `err` with numeric code `c` is `Except.error c`.
-/

set_option autoImplicit false

namespace Blocker

/-! ## Data model -/

/-- The read-only adjacency view (`nNodes`, `nMaxLinkedNodes`, `nNodesLinked`, `linkMat`). -/
structure Mesh where
  nNodes : Nat
  nMaxLinkedNodes : Int
  nNodesLinked : Int → Int
  linkMat : Int → Int

/-- The neighbour row of node `n`, in the order it is traversed by
`for (linkCnt = 0; linkCnt < nNodesLinked[n]; linkCnt++) linkMat[n*nMaxLinkedNodes+linkCnt]`. -/
def Mesh.links (m : Mesh) (n : Int) : List Int :=
  (List.range (m.nNodesLinked n).toNat).map
    (fun (k : Nat) => m.linkMat (n * m.nMaxLinkedNodes + (k : Int)))

/-- The member data of class `block` (the pointers to the shared arrays are kept in
`Mesh` and `State`). -/
structure block where
  blockNum : Int
  intNodes : List Int
  boundNodes : List Int
  prevBlock : Int
  nextBlock : Int
  parentBlock : Int
  childBlock : Int
  maxSize : Int
  isActive : Bool
  blockFlag : Int
  modifiedTimes : Int
  lastAdvance : Int

/-- Modelled from the spec: `block::size()` is declared in `block.h`, which is not part of
the sources; the spec gives it as `|interior| + |boundary|`. -/
def block.size (b : block) : Int :=
  (b.intNodes.length : Int) + (b.boundNodes.length : Int)

/-- All nodes held by a block: interior list followed by boundary list. -/
def block.nodes (b : block) : List Int := b.intNodes ++ b.boundNodes

/-- Value read when a block index lies outside the vector (undefined in C++; the
theorems below only use indices inside the vector). -/
def noBlock : block :=
  { blockNum := -1, intNodes := [], boundNodes := [], prevBlock := -1, nextBlock := -1,
    parentBlock := -1, childBlock := -1, maxSize := 0, isActive := false, blockFlag := 0,
    modifiedTimes := 0, lastAdvance := 0 }

/-- The shared mutable partition state: `flags[]`, `nodeBlocks[]` and the block vector. -/
structure State where
  flags : Int → Int
  nodeBlocks : Int → Int
  blocks : List block

/-- Array write `a[i] = v`. -/
def upd (f : Int → Int) (i v : Int) : Int → Int := fun x => if x = i then v else f x

/-- The loop `for p in l: a[p] = v`. -/
def updAll (f : Int → Int) (l : List Int) (v : Int) : Int → Int :=
  l.foldl (fun g n => upd g n v) f

/-- Read of `blocks[i]` for a vector position `i`. -/
def State.blockAt (s : State) (i : Nat) : block := s.blocks.getD i noBlock

/-- Read of `blocks[i]` for an `int` index. -/
def State.getB (s : State) (i : Int) : block := s.blockAt i.toNat

/-- In-place modification of `blocks[i]` at a vector position. -/
def State.modAt (s : State) (i : Nat) (f : block → block) : State :=
  { s with blocks := s.blocks.set i (f (s.blockAt i)) }

/-- In-place modification of `blocks[i]` for an `int` index (guarded in the source by
`i >= 0` wherever `i` may be `-1`). -/
def State.modB (s : State) (i : Int) (f : block → block) : State :=
  if i < 0 then s else s.modAt i.toNat f

/-! ## Membership and classification helpers -/

/-- Inner loop of `tidyBoundaries` over the neighbour row of one boundary node:
`error 2401` on a negative entry, otherwise whether a neighbour with a different owner is
met (`isBoundary`).  The scan stops at the first such neighbour (`break`). -/
def tidyScan (nodeBlocks : Int → Int) (blockNum : Int) : List Int → Except Nat Bool
  | [] => .ok false
  | l :: ls =>
    if l < 0 then .error 2401
    else if nodeBlocks l ≠ blockNum then .ok true
    else tidyScan nodeBlocks blockNum ls

/-- Outer loop of `tidyBoundaries`: walks the boundary list; a node whose scan gives
`isBoundary == false` gets `flags = 1`, is appended to `intNodes` and erased from
`boundNodes`.  Returns the new flags, the new interior list and the remaining boundary
list.  After `p = boundNodes.erase(p); p--;` the loop's `p++` stands on the node that
followed the erased one (for an erased first node `p--` steps onto the sentinel of the
circular `std::list` and `p++` onto the new first node), so each node of the list is
visited exactly once, in order. -/
def tidyLoop (m : Mesh) (nodeBlocks : Int → Int) (blockNum : Int) :
    List Int → (Int → Int) → List Int → Except Nat ((Int → Int) × List Int × List Int)
  | [], flags, ints => .ok (flags, ints, [])
  | p :: ps, flags, ints =>
    match tidyScan nodeBlocks blockNum (m.links p) with
    | .error e => .error e
    | .ok true =>
      match tidyLoop m nodeBlocks blockNum ps flags ints with
      | .error e => .error e
      | .ok (f, i, b) => .ok (f, i, p :: b)
    | .ok false => tidyLoop m nodeBlocks blockNum ps (upd flags p 1) (ints ++ [p])

/-- `block::tidyBoundaries`. -/
def tidyBoundaries (m : Mesh) (nodeBlocks flags : Int → Int) (b : block) :
    Except Nat ((Int → Int) × block) :=
  match tidyLoop m nodeBlocks b.blockNum b.boundNodes flags b.intNodes with
  | .error e => .error e
  | .ok (f, i, bd) => .ok (f, { b with intNodes := i, boundNodes := bd })

/-- The loop of `redoLists` over `cnt = 0 .. nNodes-1`: nodes owned by `blockNum` in
ascending order. -/
def ownedNodes (m : Mesh) (nodeBlocks : Int → Int) (blockNum : Int) : List Int :=
  ((List.range m.nNodes).map (fun (k : Nat) => (k : Int))).filter (fun n => nodeBlocks n = blockNum)

/-- `block::redoLists`. -/
def redoLists (m : Mesh) (nodeBlocks flags : Int → Int) (b : block) :
    Except Nat ((Int → Int) × block) :=
  let own := ownedNodes m nodeBlocks b.blockNum
  tidyBoundaries m nodeBlocks (updAll flags own 2) { b with boundNodes := own, intNodes := [] }

/-- The call `blocks[self].redoLists()` on the shared state (the owner array is only read). -/
def redoListsAt (m : Mesh) (s : State) (self : Nat) : Except Nat State :=
  match redoLists m s.nodeBlocks s.flags (s.blockAt self) with
  | .error e => .error e
  | .ok (fl, b) => .ok { s with flags := fl, blocks := s.blocks.set self b }

/-- Body of the inner loop of `getLinks`: append the owner of a neighbour when it is a
block (`>= 0`), not this block, and not yet listed. -/
def linkStep (nodeBlocks : Int → Int) (blockNum : Int) (acc : List Int) (linkNode : Int) :
    List Int :=
  let blockLink := nodeBlocks linkNode
  if 0 ≤ blockLink ∧ blockLink ≠ blockNum ∧ blockLink ∉ acc then acc ++ [blockLink] else acc

/-- `block::getLinks`. -/
def getLinks (m : Mesh) (nodeBlocks : Int → Int) (b : block) : List Int :=
  b.boundNodes.foldl (fun acc p => (m.links p).foldl (linkStep nodeBlocks b.blockNum) acc) []

/-- `block::renumber`. -/
def renumber (nodeBlocks : Int → Int) (b : block) (newNumber : Int) :
    (Int → Int) × block :=
  (updAll (updAll nodeBlocks b.intNodes newNumber) b.boundNodes newNumber,
   { b with blockNum := newNumber })

/-! ## Structural primitives -/

/-- `block::erase` on `blocks[self]`.  The second loop writes `flags[currNodeNum-1]` (for
`currNodeNum = 0` that is the cell before the array; the model records the write at
index `-1`). -/
def erase (s : State) (self : Nat) : State :=
  let me := s.blockAt self
  let s1 : State :=
    me.intNodes.foldl
      (fun st n => { st with nodeBlocks := upd st.nodeBlocks n (-1), flags := upd st.flags n 0 })
      s
  let s2 : State :=
    me.boundNodes.foldl
      (fun st n =>
        { st with nodeBlocks := upd st.nodeBlocks n (-1), flags := upd st.flags (n - 1) 0 })
      s1
  s2.modAt self (fun b => { b with boundNodes := [], intNodes := [] })

/-- `this->combineFrom(b)` with `this = blocks[dst]` and `b = blocks[src]`, `dst ≠ src`. -/
def combineFrom (m : Mesh) (s : State) (dst src : Nat) : Except Nat State :=
  let t := s.blockAt dst
  let b := s.blockAt src
  let mt := if b.modifiedTimes > t.modifiedTimes then b.modifiedTimes else t.modifiedTimes
  let nodeBlocks := updAll (updAll s.nodeBlocks b.intNodes t.blockNum) b.boundNodes t.blockNum
  let t1 : block :=
    { t with modifiedTimes := mt, intNodes := b.intNodes ++ t.intNodes,
             boundNodes := b.boundNodes ++ t.boundNodes }
  match tidyBoundaries m nodeBlocks s.flags t1 with
  | .error e => .error e
  | .ok (flags, t2) =>
    .ok { flags := flags, nodeBlocks := nodeBlocks,
          blocks := (s.blocks.set src { b with intNodes := [], boundNodes := [] }).set dst t2 }

/-- The search loop of `join` over `linkedBlocks`: the first listed block that is active
(`-1` when there is none). -/
def firstActive (s : State) : List Int → Int
  | [] => -1
  | p :: ps => if (s.getB p).isActive then p else firstActive s ps

/-- The block picked by the search loop of `join` over `getLinks()` (`-1` when no linked
block is active). -/
def joinCandidate (m : Mesh) (s : State) (self : Nat) : Int :=
  firstActive s (getLinks m s.nodeBlocks (s.blockAt self))

/-- Target selection of `join` (source lines 130-178).  `some (joinBlock, bothNext, bothPrev)`
when a target was found, `none` when `join` takes one of its two `return -1` exits. -/
def joinTarget (m : Mesh) (s : State) (self : Nat) : Option (Int × Int × Int) :=
  let me := s.blockAt self
  let sel : Int × Int × Int :=
    if me.nextBlock ≠ -1 then
      (me.nextBlock, (s.getB me.nextBlock).nextBlock, me.prevBlock)
    else
      (me.prevBlock, me.nextBlock,
        if me.prevBlock > 0 then (s.getB me.prevBlock).prevBlock else -1)
  if sel.1 = -1 then
    let jb := joinCandidate m s self
    if jb ≠ -1 then
      if (s.getB jb).prevBlock = -1 then some (jb, (s.getB jb).nextBlock, -1)
      else if (s.getB jb).nextBlock = -1 then some (jb, -1, (s.getB jb).prevBlock)
      else none
    else none
  else some sel

/-- Step `#1` of `join`: the link fields of the target and the back-pointers of its new
neighbours. -/
def joinRelink (s : State) (joinBlock bothNext0 bothPrev0 : Int) : State :=
  let bothNext := if bothNext0 = joinBlock then -1 else bothNext0
  let bothPrev := if bothPrev0 = joinBlock then -1 else bothPrev0
  let s1 := s.modB joinBlock (fun b => { b with nextBlock := bothNext })
  let s2 := s1.modB joinBlock (fun b => { b with prevBlock := bothPrev })
  let s3 := if 0 ≤ bothNext then s2.modB bothNext (fun b => { b with prevBlock := joinBlock })
            else s2
  if 0 ≤ bothPrev then s3.modB bothPrev (fun b => { b with nextBlock := joinBlock }) else s3

/-- Step `#2` of `join`: `blocks[self]` takes over the payload and the links of the last
block (only run when `blockNum != lastBlock`). -/
def joinCompact (m : Mesh) (s : State) (self : Nat) (lastBlock : Int) : Except Nat State :=
  let s1 := s.modAt self (fun b => { b with modifiedTimes := 0 })
  match combineFrom m s1 self lastBlock.toNat with
  | .error e => .error e
  | .ok s2 =>
    let s3 := s2.modAt self (fun b => { b with nextBlock := (s2.getB lastBlock).nextBlock })
    let s4 := s3.modAt self (fun b => { b with prevBlock := (s3.getB lastBlock).prevBlock })
    let s5 :=
      if 0 ≤ (s4.blockAt self).nextBlock then
        s4.modB (s4.blockAt self).nextBlock
          (fun b => { b with prevBlock := (s4.blockAt self).blockNum })
      else s4
    let s6 :=
      if 0 ≤ (s5.blockAt self).prevBlock then
        s5.modB (s5.blockAt self).prevBlock
          (fun b => { b with nextBlock := (s5.blockAt self).blockNum })
      else s5
    .ok s6

/-- The reset of a self-loop link field in `join`:
`if (x == blockNum || x == joinBlock) x = -1;`. -/
def joinUnloop (x blockNum joinBlock : Int) : Int :=
  if x = blockNum ∨ x = joinBlock then -1 else x

/-- The end of `join` (source lines 210-227): compaction when `blockNum != lastBlock`,
`pop_back`, `return joinBlock`. -/
def joinFinish (m : Mesh) (s : State) (self : Nat) (joinBlock : Int) :
    Except Nat (Int × State) :=
  if (s.blockAt self).blockNum ≠ (s.blocks.length : Int) - 1 then
    match joinCompact m s self ((s.blocks.length : Int) - 1) with
    | .error e => .error e
    | .ok s4 => .ok (joinBlock, { s4 with blocks := s4.blocks.dropLast })
  else .ok (joinBlock, { s with blocks := s.blocks.dropLast })

/-- The part of `join` after a target was selected (source lines 181-227). -/
def joinInto (m : Mesh) (s : State) (self : Nat) (joinBlock bothNext0 bothPrev0 : Int) :
    Except Nat (Int × State) :=
  match combineFrom m (s.modAt self (fun b => { b with modifiedTimes := b.modifiedTimes + 1 }))
      joinBlock.toNat self with
  | .error e => .error e
  | .ok s2 =>
    joinFinish m
      (joinRelink s2 joinBlock (joinUnloop bothNext0 (s.blockAt self).blockNum joinBlock)
        (joinUnloop bothPrev0 (s.blockAt self).blockNum joinBlock))
      self joinBlock

/-- `block::join` on `blocks[self]`: the returned `int` and the state afterwards. -/
def join (m : Mesh) (s : State) (self : Nat) : Except Nat (Int × State) :=
  match joinTarget m s self with
  | none => .ok (-1, s.modAt self (fun b => { b with isActive := false }))
  | some (joinBlock, bothNext, bothPrev) => joinInto m s self joinBlock bothNext bothPrev

/-! ## Traversal primitives -/

/-- Progress of one `depthInBlock` round: the `depths` array, the last node given a depth
and the number of nodes given a depth in this round. -/
structure DepthSt where
  depths : Int → Int
  deepNode : Int
  updatePoints : Int

/-- Innermost body of `depthInBlock`: `checkNode` gets `nextDepth` when it is unvisited and
owned by the block. -/
def depthVisit (nodeBlocks : Int → Int) (blockNum nextDepth : Int) (st : DepthSt)
    (checkNode : Int) : DepthSt :=
  if st.depths checkNode = 0 ∧ nodeBlocks checkNode = blockNum then
    { depths := upd st.depths checkNode nextDepth, deepNode := checkNode,
      updatePoints := st.updatePoints + 1 }
  else st

/-- Body of the loops over `intNodes` / `boundNodes` in `depthInBlock`: a listed node at the
current depth expands to its neighbours. -/
def depthNode (m : Mesh) (nodeBlocks : Int → Int) (blockNum currDepth : Int) (st : DepthSt)
    (nCnt : Int) : DepthSt :=
  if st.depths nCnt = currDepth then
    (m.links nCnt).foldl (depthVisit nodeBlocks blockNum (currDepth + 1)) st
  else st

/-- One round of `depthInBlock`: the loop over `intNodes`, then the loop over `boundNodes`. -/
def depthRound (m : Mesh) (nodeBlocks : Int → Int) (b : block) (currDepth : Int)
    (depths : Int → Int) (deepNode : Int) : DepthSt :=
  b.boundNodes.foldl (depthNode m nodeBlocks b.blockNum currDepth)
    (b.intNodes.foldl (depthNode m nodeBlocks b.blockNum currDepth)
      { depths := depths, deepNode := deepNode, updatePoints := 0 })

/-- The `for (cnt = 0; cnt < nNodes*2; cnt++)` loop of `depthInBlock`; the first argument
counts the remaining rounds.  Returns `(depths, currDepth, deepNode)`. -/
def depthLoop (m : Mesh) (nodeBlocks : Int → Int) (b : block) :
    Nat → Int → (Int → Int) → Int → (Int → Int) × Int × Int
  | 0, currDepth, depths, deepNode => (depths, currDepth, deepNode)
  | fuel + 1, currDepth, depths, deepNode =>
    let st := depthRound m nodeBlocks b currDepth depths deepNode
    if st.updatePoints = 0 then (st.depths, currDepth, st.deepNode)
    else depthLoop m nodeBlocks b fuel (currDepth + 1) st.depths st.deepNode

/-- `block::depthInBlock(depths, deepVal, deepNode)`: returns `(depths, deepVal, deepNode)`. -/
def depthInBlock (m : Mesh) (nodeBlocks : Int → Int) (b : block) (depths : Int → Int) :
    (Int → Int) × Int × Int :=
  depthLoop m nodeBlocks b (m.nNodes * 2) 1 depths (-1)

/-- Loop state of `findFurthest`: `deepLoc[0..1]`, `isGood[0..1]` and `currNode`. -/
structure FurthestSt where
  deepLoc0 : Int
  deepLoc1 : Int
  isGood0 : Bool
  isGood1 : Bool
  currNode : Int

/-- The `for (cnt = 0; cnt < 11; cnt++)` loop of `findFurthest`; the first argument counts
the remaining iterations, the second is `cnt`. -/
def findFurthestLoop (m : Mesh) (nodeBlocks : Int → Int) (b : block) :
    Nat → Nat → FurthestSt → Except Nat FurthestSt
  | 0, _, st => .ok st
  | fuel + 1, cnt, st =>
    let maxDepth := (depthInBlock m nodeBlocks b (upd (fun _ => 0) st.currNode 1)).2.1
    let maxLoc := (depthInBlock m nodeBlocks b (upd (fun _ => 0) st.currNode 1)).2.2
    if maxLoc = -1 then .error 2403
    else if maxDepth = 1 then .error 2404
    else if cnt % 2 = 0 then
      if st.deepLoc0 = maxLoc then
        if st.isGood1 then .ok { st with isGood0 := true }
        else findFurthestLoop m nodeBlocks b fuel (cnt + 1)
              { st with isGood0 := true, deepLoc0 := maxLoc, currNode := maxLoc }
      else findFurthestLoop m nodeBlocks b fuel (cnt + 1)
              { st with isGood0 := false, deepLoc0 := maxLoc, currNode := maxLoc }
    else
      if st.deepLoc1 = maxLoc then
        if st.isGood0 then .ok { st with isGood1 := true }
        else findFurthestLoop m nodeBlocks b fuel (cnt + 1)
              { st with isGood1 := true, deepLoc1 := maxLoc, currNode := maxLoc }
      else findFurthestLoop m nodeBlocks b fuel (cnt + 1)
              { st with isGood1 := false, deepLoc1 := maxLoc, currNode := maxLoc }

/-- `block::findFurthest(deepLoc, currNode)`.  `isGood[]` is uninitialised in the source;
an entry is read only after `deepLoc[cnt%2] == maxLoc` held with `maxLoc != -1`, which
needs both `deepLoc` entries (and hence both `isGood` entries) to have been written. -/
def findFurthest (m : Mesh) (nodeBlocks : Int → Int) (b : block) (currNode : Int) :
    Except Nat FurthestSt :=
  findFurthestLoop m nodeBlocks b 11 0
    { deepLoc0 := -1, deepLoc1 := -1, isGood0 := false, isGood1 := false, currNode := currNode }

/-! ## `split` -/

/-- The search for a starting node in `split`: the first boundary node with a co-owned
neighbour; the last boundary node when there is none; the initial value (`-1`) when the
boundary list is empty. -/
def splitSeed (m : Mesh) (nodeBlocks : Int → Int) (blockNum : Int) : List Int → Int → Int
  | [], cur => cur
  | p :: ps, _ =>
    if (m.links p).any (fun l => decide (nodeBlocks l = blockNum)) then p
    else splitSeed m nodeBlocks blockNum ps p

/-- The arrays and the two sub-blocks `nb[0]`, `nb[1]` during `split`. -/
structure SplitSt where
  nodeBlocks : Int → Int
  flags : Int → Int
  nb0 : block
  nb1 : block

/-- Progress of one growth pass over a sub-block. -/
structure GrowSt where
  nodeBlocks : Int → Int
  flags : Int → Int
  nb : block
  nAdded : Int

/-- Innermost body of the growth loop: a neighbour still owned by the block being split is
appended to the sub-block, re-owned and flagged `2`. -/
def growVisit (blockNum : Int) (st : GrowSt) (linkNode : Int) : GrowSt :=
  if st.nodeBlocks linkNode = blockNum then
    { nodeBlocks := upd st.nodeBlocks linkNode st.nb.blockNum
      flags := upd st.flags linkNode 2
      nb := { st.nb with boundNodes := st.nb.boundNodes ++ [linkNode] }
      nAdded := st.nAdded + 1 }
  else st

/-- One growth pass: the first `nBoundNodes` entries of the sub-block's boundary list (its
content when the pass starts) are visited in order. -/
def growPass (m : Mesh) (blockNum : Int) (nodeBlocks flags : Int → Int) (nb : block) : GrowSt :=
  nb.boundNodes.foldl (fun st p => (m.links p).foldl (growVisit blockNum) st)
    { nodeBlocks := nodeBlocks, flags := flags, nb := nb, nAdded := 0 }

/-- The alternating growth loop of `split` (`for (cnt = 0; cnt < nItsMax; cnt++)`); the first
argument counts the remaining iterations, the second is `tryOther`. -/
def growLoop (m : Mesh) (blockNum : Int) : Nat → Bool → SplitSt → SplitSt
  | 0, _, st => st
  | fuel + 1, tryOther, st =>
    if (decide (st.nb0.size > st.nb1.size)) != tryOther then
      let r := growPass m blockNum st.nodeBlocks st.flags st.nb1
      let st1 : SplitSt := { st with nodeBlocks := r.nodeBlocks, flags := r.flags, nb1 := r.nb }
      if r.nAdded = 0 then
        if tryOther then st1 else growLoop m blockNum fuel true st1
      else growLoop m blockNum fuel tryOther st1
    else
      let r := growPass m blockNum st.nodeBlocks st.flags st.nb0
      let st1 : SplitSt := { st with nodeBlocks := r.nodeBlocks, flags := r.flags, nb0 := r.nb }
      if r.nAdded = 0 then
        if tryOther then st1 else growLoop m blockNum fuel true st1
      else growLoop m blockNum fuel tryOther st1

/-- The two new blocks of `split` before seeding.  `init` stands for a default-constructed
`block` after `setup(*this)` (constructor and `setup` are declared in `block.h`, which is
not part of the sources); its node lists are empty `std::list`s. -/
def splitNew (init : block) (me : block) (size : Nat) : block × block :=
  ({ init with blockNum := (size : Int) + 1, intNodes := [], boundNodes := [],
               modifiedTimes := me.modifiedTimes + 1 },
   { init with blockNum := (size : Int) + 0, intNodes := [], boundNodes := [],
               modifiedTimes := me.modifiedTimes + 1 })

/-- `split` from the endpoint search to the two `redoLists` calls on the sub-blocks
(source lines 1026-1131), for a block of size other than 1. -/
def splitGrow (m : Mesh) (init : block) (s : State) (self : Nat) : Except Nat SplitSt :=
  let me := s.blockAt self
  let currNode := splitSeed m s.nodeBlocks me.blockNum me.boundNodes (-1)
  if currNode = -1 then .error 2402
  else
    match findFurthest m s.nodeBlocks me currNode with
    | .error e => .error e
    | .ok fs =>
      if fs.deepLoc0 = fs.deepLoc1 then .error 2405
      else
        let nb0 := (splitNew init me s.blocks.length).1
        let nb1 := (splitNew init me s.blocks.length).2
        let nb0 := { nb0 with boundNodes := nb0.boundNodes ++ [fs.deepLoc0] }
        let ob0 := upd s.nodeBlocks fs.deepLoc0 nb0.blockNum
        let fl0 := upd s.flags fs.deepLoc0 2
        let nb1 := { nb1 with boundNodes := nb1.boundNodes ++ [fs.deepLoc1] }
        let ob1 := upd ob0 fs.deepLoc1 nb1.blockNum
        let fl1 := upd fl0 fs.deepLoc1 2
        let g := growLoop m me.blockNum me.size.toNat false
                  { nodeBlocks := ob1, flags := fl1, nb0 := nb0, nb1 := nb1 }
        match redoLists m g.nodeBlocks g.flags g.nb0 with
        | .error e => .error e
        | .ok (fl2, nb0r) =>
          match redoLists m g.nodeBlocks fl2 g.nb1 with
          | .error e => .error e
          | .ok (fl3, nb1r) =>
            .ok { nodeBlocks := g.nodeBlocks, flags := fl3, nb0 := nb0r, nb1 := nb1r }

/-- Body of the loop computing `beforeAfter[cnt]` over the links of a sub-block. -/
def prefStep (prevBlock nextBlock : Int) (ba : Int) (p : Int) : Int :=
  let ba1 := if p = prevBlock ∧ ba % 2 = 0 then ba + 1 else ba
  if p = nextBlock ∧ (ba1 / 2) % 2 = 0 then ba1 + 2 else ba1

/-- `beforeAfter[cnt]` of `split`: bit 0 when the sub-block touches `prevBlock`, bit 1 when
it touches `nextBlock`. -/
def beforeAfter (m : Mesh) (nodeBlocks : Int → Int) (me nb : block) : Int :=
  (getLinks m nodeBlocks nb).foldl (prefStep me.prevBlock me.nextBlock) 0

/-- The decision `ord` of `split` (`1`: `nb[0]` first, `2`: `nb[1]` first; `0` is left when
neither sub-block touches a chain neighbour). -/
def splitOrd (ba0 ba1 : Int) : Int :=
  if ba0 = 0 ∧ ba1 = 0 then 0
  else if ba0 = 3 ∨ ba0 = 0 then
    if ba1 = 3 then 1
    else if ba1 = 2 then 1
    else if ba1 = 1 then 2
    else 1
  else if ba0 = 2 then 2
  else if ba0 = 1 then 1
  else 0

/-- The link phase of `split` (source lines 1189-1226) including `push_back(nb[1])`. -/
def splitLink (s : State) (self : Nat) (nb1 : block) (ord : Int) : State :=
  let me := s.blockAt self
  let bothPrev := me.prevBlock
  let bothNext := me.nextBlock
  if ord = 1 then
    let s1 := s.modAt self (fun b => { b with prevBlock := bothPrev, nextBlock := nb1.blockNum })
    let nb1l := { nb1 with prevBlock := me.blockNum, nextBlock := bothNext }
    let s2 := if 0 ≤ bothPrev then s1.modB bothPrev (fun b => { b with nextBlock := me.blockNum })
              else s1
    let s3 := if 0 ≤ bothNext then s2.modB bothNext (fun b => { b with prevBlock := nb1.blockNum })
              else s2
    { s3 with blocks := s3.blocks ++ [nb1l] }
  else
    let s1 := s.modAt self (fun b => { b with prevBlock := nb1.blockNum, nextBlock := bothNext })
    let nb1l := { nb1 with prevBlock := bothPrev, nextBlock := me.blockNum }
    let s2 := if 0 ≤ bothPrev then s1.modB bothPrev (fun b => { b with nextBlock := nb1.blockNum })
              else s1
    let s3 := if 0 ≤ bothNext then s2.modB bothNext (fun b => { b with prevBlock := me.blockNum })
              else s2
    { s3 with blocks := s3.blocks ++ [nb1l] }

/-- `split` after the sub-blocks were grown (source lines 1137-1229): preferences, `ord`,
`nb[0].renumber(blockNum)`, `redoLists()` on `blocks[self]`, links, `push_back`. -/
def splitFinish (m : Mesh) (s : State) (self : Nat) (g : SplitSt) : Except Nat (Int × State) :=
  let me := s.blockAt self
  let ord := splitOrd (beforeAfter m g.nodeBlocks me g.nb0) (beforeAfter m g.nodeBlocks me g.nb1)
  let ob := (renumber g.nodeBlocks g.nb0 me.blockNum).1
  match redoLists m ob g.flags { me with modifiedTimes := me.modifiedTimes + 1 } with
  | .error e => .error e
  | .ok (fl, me1) =>
    let s1 : State := { flags := fl, nodeBlocks := ob, blocks := s.blocks.set self me1 }
    let s2 := splitLink s1 self g.nb1 ord
    .ok ((s2.blocks.length : Int) - 1, s2)

/-- `block::split` on `blocks[self]`: the returned `int` and the state afterwards. -/
def split (m : Mesh) (init : block) (s : State) (self : Nat) : Except Nat (Int × State) :=
  if (s.blockAt self).size = 1 then .ok (-1, s)
  else
    match splitGrow m init s self with
    | .error e => .error e
    | .ok g => splitFinish m s self g

/-! ## `advanceGreedy` -/

/-- The break test of `advanceGreedy`:
`(nAdded >= maxNodesAdvance && maxNodesAdvance > 0) || (size() >= maxSize && maxNodesAdvance != -2)`. -/
def CapHit (nAdded maxNodesAdvance size maxSize : Int) : Prop :=
  (nAdded ≥ maxNodesAdvance ∧ maxNodesAdvance > 0) ∨ (size ≥ maxSize ∧ maxNodesAdvance ≠ -2)

instance (nAdded maxNodesAdvance size maxSize : Int) :
    Decidable (CapHit nAdded maxNodesAdvance size maxSize) := by
  unfold CapHit; infer_instance

/-- Progress of `advanceGreedy`.  The boundary list of the block is held in three pieces:
`kept` (nodes of the original list already passed by the iterator and not erased), the
not yet passed part of the original list (the argument of the loops below) and `added`
(the nodes appended by `push_back` during this call); `boundNodes` is their
concatenation in that order.  `isBoundary` and `anyAdded` are the two locals of the
current outer iteration. -/
structure GreedySt where
  flags : Int → Int
  nodeBlocks : Int → Int
  intNodes : List Int
  kept : List Int
  added : List Int
  nAdded : Int
  isBoundary : Bool
  anyAdded : Bool

/-- The value of `size()` while `pending` is the not yet passed part of the original boundary list. -/
def GreedySt.size (st : GreedySt) (pending : List Int) : Int :=
  (st.intNodes.length : Int) + ((st.kept ++ pending ++ st.added).length : Int)

/-- Inner loop of `advanceGreedy` over the neighbour row of the current boundary node:
a neighbour with `flags == 0` is claimed (flag `2`, owner `blockNum`, appended to
`boundNodes`), after which the break test is made; any other neighbour with a different
owner sets `isBoundary`. -/
def greedyScan (b : block) (maxNodesAdvance : Int) (pending : List Int) :
    List Int → GreedySt → GreedySt
  | [], st => st
  | l :: ls, st =>
    if st.flags l = 0 then
      let st1 : GreedySt :=
        { st with flags := upd st.flags l 2, nodeBlocks := upd st.nodeBlocks l b.blockNum,
                  added := st.added ++ [l], nAdded := st.nAdded + 1, anyAdded := true }
      if CapHit st1.nAdded maxNodesAdvance (st1.size pending) b.maxSize then st1
      else greedyScan b maxNodesAdvance pending ls st1
    else if st.nodeBlocks l ≠ b.blockNum then
      greedyScan b maxNodesAdvance pending ls { st with isBoundary := true }
    else greedyScan b maxNodesAdvance pending ls st

/-- Outer loop of `advanceGreedy` over the first `nBoundNodes` entries of the boundary list
(its content when the call starts).  A node flagged `5` is passed over.  Otherwise its
row is scanned; without a claim it is flagged `5`; with `isBoundary == false` it is
flagged `1`, appended to `intNodes` and erased from `boundNodes` (the loop ends when that
empties the list); then the break test is made.  On a break the not yet passed nodes stay
in the boundary list. -/
def greedyLoop (m : Mesh) (b : block) (maxNodesAdvance : Int) : List Int → GreedySt → GreedySt
  | [], st => st
  | p :: rest, st =>
    if st.flags p = 5 then greedyLoop m b maxNodesAdvance rest { st with kept := st.kept ++ [p] }
    else
      let sc := greedyScan b maxNodesAdvance (p :: rest) (m.links p)
                  { st with isBoundary := false, anyAdded := false }
      let fl1 := if sc.anyAdded then sc.flags else upd sc.flags p 5
      if sc.isBoundary then
        let st1 : GreedySt := { sc with flags := fl1, kept := sc.kept ++ [p] }
        if CapHit st1.nAdded maxNodesAdvance (st1.size rest) b.maxSize then
          { st1 with kept := st1.kept ++ rest }
        else greedyLoop m b maxNodesAdvance rest st1
      else
        let st1 : GreedySt := { sc with flags := upd fl1 p 1, intNodes := sc.intNodes ++ [p] }
        if st1.kept ++ rest ++ st1.added = [] then st1
        else if CapHit st1.nAdded maxNodesAdvance (st1.size rest) b.maxSize then
          { st1 with kept := st1.kept ++ rest }
        else greedyLoop m b maxNodesAdvance rest st1

/-- The state of `advanceGreedy` when its loop starts. -/
def greedyInit (s : State) (me : block) : GreedySt :=
  { flags := s.flags, nodeBlocks := s.nodeBlocks, intNodes := me.intNodes, kept := [],
    added := [], nAdded := 0, isBoundary := false, anyAdded := false }

/-- `block::advanceGreedy(blocks, maxNodesAdvance)` on `blocks[self]`: the returned `int` and
the state afterwards. -/
def advanceGreedy (m : Mesh) (s : State) (self : Nat) (maxNodesAdvance : Int) :
    Except Nat (Int × State) :=
  let me := s.blockAt self
  if !me.isActive then .ok (0, s)
  else
    let st := greedyLoop m me maxNodesAdvance me.boundNodes (greedyInit s me)
    match tidyBoundaries m st.nodeBlocks st.flags
        { me with intNodes := st.intNodes, boundNodes := st.kept ++ st.added } with
    | .error e => .error e
    | .ok (fl, b1) =>
      .ok (st.nAdded,
           { flags := fl, nodeBlocks := st.nodeBlocks,
             blocks := s.blocks.set self { b1 with lastAdvance := st.nAdded } })

/-! ## `minimise` -/

/-- Inner loop of `minimise` over the neighbour row of a boundary node: `isInactiveLinked`,
set when a neighbour is owned (`blockLink >= 0`) by a block with `isActive == false`. -/
def inactiveLinked (m : Mesh) (s : State) (p : Int) : Bool :=
  (m.links p).any
    (fun l => decide (0 ≤ s.nodeBlocks l) && !(s.getB (s.nodeBlocks l)).isActive)

/-- Second loop of `minimise` over the boundary list: a node without a neighbour in an
inactive block is released (owner `-1`, flag `0`) and erased, any other node is flagged
`2`.  Returns the state and the remaining boundary list.  The iterator handling after
`erase` is that of `tidyBoundaries`: each node is visited once, in order. -/
def minimiseLoop (m : Mesh) : List Int → State → State × List Int
  | [], s => (s, [])
  | p :: ps, s =>
    if inactiveLinked m s p then
      let r := minimiseLoop m ps { s with flags := upd s.flags p 2 }
      (r.1, p :: r.2)
    else
      minimiseLoop m ps
        { s with nodeBlocks := upd s.nodeBlocks p (-1), flags := upd s.flags p 0 }

/-- `block::minimise(blocks)` on `blocks[self]`. -/
def minimise (m : Mesh) (s : State) (self : Nat) : State :=
  let me := s.blockAt self
  if !me.isActive then s
  else
    let s1 : State :=
      { s with nodeBlocks := updAll s.nodeBlocks me.intNodes (-1),
               flags := updAll s.flags me.intNodes 0 }
    let r := minimiseLoop m me.boundNodes s1
    r.1.modAt self (fun b => { b with intNodes := [], boundNodes := r.2 })

/-! ## `splitInLayer` -/

/-- Seeding loop of `splitInLayer` for one side: every neighbour, still owned by the block
being split, of a boundary node of the chain neighbour (`src` is that neighbour's boundary
list) is appended to the sub-block, re-owned and flagged `2`.  The body is that of the
growth loop; the counter of `GrowSt` is not used here. -/
def layerSeed (m : Mesh) (blockNum : Int) (src : List Int) (nodeBlocks flags : Int → Int)
    (nb : block) : GrowSt :=
  src.foldl (fun st p => (m.links p).foldl (growVisit blockNum) st)
    { nodeBlocks := nodeBlocks, flags := flags, nb := nb, nAdded := 0 }

/-- Both seeding passes of `splitInLayer` (source lines 1264-1282): `nb[0]` from
`blocks[prevBlock]`, then `nb[1]` from `blocks[nextBlock]`, each only when the link is not
`-1`. -/
def layerSeeds (m : Mesh) (s : State) (me : block) (nb0 nb1 : block) : SplitSt :=
  let r0 : GrowSt :=
    if me.prevBlock ≠ -1 then
      layerSeed m me.blockNum (s.getB me.prevBlock).boundNodes s.nodeBlocks s.flags nb0
    else { nodeBlocks := s.nodeBlocks, flags := s.flags, nb := nb0, nAdded := 0 }
  let r1 : GrowSt :=
    if me.nextBlock ≠ -1 then
      layerSeed m me.blockNum (s.getB me.nextBlock).boundNodes r0.nodeBlocks r0.flags nb1
    else { nodeBlocks := r0.nodeBlocks, flags := r0.flags, nb := nb1, nAdded := 0 }
  { nodeBlocks := r1.nodeBlocks, flags := r1.flags, nb0 := r0.nb, nb1 := r1.nb }

/-- One round of the fallback seeding of `splitInLayer` (source lines 1292-1319) for the
sub-block `nb`, with `other` the opposite sub-block: when `nb` is empty it is seeded with
the node `depthInBlock` reports as deepest from the nodes of `other`; `error 2407` when
there is none. -/
def layerDeepSeed (m : Mesh) (me : block) (nodeBlocks flags : Int → Int) (nb other : block) :
    Except Nat ((Int → Int) × (Int → Int) × block) :=
  if nb.size = 0 then
    let maxLoc := (depthInBlock m nodeBlocks me (updAll (fun _ => 0) other.boundNodes 1)).2.2
    if maxLoc = -1 then .error 2407
    else
      .ok (upd nodeBlocks maxLoc nb.blockNum, upd flags maxLoc 2,
           { nb with boundNodes := nb.boundNodes ++ [maxLoc] })
  else .ok (nodeBlocks, flags, nb)

/-- The alternating growth loop of `splitInLayer`: that of `split`, preceded in each
iteration by `if (limitSize && nb[sCnt].size() >= nb[sCnt].maxSize) continue;`. -/
def layerLoop (m : Mesh) (blockNum : Int) (limitSize : Bool) : Nat → Bool → SplitSt → SplitSt
  | 0, _, st => st
  | fuel + 1, tryOther, st =>
    if (decide (st.nb0.size > st.nb1.size)) != tryOther then
      if limitSize ∧ st.nb1.size ≥ st.nb1.maxSize then
        layerLoop m blockNum limitSize fuel tryOther st
      else
        let r := growPass m blockNum st.nodeBlocks st.flags st.nb1
        let st1 : SplitSt := { st with nodeBlocks := r.nodeBlocks, flags := r.flags, nb1 := r.nb }
        if r.nAdded = 0 then
          if tryOther then st1 else layerLoop m blockNum limitSize fuel true st1
        else layerLoop m blockNum limitSize fuel tryOther st1
    else
      if limitSize ∧ st.nb0.size ≥ st.nb0.maxSize then
        layerLoop m blockNum limitSize fuel tryOther st
      else
        let r := growPass m blockNum st.nodeBlocks st.flags st.nb0
        let st1 : SplitSt := { st with nodeBlocks := r.nodeBlocks, flags := r.flags, nb0 := r.nb }
        if r.nAdded = 0 then
          if tryOther then st1 else layerLoop m blockNum limitSize fuel true st1
        else layerLoop m blockNum limitSize fuel tryOther st1

/-- `splitInLayer` from the creation of the sub-blocks to the two `tidyBoundaries` calls
(source lines 1246-1374). -/
def layerGrow (m : Mesh) (init : block) (s : State) (self : Nat) (limitSize : Bool) :
    Except Nat SplitSt :=
  let me := s.blockAt self
  let sd := layerSeeds m s me (splitNew init me s.blocks.length).1
              (splitNew init me s.blocks.length).2
  if sd.nb0.size = 0 ∧ sd.nb1.size = 0 then .error 2406
  else
    match layerDeepSeed m me sd.nodeBlocks sd.flags sd.nb0 sd.nb1 with
    | .error e => .error e
    | .ok (ob1, fl1, nb0) =>
      match layerDeepSeed m me ob1 fl1 sd.nb1 nb0 with
      | .error e => .error e
      | .ok (ob2, fl2, nb1) =>
        if nb0.size = 0 ∨ nb1.size = 0 then .error 2408
        else
          let g := layerLoop m me.blockNum limitSize me.size.toNat false
                    { nodeBlocks := ob2, flags := fl2, nb0 := nb0, nb1 := nb1 }
          match tidyBoundaries m g.nodeBlocks g.flags g.nb0 with
          | .error e => .error e
          | .ok (fl3, nb0t) =>
            match tidyBoundaries m g.nodeBlocks fl3 g.nb1 with
            | .error e => .error e
            | .ok (fl4, nb1t) =>
              .ok { nodeBlocks := g.nodeBlocks, flags := fl4, nb0 := nb0t, nb1 := nb1t }

/-- The end of `splitInLayer` (source lines 1377-1404): `nb[0].renumber(blockNum)`,
`redoLists()` on `blocks[self]`, the links (those of the `ord == 1` branch of `split`),
`push_back(nb[1])`. -/
def layerFinish (m : Mesh) (s : State) (self : Nat) (g : SplitSt) : Except Nat (Int × State) :=
  let me := s.blockAt self
  let ob := (renumber g.nodeBlocks g.nb0 me.blockNum).1
  match redoLists m ob g.flags { me with modifiedTimes := me.modifiedTimes + 1 } with
  | .error e => .error e
  | .ok (fl, me1) =>
    let s1 : State := { flags := fl, nodeBlocks := ob, blocks := s.blocks.set self me1 }
    let s2 := splitLink s1 self g.nb1 1
    .ok ((s2.blocks.length : Int) - 1, s2)

/-- `block::splitInLayer(blocks, limitSize)` on `blocks[self]`: the returned `int` and the
state afterwards.  `xyBlockSize` stands for the constant `XBLOCKSIZE*YBLOCKSIZE`, which is
defined outside the sources at hand. -/
def splitInLayer (m : Mesh) (init : block) (xyBlockSize : Int) (s : State) (self : Nat)
    (limitSize : Bool) : Except Nat (Int × State) :=
  let me := s.blockAt self
  if limitSize ∧ me.size > xyBlockSize * 2 then .ok (-1, s)
  else if me.prevBlock = -1 ∧ me.nextBlock = -1 then split m init s self
  else
    match layerGrow m init s self limitSize with
    | .error e => .error e
    | .ok g => layerFinish m s self g

/-! ## Link maintenance: `checkLinks`, `removeFalseLinks`, `deactivateRelink` -/

/-- The statement pair `blocks[prevBlock].nextBlock = -1; prevBlock = -1;` executed by
`blocks[self]`. -/
def severPrev (s : State) (self : Nat) : State :=
  (s.modB (s.blockAt self).prevBlock (fun b => { b with nextBlock := -1 })).modAt self
    (fun b => { b with prevBlock := -1 })

/-- The statement pair `blocks[nextBlock].prevBlock = -1; nextBlock = -1;` executed by
`blocks[self]`. -/
def severNext (s : State) (self : Nat) : State :=
  (s.modB (s.blockAt self).nextBlock (fun b => { b with prevBlock := -1 })).modAt self
    (fun b => { b with nextBlock := -1 })

/-- `block::checkLinks(blocks)` on `blocks[self]`: the returned `bool` and the state
afterwards.  `prevLinked`/`nextLinked` are computed first; the second test reads
`nextBlock` as it is after the first severance. -/
def checkLinks (m : Mesh) (s : State) (self : Nat) : Bool × State :=
  let linked := getLinks m s.nodeBlocks (s.blockAt self)
  let prevLinked := linked.any (fun p => decide (p = (s.blockAt self).prevBlock))
  let nextLinked := linked.any (fun p => decide (p = (s.blockAt self).nextBlock))
  let r1 : Bool × State :=
    if (s.blockAt self).prevBlock ≠ -1 ∧ prevLinked = false then (false, severPrev s self)
    else (true, s)
  if (r1.2.blockAt self).nextBlock ≠ -1 ∧ nextLinked = false then (false, severNext r1.2 self)
  else r1

/-- `block::removeFalseLinks(blocks)` on `blocks[self]`: the returned `bool` and the state
afterwards. -/
def removeFalseLinks (m : Mesh) (s : State) (self : Nat) : Bool × State :=
  let linked := getLinks m s.nodeBlocks (s.blockAt self)
  let nextIsLinked :=
    decide ((s.blockAt self).nextBlock = -1) ||
      linked.any (fun p => decide (p = (s.blockAt self).nextBlock))
  let prevIsLinked :=
    decide ((s.blockAt self).prevBlock = -1) ||
      linked.any (fun p => decide (p = (s.blockAt self).prevBlock))
  let s1 : State := if nextIsLinked = false then severNext s self else s
  let s2 : State := if prevIsLinked = false then severPrev s1 self else s1
  (prevIsLinked && nextIsLinked, s2)

/-- `block::deactivateRelink(blocks)` on `blocks[self]`: the returned `bool` and the state
afterwards. -/
def deactivateRelink (m : Mesh) (s : State) (self : Nat) : Bool × State :=
  if (s.blockAt self).nextBlock < 0 then
    let s1 := s.modAt self (fun b => { b with isActive := false })
    let s2 :=
      if (s1.blockAt self).prevBlock > 0 then
        s1.modB (s1.blockAt self).prevBlock (fun b => { b with nextBlock := -1 })
      else s1
    (false, s2.modAt self (fun b => { b with prevBlock := -1 }))
  else
    let nextLinked := getLinks m s.nodeBlocks (s.getB (s.blockAt self).nextBlock)
    if nextLinked.any (fun p => decide (p = (s.blockAt self).prevBlock)) then
      let s1 := s.modAt self (fun b => { b with isActive := false })
      let s2 := s1.modB (s1.blockAt self).nextBlock
                  (fun b => { b with prevBlock := (s1.blockAt self).prevBlock })
      let s3 := s2.modB (s2.blockAt self).prevBlock
                  (fun b => { b with nextBlock := (s2.blockAt self).nextBlock })
      let s4 := s3.modAt self (fun b => { b with nextBlock := -1 })
      (true, s4.modAt self (fun b => { b with prevBlock := -1 }))
    else
      let s1 := s.modAt self (fun b => { b with isActive := false })
      let s2 :=
        if (s1.blockAt self).nextBlock > 0 then
          s1.modB (s1.blockAt self).nextBlock (fun b => { b with prevBlock := -1 })
        else s1
      let s3 :=
        if (s2.blockAt self).prevBlock > 0 then
          s2.modB (s2.blockAt self).prevBlock (fun b => { b with nextBlock := -1 })
        else s2
      let s4 := s3.modAt self (fun b => { b with nextBlock := -1 })
      (false, s4.modAt self (fun b => { b with prevBlock := -1 }))

/-! ## `verify` -/

/-- The value of `blocks.size()-1` in `verify`: `size()` is an unsigned 64-bit integer, so
the subtraction wraps for an empty vector. -/
def sizeMinusOne (s : State) : Int := ((s.blocks.length : Int) - 1) % 2 ^ 64

/-- The test made by `verify` on a listed node: `nodeBlocks[n] != blockNum || flags[n] == 0`. -/
def verifyBadNode (s : State) (blockNum : Int) (n : Int) : Bool :=
  decide (s.nodeBlocks n ≠ blockNum ∨ s.flags n = 0)

/-- The last part of `verify` (source lines 717-735): both links are `-1` or listed by
`getLinks()`. -/
def verifyLinked (m : Mesh) (s : State) (me : block) : Bool :=
  let linked := getLinks m s.nodeBlocks me
  let nextIsLinked := decide (me.nextBlock = -1) || linked.any (fun p => decide (p = me.nextBlock))
  let prevIsLinked := decide (me.prevBlock = -1) || linked.any (fun p => decide (p = me.prevBlock))
  prevIsLinked && nextIsLinked

/-- `block::verify(blocks)` on `blocks[self]` (the diagnostics written to `cout` are not
modelled; the function writes nothing else). -/
def verify (m : Mesh) (s : State) (self : Nat) : Bool :=
  let me := s.blockAt self
  if me.intNodes.any (verifyBadNode s me.blockNum) then false
  else if me.boundNodes.any
      (fun n => verifyBadNode s me.blockNum n || me.intNodes.any (fun q => decide (q = n)))
    then false
  else if ((ownedNodes m s.nodeBlocks me.blockNum).length : Int) ≠ me.size then false
  else if (me.nextBlock < 0 ∧ me.nextBlock ≠ -1) ∨ (me.prevBlock < 0 ∧ me.prevBlock ≠ -1) ∨
      (me.nextBlock.natAbs : Int) > sizeMinusOne s ∨
      (me.prevBlock.natAbs : Int) > sizeMinusOne s then false
  else if me.nextBlock ≠ -1 ∧ me.blockNum ≠ (s.getB me.nextBlock).prevBlock then false
  else if me.prevBlock ≠ -1 ∧ me.blockNum ≠ (s.getB me.prevBlock).nextBlock then false
  else verifyLinked m s me

/-! ## `genNewBlock` -/

/-- The arrays and the boundary list of the new block during `genNewBlock`. -/
structure GenSt where
  flags : Int → Int
  nodeBlocks : Int → Int
  bound : List Int

/-- The contention check of `genNewBlock` on a free neighbour `linkNode` of the boundary
node `currNodeNum`: `singleLink`.  The loop runs over `linkCntIn < nNodesLinked[currNodeNum]`
and reads `linkMat[linkNode*nMaxLinkedNodes+linkCntIn]`. -/
def genSingleLink (m : Mesh) (st : GenSt) (blockNum newNum currNodeNum linkNode : Int) : Bool :=
  !((List.range (m.nNodesLinked currNodeNum).toNat).any
      (fun (k : Nat) =>
        decide (m.linkMat (linkNode * m.nMaxLinkedNodes + (k : Int)) ≥ 0 ∧
          st.flags (m.linkMat (linkNode * m.nMaxLinkedNodes + (k : Int))) ≠ 0 ∧
          st.nodeBlocks (m.linkMat (linkNode * m.nMaxLinkedNodes + (k : Int))) ≠ blockNum ∧
          st.nodeBlocks (m.linkMat (linkNode * m.nMaxLinkedNodes + (k : Int))) ≠ newNum)))

/-- Body of the loop of `genNewBlock` over the neighbours of a boundary node. -/
def genVisit (m : Mesh) (blockNum newNum currNodeNum : Int) (st : GenSt) (linkNode : Int) :
    GenSt :=
  if st.flags linkNode = 0 then
    if genSingleLink m st blockNum newNum currNodeNum linkNode then
      { flags := upd st.flags linkNode 2, nodeBlocks := upd st.nodeBlocks linkNode newNum,
        bound := st.bound ++ [linkNode] }
    else st
  else st

/-- The two loops of `genNewBlock` over the boundary list of the parent. -/
def genLoop (m : Mesh) (s : State) (me : block) (newNum : Int) : GenSt :=
  me.boundNodes.foldl (fun st p => (m.links p).foldl (genVisit m me.blockNum newNum p) st)
    { flags := s.flags, nodeBlocks := s.nodeBlocks, bound := [] }

/-- `block::genNewBlock(blocks, newBlock)` on `blocks[self]`: the state afterwards and the
out-parameter `newBlock`.  `init` stands for `newBlock` after `clear()` and `setup(*this)`
(both declared in `block.h`, which is not part of the sources); its lists are empty. -/
def genNewBlock (m : Mesh) (init newBlock : block) (s : State) (self : Nat) : State × block :=
  let me := s.blockAt self
  if !me.isActive then (s, newBlock)
  else
    let newNum : Int := (s.blocks.length : Int)
    let st := genLoop m s me newNum
    let nb : block :=
      { init with blockNum := newNum, intNodes := [], boundNodes := st.bound,
                  parentBlock := me.blockNum }
    let child : Int := if nb.size = 0 then -1 else newNum
    ({ flags := st.flags, nodeBlocks := st.nodeBlocks,
       blocks := s.blocks.set self { me with childBlock := child, isActive := false } }, nb)

/-! ## `separate` -/

/-- The first loop of `separate`: `maxBlock`, starting from `0`. -/
def separateMax (m : Mesh) (nodeBlocks : Int → Int) : Int :=
  (List.range m.nNodes).foldl
    (fun mb (k : Nat) => if mb < nodeBlocks (k : Int) then nodeBlocks (k : Int) else mb) 0

/-- The second loop of `separate`: `maxBlock+1` fresh blocks numbered `0 .. maxBlock`.
`init` stands for a default-constructed `block` after `setup(...)` (declared in `block.h`,
which is not part of the sources); its node lists are empty. -/
def separateNew (init : block) (maxBlock : Int) : List block :=
  (List.range (maxBlock + 1).toNat).map
    (fun (k : Nat) => { init with blockNum := (k : Int), intNodes := [], boundNodes := [] })

/-- The third loop of `separate` over `cnt = 0 .. nNodes-1`: an owned node is appended to the
boundary list of its block and flagged `2`; `error 2409` when its owner exceeds
`nBlocks-1`. -/
def separateFill (nodeBlocks : Int → Int) :
    List Nat → (Int → Int) × List block → Except Nat ((Int → Int) × List block)
  | [], acc => .ok acc
  | cnt :: rest, (fl, bs) =>
    if nodeBlocks (cnt : Int) ≥ 0 then
      if nodeBlocks (cnt : Int) > (bs.length : Int) - 1 then .error 2409
      else
        separateFill nodeBlocks rest
          (upd fl (cnt : Int) 2,
           bs.set (nodeBlocks (cnt : Int)).toNat
             { bs.getD (nodeBlocks (cnt : Int)).toNat noBlock with
               boundNodes := (bs.getD (nodeBlocks (cnt : Int)).toNat noBlock).boundNodes ++
                 [(cnt : Int)] })
    else separateFill nodeBlocks rest (fl, bs)

/-- The last loop of `separate`: `blocks[currBlock].tidyBoundaries()` for
`currBlock = 0 .. maxBlock`. -/
def separateTidy (m : Mesh) (nodeBlocks : Int → Int) :
    List Nat → (Int → Int) × List block → Except Nat ((Int → Int) × List block)
  | [], acc => .ok acc
  | k :: rest, (fl, bs) =>
    match tidyBoundaries m nodeBlocks fl (bs.getD k noBlock) with
    | .error e => .error e
    | .ok (fl1, b1) => separateTidy m nodeBlocks rest (fl1, bs.set k b1)

/-- The free function `separate`: builds the block vector from the owner array. -/
def separate (m : Mesh) (init : block) (flags nodeBlocks : Int → Int) : Except Nat State :=
  let maxBlock := separateMax m nodeBlocks
  match separateFill nodeBlocks (List.range m.nNodes) (flags, separateNew init maxBlock) with
  | .error e => .error e
  | .ok (fl1, bs1) =>
    match separateTidy m nodeBlocks (List.range (maxBlock + 1).toNat) (fl1, bs1) with
    | .error e => .error e
    | .ok (fl2, bs2) => .ok { flags := fl2, nodeBlocks := nodeBlocks, blocks := bs2 }

/-! ## `separateUnjoined` -/

/-- Progress of the extraction of one component in `separateUnjoined`: the arrays, the
`depths` array, the new block and the counter of the current pass. -/
structure SepSt where
  nodeBlocks : Int → Int
  flags : Int → Int
  depths : Int → Int
  nb : block
  nAdded : Int

/-- Innermost body of the extraction loop: a neighbour still owned by the original block is
appended to the new block, re-owned, flagged `2` and given depth `1`. -/
def sepVisit (blockNum : Int) (st : SepSt) (linkNode : Int) : SepSt :=
  if st.nodeBlocks linkNode = blockNum then
    { nodeBlocks := upd st.nodeBlocks linkNode st.nb.blockNum
      flags := upd st.flags linkNode 2
      depths := upd st.depths linkNode 1
      nb := { st.nb with boundNodes := st.nb.boundNodes ++ [linkNode] }
      nAdded := st.nAdded + 1 }
  else st

/-- One pass of the extraction loop over the first `nBoundNodes` entries of the new block's
boundary list (its content when the pass starts), with `nAdded` reset to `0`. -/
def sepPass (m : Mesh) (blockNum : Int) (st : SepSt) : SepSt :=
  st.nb.boundNodes.foldl (fun st p => (m.links p).foldl (sepVisit blockNum) st)
    { st with nAdded := 0 }

/-- The `while (1)` loop of the extraction: passes are repeated until one adds nothing.
The source loop has no bound; the first argument bounds the number of passes in the model
and `none` is returned when it is used up. -/
def sepLoop (m : Mesh) (blockNum : Int) : Nat → SepSt → Option SepSt
  | 0, _ => none
  | fuel + 1, st =>
    let st1 := sepPass m blockNum st
    if st1.nAdded = 0 then some st1 else sepLoop m blockNum fuel st1

/-- Body of the loop over `linkedBlocks` that attaches the new block to the chain
neighbours of the original block (source lines 946-958). -/
def sepLinkStep (self : Nat) (acc : State × block) (p : Int) : State × block :=
  let r1 : State × block :=
    if p = (acc.1.blockAt self).prevBlock then
      ((acc.1.modB (acc.1.blockAt self).prevBlock
          (fun b => { b with nextBlock := acc.2.blockNum })).modAt self
          (fun b => { b with prevBlock := -1 }),
       { acc.2 with prevBlock := p })
    else acc
  if p = (r1.1.blockAt self).nextBlock then
    ((r1.1.modB (r1.1.blockAt self).nextBlock
        (fun b => { b with prevBlock := r1.2.blockNum })).modAt self
        (fun b => { b with nextBlock := -1 }),
     { r1.2 with nextBlock := p })
  else r1

/-- The state of the loop of `separateUnjoined` over the boundary list: the partition
state, the `depths` array and `blockChanged`. -/
structure UnjoinSt where
  s : State
  depths : Int → Int
  changed : Bool

/-- Body of the loop of `separateUnjoined` over the boundary list of the original block
(source lines 894-964) for the boundary node `cnt`: when `depths[cnt] == 0` a new block is
seeded with `cnt`, grown over the nodes of the original block connected to it, tidied,
attached to the chain and pushed onto the vector.  `error 0` stands for an extraction loop
that used up `fuel` passes.  `init` stands for a default-constructed `block` after
`setup(*thisBlock)`; its node lists are empty. -/
def unjoinStep (m : Mesh) (init : block) (fuel : Nat) (self : Nat) (blockNum : Int)
    (u : UnjoinSt) (cnt : Int) : Except Nat UnjoinSt :=
  if u.depths cnt = 0 then
    let newNum : Int := (u.s.blocks.length : Int)
    let nb0 : block :=
      { init with blockNum := newNum, intNodes := [], boundNodes := [cnt] }
    match sepLoop m blockNum fuel
        { nodeBlocks := upd u.s.nodeBlocks cnt newNum, flags := upd u.s.flags cnt 2,
          depths := u.depths, nb := nb0, nAdded := 0 } with
    | none => .error 0
    | some g =>
      match tidyBoundaries m g.nodeBlocks g.flags g.nb with
      | .error e => .error e
      | .ok (fl, nbt) =>
        let nb1 : block := { nbt with prevBlock := -1, nextBlock := -1 }
        let s1 : State := { flags := fl, nodeBlocks := g.nodeBlocks, blocks := u.s.blocks }
        let r := (getLinks m g.nodeBlocks nb1).foldl (sepLinkStep self) (s1, nb1)
        .ok { s := { r.1 with blocks := r.1.blocks ++ [r.2] }, depths := g.depths,
              changed := true }
  else .ok u

/-- The loop of `separateUnjoined` over the boundary list of the original block. -/
def unjoinLoop (m : Mesh) (init : block) (fuel : Nat) (self : Nat) (blockNum : Int) :
    List Int → UnjoinSt → Except Nat UnjoinSt
  | [], u => .ok u
  | cnt :: rest, u =>
    match unjoinStep m init fuel self blockNum u cnt with
    | .error e => .error e
    | .ok u1 => unjoinLoop m init fuel self blockNum rest u1

/-- `block::separateUnjoined(blocks)` on `blocks[self]`.  `boundNodes.front()` of an empty
list is undefined in C++; the model gives `error 0` (no result) for it, as for an
extraction loop that used up `fuel` passes.  After `blocks.push_back` the source keeps
using the members of `*this`; the model reads them from `blocks[self]`, which is what
`thisBlock` is re-pointed to. -/
def separateUnjoined (m : Mesh) (init : block) (fuel : Nat) (s : State) (self : Nat) :
    Except Nat State :=
  let me := s.blockAt self
  match me.boundNodes with
  | [] => .error 0
  | currNode :: _ =>
    let depths := (depthInBlock m s.nodeBlocks me (upd (fun _ => 0) currNode 1)).1
    match unjoinLoop m init fuel self me.blockNum me.boundNodes
        { s := s, depths := depths, changed := false } with
    | .error e => .error e
    | .ok u =>
      if u.changed then
        match redoLists m u.s.nodeBlocks u.s.flags (u.s.blockAt self) with
        | .error e => .error e
        | .ok (fl, b) => .ok { u.s with flags := fl, blocks := u.s.blocks.set self b }
      else .ok u.s

/-- The state of `join` after the merge into the target and step `#1` (source lines
181-207), before the compaction: `modifiedTimes++`, `blocks[joinBlock].combineFrom(*this)`
and the update of the links of the target and of its new neighbours. -/
def joinMerged (m : Mesh) (s : State) (self : Nat) (joinBlock bothNext0 bothPrev0 : Int) :
    Except Nat State :=
  match combineFrom m (s.modAt self (fun b => { b with modifiedTimes := b.modifiedTimes + 1 }))
      joinBlock.toNat self with
  | .error e => .error e
  | .ok s2 =>
    .ok (joinRelink s2 joinBlock (joinUnloop bothNext0 (s.blockAt self).blockNum joinBlock)
      (joinUnloop bothPrev0 (s.blockAt self).blockNum joinBlock))

/-! ## Concrete meshes and states used in the scenarios -/

/-- Neighbours of node `n` of the 4x4 grid (4-neighbourhood), in ascending order. -/
def gridRow (n : Int) : List Int :=
  (if 4 ≤ n then [n - 4] else []) ++ (if n % 4 ≠ 0 then [n - 1] else []) ++
  (if n % 4 ≠ 3 then [n + 1] else []) ++ (if n < 12 then [n + 4] else [])

/-- The 4x4 grid graph, nodes `0..15`, `D_max = 4`; unused slots of a row hold `-1`. -/
def grid4 : Mesh :=
  { nNodes := 16
    nMaxLinkedNodes := 4
    nNodesLinked := fun n => if 0 ≤ n ∧ n < 16 then ((gridRow n).length : Int) else 0
    linkMat := fun i => if 0 ≤ i ∧ i < 64 then (gridRow (i / 4)).getD (i % 4).toNat (-1) else -1 }

/-- An array given by its first entries, `dflt` outside. -/
def arr (l : List Int) (dflt : Int) : Int → Int :=
  fun i => if i < 0 then dflt else l.getD i.toNat dflt

/-- A block with the given identity, lists and links; active, `max_size = 8`. -/
def mkBlock (num : Int) (ints bounds : List Int) (prev next : Int) : block :=
  { blockNum := num, intNodes := ints, boundNodes := bounds, prevBlock := prev,
    nextBlock := next, parentBlock := -1, childBlock := -1, maxSize := 8, isActive := true,
    blockFlag := 0, modifiedTimes := 0, lastAdvance := 0 }

/-- Scenario 3: blocks `A = 0` on `{0,1,4,5}`, `B = 1` on `{2,3,6,7}`, `C = 2` on `{8..15}`,
chained `A <-> B <-> C`, lists and flags as `separate` builds them. -/
def joinScenario : State :=
  { flags := arr [1, 2, 2, 1, 2, 2, 2, 2, 2, 2, 2, 2, 1, 1, 1, 1] 0
    nodeBlocks := arr [0, 0, 1, 1, 0, 0, 1, 1, 2, 2, 2, 2, 2, 2, 2, 2] (-1)
    blocks := [mkBlock 0 [0] [1, 4, 5] (-1) 1, mkBlock 1 [3] [2, 6, 7] 0 2,
               mkBlock 2 [12, 13, 14, 15] [8, 9, 10, 11] 1 (-1)] }

/-- Scenario 2: one block owning `{0..7}` of the 4x4 grid, lists and flags as `separate`
builds them (`0..3` interior, `4..7` boundary); all other nodes free. -/
def splitScenario : State :=
  { flags := arr [1, 1, 1, 1, 2, 2, 2, 2] 0
    nodeBlocks := arr [0, 0, 0, 0, 0, 0, 0, 0] (-1)
    blocks := [mkBlock 0 [0, 1, 2, 3] [4, 5, 6, 7] (-1) (-1)] }

/-- Observable summary of a block: identity, lists and links. -/
def block.view (b : block) : Int × List Int × List Int × Int × Int :=
  (b.blockNum, b.intNodes, b.boundNodes, b.prevBlock, b.nextBlock)

/-- Returned value of a call that did not raise. -/
def retVal {α : Type} (r : Except Nat (α × State)) : Option α :=
  match r with
  | .ok (a, _) => some a
  | .error _ => none

/-- State after a call that did not raise (the fallback state otherwise). -/
def postState {α : Type} (r : Except Nat (α × State)) (fallback : State) : State :=
  match r with
  | .ok (_, s) => s
  | .error _ => fallback

/-- The path graph on nodes `0..n-1` (node `k` linked to `k-1` and `k+1`), `D_max = 2`. -/
def pathRow (n : Nat) (k : Int) : List Int :=
  (if 0 < k then [k - 1] else []) ++ (if k + 1 < n then [k + 1] else [])

/-- The path graph as an adjacency view; unused slots hold `-1`. -/
def pathMesh (n : Nat) : Mesh :=
  { nNodes := n
    nMaxLinkedNodes := 2
    nNodesLinked := fun k => if 0 ≤ k ∧ k < n then ((pathRow n k).length : Int) else 0
    linkMat := fun i =>
      if 0 ≤ i ∧ i < 2 * n then (pathRow n (i / 2)).getD (i % 2).toNat (-1) else -1 }

/-- One block owning node `1` of a two-node mesh as a boundary node; node `0` is free. -/
def eraseScenario : State :=
  { flags := arr [0, 2] 0
    nodeBlocks := arr [-1, 0] (-1)
    blocks := [mkBlock 0 [] [1] (-1) (-1)] }

/-- Two adjacent blocks on the two-node path, chained `0 <-> 1`. -/
def joinLastScenario : State :=
  { flags := arr [2, 2] 0
    nodeBlocks := arr [0, 1] (-1)
    blocks := [mkBlock 0 [] [0] (-1) 1, mkBlock 1 [] [1] 0 (-1)] }

/-- Four blocks on the four-node path: block 2 owns node 0, block 0 owns node 1, block 1
owns node 2, block 3 owns node 3; chain `2 <-> 0 <-> 1`, block 3 unlinked. -/
def joinPrevZeroScenario : State :=
  { flags := arr [2, 2, 2, 2] 0
    nodeBlocks := arr [2, 0, 1, 3] (-1)
    blocks := [mkBlock 0 [] [1] 2 1, mkBlock 1 [] [2] 0 (-1), mkBlock 2 [] [0] (-1) 0,
               mkBlock 3 [] [3] (-1) (-1)] }

/-- Five single-node blocks on the 4x4 grid: block 0 on node 6 (unlinked), block 1 on node 5
(chained `3 <-> 1 <-> 4`), block 2 on node 7 (unlinked), block 3 on node 1, block 4 on
node 4; all blocks active, all other nodes free. -/
def joinSearchScenario : State :=
  { flags := arr [0, 2, 0, 0, 2, 2, 2, 2] 0
    nodeBlocks := arr [-1, 3, -1, -1, 4, 1, 0, 2] (-1)
    blocks := [mkBlock 0 [] [6] (-1) (-1), mkBlock 1 [] [5] 3 4, mkBlock 2 [] [7] (-1) (-1),
               mkBlock 3 [] [1] (-1) 1, mkBlock 4 [] [4] 1 (-1)] }

/-- The value of an `Except` result that did not raise (the fallback otherwise). -/
def okOr {α : Type} (r : Except Nat α) (fallback : α) : α :=
  match r with
  | .ok a => a
  | .error _ => fallback

/-- Chain order "`nb[0]` (kept at `self`) then `nb[1]` (the new block `r`)". -/
def Nb0First (s : State) (self : Nat) (r : Int) : Prop :=
  (s.blockAt self).nextBlock = r ∧ (s.getB r).prevBlock = (self : Int)

/-- Chain order "`nb[1]` (the new block `r`) then `nb[0]` (kept at `self`)". -/
def Nb1First (s : State) (self : Nat) (r : Int) : Prop :=
  (s.blockAt self).prevBlock = r ∧ (s.getB r).nextBlock = (self : Int)

instance (s : State) (self : Nat) (r : Int) : Decidable (Nb0First s self r) := by
  unfold Nb0First; infer_instance

instance (s : State) (self : Nat) (r : Int) : Decidable (Nb1First s self r) := by
  unfold Nb1First; infer_instance

/-- The search of `join` yields no usable target: no linked block is active, or the first
active one has both its `prev` and its `next` slot in use. -/
def NoJoinTarget (m : Mesh) (s : State) (self : Nat) : Prop :=
  joinCandidate m s self = -1 ∨
  ((s.getB (joinCandidate m s self)).prevBlock ≠ -1 ∧
   (s.getB (joinCandidate m s self)).nextBlock ≠ -1)

instance (m : Mesh) (s : State) (self : Nat) : Decidable (NoJoinTarget m s self) := by
  unfold NoJoinTarget; infer_instance

/-- Whether `tidyBoundaries` keeps node `p` in the boundary list: its scan completes with
`isBoundary == true`. -/
def staysBoundary (m : Mesh) (nodeBlocks : Int → Int) (blockNum : Int) (p : Int) : Bool :=
  match tidyScan nodeBlocks blockNum (m.links p) with
  | .ok true => true
  | _ => false

/-- Relation between the owner array `ob0` before and `ob` during/after the growth phase of
a split of block `B` into sub-blocks numbered `L` and `L + 1`: an owner changes only from
`B` to `L` or `L + 1`. -/
def Claimed (B L : Int) (ob0 ob : Int → Int) : Prop :=
  ∀ n, ob n = ob0 n ∨ (ob0 n = B ∧ (ob n = L ∨ ob n = L + 1))

/-- Node `b` is reachable from node `a` along mesh edges whose heads are owned by block
`B` (per the owner array `nodeBlocks`). -/
def Reach (m : Mesh) (nodeBlocks : Int → Int) (B : Int) : Int → Int → Prop :=
  Relation.ReflTransGen (fun x y => y ∈ m.links x ∧ nodeBlocks y = B)

/-- Fallback value for a growth phase of `split` that raised. -/
def noSplitSt : SplitSt :=
  { nodeBlocks := fun _ => 0, flags := fun _ => 0, nb0 := noBlock, nb1 := noBlock }

/-- The sub-blocks of the split scenario after the growth phase. -/
def splitScenarioGrown : SplitSt := okOr (splitGrow grid4 noBlock splitScenario 0) noSplitSt

/-- The split scenario after `split`. -/
def splitScenarioAfter : State := postState (split grid4 noBlock splitScenario 0) splitScenario

/-- A chain `1 <-> 0 <-> 2` on the 4x4 grid: block 0 owns `{5,6,7}`, block 1 owns node 1 and
block 2 owns node 4 (both adjacent to node 5 only); all other nodes free. -/
def splitChainScenario : State :=
  { flags := arr [0, 2, 0, 0, 2, 2, 2, 2] 0
    nodeBlocks := arr [-1, 1, -1, -1, 2, 0, 0, 0] (-1)
    blocks := [mkBlock 0 [] [5, 6, 7] 1 2, mkBlock 1 [] [1] (-1) 0, mkBlock 2 [] [4] 0 (-1)] }

/-- The join scenario after `join` on block 0. -/
def joinScenarioAfter : State := postState (join grid4 joinScenario 0) joinScenario

/-- The chain scenario after `split` on block 0. -/
def splitChainAfter : State :=
  postState (split grid4 noBlock splitChainScenario 0) splitChainScenario

/-- Scenario 1 at its start: one active block (`max_size = 8`) seeded at node 5 of the 4x4
grid as a boundary node; all other nodes free. -/
def greedySeed : State :=
  { flags := arr [0, 0, 0, 0, 0, 2] 0
    nodeBlocks := arr [-1, -1, -1, -1, -1, 0] (-1)
    blocks := [mkBlock 0 [] [5] (-1) (-1)] }

/-- Scenario 1 after the first `advanceGreedy(-1)`. -/
def greedyAfter1 : State := postState (advanceGreedy grid4 greedySeed 0 (-1)) greedySeed

/-- Scenario 1 after the second `advanceGreedy(-1)`. -/
def greedyAfter2 : State := postState (advanceGreedy grid4 greedyAfter1 0 (-1)) greedyAfter1

/-- Whether node `n` has a neighbour flagged `FREE`. -/
def hasFreeNbr (m : Mesh) (s : State) (n : Int) : Bool :=
  (m.links n).any (fun l => decide (s.flags l = 0))

/-- A block on the 4x4 grid listing node 5 as interior and node 1 as boundary while the
other neighbours 4, 6 and 9 of node 5 are free. -/
def tidyScenario : State :=
  { flags := arr [0, 2, 0, 0, 0, 1] 0
    nodeBlocks := arr [-1, 0, -1, -1, -1, 0] (-1)
    blocks := [mkBlock 0 [5] [1] (-1) (-1)] }

/-- The chain scenario after `splitInLayer` on block 0. -/
def layerChainAfter : State :=
  postState (splitInLayer grid4 noBlock 8 splitChainScenario 0 false) splitChainScenario

/-- Two blocks on the 4x4 grid: block 0 (active) owns `{0,1,4,5}`, block 1 (not active) owns
`{2,3,6,7}`; all other nodes free. -/
def minimiseScenario : State :=
  { flags := arr [1, 2, 2, 1, 2, 2, 2, 2] 0
    nodeBlocks := arr [0, 0, 1, 1, 0, 0, 1, 1] (-1)
    blocks := [mkBlock 0 [0] [1, 4, 5] (-1) (-1),
               { mkBlock 1 [3] [2, 6, 7] (-1) (-1) with isActive := false }] }

/-- The five-block scenario after `advanceGreedy(-1)` on block 1. -/
def greedySearchAfter : State :=
  postState (advanceGreedy grid4 joinSearchScenario 1 (-1)) joinSearchScenario

/-- A two-node mesh whose node 0 has degree 2 and the row `[1, -1]`: a negative entry in an
in-range slot, behind the valid neighbour 1. -/
def badRowMesh : Mesh :=
  { nNodes := 2
    nMaxLinkedNodes := 2
    nNodesLinked := fun n => if n = 0 then 2 else 0
    linkMat := fun i => if i = 0 then 1 else -1 }

/-- The three-block chain `A <-> B <-> C` with `blocks[1].prev` overwritten by `2`, so that
`blocks[0].next = 1` while `blocks[1].prev ≠ 0`. -/
def brokenLinkScenario : State :=
  joinScenario.modAt 1 (fun b => { b with prevBlock := 2 })

/-- Two unlinked blocks on the 4x4 grid: block 0 lists node 5 as interior and node 1 as
boundary although the neighbours 4, 6 and 9 of node 5 are free; block 1 holds node 15. -/
def verifyScenario : State :=
  { flags := arr [0, 2, 0, 0, 0, 1, 0, 0, 0, 0, 0, 0, 0, 0, 0, 2] 0
    nodeBlocks := arr [-1, 0, -1, -1, -1, 0, -1, -1, -1, -1, -1, -1, -1, -1, -1, 1] (-1)
    blocks := [mkBlock 0 [5] [1] (-1) (-1), mkBlock 1 [] [15] (-1) (-1)] }

/-- Two unlinked blocks on the 4x4 grid whose numbers are swapped against their positions:
`blocks[0]` is numbered 1 and holds node 0, `blocks[1]` is numbered 0 and holds node 15. -/
def verifyNumScenario : State :=
  { flags := arr [2, 0, 0, 0, 0, 0, 0, 0, 0, 0, 0, 0, 0, 0, 0, 2] 0
    nodeBlocks := arr [1, -1, -1, -1, -1, -1, -1, -1, -1, -1, -1, -1, -1, -1, -1, 0] (-1)
    blocks := [mkBlock 1 [] [0] (-1) (-1), mkBlock 0 [] [15] (-1) (-1)] }

/-- Two unlinked active blocks on the 4x4 grid: block 0 holds the corner node 0 (degree 2),
block 1 holds node 5; all other nodes free.  Node 1 (degree 3, row `[0, 2, 5]`) is a free
neighbour of node 0 and has the neighbour 5 owned by block 1. -/
def genScenario : State :=
  { flags := arr [2, 0, 0, 0, 0, 2] 0
    nodeBlocks := arr [0, -1, -1, -1, -1, 1] (-1)
    blocks := [mkBlock 0 [] [0] (-1) (-1), mkBlock 1 [] [5] (-1) (-1)] }

/-- Scenario 4: one block on the 4x4 grid owning the two disconnected quads `{0, 1, 4, 5}`
and `{10, 11, 14, 15}`, lists and flags as `redoLists` builds them (the corners `0` and
`15` interior, the other six nodes boundary); all other nodes free. -/
def unjoinScenario : State :=
  { flags := arr [1, 2, 0, 0, 2, 2, 0, 0, 0, 0, 2, 2, 0, 0, 2, 1] 0
    nodeBlocks := arr [0, 0, -1, -1, 0, 0, -1, -1, -1, -1, 0, 0, -1, -1, 0, 0] (-1)
    blocks := [mkBlock 0 [0, 15] [1, 4, 5, 10, 11, 14] (-1) (-1)] }

/-- Three single-node blocks on the 4x4 grid whose numbers differ from their positions:
`blocks[0]` is numbered 2 and holds node 0, `blocks[1]` is numbered 1 and holds the
adjacent node 1, `blocks[2]` is numbered 0 and holds node 15; `blocks[0].next = 1` and
`blocks[1].prev = 2`. -/
def verifyLinkScenario : State :=
  { flags := arr [2, 2, 0, 0, 0, 0, 0, 0, 0, 0, 0, 0, 0, 0, 0, 2] 0
    nodeBlocks := arr [2, 1, -1, -1, -1, -1, -1, -1, -1, -1, -1, -1, -1, -1, -1, 0] (-1)
    blocks := [mkBlock 2 [] [0] (-1) 1, mkBlock 1 [] [1] 2 (-1), mkBlock 0 [] [15] (-1) (-1)] }

/-- One block on the 4x4 grid owning the two opposite corners 0 and 15, both boundary
nodes; neither has a neighbour in the block. -/
def isolatedScenario : State :=
  { flags := arr [2, 0, 0, 0, 0, 0, 0, 0, 0, 0, 0, 0, 0, 0, 0, 2] 0
    nodeBlocks := arr [0, -1, -1, -1, -1, -1, -1, -1, -1, -1, -1, -1, -1, -1, -1, 0] (-1)
    blocks := [mkBlock 0 [] [0, 15] (-1) (-1)] }

/-- Scenario 3 with other metadata on `A`: blocks `A = 0`, `B = 1`, `C = 2` of the 4x4 grid
chained `A <-> B <-> C`, where `A` is inactive and has `maxSize = 5`. -/
def joinMetaScenario : State :=
  { flags := arr [1, 2, 2, 1, 2, 2, 2, 2, 2, 2, 2, 2, 1, 1, 1, 1] 0
    nodeBlocks := arr [0, 0, 1, 1, 0, 0, 1, 1, 2, 2, 2, 2, 2, 2, 2, 2] (-1)
    blocks := [{ mkBlock 0 [0] [1, 4, 5] (-1) 1 with isActive := false, maxSize := 5 },
               mkBlock 1 [3] [2, 6, 7] 0 2,
               mkBlock 2 [12, 13, 14, 15] [8, 9, 10, 11] 1 (-1)] }

/-- Three one-node blocks on the three-node path with a stale link: `blocks[2].next = 0`
although `blocks[0].prev = -1`; blocks `0` and `1` are chained `0 <-> 1`, and block `0`
is inactive with `maxSize = 5`. -/
def joinStaleLinkScenario : State :=
  { flags := arr [2, 2, 2] 0
    nodeBlocks := arr [0, 1, 2] (-1)
    blocks := [{ mkBlock 0 [] [0] (-1) 1 with isActive := false, maxSize := 5 },
               mkBlock 1 [] [1] 0 (-1), mkBlock 2 [] [2] (-1) 0] }

/-- The state after `join` on block `0` of `joinMetaScenario`. -/
def joinMetaScenarioAfter : State :=
  postState (join grid4 joinMetaScenario 0) joinMetaScenario

/-- The state after `join` on block `0` of `joinStaleLinkScenario`. -/
def joinStaleLinkScenarioAfter : State :=
  postState (join (pathMesh 3) joinStaleLinkScenario 0) joinStaleLinkScenario

/-! ## Invariants -/

/-- P1 (with the owner typing of the data model): `owner[n] = b` for a block index `b`
exactly when `b` is a block of the vector and `n` is in one of its two lists. -/
def OwnerLists (s : State) : Prop :=
  ∀ (n : Int) (b : Nat),
    s.nodeBlocks n = (b : Int) ↔ (b < s.blocks.length ∧ n ∈ (s.blockAt b).nodes)

/-- I3: no node is in both lists of a block. -/
def ListsDisjoint (s : State) : Prop :=
  ∀ b : Nat, b < s.blocks.length →
    ∀ n, ¬ (n ∈ (s.blockAt b).intNodes ∧ n ∈ (s.blockAt b).boundNodes)

instance (s : State) : Decidable (ListsDisjoint s) := by
  unfold ListsDisjoint
  exact decidable_of_iff
    (∀ b : Nat, b < s.blocks.length → ∀ n ∈ (s.blockAt b).intNodes, n ∉ (s.blockAt b).boundNodes)
    ⟨fun h b hb n hn => h b hb n hn.1 hn.2, fun h b hb n h1 h2 => h b hb n ⟨h1, h2⟩⟩

/-- The nodes listed by block `b` are valid node identifiers. -/
def NodesValid (m : Mesh) (s : State) (b : Nat) : Prop :=
  ∀ n ∈ (s.blockAt b).nodes, 0 ≤ n ∧ n < (m.nNodes : Int)

instance (m : Mesh) (s : State) (b : Nat) : Decidable (NodesValid m s b) := by
  unfold NodesValid; infer_instance

/-- A link field is `-1` or the index of a block of the vector. -/
def validLink (s : State) (l : Int) : Prop := l = -1 ∨ (0 ≤ l ∧ l < (s.blocks.length : Int))

instance (s : State) (l : Int) : Decidable (validLink s l) := by
  unfold validLink; infer_instance

/-- Every `prevBlock`/`nextBlock` is `-1` or a valid block index. -/
def LinksValid (s : State) : Prop :=
  ∀ a : Nat, a < s.blocks.length →
    validLink s (s.blockAt a).prevBlock ∧ validLink s (s.blockAt a).nextBlock

instance (s : State) : Decidable (LinksValid s) := by
  unfold LinksValid; infer_instance

/-- I5 / P3, link symmetry: `blocks[a].next = b >= 0` implies `blocks[b].prev = a`, and
symmetrically for `prev`. -/
def LinkSym (s : State) : Prop :=
  ∀ a : Nat, a < s.blocks.length →
    (0 ≤ (s.blockAt a).nextBlock → (s.getB (s.blockAt a).nextBlock).prevBlock = (a : Int)) ∧
    (0 ≤ (s.blockAt a).prevBlock → (s.getB (s.blockAt a).prevBlock).nextBlock = (a : Int))

instance (s : State) : Decidable (LinkSym s) := by
  unfold LinkSym; infer_instance

/-- Physical adjacency as in P4: some boundary node of `blocks[a]` has a neighbour owned by
block `c`. -/
def Touches (m : Mesh) (s : State) (a : Nat) (c : Int) : Prop :=
  ∃ x ∈ (s.blockAt a).boundNodes, ∃ y ∈ m.links x, s.nodeBlocks y = c

instance (m : Mesh) (s : State) (a : Nat) (c : Int) : Decidable (Touches m s a c) := by
  unfold Touches; infer_instance

/-- I6 / P4: every link of every block that is not `-1` joins physically adjacent blocks. -/
def LinksAdjacent (m : Mesh) (s : State) : Prop :=
  ∀ a : Nat, a < s.blocks.length →
    ((s.blockAt a).nextBlock ≠ -1 → Touches m s a (s.blockAt a).nextBlock) ∧
    ((s.blockAt a).prevBlock ≠ -1 → Touches m s a (s.blockAt a).prevBlock)

instance (m : Mesh) (s : State) : Decidable (LinksAdjacent m s) := by
  unfold LinksAdjacent; infer_instance

/-- I2, flag part: no listed node is flagged `FREE`. -/
def FlagsOk (s : State) : Prop :=
  ∀ a : Nat, a < s.blocks.length → ∀ n ∈ (s.blockAt a).nodes, s.flags n ≠ 0

instance (s : State) : Decidable (FlagsOk s) := by
  unfold FlagsOk; infer_instance

/-- I4: a listed node is in `interior` iff all its neighbours are owned by the block. -/
def InteriorOk (m : Mesh) (s : State) : Prop :=
  ∀ a : Nat, a < s.blocks.length →
    (∀ n ∈ (s.blockAt a).intNodes, ∀ y ∈ m.links n, s.nodeBlocks y = (s.blockAt a).blockNum) ∧
    (∀ n ∈ (s.blockAt a).boundNodes, ∃ y ∈ m.links n, s.nodeBlocks y ≠ (s.blockAt a).blockNum)

instance (m : Mesh) (s : State) : Decidable (InteriorOk m s) := by
  unfold InteriorOk; infer_instance

/-- The adjacency is undirected: a neighbour of a node lists that node as a neighbour. -/
def MeshSymm (m : Mesh) : Prop :=
  ∀ k ∈ List.range m.nNodes, ∀ y ∈ m.links (k : Int), (k : Int) ∈ m.links y

instance (m : Mesh) : Decidable (MeshSymm m) := by
  unfold MeshSymm; infer_instance

/-- I7 / P5: `block_num` equals the position in the vector. -/
def NumOk (s : State) : Prop :=
  ∀ a : Nat, a < s.blocks.length → (s.blockAt a).blockNum = (a : Int)

instance (s : State) : Decidable (NumOk s) := by
  unfold NumOk; infer_instance

/-- I1, multiplicity part: no node is listed twice by a block. -/
def NoDupLists (s : State) : Prop :=
  ∀ a : Nat, a < s.blocks.length → (s.blockAt a).nodes.Nodup

instance (s : State) : Decidable (NoDupLists s) := by
  unfold NoDupLists; infer_instance

/-- The invariants I1-I7 of the partition state over mesh `m`. -/
def WellFormed (m : Mesh) (s : State) : Prop :=
  OwnerLists s ∧ NoDupLists s ∧ FlagsOk s ∧ ListsDisjoint s ∧ InteriorOk m s ∧ LinkSym s ∧
  LinksValid s ∧ LinksAdjacent m s ∧ NumOk s

/-- P1 ("exactly one list") together with P5. -/
def PartOk (s : State) : Prop := OwnerLists s ∧ ListsDisjoint s ∧ NumOk s

/-- Two states with the same owner array and, position by position, the same node lists and
block numbers (they may differ in link fields and counters). -/
def SameLists (s t : State) : Prop :=
  t.blocks.length = s.blocks.length ∧ t.nodeBlocks = s.nodeBlocks ∧
  ∀ j, (t.blockAt j).intNodes = (s.blockAt j).intNodes ∧
    (t.blockAt j).boundNodes = (s.blockAt j).boundNodes ∧
    (t.blockAt j).blockNum = (s.blockAt j).blockNum

/-- No node is released or newly claimed between `s` and `t`: an owner either stays or
changes from one block to another block. -/
def OwnedSame (s t : State) : Prop :=
  ∀ n, t.nodeBlocks n = s.nodeBlocks n ∨ (0 ≤ s.nodeBlocks n ∧ 0 ≤ t.nodeBlocks n)

/-- The links of `blocks[self]` are `-1` or the index of another block of the vector. -/
def SelfLinksOk (s : State) (self : Nat) : Prop :=
  ((s.blockAt self).nextBlock = -1 ∨
    (0 ≤ (s.blockAt self).nextBlock ∧ (s.blockAt self).nextBlock < (s.blocks.length : Int) ∧
     (s.blockAt self).nextBlock ≠ (self : Int))) ∧
  ((s.blockAt self).prevBlock = -1 ∨
    (0 ≤ (s.blockAt self).prevBlock ∧ (s.blockAt self).prevBlock < (s.blocks.length : Int) ∧
     (s.blockAt self).prevBlock ≠ (self : Int)))

instance (s : State) (self : Nat) : Decidable (SelfLinksOk s self) := by
  unfold SelfLinksOk; infer_instance

/-- Invariant of `depthInBlock` started from the single seed `src`: every node with a depth
is reachable from `src` inside the block, and `deepNode` is `-1` or such a node owned by
the block. -/
def DepthInv (m : Mesh) (nb : Int → Int) (B src : Int) (st : DepthSt) : Prop :=
  (∀ n, st.depths n ≠ 0 → Reach m nb B src n) ∧
  (st.deepNode = -1 ∨ (nb st.deepNode = B ∧ Reach m nb B src st.deepNode))

/-- Loop invariant of `findFurthest` from the third iteration on. -/
def FurthestInv (m : Mesh) (nb : Int → Int) (B : Int) (cnt : Nat) (st : FurthestSt) : Prop :=
  nb st.deepLoc0 = B ∧ nb st.deepLoc1 = B ∧
  st.currNode = (if cnt % 2 = 0 then st.deepLoc1 else st.deepLoc0) ∧
  (Reach m nb B st.deepLoc0 st.deepLoc1 ∨ Reach m nb B st.deepLoc1 st.deepLoc0)

/-- Valid adjacency: every neighbour listed for a node `0..nNodes-1` is a node id. -/
def AdjValid (m : Mesh) : Prop :=
  ∀ k ∈ List.range m.nNodes, ∀ l ∈ m.links (k : Int), 0 ≤ l ∧ l < (m.nNodes : Int)

instance (m : Mesh) : Decidable (AdjValid m) := by
  unfold AdjValid; infer_instance

/-- All neighbours of the nodes in `l` are owned by block `blockNum`. -/
def AllOwned (m : Mesh) (nodeBlocks : Int → Int) (blockNum : Int) (l : List Int) : Prop :=
  ∀ n ∈ l, ∀ y ∈ m.links n, nodeBlocks y = blockNum

instance (m : Mesh) (nodeBlocks : Int → Int) (blockNum : Int) (l : List Int) :
    Decidable (AllOwned m nodeBlocks blockNum l) := by
  unfold AllOwned; infer_instance

/-- Node `n` has a neighbour owned by a block that is not active. -/
def InactiveNbr (m : Mesh) (s : State) (n : Int) : Prop :=
  ∃ y ∈ m.links n, 0 ≤ s.nodeBlocks y ∧ (s.getB (s.nodeBlocks y)).isActive = false

instance (m : Mesh) (s : State) (n : Int) : Decidable (InactiveNbr m s n) := by
  unfold InactiveNbr; infer_instance

/-- Relation between the state `s` when `minimise` starts on `blocks[self]` and a state `st`
during the call: the block vector is the same and an owner changed only from `self` to
`-1`. -/
def Released (s : State) (self : Nat) (st : State) : Prop :=
  st.blocks = s.blocks ∧
  ∀ n, st.nodeBlocks n = s.nodeBlocks n ∨ (s.nodeBlocks n = (self : Int) ∧ st.nodeBlocks n = -1)

/-- The flag/owner agreement on free nodes: `flag[n] = FREE` iff `owner[n] = -1`. -/
def FreeIff (s : State) : Prop := ∀ n, s.flags n = 0 ↔ s.nodeBlocks n = -1

/-- Flag typing of the boundary list of `blocks[self]`: its nodes are flagged `BOUNDARY` or
`EXHAUSTED_BOUNDARY`. -/
def BoundFlags (s : State) (self : Nat) : Prop :=
  ∀ n ∈ (s.blockAt self).boundNodes, s.flags n = 2 ∨ s.flags n = 5

instance (s : State) (self : Nat) : Decidable (BoundFlags s self) := by
  unfold BoundFlags; infer_instance

/-- Loop invariant of `advanceGreedy` on a block numbered `B` with interior list `int0` and
boundary list `boundAll` at the start of the call, over the arrays `fl0`, `ob0` at the
start of the call; `pending` is the not yet passed part of `boundAll`. -/
structure GreedyInv (m : Mesh) (B : Int) (fl0 ob0 : Int → Int) (int0 boundAll : List Int)
    (maxNodesAdvance : Int) (st : GreedySt) (pending : List Int) : Prop where
  owner : ∀ n, st.nodeBlocks n = if n ∈ st.added then B else ob0 n
  nodup : st.added.Nodup
  fresh : ∀ n ∈ st.added, fl0 n = 0
  linked : ∀ n ∈ st.added, ∃ p ∈ boundAll, n ∈ m.links p
  count : st.nAdded = (st.added.length : Int)
  lists : ∃ pr, st.intNodes = int0 ++ pr ∧ (pr ++ (st.kept ++ pending)).Perm boundAll
  flags : ∀ n, (n ∈ st.added ∧ st.flags n = 2) ∨ (n ∉ st.added ∧ st.flags n = fl0 n) ∨
    (n ∈ boundAll ∧ (st.flags n = 5 ∨ st.flags n = 1))
  cap : 0 < maxNodesAdvance → st.nAdded ≤ maxNodesAdvance

/-- What a returned call `advanceGreedy(maxNodesAdvance)` on `blocks[idx]` did, in terms of
the list `added` of the nodes it claimed (in claiming order). -/
structure GreedyPost (m : Mesh) (s : State) (idx : Nat) (maxNodesAdvance r : Int)
    (s' : State) (added : List Int) : Prop where
  nodup : added.Nodup
  fresh : ∀ n ∈ added, s.flags n = 0
  linked : ∀ n ∈ added, ∃ p ∈ (s.blockAt idx).boundNodes, n ∈ m.links p
  ret : r = (added.length : Int)
  owner : ∀ n, s'.nodeBlocks n = if n ∈ added then (s.blockAt idx).blockNum else s.nodeBlocks n
  flags : ∀ n, (n ∈ added ∧ (s'.flags n = 2 ∨ s'.flags n = 1)) ∨
    (n ∉ added ∧ s'.flags n = s.flags n) ∨
    (n ∈ (s.blockAt idx).boundNodes ∧ (s'.flags n = 5 ∨ s'.flags n = 1))
  nodes : (s'.blockAt idx).nodes.Perm ((s.blockAt idx).nodes ++ added)
  len : s'.blocks.length = s.blocks.length
  others : ∀ j, j ≠ idx → s'.blockAt j = s.blockAt j
  last : (s'.blockAt idx).lastAdvance = r
  num : (s'.blockAt idx).blockNum = (s.blockAt idx).blockNum
  cap : 0 < maxNodesAdvance → r ≤ maxNodesAdvance

/-- The scan of a neighbour row by `tidyBoundaries` meets a negative entry: the row has a
negative entry such that every entry before it is owned by the block. -/
def ScanRaises (nodeBlocks : Int → Int) (blockNum : Int) (l : List Int) : Prop :=
  ∃ pre x post, l = pre ++ x :: post ∧ x < 0 ∧ ∀ y ∈ pre, nodeBlocks y = blockNum

/-- A path with `k` edges from a seed (a node with initial depth 1) to `n`, every node after
the seed being owned by block `B` and listed in the neighbour row of its predecessor. -/
def PathLen (m : Mesh) (nb : Int → Int) (B : Int) (depths0 : Int → Int) : Nat → Int → Prop
  | 0, n => depths0 n = 1
  | k + 1, n => ∃ x, PathLen m nb B depths0 k x ∧ n ∈ m.links x ∧ nb n = B

/-- Invariant of `depthInBlock` at the start of the round with `currDepth = L + 1`: a node
of depth 0 has no path of at most `L` edges from a seed, and a node of depth `d + 1` has
`d ≤ L` and `d` is the length of its shortest path from a seed. -/
def LevelInv (m : Mesh) (nb : Int → Int) (B : Int) (depths0 : Int → Int) (L : Nat)
    (D : Int → Int) : Prop :=
  ∀ n, (D n = 0 ∧ ∀ j, j ≤ L → ¬ PathLen m nb B depths0 j n) ∨
    (∃ d : Nat, d ≤ L ∧ D n = (d : Int) + 1 ∧ PathLen m nb B depths0 d n ∧
      ∀ j, j < d → ¬ PathLen m nb B depths0 j n)

/-- Invariant inside a round of `depthInBlock` started from the depths `D0` with
`currDepth = L + 1`, after the nodes `done` of the lists have been handled. -/
structure RoundInv (m : Mesh) (nb : Int → Int) (B : Int) (depths0 : Int → Int) (L : Nat)
    (D0 : Int → Int) (dn0 : Int) (done : List Int) (st : DepthSt) : Prop where
  change : ∀ n, st.depths n = D0 n ∨
    (D0 n = 0 ∧ st.depths n = (L : Int) + 2 ∧ PathLen m nb B depths0 (L + 1) n)
  expanded : ∀ x ∈ done, D0 x = (L : Int) + 1 → ∀ y ∈ m.links x, nb y = B → st.depths y ≠ 0
  up_nonneg : 0 ≤ st.updatePoints
  up_zero : st.updatePoints = 0 → st.depths = D0 ∧ st.deepNode = dn0
  up_pos : st.updatePoints ≠ 0 → ∃ n, D0 n = 0 ∧ st.depths n = (L : Int) + 2

/-- The number of node ids owned by block `B` whose depth is still 0. -/
def unvisited (m : Mesh) (nb : Int → Int) (B : Int) (D : Int → Int) : Nat :=
  ((List.range m.nNodes).filter (fun (k : Nat) => decide (nb (k : Int) = B ∧ D (k : Int) = 0))).length

/-- Invariant of the extraction loop of `separateUnjoined` started from the owner array
`nbU`, flags `flU` and depths `dU` with the seed `cnt` and the new number `newNum`: the
nodes of the new block's list are exactly the re-owned ones, each reachable from the seed
inside the original block `B`. -/
structure SepInv (m : Mesh) (B newNum : Int) (nbU flU dU : Int → Int) (nbI : block) (cnt : Int)
    (st : SepSt) : Prop where
  own : ∀ x, st.nodeBlocks x = if x ∈ st.nb.boundNodes then newNum else nbU x
  fl : ∀ x, st.flags x = if x ∈ st.nb.boundNodes then 2 else flU x
  dep : ∀ x, st.depths x = if x ∈ st.nb.boundNodes ∧ x ≠ cnt then 1 else dU x
  src : ∀ x ∈ st.nb.boundNodes, Reach m nbU B cnt x
  nodup : st.nb.boundNodes.Nodup
  seed : cnt ∈ st.nb.boundNodes
  rest : st.nb = { nbI with boundNodes := st.nb.boundNodes }

/-- Invariant inside one pass of the extraction loop started in `st0`, after the list nodes
`pre` and the neighbours `pl` of the current list node have been handled. -/
structure PassInv (m : Mesh) (B newNum : Int) (nbU flU dU : Int → Int) (nbI : block) (cnt : Int)
    (st0 : SepSt) (pre pl : List Int) (st : SepSt) : Prop where
  inv : SepInv m B newNum nbU flU dU nbI cnt st
  mono : ∀ x ∈ st0.nb.boundNodes, x ∈ st.nb.boundNodes
  nn : 0 ≤ st.nAdded
  zero : st.nAdded = 0 → st = st0 ∧ (∀ p ∈ pre, ∀ y ∈ m.links p, st0.nodeBlocks y ≠ B) ∧
    ∀ y ∈ pl, st0.nodeBlocks y ≠ B
  pos : st.nAdded ≠ 0 → ∃ y, st0.nodeBlocks y = B ∧ st.nodeBlocks y ≠ B
  sub : ∀ z, st.nodeBlocks z = B → st0.nodeBlocks z = B

/-- The block at position `j` satisfies I7 and its part of I1-I4: it is numbered `j`, its
lists hold exactly the nodes owned by `j`, each once and none flagged `FREE`, its interior
nodes have only neighbours owned by the block and each boundary node has a neighbour that
is not. -/
structure BlockOk (m : Mesh) (t : State) (j : Nat) : Prop where
  num : (t.blockAt j).blockNum = (j : Int)
  owns : ∀ x, t.nodeBlocks x = (j : Int) ↔ x ∈ (t.blockAt j).nodes
  nodup : (t.blockAt j).nodes.Nodup
  flags : ∀ x ∈ (t.blockAt j).nodes, t.flags x ≠ 0
  inter : ∀ n ∈ (t.blockAt j).intNodes, ∀ y ∈ m.links n, t.nodeBlocks y = (j : Int)
  bound : ∀ n ∈ (t.blockAt j).boundNodes, ∃ y ∈ m.links n, t.nodeBlocks y ≠ (j : Int)

/-- Invariant of the loop of `separateUnjoined` over the boundary list of `blocks[self]` of
the state `s`, with `c` the first boundary node and `rest` the boundary nodes still to be
visited: owners change only from the block's number to the index of a new block, a new
block holds exactly one set of nodes connected inside the original block, and the nodes
connected to `c` are not extracted. -/
structure UnjoinInv (m : Mesh) (s : State) (idx : Nat) (c : Int) (rest : List Int)
    (u : UnjoinSt) : Prop where
  len : s.blocks.length ≤ u.s.blocks.length
  other : ∀ x, s.nodeBlocks x ≠ (s.blockAt idx).blockNum → u.s.nodeBlocks x = s.nodeBlocks x
  range : ∀ x, s.nodeBlocks x = (s.blockAt idx).blockNum →
    u.s.nodeBlocks x = (s.blockAt idx).blockNum ∨
      ((s.blocks.length : Int) ≤ u.s.nodeBlocks x ∧
        u.s.nodeBlocks x < (u.s.blocks.length : Int))
  comp : ∀ x y, s.nodeBlocks x = (s.blockAt idx).blockNum →
    Reach m s.nodeBlocks (s.blockAt idx).blockNum x y → u.s.nodeBlocks y = u.s.nodeBlocks x
  sep : ∀ x y, s.nodeBlocks x = (s.blockAt idx).blockNum →
    s.nodeBlocks y = (s.blockAt idx).blockNum → u.s.nodeBlocks x = u.s.nodeBlocks y →
    u.s.nodeBlocks x ≠ (s.blockAt idx).blockNum →
    Reach m s.nodeBlocks (s.blockAt idx).blockNum x y
  kept : ∀ x, u.s.nodeBlocks x = (s.blockAt idx).blockNum →
    (u.depths x ≠ 0 ↔ Reach m s.nodeBlocks (s.blockAt idx).blockNum c x)
  todo : ∀ x ∈ rest, u.s.nodeBlocks x ≠ (s.blockAt idx).blockNum → u.depths x ≠ 0
  seen : ∀ y ∈ (s.blockAt idx).boundNodes, y ∉ rest →
    u.s.nodeBlocks y ≠ (s.blockAt idx).blockNum ∨
      Reach m s.nodeBlocks (s.blockAt idx).blockNum c y
  front : u.s.nodeBlocks c = (s.blockAt idx).blockNum
  same : u.changed = false → u.s = s
  selfNum : (u.s.blockAt idx).blockNum = (s.blockAt idx).blockNum
  newOk : ∀ j, s.blocks.length ≤ j → j < u.s.blocks.length →
    BlockOk m u.s j ∧ (u.s.blockAt j).nodes ≠ []

/-- Result of `separateUnjoined` on `blocks[idx]` of the state `s` with first boundary node
`c`, in the state `t`: blocks are only appended; owners of nodes outside the block are
kept; a node of the block is owned afterwards by the block or by a new block; two nodes of
the block have the same owner afterwards exactly when they are connected inside the
original block; `c` stays in the block; the block and every new block satisfy `BlockOk`,
and every new block is non-empty. -/
structure UnjoinPost (m : Mesh) (s : State) (idx : Nat) (c : Int) (t : State) : Prop where
  len : s.blocks.length ≤ t.blocks.length
  other : ∀ x, s.nodeBlocks x ≠ (s.blockAt idx).blockNum → t.nodeBlocks x = s.nodeBlocks x
  range : ∀ x, s.nodeBlocks x = (s.blockAt idx).blockNum →
    t.nodeBlocks x = (s.blockAt idx).blockNum ∨
      ((s.blocks.length : Int) ≤ t.nodeBlocks x ∧ t.nodeBlocks x < (t.blocks.length : Int))
  comp : ∀ x y, s.nodeBlocks x = (s.blockAt idx).blockNum →
    s.nodeBlocks y = (s.blockAt idx).blockNum →
    (t.nodeBlocks x = t.nodeBlocks y ↔ Reach m s.nodeBlocks (s.blockAt idx).blockNum x y)
  front : t.nodeBlocks c = (s.blockAt idx).blockNum
  selfOk : BlockOk m t idx
  newOk : ∀ j, s.blocks.length ≤ j → j < t.blocks.length →
    BlockOk m t j ∧ (t.blockAt j).nodes ≠ []

/-! ## Theorems -/

/-! ### Basic facts about arrays and the block vector -/

theorem upd_apply (f : Int → Int) (i v x : Int) : upd f i v x = if x = i then v else f x := rfl

theorem updAll_apply (f : Int → Int) (l : List Int) (v x : Int) :
    updAll f l v x = if x ∈ l then v else f x := by
  unfold updAll
  induction l generalizing f with
  | nil => simp
  | cons a l ih =>
    rw [List.foldl_cons, ih]
    by_cases h : x ∈ l
    · simp [h]
    · by_cases h2 : x = a
      · simp [h2, upd]
      · simp [h, h2, upd]

theorem getD_set_block (l : List block) (i j : Nat) (a d : block) :
    (l.set i a).getD j d = if i = j ∧ j < l.length then a else l.getD j d := by
  simp only [List.getD_eq_getElem?_getD, List.getElem?_set]
  by_cases h : i = j
  · subst h
    by_cases h2 : i < l.length
    · simp [h2]
    · simp only [h2, and_false, if_false, if_true]
      rw [List.getElem?_eq_none (by omega)]
  · simp [h]

theorem getD_append_block (l : List block) (j : Nat) (a d : block) :
    (l ++ [a]).getD j d =
      if j < l.length then l.getD j d else if j = l.length then a else d := by
  simp only [List.getD_eq_getElem?_getD]
  by_cases h : j < l.length
  · simp [h, List.getElem?_append_left h]
  · simp only [h, if_false]
    rw [List.getElem?_append_right (by omega)]
    by_cases h2 : j = l.length
    · simp [h2]
    · simp only [h2, if_false]
      rw [List.getElem?_eq_none (by simp only [List.length_singleton]; omega)]
      rfl

theorem getD_dropLast_block (l : List block) (j : Nat) (d : block) :
    (l.dropLast).getD j d = if j < l.length - 1 then l.getD j d else d := by
  simp only [List.getD_eq_getElem?_getD, List.getElem?_dropLast]
  by_cases h : j < l.length - 1
  · simp [h]
  · simp [h]

theorem blockAt_of_not_lt (s : State) (i : Nat) (h : ¬ i < s.blocks.length) :
    s.blockAt i = noBlock := by
  unfold State.blockAt
  rw [List.getD_eq_getElem?_getD, List.getElem?_eq_none (by omega)]
  rfl

theorem modAt_length (s : State) (i : Nat) (f : block → block) :
    (s.modAt i f).blocks.length = s.blocks.length := by
  simp [State.modAt]

theorem modAt_blockAt (s : State) (i j : Nat) (f : block → block) :
    (s.modAt i f).blockAt j =
      if i = j ∧ j < s.blocks.length then f (s.blockAt j) else s.blockAt j := by
  unfold State.modAt State.blockAt
  simp only [getD_set_block]
  by_cases h : i = j
  · subst h; rfl
  · simp [h]

theorem modAt_nodeBlocks (s : State) (i : Nat) (f : block → block) :
    (s.modAt i f).nodeBlocks = s.nodeBlocks := rfl

theorem modAt_flags (s : State) (i : Nat) (f : block → block) :
    (s.modAt i f).flags = s.flags := rfl

theorem modB_length (s : State) (i : Int) (f : block → block) :
    (s.modB i f).blocks.length = s.blocks.length := by
  unfold State.modB
  split
  · rfl
  · exact modAt_length _ _ _

theorem modB_blockAt (s : State) (i : Int) (j : Nat) (f : block → block) :
    (s.modB i f).blockAt j =
      if i = (j : Int) ∧ j < s.blocks.length then f (s.blockAt j) else s.blockAt j := by
  unfold State.modB
  by_cases h : i < 0
  · have : ¬ i = (j : Int) := by omega
    simp [h, this]
  · simp only [h, if_false, modAt_blockAt]
    have : (i.toNat = j) ↔ i = (j : Int) := by omega
    simp only [this]

theorem modB_nodeBlocks (s : State) (i : Int) (f : block → block) :
    (s.modB i f).nodeBlocks = s.nodeBlocks := by
  unfold State.modB
  split <;> rfl

theorem modB_flags (s : State) (i : Int) (f : block → block) :
    (s.modB i f).flags = s.flags := by
  unfold State.modB
  split <;> rfl

theorem getB_natCast (s : State) (i : Nat) : s.getB (i : Int) = s.blockAt i := by
  simp [State.getB]

/-! ### Checking P1 on a concrete state -/

theorem arr_of_range (l : List Int) (d n : Int) (h0 : 0 ≤ n) :
    arr l d n = l.getD n.toNat d := by
  unfold arr
  simp [not_lt.2 h0]

theorem arr_of_not_range (l : List Int) (d n : Int) (h : n < 0 ∨ (l.length : Int) ≤ n) :
    arr l d n = d := by
  unfold arr
  by_cases h0 : n < 0
  · simp [h0]
  · simp only [h0, if_false]
    rw [List.getD_eq_getElem?_getD, List.getElem?_eq_none (by omega)]
    rfl

/-- P1 for a state whose owner array is given by a finite list (`-1` outside), from three
bounded checks. -/
theorem ownerLists_arr (fl : Int → Int) (l : List Int) (bs : List block)
    (h1 : ∀ k, k < l.length → ∀ b, b < bs.length →
      (l.getD k (-1) = (b : Int) ↔ (k : Int) ∈ (bs.getD b noBlock).nodes))
    (h2 : ∀ k, k < l.length → l.getD k (-1) < (bs.length : Int))
    (h3 : ∀ b, b < bs.length → ∀ n ∈ (bs.getD b noBlock).nodes, 0 ≤ n ∧ n < (l.length : Int)) :
    OwnerLists { flags := fl, nodeBlocks := arr l (-1), blocks := bs } := by
  intro n b
  simp only [State.blockAt]
  constructor
  · intro h
    by_cases hr : n < 0 ∨ (l.length : Int) ≤ n
    · rw [arr_of_not_range l (-1) n hr] at h
      omega
    · have hr0 : 0 ≤ n := by omega
      have hr1 : n < (l.length : Int) := by omega
      rw [arr_of_range l (-1) n hr0] at h
      have hk : n.toNat < l.length := by omega
      have hb : b < bs.length := by
        have := h2 n.toNat hk
        rw [h] at this
        exact_mod_cast this
      refine ⟨hb, ?_⟩
      have := (h1 n.toNat hk b hb).1 h
      rwa [Int.toNat_of_nonneg hr0] at this
  · rintro ⟨hb, hn⟩
    obtain ⟨hr0, hr1⟩ := h3 b hb n hn
    rw [arr_of_range l (-1) n hr0]
    have hk : n.toNat < l.length := by omega
    apply (h1 n.toNat hk b hb).2
    rwa [Int.toNat_of_nonneg hr0]

/-- I1-I7 for a state whose owner array is given by a finite list, from bounded checks. -/
theorem wellFormed_arr (m : Mesh) (fl : Int → Int) (l : List Int) (bs : List block)
    (h1 : ∀ k, k < l.length → ∀ b, b < bs.length →
      (l.getD k (-1) = (b : Int) ↔ (k : Int) ∈ (bs.getD b noBlock).nodes))
    (h2 : ∀ k, k < l.length → l.getD k (-1) < (bs.length : Int))
    (h3 : ∀ b, b < bs.length → ∀ n ∈ (bs.getD b noBlock).nodes, 0 ≤ n ∧ n < (l.length : Int))
    (h4 : NoDupLists { flags := fl, nodeBlocks := arr l (-1), blocks := bs } ∧
      FlagsOk { flags := fl, nodeBlocks := arr l (-1), blocks := bs } ∧
      ListsDisjoint { flags := fl, nodeBlocks := arr l (-1), blocks := bs } ∧
      InteriorOk m { flags := fl, nodeBlocks := arr l (-1), blocks := bs } ∧
      LinkSym { flags := fl, nodeBlocks := arr l (-1), blocks := bs } ∧
      LinksValid { flags := fl, nodeBlocks := arr l (-1), blocks := bs } ∧
      LinksAdjacent m { flags := fl, nodeBlocks := arr l (-1), blocks := bs } ∧
      NumOk { flags := fl, nodeBlocks := arr l (-1), blocks := bs }) :
    WellFormed m { flags := fl, nodeBlocks := arr l (-1), blocks := bs } :=
  ⟨ownerLists_arr fl l bs h1 h2 h3, h4⟩

theorem postState_ok {α : Type} (r : Except Nat (α × State)) (a : α) (s fb : State)
    (h : r = .ok (a, s)) : postState r fb = s := by
  subst h; rfl

/-- C1 (code defect): `erase` on a block whose boundary list holds node 1 empties both
lists and sets `owner[1] = -1`, but clears `flag[0]` and leaves `flag[1] = BOUNDARY`. -/
theorem erase_boundary_flag_not_cleared :
    WellFormed (pathMesh 2) eraseScenario ∧
    (erase eraseScenario 0).flags 1 = 2 ∧ (erase eraseScenario 0).flags 0 = 0 ∧
    (erase eraseScenario 0).nodeBlocks 1 = -1 ∧
    ((erase eraseScenario 0).blockAt 0).nodes = [] :=
  ⟨wellFormed_arr _ _ _ _ (by decide) (by decide) (by decide) (by decide!), by decide, by decide, by decide, by decide⟩

/-- C2 (counterexample): in the three-block scenario `A.join` does not leave the merged
nodes `{0..7}` in `blocks[0]` and the former `C` in `blocks[1]` with `prev = 0`. -/
theorem join_scenario_not_as_specified :
    WellFormed grid4 joinScenario ∧
    ¬ ∃ r s', join grid4 joinScenario 0 = .ok (r, s') ∧ s'.blocks.length = 2 ∧
        (∀ n, n ∈ (s'.blockAt 0).nodes ↔ n ∈ [0, 1, 2, 3, 4, 5, 6, 7]) ∧
        (∀ n, n ∈ (s'.blockAt 1).nodes ↔ n ∈ [8, 9, 10, 11, 12, 13, 14, 15]) ∧
        (s'.blockAt 1).prevBlock = 0 ∧ (s'.blockAt 1).nextBlock = -1 := by
  refine ⟨wellFormed_arr _ _ _ _ (by decide) (by decide) (by decide) (by decide!), ?_⟩
  rintro ⟨r, s', h, -, h0, -⟩
  have hs : postState (join grid4 joinScenario 0) joinScenario = s' := postState_ok _ _ _ _ h
  have h8 : (8 : Int) ∈ ((postState (join grid4 joinScenario 0) joinScenario).blockAt 0).nodes := by
    decide!
  rw [hs] at h8
  have := (h0 8).1 h8
  revert this
  decide

/-- C2 (amended): `A.join` returns 1 and leaves two blocks; `blocks[1]` is the merged block
holding exactly `{0..7}` with `prev = -1`, `next = 0`; `blocks[0]` holds the former `C`,
nodes `{8..15}`, renumbered to 0, with `prev = 1`, `next = -1`. -/
theorem join_scenario_result :
    ∃ s', join grid4 joinScenario 0 = .ok (1, s') ∧
      s'.blocks.map block.view =
        [(0, [12, 13, 14, 15], [8, 9, 10, 11], 1, -1), (1, [0, 3, 1, 2], [4, 5, 6, 7], -1, 0)] ∧
      (List.range 16).map (fun (k : Nat) => s'.nodeBlocks (k : Int)) =
        [1, 1, 1, 1, 1, 1, 1, 1, 0, 0, 0, 0, 0, 0, 0, 0] := by
  refine ⟨postState (join grid4 joinScenario 0) joinScenario, ?_, ?_, ?_⟩
  · rfl
  · decide!
  · decide!

/-- C3 (code defect): two chained blocks, `join` on block 0.  The target is the last block,
compaction moves the merged block to index 0, and the returned index 1 lies outside the
shortened vector. -/
theorem join_returns_stale_index :
    WellFormed (pathMesh 2) joinLastScenario ∧
    ∃ s', join (pathMesh 2) joinLastScenario 0 = .ok (1, s') ∧ s'.blocks.length = 1 ∧
      s'.blocks.map block.view = [(0, [0, 1], [], -1, -1)] := by
  refine ⟨wellFormed_arr _ _ _ _ (by decide) (by decide) (by decide) (by decide!),
    postState (join (pathMesh 2) joinLastScenario 0) joinLastScenario, ?_, ?_, ?_⟩
  · rfl
  · decide!
  · decide!

/-- C4 (code defect): chain `2 <-> 0 <-> 1`, `join` on block 1.  The target is reached
through `prev` and is block 0; its old `prev` is not inherited (`joinBlock > 0`), so
afterwards `blocks[2].next = 0` while `blocks[0].prev = -1`: link symmetry is broken. -/
theorem join_prev_zero_breaks_link_symmetry :
    WellFormed (pathMesh 4) joinPrevZeroScenario ∧
    ∃ s', join (pathMesh 4) joinPrevZeroScenario 1 = .ok (0, s') ∧
      (s'.blockAt 2).nextBlock = 0 ∧ (s'.blockAt 0).prevBlock = -1 ∧ ¬ LinkSym s' := by
  refine ⟨wellFormed_arr _ _ _ _ (by decide) (by decide) (by decide) (by decide!),
    postState (join (pathMesh 4) joinPrevZeroScenario 1) joinPrevZeroScenario, ?_, ?_, ?_, ?_⟩
  · rfl
  · decide!
  · decide!
  · decide!

/-! ### `join`: target search -/

theorem firstActive_mem (s : State) (l : List Int) (h : firstActive s l ≠ -1) :
    firstActive s l ∈ l ∧ (s.getB (firstActive s l)).isActive = true := by
  induction l with
  | nil => simp [firstActive] at h
  | cons p ps ih =>
    by_cases hp : (s.getB p).isActive = true
    · simp [firstActive, hp]
    · simp only [firstActive, hp] at h ⊢
      simp only [Bool.false_eq_true, if_false] at h ⊢
      exact ⟨List.mem_cons_of_mem _ (ih h).1, (ih h).2⟩

theorem linkStep_nonneg (nodeBlocks : Int → Int) (bn : Int) (acc : List Int) (l : Int)
    (h : ∀ x ∈ acc, 0 ≤ x ∧ x ≠ bn ∧ ∃ n, nodeBlocks n = x) :
    ∀ x ∈ linkStep nodeBlocks bn acc l, 0 ≤ x ∧ x ≠ bn ∧ ∃ n, nodeBlocks n = x := by
  intro x hx
  unfold linkStep at hx
  simp only at hx
  split at hx
  · rename_i hc
    rcases List.mem_append.1 hx with h1 | h1
    · exact h x h1
    · simp only [List.mem_singleton] at h1
      subst h1
      exact ⟨hc.1, hc.2.1, l, rfl⟩
  · exact h x hx

theorem foldl_linkStep_nonneg (nodeBlocks : Int → Int) (bn : Int) (ls : List Int)
    (acc : List Int) (h : ∀ x ∈ acc, 0 ≤ x ∧ x ≠ bn ∧ ∃ n, nodeBlocks n = x) :
    ∀ x ∈ ls.foldl (linkStep nodeBlocks bn) acc, 0 ≤ x ∧ x ≠ bn ∧ ∃ n, nodeBlocks n = x := by
  induction ls generalizing acc with
  | nil => simpa using h
  | cons l ls ih => exact ih _ (linkStep_nonneg nodeBlocks bn acc l h)

/-- Every entry of `getLinks` is the owner of some node, non-negative and different from
the block's own number. -/
theorem getLinks_mem (m : Mesh) (nodeBlocks : Int → Int) (b : block) :
    ∀ x ∈ getLinks m nodeBlocks b, 0 ≤ x ∧ x ≠ b.blockNum ∧ ∃ n, nodeBlocks n = x := by
  unfold getLinks
  suffices H : ∀ (ps : List Int) (acc : List Int),
      (∀ x ∈ acc, 0 ≤ x ∧ x ≠ b.blockNum ∧ ∃ n, nodeBlocks n = x) →
      ∀ x ∈ ps.foldl (fun acc p => (m.links p).foldl (linkStep nodeBlocks b.blockNum) acc) acc,
        0 ≤ x ∧ x ≠ b.blockNum ∧ ∃ n, nodeBlocks n = x from
    H b.boundNodes [] (by simp)
  intro ps
  induction ps with
  | nil => intro acc h; simpa using h
  | cons p ps ih =>
    intro acc h
    exact ih _ (foldl_linkStep_nonneg nodeBlocks b.blockNum (m.links p) acc h)

/-- C6 (counterexample): block 0 has no links; `get_links()` is `[1, 2]`, block 2 is active
with both slots free, but the first active entry, block 1, is fully linked: `join`
deactivates block 0 and returns `-1`. -/
theorem join_search_stops_at_first_active :
    WellFormed grid4 joinSearchScenario ∧
    (joinSearchScenario.blockAt 0).prevBlock = -1 ∧
    (joinSearchScenario.blockAt 0).nextBlock = -1 ∧
    getLinks grid4 joinSearchScenario.nodeBlocks (joinSearchScenario.blockAt 0) = [1, 2] ∧
    (joinSearchScenario.blockAt 2).isActive = true ∧
    (joinSearchScenario.blockAt 2).prevBlock = -1 ∧
    join grid4 joinSearchScenario 0 =
      .ok (-1, joinSearchScenario.modAt 0 (fun b => { b with isActive := false })) := by
  refine ⟨wellFormed_arr _ _ _ _ (by decide) (by decide) (by decide) (by decide!),
    by decide, by decide, by decide!, by decide, by decide, ?_⟩
  rfl

theorem joinFinish_ret (m : Mesh) (s : State) (self : Nat) (j r : Int) (s' : State)
    (h : joinFinish m s self j = .ok (r, s')) : r = j := by
  unfold joinFinish at h
  split at h
  · split at h
    · cases h
    · cases h; rfl
  · cases h; rfl

theorem joinInto_ret (m : Mesh) (s : State) (self : Nat) (j bn bp r : Int) (s' : State)
    (h : joinInto m s self j bn bp = .ok (r, s')) : r = j := by
  unfold joinInto at h
  split at h
  · cases h
  · exact joinFinish_ret _ _ _ _ _ _ h

/-- C6 (amended): for a block with `prev = -1` and `next = -1`, let `t` be the first active
block in `get_links()` order (`joinCandidate`, `-1` if none).  `join` returns `-1` exactly
when `t = -1` or `t` has both `prev` and `next` set (`NoJoinTarget`), and then it only
deactivates self.  Otherwise `t` is a linked active block with a free slot, `join` merges
into `t` (before it if `t.prev` is free, else after it) and every value it returns is `t`,
never `-1`. -/
theorem join_search_first_active (m : Mesh) (s : State) (self : Nat)
    (hp : (s.blockAt self).prevBlock = -1) (hn : (s.blockAt self).nextBlock = -1) :
    ((∃ s', join m s self = .ok (-1, s')) ↔ NoJoinTarget m s self) ∧
    (NoJoinTarget m s self →
      join m s self = .ok (-1, s.modAt self (fun b => { b with isActive := false }))) ∧
    (¬ NoJoinTarget m s self →
      joinCandidate m s self ∈ getLinks m s.nodeBlocks (s.blockAt self) ∧
      (s.getB (joinCandidate m s self)).isActive = true ∧
      ((s.getB (joinCandidate m s self)).prevBlock = -1 ∨
       (s.getB (joinCandidate m s self)).nextBlock = -1) ∧
      join m s self =
        (if (s.getB (joinCandidate m s self)).prevBlock = -1
         then joinInto m s self (joinCandidate m s self)
                (s.getB (joinCandidate m s self)).nextBlock (-1)
         else joinInto m s self (joinCandidate m s self)
                (-1) (s.getB (joinCandidate m s self)).prevBlock) ∧
      ∀ r s', join m s self = .ok (r, s') → r = joinCandidate m s self ∧ r ≠ -1) := by
  have hno : NoJoinTarget m s self →
      join m s self = .ok (-1, s.modAt self (fun b => { b with isActive := false })) := by
    intro h
    unfold NoJoinTarget at h
    unfold join joinTarget
    simp only [hp, hn]
    rcases h with h | ⟨h1, h2⟩
    · simp [h]
    · by_cases hc : joinCandidate m s self = -1
      · simp [hc]
      · simp [hc, h1, h2]
  have hyes : ¬ NoJoinTarget m s self →
      joinCandidate m s self ≠ -1 ∧
      ((s.getB (joinCandidate m s self)).prevBlock = -1 ∨
       (s.getB (joinCandidate m s self)).nextBlock = -1) ∧
      join m s self =
        (if (s.getB (joinCandidate m s self)).prevBlock = -1
         then joinInto m s self (joinCandidate m s self)
                (s.getB (joinCandidate m s self)).nextBlock (-1)
         else joinInto m s self (joinCandidate m s self)
                (-1) (s.getB (joinCandidate m s self)).prevBlock) := by
    intro h
    unfold NoJoinTarget at h
    push_neg at h
    obtain ⟨hc, hfree⟩ := h
    have hfree2 : (s.getB (joinCandidate m s self)).prevBlock = -1 ∨
        (s.getB (joinCandidate m s self)).nextBlock = -1 := by
      by_cases h1 : (s.getB (joinCandidate m s self)).prevBlock = -1
      · exact Or.inl h1
      · exact Or.inr (hfree h1)
    refine ⟨hc, hfree2, ?_⟩
    unfold join joinTarget
    simp only [hp, hn]
    by_cases h1 : (s.getB (joinCandidate m s self)).prevBlock = -1
    · simp [hc, h1]
    · have h2 := hfree h1
      simp [hc, h1, h2]
  have hret : ¬ NoJoinTarget m s self →
      ∀ r s', join m s self = .ok (r, s') → r = joinCandidate m s self ∧ r ≠ -1 := by
    intro h r s' hj
    obtain ⟨hc, -, hjoin⟩ := hyes h
    rw [hjoin] at hj
    have : r = joinCandidate m s self := by
      split at hj
      · exact joinInto_ret _ _ _ _ _ _ _ _ hj
      · exact joinInto_ret _ _ _ _ _ _ _ _ hj
    exact ⟨this, this ▸ hc⟩
  refine ⟨⟨?_, fun h => ⟨_, hno h⟩⟩, hno, ?_⟩
  · rintro ⟨s', hs'⟩
    by_contra h
    exact (hret h _ _ hs').2 rfl
  · intro h
    obtain ⟨hc, hfree, hjoin⟩ := hyes h
    have hm := firstActive_mem s (getLinks m s.nodeBlocks (s.blockAt self)) hc
    exact ⟨hm.1, hm.2, hfree, hjoin, hret h⟩

/-- C6 (amended), instance: block 2 of the five-block scenario has no links, and its only
linked block, block 0, is active with free slots, so `join` does not return `-1`. -/
theorem join_search_first_active_witness :
    (joinSearchScenario.blockAt 2).prevBlock = -1 ∧
    (joinSearchScenario.blockAt 2).nextBlock = -1 ∧
    ¬ NoJoinTarget grid4 joinSearchScenario 2 ∧
    ((∃ s', join grid4 joinSearchScenario 2 = .ok (-1, s')) ↔
      NoJoinTarget grid4 joinSearchScenario 2) :=
  ⟨by decide, by decide, by decide!,
   (join_search_first_active grid4 joinSearchScenario 2 (by decide) (by decide)).1⟩

/-! ### `tidyBoundaries`, `redoLists` -/

theorem foldl_inv {α β : Type} (P : β → Prop) (f : β → α → β) (l : List α) (init : β)
    (h0 : P init) (hstep : ∀ st x, x ∈ l → P st → P (f st x)) : P (l.foldl f init) := by
  induction l generalizing init with
  | nil => exact h0
  | cons a l ih =>
    rw [List.foldl_cons]
    exact ih _ (hstep _ _ (List.mem_cons_self _ _) h0)
      (fun st x hx hp => hstep st x (List.mem_cons_of_mem _ hx) hp)

/-- `tidyLoop` partitions the boundary list by `staysBoundary`: kept nodes stay in order,
the others are appended to the interior list. -/
theorem tidyLoop_ok (m : Mesh) (nb : Int → Int) (bn : Int) (ps : List Int) :
    ∀ (fl : Int → Int) (ints : List Int) (f : Int → Int) (i bd : List Int),
      tidyLoop m nb bn ps fl ints = .ok (f, i, bd) →
      bd = ps.filter (fun p => staysBoundary m nb bn p) ∧
      i = ints ++ ps.filter (fun p => !staysBoundary m nb bn p) := by
  induction ps with
  | nil =>
    intro fl ints f i bd h
    simp only [tidyLoop, Except.ok.injEq, Prod.mk.injEq] at h
    obtain ⟨-, h2, h3⟩ := h
    simp [← h2, ← h3]
  | cons p ps ih =>
    intro fl ints f i bd h
    unfold tidyLoop at h
    cases hsc : tidyScan nb bn (m.links p) with
    | error e => rw [hsc] at h; cases h
    | ok v =>
      rw [hsc] at h
      have hst : staysBoundary m nb bn p = v := by
        unfold staysBoundary; rw [hsc]; cases v <;> rfl
      cases v with
      | true =>
        simp only at h
        cases hrec : tidyLoop m nb bn ps fl ints with
        | error e => rw [hrec] at h; cases h
        | ok r =>
          obtain ⟨f', i', bd'⟩ := r
          rw [hrec] at h
          simp only [Except.ok.injEq, Prod.mk.injEq] at h
          obtain ⟨-, h2, h3⟩ := h
          obtain ⟨e1, e2⟩ := ih _ _ _ _ _ hrec
          subst h2 h3
          simp [hst, e1, e2]
      | false =>
        simp only at h
        obtain ⟨e1, e2⟩ := ih _ _ _ _ _ h
        simp [hst, e1, e2]

theorem tidyBoundaries_ok (m : Mesh) (nb fl : Int → Int) (b : block) (f : Int → Int)
    (b' : block) (h : tidyBoundaries m nb fl b = .ok (f, b')) :
    b' = { b with
            intNodes := b.intNodes ++
              b.boundNodes.filter (fun p => !staysBoundary m nb b.blockNum p),
            boundNodes := b.boundNodes.filter (fun p => staysBoundary m nb b.blockNum p) } := by
  unfold tidyBoundaries at h
  cases hl : tidyLoop m nb b.blockNum b.boundNodes fl b.intNodes with
  | error e => rw [hl] at h; cases h
  | ok r =>
    obtain ⟨f', i, bd⟩ := r
    rw [hl] at h
    simp only [Except.ok.injEq, Prod.mk.injEq] at h
    obtain ⟨e1, e2⟩ := tidyLoop_ok _ _ _ _ _ _ _ _ _ hl
    rw [← h.2, e1, e2]

/-- `tidyBoundaries` keeps the set of nodes of the block. -/
theorem tidyBoundaries_nodes (m : Mesh) (nb fl : Int → Int) (b : block) (f : Int → Int)
    (b' : block) (h : tidyBoundaries m nb fl b = .ok (f, b')) (n : Int) :
    n ∈ b'.nodes ↔ n ∈ b.nodes := by
  rw [tidyBoundaries_ok m nb fl b f b' h]
  simp only [block.nodes, List.mem_append, List.mem_filter, Bool.not_eq_true']
  constructor
  · rintro ((h1 | ⟨h1, -⟩) | ⟨h1, -⟩)
    · exact Or.inl h1
    · exact Or.inr h1
    · exact Or.inr h1
  · rintro (h1 | h1)
    · exact Or.inl (Or.inl h1)
    · cases hs : staysBoundary m nb b.blockNum n
      · exact Or.inl (Or.inr ⟨h1, rfl⟩)
      · exact Or.inr ⟨h1, rfl⟩

theorem mem_ownedNodes (m : Mesh) (nb : Int → Int) (bn n : Int) :
    n ∈ ownedNodes m nb bn ↔ (0 ≤ n ∧ n < (m.nNodes : Int)) ∧ nb n = bn := by
  unfold ownedNodes
  rw [List.mem_filter, List.mem_map]
  simp only [List.mem_range, decide_eq_true_eq]
  constructor
  · rintro ⟨⟨k, hk, rfl⟩, h2⟩
    exact ⟨⟨Int.natCast_nonneg k, Int.ofNat_lt.2 hk⟩, h2⟩
  · rintro ⟨⟨h1, h2⟩, h3⟩
    refine ⟨⟨n.toNat, ?_, ?_⟩, h3⟩
    · omega
    · omega

theorem redoLists_ok (m : Mesh) (nb fl : Int → Int) (b : block) (f : Int → Int)
    (b' : block) (h : redoLists m nb fl b = .ok (f, b')) :
    b' = { b with
            intNodes := (ownedNodes m nb b.blockNum).filter
              (fun p => !staysBoundary m nb b.blockNum p),
            boundNodes := (ownedNodes m nb b.blockNum).filter
              (fun p => staysBoundary m nb b.blockNum p) } := by
  unfold redoLists at h
  have := tidyBoundaries_ok _ _ _ _ _ _ h
  simpa using this

/-- After `redoLists` the block holds exactly the in-range nodes it owns. -/
theorem redoLists_nodes (m : Mesh) (nb fl : Int → Int) (b : block) (f : Int → Int)
    (b' : block) (h : redoLists m nb fl b = .ok (f, b')) (n : Int) :
    n ∈ b'.nodes ↔ (0 ≤ n ∧ n < (m.nNodes : Int)) ∧ nb n = b.blockNum := by
  unfold redoLists at h
  rw [tidyBoundaries_nodes _ _ _ _ _ _ h]
  simp [block.nodes, mem_ownedNodes]

theorem tidyScan_false (nb : Int → Int) (bn : Int) (l : List Int)
    (h : tidyScan nb bn l = .ok false) : ∀ y ∈ l, nb y = bn := by
  induction l with
  | nil => intro y hy; exact absurd hy (List.not_mem_nil _)
  | cons a l ih =>
    unfold tidyScan at h
    split at h
    · cases h
    · split at h
      · cases h
      · rename_i h2
        intro y hy
        rcases List.mem_cons.1 hy with rfl | hy
        · exact not_not.1 h2
        · exact ih h y hy

theorem tidyLoop_scans (m : Mesh) (nb : Int → Int) (bn : Int) (ps : List Int) :
    ∀ (fl : Int → Int) (ints : List Int) (r : (Int → Int) × List Int × List Int),
      tidyLoop m nb bn ps fl ints = .ok r →
      ∀ p ∈ ps, ∃ v, tidyScan nb bn (m.links p) = .ok v := by
  induction ps with
  | nil => intro _ _ _ _ p hp; exact absurd hp (List.not_mem_nil _)
  | cons q ps ih =>
    intro fl ints r h p hp
    unfold tidyLoop at h
    cases hsc : tidyScan nb bn (m.links q) with
    | error e => rw [hsc] at h; cases h
    | ok v =>
      rw [hsc] at h
      rcases List.mem_cons.1 hp with rfl | hp
      · exact ⟨v, hsc⟩
      · cases v with
        | true =>
          simp only at h
          cases hrec : tidyLoop m nb bn ps fl ints with
          | error e => rw [hrec] at h; cases h
          | ok r' => exact ih _ _ _ hrec p hp
        | false =>
          simp only at h
          exact ih _ _ _ h p hp

/-- After `redoLists`, a node of the block with a neighbour owned by someone else is in the
boundary list. -/
theorem redoLists_boundary (m : Mesh) (nb fl : Int → Int) (b : block) (f : Int → Int)
    (b' : block) (h : redoLists m nb fl b = .ok (f, b')) (x : Int) (hx : x ∈ b'.nodes)
    (hy : ∃ y ∈ m.links x, nb y ≠ b.blockNum) : x ∈ b'.boundNodes := by
  have hxo : x ∈ ownedNodes m nb b.blockNum := by
    rw [mem_ownedNodes]
    exact (redoLists_nodes _ _ _ _ _ _ h x).1 hx
  rw [redoLists_ok _ _ _ _ _ _ h]
  simp only [List.mem_filter]
  refine ⟨hxo, ?_⟩
  unfold redoLists tidyBoundaries at h
  simp only at h
  cases hl : tidyLoop m nb b.blockNum (ownedNodes m nb b.blockNum)
      (updAll fl (ownedNodes m nb b.blockNum) 2) [] with
  | error e => rw [hl] at h; cases h
  | ok r =>
    obtain ⟨v, hv⟩ := tidyLoop_scans _ _ _ _ _ _ _ hl x hxo
    unfold staysBoundary
    rw [hv]
    cases v with
    | true => rfl
    | false =>
      exfalso
      obtain ⟨y, hy1, hy2⟩ := hy
      exact hy2 (tidyScan_false _ _ _ hv y hy1)

/-! ### `depthInBlock`, `findFurthest` -/

theorem depthVisit_inv (m : Mesh) (nb : Int → Int) (B src nd x : Int)
    (hx : Reach m nb B src x) (st : DepthSt) (c : Int) (hc : c ∈ m.links x)
    (h : DepthInv m nb B src st) : DepthInv m nb B src (depthVisit nb B nd st c) := by
  unfold depthVisit
  split
  · rename_i hcond
    have hr : Reach m nb B src c := Relation.ReflTransGen.tail hx ⟨hc, hcond.2⟩
    refine ⟨?_, Or.inr ⟨hcond.2, hr⟩⟩
    intro n hn
    simp only [upd_apply] at hn
    by_cases hnc : n = c
    · rw [hnc]; exact hr
    · simp only [hnc, if_false] at hn
      exact h.1 n hn
  · exact h

theorem depthNode_inv (m : Mesh) (nb : Int → Int) (B src cd : Int) (hcd : cd ≠ 0)
    (st : DepthSt) (x : Int) (h : DepthInv m nb B src st) :
    DepthInv m nb B src (depthNode m nb B cd st x) := by
  unfold depthNode
  split
  · rename_i hd
    have hx : Reach m nb B src x := h.1 x (by rw [hd]; exact hcd)
    apply foldl_inv (DepthInv m nb B src)
    · exact h
    · intro st2 c hc h2
      exact depthVisit_inv m nb B src _ x hx st2 c hc h2
  · exact h

theorem depthRound_inv (m : Mesh) (nb : Int → Int) (b : block) (src cd : Int) (hcd : cd ≠ 0)
    (depths : Int → Int) (dn : Int)
    (h : DepthInv m nb b.blockNum src { depths := depths, deepNode := dn, updatePoints := 0 }) :
    DepthInv m nb b.blockNum src (depthRound m nb b cd depths dn) := by
  unfold depthRound
  apply foldl_inv (DepthInv m nb b.blockNum src)
  · apply foldl_inv (DepthInv m nb b.blockNum src)
    · exact h
    · intro st x _ hst
      exact depthNode_inv m nb b.blockNum src cd hcd st x hst
  · intro st x _ hst
    exact depthNode_inv m nb b.blockNum src cd hcd st x hst

theorem depthLoop_inv (m : Mesh) (nb : Int → Int) (b : block) (src : Int) (fuel : Nat) :
    ∀ (cd : Int) (depths : Int → Int) (dn : Int), 0 < cd →
      DepthInv m nb b.blockNum src { depths := depths, deepNode := dn, updatePoints := 0 } →
      (depthLoop m nb b fuel cd depths dn).2.2 = -1 ∨
      (nb (depthLoop m nb b fuel cd depths dn).2.2 = b.blockNum ∧
       Reach m nb b.blockNum src (depthLoop m nb b fuel cd depths dn).2.2) := by
  induction fuel with
  | zero => intro cd depths dn _ h; exact h.2
  | succ fuel ih =>
    intro cd depths dn hcd h
    have hr := depthRound_inv m nb b src cd (by omega) depths dn h
    unfold depthLoop
    simp only
    split
    · exact hr.2
    · exact ih _ _ _ (by omega) ⟨hr.1, hr.2⟩

/-- The node reported by `depthInBlock` run from the single seed `src` is `-1` or a node
owned by the block and reachable from `src` inside the block. -/
theorem depthInBlock_deepNode (m : Mesh) (nb : Int → Int) (b : block) (src : Int) :
    (depthInBlock m nb b (upd (fun _ => 0) src 1)).2.2 = -1 ∨
    (nb (depthInBlock m nb b (upd (fun _ => 0) src 1)).2.2 = b.blockNum ∧
     Reach m nb b.blockNum src (depthInBlock m nb b (upd (fun _ => 0) src 1)).2.2) := by
  unfold depthInBlock
  apply depthLoop_inv m nb b src _ 1 _ (-1) (by omega)
  refine ⟨?_, Or.inl rfl⟩
  intro n hn
  simp only [upd_apply] at hn
  by_cases h : n = src
  · rw [h]; exact Relation.ReflTransGen.refl
  · simp [h] at hn

theorem reach_src_eq (m : Mesh) (nb : Int → Int) (B a b x : Int)
    (h : Reach m nb B a x) (e : a = b) : Reach m nb B b x := by
  subst e; exact h

theorem findFurthestLoop_inv (m : Mesh) (nb : Int → Int) (b : block) (fuel : Nat) :
    ∀ (cnt : Nat) (st fs : FurthestSt), FurthestInv m nb b.blockNum cnt st →
      findFurthestLoop m nb b fuel cnt st = .ok fs →
      nb fs.deepLoc0 = b.blockNum ∧ nb fs.deepLoc1 = b.blockNum ∧
      (Reach m nb b.blockNum fs.deepLoc0 fs.deepLoc1 ∨
       Reach m nb b.blockNum fs.deepLoc1 fs.deepLoc0) := by
  induction fuel with
  | zero =>
    intro cnt st fs h hfs
    simp only [findFurthestLoop, Except.ok.injEq] at hfs
    subst hfs
    exact ⟨h.1, h.2.1, h.2.2.2⟩
  | succ fuel ih =>
    intro cnt st fs h hfs
    obtain ⟨h0, h1, hcur, hreach⟩ := h
    have hd := depthInBlock_deepNode m nb b st.currNode
    unfold findFurthestLoop at hfs
    simp only at hfs
    split at hfs
    · cases hfs
    · rename_i hne
      rcases hd with hd | ⟨hdB, hdR⟩
      · exact absurd hd hne
      · split at hfs
        · cases hfs
        · by_cases hpar : cnt % 2 = 0
          · have hpar2 : (cnt + 1) % 2 ≠ 0 := by omega
            simp only [hpar, if_true] at hfs hcur
            have hdR := reach_src_eq _ _ _ _ _ _ hdR hcur
            split at hfs
            · split at hfs
              · simp only [Except.ok.injEq] at hfs
                subst hfs
                exact ⟨h0, h1, hreach⟩
              · refine ih _ _ _ ?_ hfs
                exact ⟨hdB, h1, by simp [hpar2], Or.inr hdR⟩
            · refine ih _ _ _ ?_ hfs
              exact ⟨hdB, h1, by simp [hpar2], Or.inr hdR⟩
          · have hpar2 : (cnt + 1) % 2 = 0 := by omega
            simp only [hpar, if_false] at hfs hcur
            have hdR := reach_src_eq _ _ _ _ _ _ hdR hcur
            split at hfs
            · split at hfs
              · simp only [Except.ok.injEq] at hfs
                subst hfs
                exact ⟨h0, h1, hreach⟩
              · refine ih _ _ _ ?_ hfs
                exact ⟨h0, hdB, by simp [hpar2], Or.inl hdR⟩
            · refine ih _ _ _ ?_ hfs
              exact ⟨h0, hdB, by simp [hpar2], Or.inl hdR⟩

/-- The two endpoints returned by `findFurthest` are owned by the block, and one is
reachable from the other inside the block. -/
theorem findFurthest_ok (m : Mesh) (nb : Int → Int) (b : block) (cur : Int) (fs : FurthestSt)
    (h : findFurthest m nb b cur = .ok fs) :
    nb fs.deepLoc0 = b.blockNum ∧ nb fs.deepLoc1 = b.blockNum ∧
    (Reach m nb b.blockNum fs.deepLoc0 fs.deepLoc1 ∨
     Reach m nb b.blockNum fs.deepLoc1 fs.deepLoc0) := by
  unfold findFurthest at h
  have hd0 := depthInBlock_deepNode m nb b cur
  unfold findFurthestLoop at h
  simp only at h
  split at h
  · cases h
  · rename_i hne0
    rcases hd0 with hd0 | ⟨hd0B, -⟩
    · exact absurd hd0 hne0
    · split at h
      · cases h
      · simp only [Nat.zero_mod, if_true] at h
        have hne : ¬ (-1 : Int) = (depthInBlock m nb b (upd (fun _ => 0) cur 1)).2.2 :=
          fun e => hne0 e.symm
        simp only [hne, if_false] at h
        have hd1 := depthInBlock_deepNode m nb b (depthInBlock m nb b (upd (fun _ => 0) cur 1)).2.2
        unfold findFurthestLoop at h
        simp only at h
        split at h
        · cases h
        · rename_i hne1
          rcases hd1 with hd1 | ⟨hd1B, hd1R⟩
          · exact absurd hd1 hne1
          · split at h
            · cases h
            · have hodd : ¬ ((0 + 1) % 2 = 0) := by decide
              simp only [hodd, if_false] at h
              have hne' : ¬ (-1 : Int) =
                  (depthInBlock m nb b (upd (fun _ => 0)
                    (depthInBlock m nb b (upd (fun _ => 0) cur 1)).2.2 1)).2.2 :=
                fun e => hne1 e.symm
              simp only [hne', if_false] at h
              refine findFurthestLoop_inv m nb b _ _ _ fs ?_ h
              exact ⟨hd0B, hd1B, by simp, Or.inl hd1R⟩

/-! ### `split`: growth phase -/

theorem claimed_refl (B L : Int) (ob : Int → Int) : Claimed B L ob ob := fun _ => Or.inl rfl

theorem growVisit_inv (B L v : Int) (ob0 : Int → Int) (hv : v = L ∨ v = L + 1)
    (st : GrowSt) (l : Int)
    (h : st.nb.blockNum = v ∧ Claimed B L ob0 st.nodeBlocks) :
    (growVisit B st l).nb.blockNum = v ∧ Claimed B L ob0 (growVisit B st l).nodeBlocks := by
  unfold growVisit
  split
  · rename_i hc
    refine ⟨h.1, ?_⟩
    intro n
    simp only [upd_apply]
    by_cases hn : n = l
    · subst hn
      simp only [if_true]
      right
      have hB : ob0 n = B := by
        rcases h.2 n with h1 | h1
        · rw [← h1]; exact hc
        · exact h1.1
      exact ⟨hB, by rw [h.1]; exact hv⟩
    · simp only [hn, if_false]
      exact h.2 n
  · exact h

theorem growPass_inv (m : Mesh) (B L v : Int) (ob0 ob fl : Int → Int) (nb : block)
    (hv : v = L ∨ v = L + 1) (hnb : nb.blockNum = v) (hc : Claimed B L ob0 ob) :
    (growPass m B ob fl nb).nb.blockNum = v ∧
    Claimed B L ob0 (growPass m B ob fl nb).nodeBlocks := by
  unfold growPass
  apply foldl_inv (fun st : GrowSt => st.nb.blockNum = v ∧ Claimed B L ob0 st.nodeBlocks)
  · exact ⟨hnb, hc⟩
  · intro st p _ hst
    apply foldl_inv (fun st : GrowSt => st.nb.blockNum = v ∧ Claimed B L ob0 st.nodeBlocks)
    · exact hst
    · intro st2 l _ h2
      exact growVisit_inv B L v ob0 hv st2 l h2

theorem growLoop_inv (m : Mesh) (B L : Int) (ob0 : Int → Int) (fuel : Nat) :
    ∀ (t : Bool) (st : SplitSt),
      st.nb0.blockNum = L + 1 → st.nb1.blockNum = L → Claimed B L ob0 st.nodeBlocks →
      (growLoop m B fuel t st).nb0.blockNum = L + 1 ∧
      (growLoop m B fuel t st).nb1.blockNum = L ∧
      Claimed B L ob0 (growLoop m B fuel t st).nodeBlocks := by
  induction fuel with
  | zero => intro t st h0 h1 hc; exact ⟨h0, h1, hc⟩
  | succ fuel ih =>
    intro t st h0 h1 hc
    have p1 := growPass_inv m B L L ob0 st.nodeBlocks st.flags st.nb1 (Or.inl rfl) h1 hc
    have p0 := growPass_inv m B L (L + 1) ob0 st.nodeBlocks st.flags st.nb0 (Or.inr rfl) h0 hc
    unfold growLoop
    split
    · simp only
      split
      · split
        · exact ⟨h0, p1.1, p1.2⟩
        · exact ih _ _ h0 p1.1 p1.2
      · exact ih _ _ h0 p1.1 p1.2
    · simp only
      split
      · split
        · exact ⟨p0.1, h1, p0.2⟩
        · exact ih _ _ p0.1 h1 p0.2
      · exact ih _ _ p0.1 h1 p0.2

/-- What a completed growth phase of `split` guarantees: two distinct endpoints `d0`, `d1`
owned by the block and connected inside it; owners changed only from the block's number to
the two new numbers, with `d0` in `nb[0]` and `d1` in `nb[1]`; and both sub-blocks as
`redoLists` leaves them. -/
theorem splitGrow_ok (m : Mesh) (init : block) (s : State) (self : Nat) (g : SplitSt)
    (h : splitGrow m init s self = .ok g) :
    ∃ d0 d1, d0 ≠ d1 ∧
      s.nodeBlocks d0 = (s.blockAt self).blockNum ∧
      s.nodeBlocks d1 = (s.blockAt self).blockNum ∧
      (Reach m s.nodeBlocks (s.blockAt self).blockNum d0 d1 ∨
       Reach m s.nodeBlocks (s.blockAt self).blockNum d1 d0) ∧
      Claimed (s.blockAt self).blockNum s.blocks.length
        (upd (upd s.nodeBlocks d0 ((s.blocks.length : Int) + 1)) d1 s.blocks.length)
        g.nodeBlocks ∧
      g.nb0.blockNum = (s.blocks.length : Int) + 1 ∧
      g.nb1.blockNum = (s.blocks.length : Int) ∧
      g.nb0.intNodes = (ownedNodes m g.nodeBlocks ((s.blocks.length : Int) + 1)).filter
          (fun p => !staysBoundary m g.nodeBlocks ((s.blocks.length : Int) + 1) p) ∧
      g.nb0.boundNodes = (ownedNodes m g.nodeBlocks ((s.blocks.length : Int) + 1)).filter
          (fun p => staysBoundary m g.nodeBlocks ((s.blocks.length : Int) + 1) p) ∧
      g.nb1.intNodes = (ownedNodes m g.nodeBlocks (s.blocks.length : Int)).filter
          (fun p => !staysBoundary m g.nodeBlocks (s.blocks.length : Int) p) ∧
      g.nb1.boundNodes = (ownedNodes m g.nodeBlocks (s.blocks.length : Int)).filter
          (fun p => staysBoundary m g.nodeBlocks (s.blocks.length : Int) p) ∧
      (∀ x ∈ g.nb1.nodes, (∃ y ∈ m.links x, g.nodeBlocks y ≠ (s.blocks.length : Int)) →
        x ∈ g.nb1.boundNodes) := by
  unfold splitGrow at h
  simp only at h
  split at h
  · cases h
  · cases hf : findFurthest m s.nodeBlocks (s.blockAt self)
        (splitSeed m s.nodeBlocks (s.blockAt self).blockNum (s.blockAt self).boundNodes (-1)) with
    | error e => rw [hf] at h; cases h
    | ok fs =>
      rw [hf] at h
      simp only at h
      obtain ⟨hB0, hB1, hR⟩ := findFurthest_ok m s.nodeBlocks _ _ fs hf
      split at h
      · cases h
      · rename_i hne
        have hgl := growLoop_inv m (s.blockAt self).blockNum (s.blocks.length : Int)
          (upd (upd s.nodeBlocks fs.deepLoc0 ((s.blocks.length : Int) + 1)) fs.deepLoc1
            s.blocks.length)
          (s.blockAt self).size.toNat false
          { nodeBlocks := upd (upd s.nodeBlocks fs.deepLoc0 ((s.blocks.length : Int) + 1))
              fs.deepLoc1 ((s.blocks.length : Int) + 0),
            flags := upd (upd s.flags fs.deepLoc0 2) fs.deepLoc1 2,
            nb0 := { (splitNew init (s.blockAt self) s.blocks.length).1 with
              boundNodes := (splitNew init (s.blockAt self) s.blocks.length).1.boundNodes ++
                [fs.deepLoc0] },
            nb1 := { (splitNew init (s.blockAt self) s.blocks.length).2 with
              boundNodes := (splitNew init (s.blockAt self) s.blocks.length).2.boundNodes ++
                [fs.deepLoc1] } }
          rfl (by simp [splitNew]) (by simp only [add_zero]; exact claimed_refl _ _ _)
        simp only [splitNew, add_zero] at h hgl
        generalize hG : growLoop m (s.blockAt self).blockNum (s.blockAt self).size.toNat false _
          = G at h hgl
        cases hr0 : redoLists m G.nodeBlocks G.flags G.nb0 with
        | error e => rw [hr0] at h; cases h
        | ok r0 =>
          obtain ⟨fl2, nb0r⟩ := r0
          rw [hr0] at h
          simp only at h
          cases hr1 : redoLists m G.nodeBlocks fl2 G.nb1 with
          | error e => rw [hr1] at h; cases h
          | ok r1 =>
            obtain ⟨fl3, nb1r⟩ := r1
            rw [hr1] at h
            simp only [Except.ok.injEq] at h
            have e0 := redoLists_ok _ _ _ _ _ _ hr0
            have e1 := redoLists_ok _ _ _ _ _ _ hr1
            have hbd := redoLists_boundary _ _ _ _ _ _ hr1
            rw [hgl.1] at e0
            rw [hgl.2.1] at e1 hbd
            subst h
            refine ⟨fs.deepLoc0, fs.deepLoc1, hne, hB0, hB1, hR, hgl.2.2, ?_, ?_, ?_, ?_, ?_, ?_,
              hbd⟩
            · simp only [e0]
            · simp only [e1]
            · simp only [e0]
            · simp only [e0]
            · simp only [e1]
            · simp only [e1]

/-! ### `split`: link phase -/

theorem modB_guard (s : State) (i : Int) (f : block → block) :
    (if 0 ≤ i then s.modB i f else s) = s.modB i f := by
  unfold State.modB
  by_cases h : 0 ≤ i
  · simp [h]
  · have : i < 0 := by omega
    simp [h, this]

theorem blockAt_push (s : State) (x : block) (j : Nat) :
    State.blockAt { flags := s.flags, nodeBlocks := s.nodeBlocks, blocks := s.blocks ++ [x] } j =
      if j < s.blocks.length then s.blockAt j else if j = s.blocks.length then x else noBlock := by
  simp only [State.blockAt, getD_append_block]

theorem splitLink_length (s : State) (self : Nat) (nb1 : block) (ord : Int) :
    (splitLink s self nb1 ord).blocks.length = s.blocks.length + 1 := by
  unfold splitLink
  simp only [modB_guard]
  split <;>
    simp only [List.length_append, List.length_singleton, modB_length, modAt_length]

theorem splitLink_nodeBlocks (s : State) (self : Nat) (nb1 : block) (ord : Int) :
    (splitLink s self nb1 ord).nodeBlocks = s.nodeBlocks := by
  unfold splitLink
  simp only [modB_guard]
  split <;> simp only [modB_nodeBlocks, modAt_nodeBlocks]

/-- Reading the vector after the link phase of `split`, at an old position. -/
theorem splitLink_blockAt_old (s : State) (self : Nat) (nb1 : block) (ord : Int) (j : Nat)
    (hj : j < s.blocks.length) :
    ((splitLink s self nb1 ord).blockAt j).intNodes = (s.blockAt j).intNodes ∧
    ((splitLink s self nb1 ord).blockAt j).boundNodes = (s.blockAt j).boundNodes ∧
    ((splitLink s self nb1 ord).blockAt j).blockNum = (s.blockAt j).blockNum := by
  unfold splitLink
  simp only [modB_guard]
  split <;>
    (rw [blockAt_push]
     simp only [modB_length, modAt_length, hj, if_true, modB_blockAt, modAt_blockAt]
     repeat' split
     all_goals exact ⟨rfl, rfl, rfl⟩)

/-- Reading the vector after the link phase of `split`, at the new position. -/
theorem splitLink_blockAt_new (s : State) (self : Nat) (nb1 : block) (ord : Int) :
    (splitLink s self nb1 ord).blockAt s.blocks.length =
      if ord = 1 then
        { nb1 with prevBlock := (s.blockAt self).blockNum,
                   nextBlock := (s.blockAt self).nextBlock }
      else
        { nb1 with prevBlock := (s.blockAt self).prevBlock,
                   nextBlock := (s.blockAt self).blockNum } := by
  unfold splitLink
  simp only [modB_guard]
  split <;>
    (rw [blockAt_push]
     simp only [modB_length, modAt_length, lt_irrefl, if_false, if_true])

/-- Links of `blocks[self]` after the link phase of `split`, when its old links do not
point to itself. -/
theorem splitLink_self (s : State) (self : Nat) (nb1 : block) (ord : Int)
    (hself : self < s.blocks.length)
    (hp : (s.blockAt self).prevBlock ≠ (self : Int))
    (hn : (s.blockAt self).nextBlock ≠ (self : Int)) :
    ((splitLink s self nb1 ord).blockAt self).prevBlock =
      (if ord = 1 then (s.blockAt self).prevBlock else nb1.blockNum) ∧
    ((splitLink s self nb1 ord).blockAt self).nextBlock =
      (if ord = 1 then nb1.blockNum else (s.blockAt self).nextBlock) := by
  unfold splitLink
  simp only [modB_guard]
  split <;>
    (rw [blockAt_push]
     simp only [modB_length, modAt_length, hself, if_true, modB_blockAt,
       modAt_blockAt, hp, hn, false_and, if_false, and_self, true_and])

theorem splitFinish_ok (m : Mesh) (s : State) (self : Nat) (g : SplitSt) (r : Int)
    (s' : State) (h : splitFinish m s self g = .ok (r, s')) :
    ∃ fl me1,
      redoLists m (renumber g.nodeBlocks g.nb0 (s.blockAt self).blockNum).1 g.flags
        { s.blockAt self with modifiedTimes := (s.blockAt self).modifiedTimes + 1 } =
          .ok (fl, me1) ∧
      s' = splitLink
        { flags := fl, nodeBlocks := (renumber g.nodeBlocks g.nb0 (s.blockAt self).blockNum).1,
          blocks := s.blocks.set self me1 }
        self g.nb1
        (splitOrd (beforeAfter m g.nodeBlocks (s.blockAt self) g.nb0)
          (beforeAfter m g.nodeBlocks (s.blockAt self) g.nb1)) ∧
      r = (s.blocks.length : Int) := by
  unfold splitFinish at h
  simp only at h
  cases hr : redoLists m (renumber g.nodeBlocks g.nb0 (s.blockAt self).blockNum).1 g.flags
      { s.blockAt self with modifiedTimes := (s.blockAt self).modifiedTimes + 1 } with
  | error e => rw [hr] at h; cases h
  | ok x =>
    obtain ⟨fl, me1⟩ := x
    rw [hr] at h
    simp only [Except.ok.injEq, Prod.mk.injEq] at h
    refine ⟨fl, me1, rfl, h.2.symm, ?_⟩
    rw [← h.1, splitLink_length]
    simp

theorem blockAt_set_self (fl ob : Int → Int) (l : List block) (i : Nat) (x : block)
    (hi : i < l.length) :
    State.blockAt { flags := fl, nodeBlocks := ob, blocks := l.set i x } i = x := by
  simp [State.blockAt, getD_set_block, hi]

theorem blockAt_set_ne (fl ob : Int → Int) (l : List block) (i j : Nat) (x : block)
    (hij : i ≠ j) :
    State.blockAt { flags := fl, nodeBlocks := ob, blocks := l.set i x } j =
      State.blockAt { flags := fl, nodeBlocks := ob, blocks := l } j := by
  simp [State.blockAt, getD_set_block, hij]

theorem prefStep_range (p n ba x : Int) (h : ba = 0 ∨ ba = 1 ∨ ba = 2 ∨ ba = 3) :
    prefStep p n ba x = 0 ∨ prefStep p n ba x = 1 ∨ prefStep p n ba x = 2 ∨
      prefStep p n ba x = 3 := by
  unfold prefStep
  rcases h with h | h | h | h <;> subst h <;> simp only <;> split <;> split <;> simp_all

theorem beforeAfter_range (m : Mesh) (ob : Int → Int) (me nb : block) :
    beforeAfter m ob me nb = 0 ∨ beforeAfter m ob me nb = 1 ∨ beforeAfter m ob me nb = 2 ∨
      beforeAfter m ob me nb = 3 := by
  unfold beforeAfter
  apply foldl_inv (fun ba : Int => ba = 0 ∨ ba = 1 ∨ ba = 2 ∨ ba = 3)
  · exact Or.inl rfl
  · intro st x _ h
    exact prefStep_range _ _ _ _ h

/-! ### `split`: scenario and ordering table -/

/-- C8 (counterexample): on the 4x4 grid with one block owning `{0..7}`, `split` does not
produce the sub-blocks `{0,1,2,3}` and `{4,5,6,7}` (in either slot). -/
theorem split_scenario_not_as_specified :
    WellFormed grid4 splitScenario ∧
    ¬ ∃ r s', split grid4 noBlock splitScenario 0 = .ok (r, s') ∧
        (((∀ n, n ∈ (s'.blockAt 0).nodes ↔ n ∈ [0, 1, 2, 3]) ∧
          (∀ n, n ∈ (s'.getB r).nodes ↔ n ∈ [4, 5, 6, 7])) ∨
         ((∀ n, n ∈ (s'.blockAt 0).nodes ↔ n ∈ [4, 5, 6, 7]) ∧
          (∀ n, n ∈ (s'.getB r).nodes ↔ n ∈ [0, 1, 2, 3]))) := by
  refine ⟨wellFormed_arr _ _ _ _ (by decide) (by decide) (by decide) (by decide!), ?_⟩
  rintro ⟨r, s', h, h0⟩
  have hs : postState (split grid4 noBlock splitScenario 0) splitScenario = s' :=
    postState_ok _ _ _ _ h
  have h1 : (1 : Int) ∈
      ((postState (split grid4 noBlock splitScenario 0) splitScenario).blockAt 0).nodes := by
    decide!
  have h6 : (6 : Int) ∈
      ((postState (split grid4 noBlock splitScenario 0) splitScenario).blockAt 0).nodes := by
    decide!
  rw [hs] at h1 h6
  rcases h0 with ⟨ha, -⟩ | ⟨ha, -⟩
  · have := (ha 6).1 h6
    revert this
    decide
  · have := (ha 1).1 h1
    revert this
    decide

/-- C8 (amended): with the block's lists as `separate` builds them (interior `[0,1,2,3]`,
boundary `[4,5,6,7]`), `split` starts from node 4, finds the endpoints 3 and 4, returns 1
and yields the sub-blocks `{1,2,3,6,7}` (kept at index 0) and `{0,4,5}` (new block 1),
linked one after the other with the new block first. -/
theorem split_scenario_result :
    splitSeed grid4 splitScenario.nodeBlocks (splitScenario.blockAt 0).blockNum
      (splitScenario.blockAt 0).boundNodes (-1) = 4 ∧
    (okOr (findFurthest grid4 splitScenario.nodeBlocks (splitScenario.blockAt 0) 4)
        { deepLoc0 := -1, deepLoc1 := -1, isGood0 := false, isGood1 := false,
          currNode := -1 }).deepLoc0 = 3 ∧
    (okOr (findFurthest grid4 splitScenario.nodeBlocks (splitScenario.blockAt 0) 4)
        { deepLoc0 := -1, deepLoc1 := -1, isGood0 := false, isGood1 := false,
          currNode := -1 }).deepLoc1 = 4 ∧
    ∃ s', split grid4 noBlock splitScenario 0 = .ok (1, s') ∧
      s'.blocks.map block.view = [(0, [2, 3], [1, 6, 7], 1, -1), (1, [], [0, 4, 5], -1, 0)] ∧
      (List.range 16).map (fun (k : Nat) => s'.nodeBlocks (k : Int)) =
        [1, 0, 0, 0, 1, 1, 0, 0, -1, -1, -1, -1, -1, -1, -1, -1] := by
  refine ⟨by decide!, by decide!, by decide!,
    postState (split grid4 noBlock splitScenario 0) splitScenario, ?_, ?_, ?_⟩
  · rfl
  · decide!
  · decide!

/-- C9 (counterexample): in the split scenario both sub-blocks have preference 0 and the
new block is placed before `self` (`self.prev = new`, `new.next = self`), not after it. -/
theorem split_no_preference_puts_new_block_first :
    WellFormed grid4 splitScenario ∧
    splitGrow grid4 noBlock splitScenario 0 = .ok splitScenarioGrown ∧
    beforeAfter grid4 splitScenarioGrown.nodeBlocks (splitScenario.blockAt 0)
      splitScenarioGrown.nb0 = 0 ∧
    beforeAfter grid4 splitScenarioGrown.nodeBlocks (splitScenario.blockAt 0)
      splitScenarioGrown.nb1 = 0 ∧
    split grid4 noBlock splitScenario 0 = .ok (1, splitScenarioAfter) ∧
    ¬ Nb0First splitScenarioAfter 0 1 ∧ Nb1First splitScenarioAfter 0 1 := by
  refine ⟨wellFormed_arr _ _ _ _ (by decide) (by decide) (by decide) (by decide!),
    rfl, by decide!, by decide!, rfl, by decide!, by decide!⟩

/-- C9 (amended): for a block whose links do not point to itself, a completed `split`
returns the old vector length `r` as the new block's index, both preferences are in
`{0,1,2,3}`, and the chain order follows the table, except that for preferences `(0, 0)`
the new block comes first: `nb[0]` (at `self`) is before `nb[1]` (at `r`) for
`(3 or 0, 3)`, `(3 or 0, 2)`, `(3, 0)` and `(1, any)`; `nb[1]` is before `nb[0]` for
`(3 or 0, 1)`, `(0, 0)` and `(2, any)`. -/
theorem split_order_table (m : Mesh) (init : block) (s : State) (self : Nat) (g : SplitSt)
    (r : Int) (s' : State)
    (hself : self < s.blocks.length)
    (hnum : (s.blockAt self).blockNum = (self : Int))
    (hp : (s.blockAt self).prevBlock ≠ (self : Int))
    (hn : (s.blockAt self).nextBlock ≠ (self : Int))
    (hsize : (s.blockAt self).size ≠ 1)
    (hg : splitGrow m init s self = .ok g)
    (hs : split m init s self = .ok (r, s')) :
    r = (s.blocks.length : Int) ∧
    (beforeAfter m g.nodeBlocks (s.blockAt self) g.nb0 ∈ [0, 1, 2, 3]) ∧
    (beforeAfter m g.nodeBlocks (s.blockAt self) g.nb1 ∈ [0, 1, 2, 3]) ∧
    ((beforeAfter m g.nodeBlocks (s.blockAt self) g.nb0 = 3 ∨
      beforeAfter m g.nodeBlocks (s.blockAt self) g.nb0 = 0) ∧
      beforeAfter m g.nodeBlocks (s.blockAt self) g.nb1 = 3 → Nb0First s' self r) ∧
    ((beforeAfter m g.nodeBlocks (s.blockAt self) g.nb0 = 3 ∨
      beforeAfter m g.nodeBlocks (s.blockAt self) g.nb0 = 0) ∧
      beforeAfter m g.nodeBlocks (s.blockAt self) g.nb1 = 2 → Nb0First s' self r) ∧
    ((beforeAfter m g.nodeBlocks (s.blockAt self) g.nb0 = 3 ∨
      beforeAfter m g.nodeBlocks (s.blockAt self) g.nb0 = 0) ∧
      beforeAfter m g.nodeBlocks (s.blockAt self) g.nb1 = 1 → Nb1First s' self r) ∧
    (beforeAfter m g.nodeBlocks (s.blockAt self) g.nb0 = 3 ∧
      beforeAfter m g.nodeBlocks (s.blockAt self) g.nb1 = 0 → Nb0First s' self r) ∧
    (beforeAfter m g.nodeBlocks (s.blockAt self) g.nb0 = 0 ∧
      beforeAfter m g.nodeBlocks (s.blockAt self) g.nb1 = 0 → Nb1First s' self r) ∧
    (beforeAfter m g.nodeBlocks (s.blockAt self) g.nb0 = 2 → Nb1First s' self r) ∧
    (beforeAfter m g.nodeBlocks (s.blockAt self) g.nb0 = 1 → Nb0First s' self r) := by
  unfold split at hs
  simp only [hsize, if_false, hg] at hs
  obtain ⟨fl, me1, hredo, hs', hr⟩ := splitFinish_ok m s self g r s' hs
  have hme1 := redoLists_ok _ _ _ _ _ _ hredo
  obtain ⟨-, -, -, -, -, -, -, -, hnb1, -⟩ := splitGrow_ok m init s self g hg
  generalize hba0 : beforeAfter m g.nodeBlocks (s.blockAt self) g.nb0 = ba0 at *
  generalize hba1 : beforeAfter m g.nodeBlocks (s.blockAt self) g.nb1 = ba1 at *
  have hr0 : ba0 = 0 ∨ ba0 = 1 ∨ ba0 = 2 ∨ ba0 = 3 := hba0 ▸ beforeAfter_range _ _ _ _
  have hr1 : ba1 = 0 ∨ ba1 = 1 ∨ ba1 = 2 ∨ ba1 = 3 := hba1 ▸ beforeAfter_range _ _ _ _
  -- the state handed to the link phase
  have hlen1 : (State.mk fl (renumber g.nodeBlocks g.nb0 (s.blockAt self).blockNum).1
      (s.blocks.set self me1)).blocks.length = s.blocks.length := by simp
  have hat : State.blockAt (State.mk fl (renumber g.nodeBlocks g.nb0 (s.blockAt self).blockNum).1
      (s.blocks.set self me1)) self = me1 := blockAt_set_self _ _ _ _ _ hself
  have hp1 : me1.prevBlock = (s.blockAt self).prevBlock := by rw [hme1]
  have hn1 : me1.nextBlock = (s.blockAt self).nextBlock := by rw [hme1]
  have hb1 : me1.blockNum = (s.blockAt self).blockNum := by rw [hme1]
  have hlink := splitLink_self (State.mk fl (renumber g.nodeBlocks g.nb0 (s.blockAt self).blockNum).1
      (s.blocks.set self me1)) self g.nb1 (splitOrd ba0 ba1) (by rw [hlen1]; exact hself)
      (by rw [hat, hp1]; exact hp) (by rw [hat, hn1]; exact hn)
  have hnew := splitLink_blockAt_new (State.mk fl
      (renumber g.nodeBlocks g.nb0 (s.blockAt self).blockNum).1
      (s.blocks.set self me1)) self g.nb1 (splitOrd ba0 ba1)
  rw [← hs', hlen1, hat] at hnew
  rw [← hs', hat] at hlink
  have first : splitOrd ba0 ba1 = 1 → Nb0First s' self r := by
    intro ho
    unfold Nb0First
    rw [hr, getB_natCast, hnew, hlink.2]
    simp only [ho, if_true, hb1, hnum, hnb1, and_self]
  have second : splitOrd ba0 ba1 ≠ 1 → Nb1First s' self r := by
    intro ho
    unfold Nb1First
    rw [hr, getB_natCast, hnew, hlink.1]
    simp only [ho, if_false, hb1, hnum, hnb1, and_self]
  refine ⟨hr, ?_, ?_, ?_, ?_, ?_, ?_, ?_, ?_, ?_⟩
  · simpa using hr0
  · simpa using hr1
  · rintro ⟨h0 | h0, h1⟩ <;> subst h0 h1 <;> exact first (by decide)
  · rintro ⟨h0 | h0, h1⟩ <;> subst h0 h1 <;> exact first (by decide)
  · rintro ⟨h0 | h0, h1⟩ <;> subst h0 h1 <;> exact second (by decide)
  · rintro ⟨h0, h1⟩; subst h0 h1; exact first (by decide)
  · rintro ⟨h0, h1⟩; subst h0 h1; exact second (by decide)
  · intro h0
    subst h0
    apply second
    rcases hr1 with h | h | h | h <;> subst h <;> decide
  · intro h0
    subst h0
    apply first
    rcases hr1 with h | h | h | h <;> subst h <;> decide

/-- C9 (amended), instance: the split scenario, where both preferences are 0 and the new
block 1 comes first. -/
theorem split_order_table_witness :
    0 < splitScenario.blocks.length ∧
    (splitScenario.blockAt 0).blockNum = 0 ∧
    (splitScenario.blockAt 0).prevBlock ≠ 0 ∧
    (splitScenario.blockAt 0).nextBlock ≠ 0 ∧
    (splitScenario.blockAt 0).size ≠ 1 ∧
    splitGrow grid4 noBlock splitScenario 0 = .ok splitScenarioGrown ∧
    split grid4 noBlock splitScenario 0 = .ok (1, splitScenarioAfter) ∧
    Nb1First splitScenarioAfter 0 1 :=
  ⟨by decide, by decide, by decide, by decide, by decide, rfl, rfl,
   (split_order_table grid4 noBlock splitScenario 0 splitScenarioGrown 1 splitScenarioAfter
      (by decide) (by decide) (by decide) (by decide) (by decide) rfl rfl).2.2.2.2.2.2.2.1
      ⟨by decide!, by decide!⟩⟩

/-! ### `split`: the two parts partition the block -/

theorem renumber_apply (ob : Int → Int) (b : block) (v n : Int) :
    (renumber ob b v).1 n = if n ∈ b.nodes then v else ob n := by
  unfold renumber block.nodes
  simp only [updAll_apply, List.mem_append]
  by_cases h1 : n ∈ b.boundNodes
  · simp [h1]
  · by_cases h2 : n ∈ b.intNodes
    · simp [h1, h2]
    · simp [h1, h2]

theorem mem_filter_split (l : List Int) (p : Int → Bool) (n : Int) :
    (n ∈ l.filter (fun x => !p x) ++ l.filter p) ↔ n ∈ l := by
  simp only [List.mem_append, List.mem_filter, Bool.not_eq_true']
  constructor
  · rintro (⟨h, -⟩ | ⟨h, -⟩) <;> exact h
  · intro h
    cases hp : p n
    · exact Or.inl ⟨h, rfl⟩
    · exact Or.inr ⟨h, rfl⟩

/-- Summary of the owner changes of the growth phase, node by node. -/
theorem split_owner_summary (B L d0 d1 : Int) (sb gb : Int → Int)
    (hc : Claimed B L (upd (upd sb d0 (L + 1)) d1 L) gb)
    (h0 : sb d0 = B) (h1 : sb d1 = B) (hne : d0 ≠ d1) (hBL : B < L) :
    gb d0 = L + 1 ∧ gb d1 = L ∧
    ∀ n, (sb n = B ∧ (gb n = B ∨ gb n = L ∨ gb n = L + 1)) ∨ (sb n ≠ B ∧ gb n = sb n) := by
  have e1 : upd (upd sb d0 (L + 1)) d1 L d1 = L := by simp [upd_apply]
  have e0 : upd (upd sb d0 (L + 1)) d1 L d0 = L + 1 := by simp [upd_apply, hne]
  refine ⟨?_, ?_, ?_⟩
  · rcases hc d0 with h | ⟨h, -⟩
    · rw [h, e0]
    · rw [e0] at h; omega
  · rcases hc d1 with h | ⟨h, -⟩
    · rw [h, e1]
    · rw [e1] at h; omega
  · intro n
    by_cases hn1 : n = d1
    · subst hn1
      left
      refine ⟨h1, Or.inr (Or.inl ?_)⟩
      rcases hc n with h | ⟨h, -⟩
      · rw [h, e1]
      · rw [e1] at h; omega
    · by_cases hn0 : n = d0
      · subst hn0
        left
        refine ⟨h0, Or.inr (Or.inr ?_)⟩
        rcases hc n with h | ⟨h, -⟩
        · rw [h, e0]
        · rw [e0] at h; omega
      · have e : upd (upd sb d0 (L + 1)) d1 L n = sb n := by simp [upd_apply, hn0, hn1]
        rcases hc n with h | ⟨h, h2⟩
        · rw [e] at h
          by_cases hb : sb n = B
          · exact Or.inl ⟨hb, Or.inl (by rw [h, hb])⟩
          · exact Or.inr ⟨hb, h⟩
        · rw [e] at h
          exact Or.inl ⟨h, Or.inr h2⟩

/-- The facts about a completed `split` shared by the theorems below. -/
theorem split_core (m : Mesh) (init : block) (s : State) (self : Nat) (r : Int)
    (s' : State)
    (hself : self < s.blocks.length)
    (hP1 : OwnerLists s)
    (hnum : (s.blockAt self).blockNum = (self : Int))
    (hvalid : NodesValid m s self)
    (hsize : 2 ≤ (s.blockAt self).size)
    (hs : split m init s self = .ok (r, s')) :
    ∃ (g : SplitSt) (d0 d1 : Int) (fl : Int → Int) (me1 : block),
      r = (s.blocks.length : Int) ∧
      s' = splitLink
        { flags := fl, nodeBlocks := (renumber g.nodeBlocks g.nb0 (self : Int)).1,
          blocks := s.blocks.set self me1 }
        self g.nb1
        (splitOrd (beforeAfter m g.nodeBlocks (s.blockAt self) g.nb0)
          (beforeAfter m g.nodeBlocks (s.blockAt self) g.nb1)) ∧
      redoLists m (renumber g.nodeBlocks g.nb0 (self : Int)).1 g.flags
        { s.blockAt self with modifiedTimes := (s.blockAt self).modifiedTimes + 1 } =
          .ok (fl, me1) ∧
      g.nb1.blockNum = (s.blocks.length : Int) ∧
      (∀ x ∈ g.nb1.nodes, (∃ y ∈ m.links x, g.nodeBlocks y ≠ (s.blocks.length : Int)) →
        x ∈ g.nb1.boundNodes) ∧
      ((s'.blockAt self).intNodes = me1.intNodes ∧
       (s'.blockAt self).boundNodes = me1.boundNodes) ∧
      ((s'.getB r).intNodes = g.nb1.intNodes ∧ (s'.getB r).boundNodes = g.nb1.boundNodes) ∧
      s.nodeBlocks d0 = (self : Int) ∧ s.nodeBlocks d1 = (self : Int) ∧
      (Reach m s.nodeBlocks (self : Int) d0 d1 ∨ Reach m s.nodeBlocks (self : Int) d1 d0) ∧
      g.nodeBlocks d0 = (s.blocks.length : Int) + 1 ∧
      g.nodeBlocks d1 = (s.blocks.length : Int) ∧
      (∀ n, n ∈ (s'.blockAt self).nodes ↔
        (s.nodeBlocks n = (self : Int) ∧ g.nodeBlocks n ≠ (s.blocks.length : Int))) ∧
      (∀ n, n ∈ (s'.getB r).nodes ↔
        (s.nodeBlocks n = (self : Int) ∧ g.nodeBlocks n = (s.blocks.length : Int))) ∧
      (∀ n, s'.nodeBlocks n =
        if (0 ≤ n ∧ n < (m.nNodes : Int)) ∧ g.nodeBlocks n = (s.blocks.length : Int) + 1
        then (self : Int) else g.nodeBlocks n) ∧
      (∀ n, (s.nodeBlocks n = (self : Int) ∧
          (g.nodeBlocks n = (self : Int) ∨ g.nodeBlocks n = (s.blocks.length : Int) ∨
           g.nodeBlocks n = (s.blocks.length : Int) + 1)) ∨
        (s.nodeBlocks n ≠ (self : Int) ∧ g.nodeBlocks n = s.nodeBlocks n)) ∧
      (∀ n, s.nodeBlocks n = (self : Int) → 0 ≤ n ∧ n < (m.nNodes : Int)) ∧
      (∀ n, s.nodeBlocks n = (self : Int) ↔ n ∈ (s.blockAt self).nodes) ∧
      (∀ n, s.nodeBlocks n ≠ (s.blocks.length : Int) + 1) := by
  unfold split at hs
  have hsz : ¬ (s.blockAt self).size = 1 := by omega
  simp only [hsz, if_false] at hs
  cases hg : splitGrow m init s self with
  | error e => rw [hg] at hs; cases hs
  | ok g =>
    rw [hg] at hs
    simp only at hs
    obtain ⟨fl, me1, hredo, hs', hr⟩ := splitFinish_ok m s self g r s' hs
    obtain ⟨d0, d1, hne, hd0, hd1, hreach, hcl, hb0, hb1, hi0, hbd0, hi1, hbd1, hbnd⟩ :=
      splitGrow_ok m init s self g hg
    rw [hnum] at hd0 hd1 hcl hredo hs' hreach
    -- facts from P1
    have hown : ∀ n, s.nodeBlocks n = (self : Int) ↔ n ∈ (s.blockAt self).nodes := by
      intro n
      rw [hP1 n self]
      exact ⟨fun h => h.2, fun h => ⟨hself, h⟩⟩
    have hnoL : ∀ n, s.nodeBlocks n ≠ (s.blocks.length : Int) := by
      intro n h
      have := (hP1 n s.blocks.length).1 h
      omega
    have hnoL1 : ∀ n, s.nodeBlocks n ≠ (s.blocks.length : Int) + 1 := by
      intro n h
      have := (hP1 n (s.blocks.length + 1)).1 (by rw [h]; push_cast; rfl)
      omega
    have hBL : (self : Int) < (s.blocks.length : Int) := by exact_mod_cast hself
    obtain ⟨hg0, hg1, hsum⟩ := split_owner_summary (self : Int) (s.blocks.length : Int) d0 d1
      s.nodeBlocks g.nodeBlocks hcl hd0 hd1 hne hBL
    -- node sets of the sub-blocks
    have hn0 : ∀ n, n ∈ g.nb0.nodes ↔
        (0 ≤ n ∧ n < (m.nNodes : Int)) ∧ g.nodeBlocks n = (s.blocks.length : Int) + 1 := by
      intro n
      unfold block.nodes
      rw [hi0, hbd0, mem_filter_split, mem_ownedNodes]
    have hn1 : ∀ n, n ∈ g.nb1.nodes ↔
        (0 ≤ n ∧ n < (m.nNodes : Int)) ∧ g.nodeBlocks n = (s.blocks.length : Int) := by
      intro n
      unfold block.nodes
      rw [hi1, hbd1, mem_filter_split, mem_ownedNodes]
    have hme1 : ∀ n, n ∈ me1.nodes ↔ (0 ≤ n ∧ n < (m.nNodes : Int)) ∧
        (renumber g.nodeBlocks g.nb0 (self : Int)).1 n = (self : Int) := by
      intro n
      have := redoLists_nodes _ _ _ _ _ _ hredo n
      simpa [hnum] using this
    -- the final state
    have hlen1 : (State.mk fl (renumber g.nodeBlocks g.nb0 (self : Int)).1
        (s.blocks.set self me1)).blocks.length = s.blocks.length := by simp
    have hat : State.blockAt (State.mk fl (renumber g.nodeBlocks g.nb0 (self : Int)).1
        (s.blocks.set self me1)) self = me1 := blockAt_set_self _ _ _ _ _ hself
    have hold := splitLink_blockAt_old (State.mk fl (renumber g.nodeBlocks g.nb0 (self : Int)).1
        (s.blocks.set self me1)) self g.nb1
        (splitOrd (beforeAfter m g.nodeBlocks (s.blockAt self) g.nb0)
          (beforeAfter m g.nodeBlocks (s.blockAt self) g.nb1)) self (by rw [hlen1]; exact hself)
    have hnew := splitLink_blockAt_new (State.mk fl (renumber g.nodeBlocks g.nb0 (self : Int)).1
        (s.blocks.set self me1)) self g.nb1
        (splitOrd (beforeAfter m g.nodeBlocks (s.blockAt self) g.nb0)
          (beforeAfter m g.nodeBlocks (s.blockAt self) g.nb1))
    have hnb := splitLink_nodeBlocks (State.mk fl (renumber g.nodeBlocks g.nb0 (self : Int)).1
        (s.blocks.set self me1)) self g.nb1
        (splitOrd (beforeAfter m g.nodeBlocks (s.blockAt self) g.nb0)
          (beforeAfter m g.nodeBlocks (s.blockAt self) g.nb1))
    rw [← hs'] at hold hnew hnb
    have hnb2 : (renumber g.nodeBlocks g.nb0 (self : Int)).1 = s'.nodeBlocks := hnb.symm
    rw [hlen1] at hnew
    rw [hat] at hold
    have hselfN : ∀ n, n ∈ (s'.blockAt self).nodes ↔ n ∈ me1.nodes := by
      intro n; unfold block.nodes; rw [hold.1, hold.2.1]
    have hrN : ∀ n, n ∈ (s'.getB r).nodes ↔ n ∈ g.nb1.nodes := by
      intro n
      rw [hr, getB_natCast, hnew]
      unfold block.nodes
      split <;> rfl
    have hob : ∀ n, s'.nodeBlocks n =
        if (0 ≤ n ∧ n < (m.nNodes : Int)) ∧ g.nodeBlocks n = (s.blocks.length : Int) + 1
        then (self : Int) else g.nodeBlocks n := by
      intro n
      rw [hnb]
      simp only [renumber_apply, hn0]
    have hrange : ∀ n, s.nodeBlocks n = (self : Int) → 0 ≤ n ∧ n < (m.nNodes : Int) :=
      fun n h => hvalid n ((hown n).1 h)
    -- membership in the two final blocks, in terms of the owner arrays
    have hA : ∀ n, n ∈ (s'.blockAt self).nodes ↔
        (s.nodeBlocks n = (self : Int) ∧ g.nodeBlocks n ≠ (s.blocks.length : Int)) := by
      intro n
      rw [hselfN, hme1, hnb2, hob]
      rcases hsum n with ⟨h1, h2⟩ | ⟨h1, h2⟩
      · have hr := hrange n h1
        rcases h2 with h2 | h2 | h2
        · simp only [h2, h1, hr, and_self, true_and]
          constructor
          · intro _; omega
          · intro _; split <;> rfl
        · simp only [h2, h1, hr, and_self, true_and]
          constructor
          · intro h; split at h <;> omega
          · intro h; omega
        · have hc : (0 ≤ n ∧ n < (m.nNodes : Int)) ∧
              g.nodeBlocks n = (s.blocks.length : Int) + 1 := ⟨hr, h2⟩
          rw [if_pos hc]
          constructor
          · intro _; exact ⟨h1, by rw [h2]; omega⟩
          · intro _; exact ⟨hr, rfl⟩
      · constructor
        · rintro ⟨hr, h⟩
          rw [h2] at h
          have := hnoL1 n
          simp only [this, and_false, if_false] at h
          exact absurd h h1
        · rintro ⟨h, -⟩
          exact absurd h h1
    have hB : ∀ n, n ∈ (s'.getB r).nodes ↔
        (s.nodeBlocks n = (self : Int) ∧ g.nodeBlocks n = (s.blocks.length : Int)) := by
      intro n
      rw [hrN, hn1]
      rcases hsum n with ⟨h1, h2⟩ | ⟨h1, h2⟩
      · have hr := hrange n h1
        simp only [hr, and_self, true_and, h1]
      · constructor
        · rintro ⟨-, h⟩
          rw [h2] at h
          exact absurd h (hnoL n)
        · rintro ⟨h, -⟩
          exact absurd h h1
    have hrB : (s'.getB r).intNodes = g.nb1.intNodes ∧
        (s'.getB r).boundNodes = g.nb1.boundNodes := by
      rw [hr, getB_natCast, hnew]
      split <;> exact ⟨rfl, rfl⟩
    exact ⟨g, d0, d1, fl, me1, hr, hs', hredo, hb1, hbnd, ⟨hold.1, hold.2.1⟩, hrB, hd0, hd1,
      hreach, hg0, hg1, hA, hB, hob, hsum, hrange, hown, hnoL1⟩

/-- C7: `split` partitions the block.  For a block `self` of size at least 2 whose lists hold
exactly the nodes it owns (P1, covering I1 and I2) and only valid node ids, a completed
`split` returns the index `r` of the new last block; `blocks[self]` and `blocks[r]` are both
non-empty, share no node, together hold exactly the nodes `self` had before, own their
nodes, and the owner of every other node is unchanged. -/
theorem split_partitions_block (m : Mesh) (init : block) (s : State) (self : Nat) (r : Int)
    (s' : State)
    (hself : self < s.blocks.length)
    (hP1 : OwnerLists s)
    (hnum : (s.blockAt self).blockNum = (self : Int))
    (hvalid : NodesValid m s self)
    (hsize : 2 ≤ (s.blockAt self).size)
    (hs : split m init s self = .ok (r, s')) :
    r = (s.blocks.length : Int) ∧
    (s'.blockAt self).nodes ≠ [] ∧ (s'.getB r).nodes ≠ [] ∧
    (∀ n, ¬ (n ∈ (s'.blockAt self).nodes ∧ n ∈ (s'.getB r).nodes)) ∧
    (∀ n, (n ∈ (s'.blockAt self).nodes ∨ n ∈ (s'.getB r).nodes) ↔ n ∈ (s.blockAt self).nodes) ∧
    (∀ n, n ∈ (s'.blockAt self).nodes → s'.nodeBlocks n = (self : Int)) ∧
    (∀ n, n ∈ (s'.getB r).nodes → s'.nodeBlocks n = r) ∧
    (∀ n, n ∉ (s.blockAt self).nodes → s'.nodeBlocks n = s.nodeBlocks n) := by
  obtain ⟨g, d0, d1, fl, me1, hr, -, -, -, -, -, -, hd0, hd1, -, hg0, hg1, hA, hB, hob, hsum,
    hrange, hown, hnoL1⟩ := split_core m init s self r s' hself hP1 hnum hvalid hsize hs
  refine ⟨hr, ?_, ?_, ?_, ?_, ?_, ?_, ?_⟩
  · intro he
    have : d0 ∈ (s'.blockAt self).nodes := (hA d0).2 ⟨hd0, by rw [hg0]; omega⟩
    rw [he] at this
    exact absurd this (List.not_mem_nil _)
  · intro he
    have : d1 ∈ (s'.getB r).nodes := (hB d1).2 ⟨hd1, hg1⟩
    rw [he] at this
    exact absurd this (List.not_mem_nil _)
  · rintro n ⟨h1, h2⟩
    exact ((hA n).1 h1).2 ((hB n).1 h2).2
  · intro n
    rw [hA, hB, ← hown]
    constructor
    · rintro (h | h) <;> exact h.1
    · intro h
      by_cases hL : g.nodeBlocks n = (s.blocks.length : Int)
      · exact Or.inr ⟨h, hL⟩
      · exact Or.inl ⟨h, hL⟩
  · intro n hn
    obtain ⟨h1, h2⟩ := (hA n).1 hn
    rw [hob]
    split
    · rfl
    · rename_i hc
      have hr := hrange n h1
      rcases hsum n with ⟨-, h3 | h3 | h3⟩ | ⟨h3, -⟩
      · exact h3
      · exact absurd h3 h2
      · exact absurd ⟨hr, h3⟩ hc
      · exact absurd h1 h3
  · intro n hn
    obtain ⟨h1, h2⟩ := (hB n).1 hn
    rw [hob, hr, h2]
    simp
  · intro n hn
    have h1 : s.nodeBlocks n ≠ (self : Int) := fun h => hn ((hown n).1 h)
    rcases hsum n with ⟨h3, -⟩ | ⟨-, h3⟩
    · exact absurd h3 h1
    · rw [hob, h3]
      have := hnoL1 n
      simp [this]

/-- C7, instance: the split scenario (one block owning `{0..7}` of the 4x4 grid). -/
theorem split_partitions_block_witness :
    0 < splitScenario.blocks.length ∧ OwnerLists splitScenario ∧
    (splitScenario.blockAt 0).blockNum = 0 ∧ NodesValid grid4 splitScenario 0 ∧
    2 ≤ (splitScenario.blockAt 0).size ∧
    split grid4 noBlock splitScenario 0 = .ok (1, splitScenarioAfter) ∧
    (∀ n, (n ∈ (splitScenarioAfter.blockAt 0).nodes ∨ n ∈ (splitScenarioAfter.getB 1).nodes) ↔
      n ∈ (splitScenario.blockAt 0).nodes) :=
  ⟨by decide, ownerLists_arr _ _ _ (by decide) (by decide) (by decide), by decide, by decide,
   by decide, rfl,
   (split_partitions_block grid4 noBlock splitScenario 0 1 splitScenarioAfter (by decide)
      (ownerLists_arr _ _ _ (by decide) (by decide) (by decide)) (by decide) (by decide)
      (by decide) rfl).2.2.2.2.1⟩

/-! ### `split`: link symmetry and adjacency of the two parts -/

/-- Inserting a new element `L` after `self` in a doubly linked index structure with
forward map `f` and backward map `g` keeps the two maps mutually inverse. -/
theorem link_insert (L self : Nat) (f g f' g' : Nat → Int)
    (hself : self < L)
    (hfg : ∀ a, a < L → 0 ≤ f a → (f a).toNat < L ∧ g (f a).toNat = (a : Int))
    (hgf : ∀ a, a < L → 0 ≤ g a → (g a).toNat < L ∧ f (g a).toNat = (a : Int))
    (hf : f self ≠ (self : Int)) (hg : g self ≠ (self : Int))
    (hf' : ∀ j, j < L → f' j =
      if g self = (j : Int) then (self : Int) else if self = j then (L : Int) else f j)
    (hg' : ∀ j, j < L → g' j =
      if f self = (j : Int) then (L : Int) else if self = j then g self else g j)
    (hfL : f' L = f self) (hgL : g' L = (self : Int)) :
    ∀ a, a < L + 1 →
      (0 ≤ f' a → (f' a).toNat < L + 1 ∧ g' (f' a).toNat = (a : Int)) ∧
      (0 ≤ g' a → (g' a).toNat < L + 1 ∧ f' (g' a).toNat = (a : Int)) := by
  intro a ha
  by_cases haL : a = L
  · subst haL
    constructor
    · intro h0
      rw [hfL] at h0 ⊢
      obtain ⟨h1, h2⟩ := hfg self hself h0
      refine ⟨by omega, ?_⟩
      rw [hg' _ h1]
      have : f self = ((f self).toNat : Int) := by omega
      rw [if_pos this]
    · intro _
      rw [hgL]
      refine ⟨by simp; omega, ?_⟩
      simp only [Int.toNat_ofNat]
      rw [hf' _ hself, if_neg hg, if_pos rfl]
  · have haL' : a < L := by omega
    constructor
    · intro h0
      rw [hf' a haL'] at h0 ⊢
      by_cases c1 : g self = (a : Int)
      · rw [if_pos c1]
        refine ⟨by simp; omega, ?_⟩
        simp only [Int.toNat_ofNat]
        rw [hg' _ hself, if_neg hf, if_pos rfl, c1]
      · rw [if_neg c1] at h0 ⊢
        by_cases c2 : self = a
        · rw [if_pos c2]
          refine ⟨by simp, ?_⟩
          simp only [Int.toNat_ofNat]
          rw [hgL, c2]
        · rw [if_neg c2] at h0 ⊢
          obtain ⟨h1, h2⟩ := hfg a haL' h0
          refine ⟨by omega, ?_⟩
          rw [hg' _ h1]
          by_cases c3 : f self = (((f a).toNat : Nat) : Int)
          · exfalso
            have h3 : 0 ≤ f self := by omega
            obtain ⟨h4, h5⟩ := hfg self hself h3
            have : (f self).toNat = (f a).toNat := by omega
            rw [this, h2] at h5
            omega
          · rw [if_neg c3]
            by_cases c4 : self = (f a).toNat
            · rw [if_pos c4, c4, h2]
            · rw [if_neg c4, h2]
    · intro h0
      rw [hg' a haL'] at h0 ⊢
      by_cases c1 : f self = (a : Int)
      · rw [if_pos c1]
        refine ⟨by simp, ?_⟩
        simp only [Int.toNat_ofNat]
        rw [hfL, c1]
      · rw [if_neg c1] at h0 ⊢
        by_cases c2 : self = a
        · rw [if_pos c2] at h0 ⊢
          obtain ⟨h1, h2⟩ := hgf self hself h0
          refine ⟨by omega, ?_⟩
          rw [hf' _ h1]
          have : g self = ((g self).toNat : Int) := by omega
          rw [if_pos this, c2]
        · rw [if_neg c2] at h0 ⊢
          obtain ⟨h1, h2⟩ := hgf a haL' h0
          refine ⟨by omega, ?_⟩
          rw [hf' _ h1]
          by_cases c3 : g self = (((g a).toNat : Nat) : Int)
          · exfalso
            have h3 : 0 ≤ g self := by omega
            obtain ⟨h4, h5⟩ := hgf self hself h3
            have : (g self).toNat = (g a).toNat := by omega
            rw [this, h2] at h5
            omega
          · rw [if_neg c3]
            by_cases c4 : self = (g a).toNat
            · exfalso
              rw [← c4] at h2
              exact c1 h2
            · rw [if_neg c4, h2]

theorem linkSym_abstract (s : State) (h : LinkSym s) :
    (∀ a, a < s.blocks.length → 0 ≤ (s.blockAt a).nextBlock →
      ((s.blockAt a).nextBlock).toNat < s.blocks.length ∧
      (s.blockAt ((s.blockAt a).nextBlock).toNat).prevBlock = (a : Int)) ∧
    (∀ a, a < s.blocks.length → 0 ≤ (s.blockAt a).prevBlock →
      ((s.blockAt a).prevBlock).toNat < s.blocks.length ∧
      (s.blockAt ((s.blockAt a).prevBlock).toNat).nextBlock = (a : Int)) := by
  constructor
  · intro a ha h0
    have h1 := (h a ha).1 h0
    unfold State.getB at h1
    refine ⟨?_, h1⟩
    by_contra hc
    rw [blockAt_of_not_lt _ _ hc] at h1
    simp only [noBlock] at h1
    omega
  · intro a ha h0
    have h1 := (h a ha).2 h0
    unfold State.getB at h1
    refine ⟨?_, h1⟩
    by_contra hc
    rw [blockAt_of_not_lt _ _ hc] at h1
    simp only [noBlock] at h1
    omega

/-- Link fields after the link phase of `split`, at the old positions. -/
theorem splitLink_links_old (s : State) (self : Nat) (nb1 : block) (ord : Int) (j : Nat)
    (hj : j < s.blocks.length) :
    ((splitLink s self nb1 ord).blockAt j).nextBlock =
      (if ord = 1 then
        (if (s.blockAt self).prevBlock = (j : Int) then (s.blockAt self).blockNum
         else if self = j then nb1.blockNum else (s.blockAt j).nextBlock)
       else
        (if (s.blockAt self).prevBlock = (j : Int) then nb1.blockNum
         else if self = j then (s.blockAt self).nextBlock else (s.blockAt j).nextBlock)) ∧
    ((splitLink s self nb1 ord).blockAt j).prevBlock =
      (if ord = 1 then
        (if (s.blockAt self).nextBlock = (j : Int) then nb1.blockNum
         else if self = j then (s.blockAt self).prevBlock else (s.blockAt j).prevBlock)
       else
        (if (s.blockAt self).nextBlock = (j : Int) then (s.blockAt self).blockNum
         else if self = j then nb1.blockNum else (s.blockAt j).prevBlock)) := by
  unfold splitLink
  simp only [modB_guard]
  by_cases ho : ord = 1
  · simp only [ho, if_true]
    rw [blockAt_push]
    simp only [modB_length, modAt_length, hj, if_true, modB_blockAt, modAt_blockAt, and_true]
    constructor <;> (repeat' split) <;> simp_all
  · simp only [ho, if_false]
    rw [blockAt_push]
    simp only [modB_length, modAt_length, hj, if_true, modB_blockAt, modAt_blockAt, and_true]
    constructor <;> (repeat' split) <;> simp_all

/-- The link phase of `split` keeps link symmetry. -/
theorem splitLink_linkSym (s : State) (self : Nat) (nb1 : block) (ord : Int)
    (hself : self < s.blocks.length) (hsym : LinkSym s)
    (hnum : (s.blockAt self).blockNum = (self : Int))
    (hp : (s.blockAt self).prevBlock ≠ (self : Int))
    (hn : (s.blockAt self).nextBlock ≠ (self : Int))
    (hnb : nb1.blockNum = (s.blocks.length : Int)) :
    LinkSym (splitLink s self nb1 ord) := by
  obtain ⟨hfg, hgf⟩ := linkSym_abstract s hsym
  have hlen := splitLink_length s self nb1 ord
  have hnew := splitLink_blockAt_new s self nb1 ord
  intro a ha
  rw [hlen] at ha
  unfold State.getB
  by_cases ho : ord = 1
  · subst ho
    rw [if_pos rfl] at hnew
    have key := link_insert s.blocks.length self
      (fun j => (s.blockAt j).nextBlock) (fun j => (s.blockAt j).prevBlock)
      (fun j => ((splitLink s self nb1 1).blockAt j).nextBlock)
      (fun j => ((splitLink s self nb1 1).blockAt j).prevBlock)
      hself hfg hgf hn hp
      (fun j hj => by
        have := (splitLink_links_old s self nb1 1 j hj).1
        simp only [if_true, hnum, hnb] at this
        exact this)
      (fun j hj => by
        have := (splitLink_links_old s self nb1 1 j hj).2
        simp only [if_true, hnum, hnb] at this
        exact this)
      (by simp only [hnew])
      (by simp only [hnew, hnum])
      a ha
    exact ⟨fun h => (key.1 h).2, fun h => (key.2 h).2⟩
  · have key := link_insert s.blocks.length self
      (fun j => (s.blockAt j).prevBlock) (fun j => (s.blockAt j).nextBlock)
      (fun j => ((splitLink s self nb1 ord).blockAt j).prevBlock)
      (fun j => ((splitLink s self nb1 ord).blockAt j).nextBlock)
      hself hgf hfg hp hn
      (fun j hj => by
        have := (splitLink_links_old s self nb1 ord j hj).2
        simp only [ho, if_false, hnum, hnb] at this
        exact this)
      (fun j hj => by
        have := (splitLink_links_old s self nb1 ord j hj).1
        simp only [ho, if_false, hnum, hnb] at this
        exact this)
      (by
        show ((splitLink s self nb1 ord).blockAt s.blocks.length).prevBlock =
          (s.blockAt self).prevBlock
        rw [hnew, if_neg ho])
      (by
        show ((splitLink s self nb1 ord).blockAt s.blocks.length).nextBlock = (self : Int)
        rw [hnew, if_neg ho]; exact hnum)
      a ha
    exact ⟨fun h => (key.2 h).2, fun h => (key.1 h).2⟩

theorem linkSym_congr (s t : State) (hlen : t.blocks.length = s.blocks.length)
    (hl : ∀ j, (t.blockAt j).prevBlock = (s.blockAt j).prevBlock ∧
      (t.blockAt j).nextBlock = (s.blockAt j).nextBlock)
    (h : LinkSym s) : LinkSym t := by
  intro a ha
  rw [hlen] at ha
  have := h a ha
  unfold State.getB at this ⊢
  rw [(hl a).1, (hl a).2, (hl _).1, (hl _).2]
  exact this

theorem reach_owner (m : Mesh) (nb : Int → Int) (B a x : Int) (h : Reach m nb B a x)
    (ha : nb a = B) : nb x = B := by
  induction h with
  | refl => exact ha
  | tail _ hbc _ => exact hbc.2

/-- Along a path whose ends have different colours there is an edge whose ends have different
colours; its tail is reachable from the start of the path. -/
theorem reach_cross (m : Mesh) (nb : Int → Int) (B : Int) (c : Int → Prop) (a b : Int)
    (h : Reach m nb B a b) (hab : ¬ (c a ↔ c b)) :
    ∃ x y, Reach m nb B a x ∧ y ∈ m.links x ∧ nb y = B ∧ ¬ (c x ↔ c y) := by
  induction h with
  | refl => exact absurd Iff.rfl hab
  | tail hab' hbc ih =>
    rename_i b' c'
    by_cases h1 : c a ↔ c b'
    · refine ⟨b', c', hab', hbc.1, hbc.2, ?_⟩
      intro h2
      exact hab (h1.trans h2)
    · exact ih h1

theorem mem_nodes_of_bound (b : block) (x : Int) (h : x ∈ b.boundNodes) : x ∈ b.nodes := by
  unfold block.nodes
  exact List.mem_append.2 (Or.inr h)

theorem nodes_congr (b c : block) (hi : b.intNodes = c.intNodes)
    (hb : b.boundNodes = c.boundNodes) : b.nodes = c.nodes := by
  unfold block.nodes
  rw [hi, hb]

/-- C10 (counterexample): in the chain `1 <-> 0 <-> 2` (a state with valid, symmetric and
physically adjacent links) `split` on block 0 keeps `prev = 1` for the part `{6,7}` left at
index 0, which has no neighbour in block 1: the link `0 -> 1` is no longer physical. -/
theorem split_keeps_non_adjacent_link :
    WellFormed grid4 splitChainScenario ∧
    split grid4 noBlock splitChainScenario 0 = .ok (3, splitChainAfter) ∧
    (splitChainAfter.blockAt 0).prevBlock = 1 ∧
    ¬ Touches grid4 splitChainAfter 0 1 ∧ ¬ Touches grid4 splitChainAfter 1 0 ∧
    ¬ LinksAdjacent grid4 splitChainAfter := by
  refine ⟨wellFormed_arr _ _ _ _ (by decide) (by decide) (by decide) (by decide!),
    rfl, by decide!, by decide!, by decide!, by decide!⟩

/-- C10 (amended): for a block `self` of size at least 2 in a state with P1, P3 (link
symmetry), `block_num = position` at `self`, valid node ids in `self` and no link of `self`
to itself, a completed `split` keeps link symmetry P3 for all blocks, links `blocks[self]`
and the new block `r` directly to each other (in one of the two orders), and these two
blocks share a cross-block edge: a boundary node of one has a neighbour in the other (of
each, when the adjacency is undirected).  The links inherited from the old `prev`/`next`
are taken over without an adjacency check. -/
theorem split_keeps_link_symmetry (m : Mesh) (init : block) (s : State) (self : Nat)
    (r : Int) (s' : State)
    (hself : self < s.blocks.length)
    (hP1 : OwnerLists s)
    (hsym : LinkSym s)
    (hnum : (s.blockAt self).blockNum = (self : Int))
    (hvalid : NodesValid m s self)
    (hp : (s.blockAt self).prevBlock ≠ (self : Int))
    (hn : (s.blockAt self).nextBlock ≠ (self : Int))
    (hsize : 2 ≤ (s.blockAt self).size)
    (hs : split m init s self = .ok (r, s')) :
    LinkSym s' ∧
    (Nb0First s' self r ∨ Nb1First s' self r) ∧
    (Touches m s' self r ∨ Touches m s' r.toNat (self : Int)) ∧
    (MeshSymm m → Touches m s' self r ∧ Touches m s' r.toNat (self : Int)) := by
  obtain ⟨g, d0, d1, fl, me1, hr, hs', hredo, hb1, hbnd, hselfL, hrL, hd0, hd1, hreach, hg0,
    hg1, hA, hB, hob, hsum, hrange, hown, hnoL1⟩ :=
    split_core m init s self r s' hself hP1 hnum hvalid hsize hs
  have hme1 := redoLists_ok _ _ _ _ _ _ hredo
  have hp1 : me1.prevBlock = (s.blockAt self).prevBlock := by rw [hme1]
  have hn1 : me1.nextBlock = (s.blockAt self).nextBlock := by rw [hme1]
  have hbn1 : me1.blockNum = (s.blockAt self).blockNum := by rw [hme1]
  have hBL : (self : Int) < (s.blocks.length : Int) := by exact_mod_cast hself
  -- the state handed to the link phase
  have hlen1 : (State.mk fl (renumber g.nodeBlocks g.nb0 (self : Int)).1
      (s.blocks.set self me1)).blocks.length = s.blocks.length := by simp
  have hat : State.blockAt (State.mk fl (renumber g.nodeBlocks g.nb0 (self : Int)).1
      (s.blocks.set self me1)) self = me1 := blockAt_set_self _ _ _ _ _ hself
  have hsym1 : LinkSym (State.mk fl (renumber g.nodeBlocks g.nb0 (self : Int)).1
      (s.blocks.set self me1)) := by
    apply linkSym_congr s _ hlen1 _ hsym
    intro j
    by_cases hj : self = j
    · subst hj
      rw [hat]
      exact ⟨hp1, hn1⟩
    · rw [blockAt_set_ne _ _ _ _ _ _ hj]
      exact ⟨rfl, rfl⟩
  have hsymF : LinkSym s' := by
    rw [hs']
    apply splitLink_linkSym _ _ _ _ (by rw [hlen1]; exact hself) hsym1
    · rw [hat, hbn1]; exact hnum
    · rw [hat, hp1]; exact hp
    · rw [hat, hn1]; exact hn
    · rw [hlen1]; exact hb1
  -- the order of the two parts
  have hlink := splitLink_self (State.mk fl (renumber g.nodeBlocks g.nb0 (self : Int)).1
      (s.blocks.set self me1)) self g.nb1
      (splitOrd (beforeAfter m g.nodeBlocks (s.blockAt self) g.nb0)
        (beforeAfter m g.nodeBlocks (s.blockAt self) g.nb1)) (by rw [hlen1]; exact hself)
      (by rw [hat, hp1]; exact hp) (by rw [hat, hn1]; exact hn)
  have hnew := splitLink_blockAt_new (State.mk fl
      (renumber g.nodeBlocks g.nb0 (self : Int)).1
      (s.blocks.set self me1)) self g.nb1
      (splitOrd (beforeAfter m g.nodeBlocks (s.blockAt self) g.nb0)
        (beforeAfter m g.nodeBlocks (s.blockAt self) g.nb1))
  rw [← hs', hlen1, hat] at hnew
  rw [← hs', hat] at hlink
  have hord : Nb0First s' self r ∨ Nb1First s' self r := by
    by_cases ho : splitOrd (beforeAfter m g.nodeBlocks (s.blockAt self) g.nb0)
        (beforeAfter m g.nodeBlocks (s.blockAt self) g.nb1) = 1
    · left
      unfold Nb0First
      rw [hr, getB_natCast, hnew, hlink.2]
      simp only [ho, if_true, hbn1, hnum, hb1, and_self]
    · right
      unfold Nb1First
      rw [hr, getB_natCast, hnew, hlink.1]
      simp only [ho, if_false, hbn1, hnum, hb1, and_self]
  -- owners in the final state
  have hownS : ∀ n, n ∈ (s'.blockAt self).nodes → s'.nodeBlocks n = (self : Int) := by
    intro n hn
    obtain ⟨h1, h2⟩ := (hA n).1 hn
    rw [hob]
    split
    · rfl
    · rename_i hc
      have hr := hrange n h1
      rcases hsum n with ⟨-, h3 | h3 | h3⟩ | ⟨h3, -⟩
      · exact h3
      · exact absurd h3 h2
      · exact absurd ⟨hr, h3⟩ hc
      · exact absurd h1 h3
  have hownR : ∀ n, n ∈ (s'.getB r).nodes → s'.nodeBlocks n = r := by
    intro n hn
    obtain ⟨h1, h2⟩ := (hB n).1 hn
    rw [hob, hr, h2]
    simp
  have hrnat : r.toNat = s.blocks.length := by rw [hr]; simp
  have hgetr : s'.getB r = s'.blockAt r.toNat := rfl
  -- an edge from a node of `self` to a node of `r` makes `self` touch `r`
  have touchSR : ∀ x y, x ∈ (s'.blockAt self).nodes → y ∈ (s'.getB r).nodes →
      y ∈ m.links x → Touches m s' self r := by
    intro x y hx hy hxy
    refine ⟨x, ?_, y, hxy, hownR y hy⟩
    rw [hselfL.2]
    apply redoLists_boundary _ _ _ _ _ _ hredo x
    · rw [← nodes_congr _ _ hselfL.1 hselfL.2]; exact hx
    · refine ⟨y, hxy, ?_⟩
      have h1 := hownR y hy
      have h2 : (renumber g.nodeBlocks g.nb0 (self : Int)).1 y = s'.nodeBlocks y := by
        rw [hs', splitLink_nodeBlocks]
      rw [h2, h1, hr]
      simp only [hnum]
      omega
  -- an edge from a node of `r` to a node of `self` makes `r` touch `self`
  have touchRS : ∀ x y, x ∈ (s'.getB r).nodes → y ∈ (s'.blockAt self).nodes →
      y ∈ m.links x → Touches m s' r.toNat (self : Int) := by
    intro x y hx hy hxy
    refine ⟨x, ?_, y, hxy, hownS y hy⟩
    rw [← hgetr, hrL.2]
    apply hbnd x
    · rw [← nodes_congr _ _ hrL.1 hrL.2]; exact hx
    · exact ⟨y, hxy, ((hA y).1 hy).2⟩
  -- the cross-block edge on the path between the two endpoints
  have hcross : ∃ x y, s.nodeBlocks x = (self : Int) ∧ s.nodeBlocks y = (self : Int) ∧
      y ∈ m.links x ∧
      ¬ (g.nodeBlocks x = (s.blocks.length : Int) ↔ g.nodeBlocks y = (s.blocks.length : Int)) := by
    have hc0 : ¬ g.nodeBlocks d0 = (s.blocks.length : Int) := by rw [hg0]; omega
    rcases hreach with h | h
    · obtain ⟨x, y, hax, hxy, hyB, hc⟩ := reach_cross m s.nodeBlocks (self : Int)
        (fun n => g.nodeBlocks n = (s.blocks.length : Int)) d0 d1 h
        (fun e => hc0 (e.2 hg1))
      exact ⟨x, y, reach_owner _ _ _ _ _ hax hd0, hyB, hxy, hc⟩
    · obtain ⟨x, y, hax, hxy, hyB, hc⟩ := reach_cross m s.nodeBlocks (self : Int)
        (fun n => g.nodeBlocks n = (s.blocks.length : Int)) d1 d0 h
        (fun e => hc0 (e.1 hg1))
      exact ⟨x, y, reach_owner _ _ _ _ _ hax hd1, hyB, hxy, hc⟩
  obtain ⟨x, y, hxB, hyB, hxy, hc⟩ := hcross
  have hsymEdge : MeshSymm m → x ∈ m.links y := by
    intro hm
    obtain ⟨h0, h1⟩ := hrange x hxB
    have := hm x.toNat (List.mem_range.2 (by omega))
    rw [Int.toNat_of_nonneg h0] at this
    exact this y hxy
  by_cases hcx : g.nodeBlocks x = (s.blocks.length : Int)
  · have hcy : ¬ g.nodeBlocks y = (s.blocks.length : Int) := fun e => hc ⟨fun _ => e, fun _ => hcx⟩
    have hxr : x ∈ (s'.getB r).nodes := (hB x).2 ⟨hxB, hcx⟩
    have hys : y ∈ (s'.blockAt self).nodes := (hA y).2 ⟨hyB, hcy⟩
    exact ⟨hsymF, hord, Or.inr (touchRS x y hxr hys hxy),
      fun hm => ⟨touchSR y x hys hxr (hsymEdge hm), touchRS x y hxr hys hxy⟩⟩
  · have hcy : g.nodeBlocks y = (s.blocks.length : Int) := by
      by_contra e
      exact hc ⟨fun h => absurd h hcx, fun h => absurd h e⟩
    have hxs : x ∈ (s'.blockAt self).nodes := (hA x).2 ⟨hxB, hcx⟩
    have hyr : y ∈ (s'.getB r).nodes := (hB y).2 ⟨hyB, hcy⟩
    exact ⟨hsymF, hord, Or.inl (touchSR x y hxs hyr hxy),
      fun hm => ⟨touchSR x y hxs hyr hxy, touchRS y x hyr hxs (hsymEdge hm)⟩⟩

/-! ### `join`: the owner/list bijection -/

theorem sameLists_refl (s : State) : SameLists s s := ⟨rfl, rfl, fun _ => ⟨rfl, rfl, rfl⟩⟩

theorem sameLists_trans (s t u : State) (h1 : SameLists s t) (h2 : SameLists t u) :
    SameLists s u := by
  refine ⟨h2.1.trans h1.1, h2.2.1.trans h1.2.1, fun j => ?_⟩
  obtain ⟨a1, a2, a3⟩ := h1.2.2 j
  obtain ⟨b1, b2, b3⟩ := h2.2.2 j
  exact ⟨b1.trans a1, b2.trans a2, b3.trans a3⟩

theorem sameLists_modAt (s : State) (i : Nat) (f : block → block)
    (hf : ∀ b, (f b).intNodes = b.intNodes ∧ (f b).boundNodes = b.boundNodes ∧
      (f b).blockNum = b.blockNum) : SameLists s (s.modAt i f) := by
  refine ⟨modAt_length _ _ _, rfl, fun j => ?_⟩
  rw [modAt_blockAt]
  split
  · exact hf _
  · exact ⟨rfl, rfl, rfl⟩

theorem sameLists_modB (s : State) (i : Int) (f : block → block)
    (hf : ∀ b, (f b).intNodes = b.intNodes ∧ (f b).boundNodes = b.boundNodes ∧
      (f b).blockNum = b.blockNum) : SameLists s (s.modB i f) := by
  unfold State.modB
  split
  · exact sameLists_refl s
  · exact sameLists_modAt s _ f hf

theorem partOk_sameLists (s t : State) (h : SameLists s t) (hs : PartOk s) : PartOk t := by
  obtain ⟨hlen, hnb, hl⟩ := h
  obtain ⟨h1, h2, h3⟩ := hs
  refine ⟨?_, ?_, ?_⟩
  · intro n b
    unfold block.nodes
    rw [hnb, hlen, (hl b).1, (hl b).2.1]
    exact h1 n b
  · intro b hb n
    rw [(hl b).1, (hl b).2.1]
    exact h2 b (hlen ▸ hb) n
  · intro a ha
    rw [(hl a).2.2]
    exact h3 a (hlen ▸ ha)

theorem ownedSame_refl (s : State) : OwnedSame s s := fun _ => Or.inl rfl

theorem ownedSame_trans (s t u : State) (h1 : OwnedSame s t) (h2 : OwnedSame t u) :
    OwnedSame s u := by
  intro n
  rcases h1 n with a | ⟨a1, a2⟩
  · rcases h2 n with b | ⟨b1, b2⟩
    · exact Or.inl (b.trans a)
    · exact Or.inr ⟨a ▸ b1, b2⟩
  · rcases h2 n with b | ⟨b1, b2⟩
    · exact Or.inr ⟨a1, b ▸ a2⟩
    · exact Or.inr ⟨a1, b2⟩

theorem ownedSame_sameLists (s t : State) (h : SameLists s t) : OwnedSame s t := by
  intro n
  rw [h.2.1]
  exact Or.inl rfl

/-- `combineFrom` on two different blocks of the vector keeps P1 and P5, empties the source
block and releases no node. -/
theorem combineFrom_partOk (m : Mesh) (s s2 : State) (dst src : Nat)
    (hd : dst < s.blocks.length) (hsrc : src < s.blocks.length) (hne : dst ≠ src)
    (hs : PartOk s) (h : combineFrom m s dst src = .ok s2) :
    PartOk s2 ∧ s2.blocks.length = s.blocks.length ∧ (s2.blockAt src).nodes = [] ∧
    OwnedSame s s2 := by
  obtain ⟨hP1, hdis, hnum⟩ := hs
  unfold combineFrom at h
  simp only at h
  generalize hT1 : ({ (s.blockAt dst) with
      modifiedTimes := if (s.blockAt src).modifiedTimes > (s.blockAt dst).modifiedTimes
        then (s.blockAt src).modifiedTimes else (s.blockAt dst).modifiedTimes,
      intNodes := (s.blockAt src).intNodes ++ (s.blockAt dst).intNodes,
      boundNodes := (s.blockAt src).boundNodes ++ (s.blockAt dst).boundNodes } : block) = t1 at h
  cases ht : tidyBoundaries m
      (updAll (updAll s.nodeBlocks (s.blockAt src).intNodes (s.blockAt dst).blockNum)
        (s.blockAt src).boundNodes (s.blockAt dst).blockNum) s.flags t1 with
  | error e => rw [ht] at h; cases h
  | ok x =>
    obtain ⟨fl, t2⟩ := x
    rw [ht] at h
    simp only [Except.ok.injEq] at h
    have ht2 := tidyBoundaries_ok _ _ _ _ _ _ ht
    have hdn : (s.blockAt dst).blockNum = (dst : Int) := hnum dst hd
    have hsn : (s.blockAt src).blockNum = (src : Int) := hnum src hsrc
    have ht1i : t1.intNodes = (s.blockAt src).intNodes ++ (s.blockAt dst).intNodes := by
      rw [← hT1]
    have ht1b : t1.boundNodes = (s.blockAt src).boundNodes ++ (s.blockAt dst).boundNodes := by
      rw [← hT1]
    have ht1n : t1.blockNum = (dst : Int) := by rw [← hT1]; exact hdn
    have ht2n : t2.blockNum = (dst : Int) := by rw [ht2]; exact ht1n
    -- reading the new vector
    have hlen : s2.blocks.length = s.blocks.length := by rw [← h]; simp
    have hatd : s2.blockAt dst = t2 := by
      rw [← h]
      simp [State.blockAt, getD_set_block, hd]
    have hats : (s2.blockAt src).intNodes = [] ∧ (s2.blockAt src).boundNodes = [] ∧
        (s2.blockAt src).blockNum = (src : Int) := by
      rw [← h]
      simp only [State.blockAt, getD_set_block, List.length_set]
      rw [if_neg (fun e => hne e.1), if_pos ⟨trivial, hsrc⟩]
      exact ⟨rfl, rfl, hsn⟩
    have hato : ∀ j, j ≠ dst → j ≠ src → s2.blockAt j = s.blockAt j := by
      intro j h1 h2
      have h1' : ¬ dst = j := fun e => h1 e.symm
      have h2' : ¬ src = j := fun e => h2 e.symm
      rw [← h]
      simp [State.blockAt, getD_set_block, h1', h2']
    have hatsn : (s2.blockAt src).nodes = [] := by
      unfold block.nodes
      rw [hats.1, hats.2.1]
      rfl
    have hnb : ∀ n, s2.nodeBlocks n =
        if n ∈ (s.blockAt src).nodes then (dst : Int) else s.nodeBlocks n := by
      intro n
      rw [← h]
      simp only [updAll_apply, hdn, block.nodes, List.mem_append]
      by_cases h1 : n ∈ (s.blockAt src).boundNodes
      · simp [h1]
      · by_cases h2 : n ∈ (s.blockAt src).intNodes
        · simp [h1, h2]
        · simp [h1, h2]
    have hsrcOwn : ∀ n, n ∈ (s.blockAt src).nodes ↔ s.nodeBlocks n = (src : Int) := by
      intro n
      rw [hP1 n src]
      exact ⟨fun h => ⟨hsrc, h⟩, fun h => h.2⟩
    have hdstOwn : ∀ n, n ∈ (s.blockAt dst).nodes ↔ s.nodeBlocks n = (dst : Int) := by
      intro n
      rw [hP1 n dst]
      exact ⟨fun h => ⟨hd, h⟩, fun h => h.2⟩
    have ht2nodes : ∀ n, n ∈ t2.nodes ↔ (n ∈ (s.blockAt src).nodes ∨ n ∈ (s.blockAt dst).nodes) := by
      intro n
      rw [tidyBoundaries_nodes _ _ _ _ _ _ ht n]
      unfold block.nodes
      rw [ht1i, ht1b]
      simp only [List.mem_append]
      tauto
    have hneI : (dst : Int) ≠ (src : Int) := by exact_mod_cast hne
    have hsd : src ≠ dst := fun e => hne e.symm
    refine ⟨⟨?_, ?_, ?_⟩, hlen, hatsn, ?_⟩
    · -- P1
      intro n k
      rw [hlen, hnb n]
      by_cases hk1 : k = dst
      · subst hk1
        rw [hatd, ht2nodes]
        by_cases hn : n ∈ (s.blockAt src).nodes
        · simp [hn, hd]
        · simp only [hn, if_false, false_or, hd, true_and]
          exact (hdstOwn n).symm
      · by_cases hk2 : k = src
        · subst hk2
          rw [hatsn]
          simp only [List.not_mem_nil, and_false, iff_false]
          by_cases hn : n ∈ (s.blockAt k).nodes
          · simp only [hn, if_true]
            exact_mod_cast hne
          · simp only [hn, if_false]
            exact fun e => hn ((hsrcOwn n).2 e)
        · rw [hato k hk1 hk2]
          by_cases hn : n ∈ (s.blockAt src).nodes
          · simp only [hn, if_true]
            have h1 : s.nodeBlocks n = (src : Int) := (hsrcOwn n).1 hn
            constructor
            · intro e
              exact absurd (by exact_mod_cast e : dst = k) (fun e => hk1 e.symm)
            · rintro ⟨hk, h2⟩
              have := (hP1 n k).2 ⟨hk, h2⟩
              rw [h1] at this
              exact absurd (by exact_mod_cast this : src = k) (fun e => hk2 e.symm)
          · simp only [hn, if_false]
            exact hP1 n k
    · -- I3
      intro k hk n
      rw [hlen] at hk
      by_cases hk1 : k = dst
      · subst hk1
        rw [hatd, ht2]
        simp only [List.mem_append, List.mem_filter, Bool.not_eq_true']
        rintro ⟨h1 | ⟨-, h1⟩, ⟨h2, h3⟩⟩
        · rw [ht1i] at h1
          rw [ht1b] at h2
          rcases List.mem_append.1 h1 with a | a <;> rcases List.mem_append.1 h2 with b | b
          · exact hdis src hsrc n ⟨a, b⟩
          · have e1 := (hsrcOwn n).1 (List.mem_append.2 (Or.inl a))
            have e2 := (hdstOwn n).1 (List.mem_append.2 (Or.inr b))
            rw [e1] at e2
            exact hneI e2.symm
          · have e1 := (hdstOwn n).1 (List.mem_append.2 (Or.inl a))
            have e2 := (hsrcOwn n).1 (List.mem_append.2 (Or.inr b))
            rw [e1] at e2
            exact hneI e2
          · exact hdis k hk n ⟨a, b⟩
        · rw [h1] at h3
          cases h3
      · by_cases hk2 : k = src
        · subst hk2
          rw [hats.1]
          simp
        · rw [hato k hk1 hk2]
          exact hdis k hk n
    · -- P5
      intro k hk
      rw [hlen] at hk
      by_cases hk1 : k = dst
      · subst hk1; rw [hatd]; exact ht2n
      · by_cases hk2 : k = src
        · subst hk2; exact hats.2.2
        · rw [hato k hk1 hk2]; exact hnum k hk
    · intro n
      rw [hnb n]
      by_cases hn : n ∈ (s.blockAt src).nodes
      · simp only [hn, if_true]
        right
        rw [(hsrcOwn n).1 hn]
        exact ⟨Int.natCast_nonneg _, Int.natCast_nonneg _⟩
      · simp only [hn, if_false]
        exact Or.inl trivial

theorem partOk_dropLast (s : State) (hs : PartOk s) (hpos : 0 < s.blocks.length)
    (hempty : (s.blockAt (s.blocks.length - 1)).nodes = []) :
    PartOk { flags := s.flags, nodeBlocks := s.nodeBlocks, blocks := s.blocks.dropLast } := by
  obtain ⟨hP1, hdis, hnum⟩ := hs
  have hat : ∀ j, j < s.blocks.length - 1 →
      State.blockAt { flags := s.flags, nodeBlocks := s.nodeBlocks, blocks := s.blocks.dropLast } j
        = s.blockAt j := by
    intro j hj
    simp only [State.blockAt, getD_dropLast_block, hj, if_true]
  refine ⟨?_, ?_, ?_⟩
  · intro n k
    simp only [List.length_dropLast]
    constructor
    · intro h
      obtain ⟨h1, h2⟩ := (hP1 n k).1 h
      have hk : k < s.blocks.length - 1 := by
        by_contra hc
        have : k = s.blocks.length - 1 := by omega
        rw [this, hempty] at h2
        exact absurd h2 (List.not_mem_nil _)
      exact ⟨hk, by rw [hat k hk]; exact h2⟩
    · rintro ⟨hk, h2⟩
      rw [hat k hk] at h2
      exact (hP1 n k).2 ⟨by omega, h2⟩
  · intro k hk n
    simp only [List.length_dropLast] at hk
    rw [hat k hk]
    exact hdis k (by omega) n
  · intro k hk
    simp only [List.length_dropLast] at hk
    rw [hat k hk]
    exact hnum k (by omega)

theorem sameLists_step_modB (s t : State) (i : Int) (f : block → block)
    (hf : ∀ b, (f b).intNodes = b.intNodes ∧ (f b).boundNodes = b.boundNodes ∧
      (f b).blockNum = b.blockNum) (h : SameLists s t) : SameLists s (t.modB i f) :=
  sameLists_trans _ _ _ h (sameLists_modB t i f hf)

theorem sameLists_step_modAt (s t : State) (i : Nat) (f : block → block)
    (hf : ∀ b, (f b).intNodes = b.intNodes ∧ (f b).boundNodes = b.boundNodes ∧
      (f b).blockNum = b.blockNum) (h : SameLists s t) : SameLists s (t.modAt i f) :=
  sameLists_trans _ _ _ h (sameLists_modAt t i f hf)

theorem joinRelink_sameLists (s : State) (j bn bp : Int) :
    SameLists s (joinRelink s j bn bp) := by
  unfold joinRelink
  simp only [modB_guard]
  refine sameLists_step_modB _ _ _ _ (fun _ => ⟨rfl, rfl, rfl⟩) ?_
  refine sameLists_step_modB _ _ _ _ (fun _ => ⟨rfl, rfl, rfl⟩) ?_
  refine sameLists_step_modB _ _ _ _ (fun _ => ⟨rfl, rfl, rfl⟩) ?_
  refine sameLists_step_modB _ _ _ _ (fun _ => ⟨rfl, rfl, rfl⟩) ?_
  exact sameLists_refl s

theorem sameLists_nodes (s t : State) (h : SameLists s t) (j : Nat) :
    (t.blockAt j).nodes = (s.blockAt j).nodes := by
  unfold block.nodes
  rw [(h.2.2 j).1, (h.2.2 j).2.1]

theorem joinCompact_partOk (m : Mesh) (s s6 : State) (self : Nat)
    (hself : self < s.blocks.length) (hlast : self ≠ s.blocks.length - 1)
    (hs : PartOk s)
    (h : joinCompact m s self ((s.blocks.length : Int) - 1) = .ok s6) :
    PartOk s6 ∧ s6.blocks.length = s.blocks.length ∧
    (s6.blockAt (s.blocks.length - 1)).nodes = [] ∧ OwnedSame s s6 := by
  unfold joinCompact at h
  simp only [modB_guard] at h
  have hsl1 := sameLists_modAt s self (fun b => { b with modifiedTimes := 0 })
    (fun _ => ⟨rfl, rfl, rfl⟩)
  have htn : ((s.blocks.length : Int) - 1).toNat = s.blocks.length - 1 := by omega
  rw [htn] at h
  cases hc : combineFrom m (s.modAt self (fun b => { b with modifiedTimes := 0 })) self
      (s.blocks.length - 1) with
  | error e => rw [hc] at h; cases h
  | ok s2 =>
    rw [hc] at h
    simp only [Except.ok.injEq] at h
    obtain ⟨hp2, hl2, he2, ho2⟩ := combineFrom_partOk m _ s2 self (s.blocks.length - 1)
      (by rw [hsl1.1]; exact hself) (by rw [hsl1.1]; omega) hlast
      (partOk_sameLists _ _ hsl1 hs) hc
    have hsl : SameLists s2 s6 := by
      rw [← h]
      refine sameLists_step_modB _ _ _ _ (fun _ => ⟨rfl, rfl, rfl⟩) ?_
      refine sameLists_step_modB _ _ _ _ (fun _ => ⟨rfl, rfl, rfl⟩) ?_
      refine sameLists_step_modAt _ _ _ _ (fun _ => ⟨rfl, rfl, rfl⟩) ?_
      refine sameLists_step_modAt _ _ _ _ (fun _ => ⟨rfl, rfl, rfl⟩) ?_
      exact sameLists_refl s2
    refine ⟨partOk_sameLists _ _ hsl hp2, ?_, ?_, ?_⟩
    · rw [hsl.1, hl2, hsl1.1]
    · rw [sameLists_nodes _ _ hsl]; exact he2
    · exact ownedSame_trans _ _ _ (ownedSame_sameLists _ _ hsl1)
        (ownedSame_trans _ _ _ ho2 (ownedSame_sameLists _ _ hsl))

theorem joinFinish_partOk (m : Mesh) (s s' : State) (self : Nat) (j r : Int)
    (hself : self < s.blocks.length) (hs : PartOk s)
    (hempty : (s.blockAt self).nodes = [])
    (h : joinFinish m s self j = .ok (r, s')) :
    PartOk s' ∧ s'.blocks.length + 1 = s.blocks.length ∧ OwnedSame s s' := by
  unfold joinFinish at h
  have hnum : (s.blockAt self).blockNum = (self : Int) := hs.2.2 self hself
  rw [hnum] at h
  by_cases hl : (self : Int) = (s.blocks.length : Int) - 1
  · rw [if_neg (not_not.2 hl)] at h
    simp only [Except.ok.injEq, Prod.mk.injEq] at h
    have hl' : self = s.blocks.length - 1 := by omega
    rw [← h.2]
    refine ⟨partOk_dropLast s hs (by omega) (by rw [← hl']; exact hempty), ?_, ?_⟩
    · simp only [List.length_dropLast]; omega
    · exact ownedSame_refl s
  · rw [if_pos hl] at h
    cases hc : joinCompact m s self ((s.blocks.length : Int) - 1) with
    | error e => rw [hc] at h; cases h
    | ok s4 =>
      rw [hc] at h
      simp only [Except.ok.injEq, Prod.mk.injEq] at h
      obtain ⟨hp4, hl4, he4, ho4⟩ := joinCompact_partOk m s s4 self hself (by omega) hs hc
      rw [← h.2]
      refine ⟨partOk_dropLast s4 hp4 (by omega) (by rw [hl4]; exact he4), ?_, ?_⟩
      · simp only [List.length_dropLast]; omega
      · exact ho4

theorem joinInto_partOk (m : Mesh) (s s' : State) (self : Nat) (j bn bp r : Int)
    (hself : self < s.blocks.length) (hj : j.toNat < s.blocks.length) (hjs : j.toNat ≠ self)
    (hs : PartOk s) (h : joinInto m s self j bn bp = .ok (r, s')) :
    PartOk s' ∧ s'.blocks.length + 1 = s.blocks.length ∧ OwnedSame s s' := by
  unfold joinInto at h
  have hsl1 := sameLists_modAt s self (fun b => { b with modifiedTimes := b.modifiedTimes + 1 })
    (fun _ => ⟨rfl, rfl, rfl⟩)
  cases hc : combineFrom m (s.modAt self (fun b => { b with modifiedTimes := b.modifiedTimes + 1 }))
      j.toNat self with
  | error e => rw [hc] at h; cases h
  | ok s2 =>
    rw [hc] at h
    simp only at h
    obtain ⟨hp2, hl2, he2, ho2⟩ := combineFrom_partOk m _ s2 j.toNat self
      (by rw [hsl1.1]; exact hj) (by rw [hsl1.1]; exact hself) hjs
      (partOk_sameLists _ _ hsl1 hs) hc
    have hsl3 := joinRelink_sameLists s2 j (joinUnloop bn (s.blockAt self).blockNum j)
      (joinUnloop bp (s.blockAt self).blockNum j)
    obtain ⟨hp, hl, ho⟩ := joinFinish_partOk m _ s' self j r
      (by rw [hsl3.1, hl2, hsl1.1]; exact hself) (partOk_sameLists _ _ hsl3 hp2)
      (by rw [sameLists_nodes _ _ hsl3]; exact he2) h
    refine ⟨hp, ?_, ?_⟩
    · rw [hl, hsl3.1, hl2, hsl1.1]
    · exact ownedSame_trans _ _ _ (ownedSame_sameLists _ _ hsl1)
        (ownedSame_trans _ _ _ ho2
          (ownedSame_trans _ _ _ (ownedSame_sameLists _ _ hsl3) ho))

theorem joinTarget_valid (m : Mesh) (s : State) (self : Nat) (j bn bp : Int)
    (hself : self < s.blocks.length) (hs : PartOk s) (hl : SelfLinksOk s self)
    (h : joinTarget m s self = some (j, bn, bp)) :
    j.toNat < s.blocks.length ∧ j.toNat ≠ self := by
  have hnum : (s.blockAt self).blockNum = (self : Int) := hs.2.2 self hself
  unfold joinTarget at h
  simp only at h
  obtain ⟨hn, hp⟩ := hl
  by_cases h1 : (s.blockAt self).nextBlock = -1
  · simp only [h1, ne_eq, not_true_eq_false, if_false] at h
    by_cases h2 : (s.blockAt self).prevBlock = -1
    · simp only [h2, if_true] at h
      by_cases h3 : joinCandidate m s self = -1
      · simp [h3] at h
      · have hm := (firstActive_mem s _ h3).1
        obtain ⟨g0, g1, n, g2⟩ := getLinks_mem m s.nodeBlocks (s.blockAt self) _ hm
        have hjc : joinCandidate m s self = j := by
          simp only [h3, ne_eq, not_false_eq_true, if_true] at h
          split at h
          · simp only [Option.some.injEq, Prod.mk.injEq] at h; exact h.1
          · split at h
            · simp only [Option.some.injEq, Prod.mk.injEq] at h; exact h.1
            · cases h
        unfold joinCandidate at hjc
        rw [hjc] at g0 g1 g2
        have : s.nodeBlocks n = ((j.toNat : Nat) : Int) := by rw [g2]; omega
        have := (hs.1 n j.toNat).1 this
        rw [hnum] at g1
        exact ⟨this.1, by omega⟩
    · simp only [h2, if_false, Option.some.injEq, Prod.mk.injEq] at h
      rcases hp with hp | hp
      · exact absurd hp h2
      · rw [← h.1]; omega
  · simp only [h1, ne_eq, not_false_eq_true, if_true, if_false, Option.some.injEq,
      Prod.mk.injEq] at h
    rcases hn with hn | hn
    · exact absurd hn h1
    · rw [← h.1]; omega

/-- C5: `join` preserves the owner/list bijection.  For a block `self` whose links are `-1`
or the index of another block, in a state satisfying P1 (`owner[n] = b` iff `n` is in a list
of `blocks[b]`, no node in both lists of a block) and P5, a successful `join` shortens the
vector by exactly one block, releases no node and claims no free node, and P1 and P5 hold
for the shortened vector. -/
theorem join_preserves_owner_lists (m : Mesh) (s : State) (self : Nat) (r : Int) (s' : State)
    (hself : self < s.blocks.length)
    (hP1 : OwnerLists s) (hdis : ListsDisjoint s) (hP5 : NumOk s)
    (hlinks : SelfLinksOk s self)
    (hj : join m s self = .ok (r, s')) (hr : r ≠ -1) :
    s'.blocks.length + 1 = s.blocks.length ∧
    (∀ n, s'.nodeBlocks n = -1 ↔ s.nodeBlocks n = -1) ∧
    (∀ n, 0 ≤ s'.nodeBlocks n ↔ 0 ≤ s.nodeBlocks n) ∧
    OwnerLists s' ∧ ListsDisjoint s' ∧ NumOk s' := by
  unfold join at hj
  cases ht : joinTarget m s self with
  | none =>
    rw [ht] at hj
    simp only [Except.ok.injEq, Prod.mk.injEq] at hj
    exact absurd hj.1.symm hr
  | some x =>
    obtain ⟨j, bn, bp⟩ := x
    rw [ht] at hj
    simp only at hj
    obtain ⟨hj1, hj2⟩ := joinTarget_valid m s self j bn bp hself ⟨hP1, hdis, hP5⟩ hlinks ht
    obtain ⟨hp, hl, ho⟩ := joinInto_partOk m s s' self j bn bp r hself hj1 hj2
      ⟨hP1, hdis, hP5⟩ hj
    refine ⟨hl, ?_, ?_, hp.1, hp.2.1, hp.2.2⟩
    · intro n
      rcases ho n with h | ⟨h1, h2⟩
      · rw [h]
      · constructor <;> intro e <;> omega
    · intro n
      rcases ho n with h | ⟨h1, h2⟩
      · rw [h]
      · exact ⟨fun _ => h1, fun _ => h2⟩

/-- C5, instance: the three-block join scenario on the 4x4 grid. -/
theorem join_preserves_owner_lists_witness :
    0 < joinScenario.blocks.length ∧ OwnerLists joinScenario ∧ ListsDisjoint joinScenario ∧
    NumOk joinScenario ∧ SelfLinksOk joinScenario 0 ∧
    join grid4 joinScenario 0 = .ok (1, joinScenarioAfter) ∧
    joinScenarioAfter.blocks.length + 1 = joinScenario.blocks.length ∧
    OwnerLists joinScenarioAfter ∧ NumOk joinScenarioAfter :=
  ⟨by decide, ownerLists_arr _ _ _ (by decide) (by decide) (by decide), by decide, by decide,
   by decide, rfl,
   (join_preserves_owner_lists grid4 joinScenario 0 1 joinScenarioAfter (by decide)
      (ownerLists_arr _ _ _ (by decide) (by decide) (by decide)) (by decide) (by decide)
      (by decide) rfl (by decide)).1,
   (join_preserves_owner_lists grid4 joinScenario 0 1 joinScenarioAfter (by decide)
      (ownerLists_arr _ _ _ (by decide) (by decide) (by decide)) (by decide) (by decide)
      (by decide) rfl (by decide)).2.2.2.1,
   (join_preserves_owner_lists grid4 joinScenario 0 1 joinScenarioAfter (by decide)
      (ownerLists_arr _ _ _ (by decide) (by decide) (by decide)) (by decide) (by decide)
      (by decide) rfl (by decide)).2.2.2.2.2⟩

/-- C10 (amended), instance: the chain scenario `1 <-> 0 <-> 2` on the 4x4 grid. -/
theorem split_keeps_link_symmetry_witness :
    0 < splitChainScenario.blocks.length ∧ OwnerLists splitChainScenario ∧
    LinkSym splitChainScenario ∧ (splitChainScenario.blockAt 0).blockNum = 0 ∧
    NodesValid grid4 splitChainScenario 0 ∧
    (splitChainScenario.blockAt 0).prevBlock ≠ 0 ∧
    (splitChainScenario.blockAt 0).nextBlock ≠ 0 ∧
    2 ≤ (splitChainScenario.blockAt 0).size ∧
    split grid4 noBlock splitChainScenario 0 = .ok (3, splitChainAfter) ∧
    MeshSymm grid4 ∧
    LinkSym splitChainAfter ∧
    Touches grid4 splitChainAfter 0 3 ∧ Touches grid4 splitChainAfter 3 0 :=
  ⟨by decide, ownerLists_arr _ _ _ (by decide) (by decide) (by decide), by decide, by decide,
   by decide, by decide, by decide, by decide, rfl, by decide!,
   (split_keeps_link_symmetry grid4 noBlock splitChainScenario 0 3 splitChainAfter (by decide)
      (ownerLists_arr _ _ _ (by decide) (by decide) (by decide)) (by decide) (by decide)
      (by decide) (by decide) (by decide) (by decide) rfl).1,
   ((split_keeps_link_symmetry grid4 noBlock splitChainScenario 0 3 splitChainAfter (by decide)
      (ownerLists_arr _ _ _ (by decide) (by decide) (by decide)) (by decide) (by decide)
      (by decide) (by decide) (by decide) (by decide) rfl).2.2.2 (by decide!)).1,
   ((split_keeps_link_symmetry grid4 noBlock splitChainScenario 0 3 splitChainAfter (by decide)
      (ownerLists_arr _ _ _ (by decide) (by decide) (by decide)) (by decide) (by decide)
      (by decide) (by decide) (by decide) (by decide) rfl).2.2.2 (by decide!)).2⟩

/-! ### `tidyBoundaries`, `redoLists`: totality, flags and the interior list -/

theorem tidyScan_total (nb : Int → Int) (bn : Int) (l : List Int) (h : ∀ y ∈ l, 0 ≤ y) :
    ∃ v, tidyScan nb bn l = .ok v := by
  induction l with
  | nil => exact ⟨false, rfl⟩
  | cons a l ih =>
    unfold tidyScan
    have ha : ¬ a < 0 := not_lt.2 (h a (List.mem_cons_self _ _))
    rw [if_neg ha]
    by_cases h2 : nb a ≠ bn
    · rw [if_pos h2]; exact ⟨true, rfl⟩
    · rw [if_neg h2]; exact ih (fun y hy => h y (List.mem_cons_of_mem _ hy))

theorem tidyScan_true (nb : Int → Int) (bn : Int) (l : List Int)
    (h : tidyScan nb bn l = .ok true) : ∃ y ∈ l, nb y ≠ bn := by
  induction l with
  | nil => cases h
  | cons a l ih =>
    unfold tidyScan at h
    split at h
    · cases h
    · split at h
      · rename_i h2
        exact ⟨a, List.mem_cons_self _ _, h2⟩
      · obtain ⟨y, hy, hy2⟩ := ih h
        exact ⟨y, List.mem_cons_of_mem _ hy, hy2⟩

theorem tidyLoop_total (m : Mesh) (nb : Int → Int) (bn : Int) (ps : List Int)
    (h : ∀ p ∈ ps, ∀ y ∈ m.links p, 0 ≤ y) :
    ∀ (fl : Int → Int) (ints : List Int), ∃ r, tidyLoop m nb bn ps fl ints = .ok r := by
  induction ps with
  | nil => intro fl ints; exact ⟨_, rfl⟩
  | cons p ps ih =>
    intro fl ints
    have ih2 := ih (fun q hq => h q (List.mem_cons_of_mem _ hq))
    obtain ⟨v, hv⟩ := tidyScan_total nb bn (m.links p) (h p (List.mem_cons_self _ _))
    unfold tidyLoop
    rw [hv]
    cases v with
    | true =>
      obtain ⟨⟨f, i, b⟩, hr⟩ := ih2 fl ints
      simp only [hr]
      exact ⟨_, rfl⟩
    | false => exact ih2 _ _

/-- The flags written by `tidyLoop`: `1` on the promoted nodes, nothing else. -/
theorem tidyLoop_flags (m : Mesh) (nb : Int → Int) (bn : Int) (ps : List Int) :
    ∀ (fl : Int → Int) (ints : List Int) (f : Int → Int) (i bd : List Int),
      tidyLoop m nb bn ps fl ints = .ok (f, i, bd) →
      ∀ n, f n = if n ∈ ps ∧ staysBoundary m nb bn n = false then 1 else fl n := by
  induction ps with
  | nil =>
    intro fl ints f i bd h n
    simp only [tidyLoop, Except.ok.injEq, Prod.mk.injEq] at h
    simp [← h.1]
  | cons p ps ih =>
    intro fl ints f i bd h n
    unfold tidyLoop at h
    cases hsc : tidyScan nb bn (m.links p) with
    | error e => rw [hsc] at h; cases h
    | ok v =>
      rw [hsc] at h
      have hst : staysBoundary m nb bn p = v := by
        unfold staysBoundary; rw [hsc]; cases v <;> rfl
      cases v with
      | true =>
        simp only at h
        cases hrec : tidyLoop m nb bn ps fl ints with
        | error e => rw [hrec] at h; cases h
        | ok r =>
          obtain ⟨f', i', bd'⟩ := r
          rw [hrec] at h
          simp only [Except.ok.injEq, Prod.mk.injEq] at h
          rw [← h.1, ih _ _ _ _ _ hrec n]
          by_cases hn : n = p
          · subst hn; simp [hst]
          · simp [hn]
      | false =>
        simp only at h
        rw [ih _ _ _ _ _ h n, upd_apply]
        by_cases hn : n = p
        · subst hn; simp [hst]
        · simp [hn]

theorem tidyBoundaries_flags (m : Mesh) (nb fl : Int → Int) (b : block) (f : Int → Int)
    (b' : block) (h : tidyBoundaries m nb fl b = .ok (f, b')) (n : Int) :
    f n = if n ∈ b.boundNodes ∧ staysBoundary m nb b.blockNum n = false then 1 else fl n := by
  unfold tidyBoundaries at h
  cases hl : tidyLoop m nb b.blockNum b.boundNodes fl b.intNodes with
  | error e => rw [hl] at h; cases h
  | ok r =>
    obtain ⟨f', i, bd⟩ := r
    rw [hl] at h
    simp only [Except.ok.injEq, Prod.mk.injEq] at h
    rw [← h.1]
    exact tidyLoop_flags _ _ _ _ _ _ _ _ _ hl n

theorem tidyBoundaries_total (m : Mesh) (nb fl : Int → Int) (b : block)
    (h : ∀ p ∈ b.boundNodes, ∀ y ∈ m.links p, 0 ≤ y) :
    ∃ f b', tidyBoundaries m nb fl b = .ok (f, b') := by
  obtain ⟨⟨f, i, bd⟩, hr⟩ := tidyLoop_total m nb b.blockNum b.boundNodes h fl b.intNodes
  unfold tidyBoundaries
  rw [hr]
  exact ⟨_, _, rfl⟩

/-- A boundary node that a successful `tidyBoundaries` does not keep has all its
neighbours owned by the block. -/
theorem tidyBoundaries_promoted (m : Mesh) (nb fl : Int → Int) (b : block) (f : Int → Int)
    (b' : block) (h : tidyBoundaries m nb fl b = .ok (f, b')) (p : Int)
    (hp : p ∈ b.boundNodes) (hs : staysBoundary m nb b.blockNum p = false) :
    ∀ y ∈ m.links p, nb y = b.blockNum := by
  unfold tidyBoundaries at h
  cases hl : tidyLoop m nb b.blockNum b.boundNodes fl b.intNodes with
  | error e => rw [hl] at h; cases h
  | ok r =>
    obtain ⟨v, hv⟩ := tidyLoop_scans _ _ _ _ _ _ _ hl p hp
    unfold staysBoundary at hs
    rw [hv] at hs
    cases v with
    | true => cases hs
    | false => exact tidyScan_false _ _ _ hv

theorem staysBoundary_true (m : Mesh) (nb : Int → Int) (bn p : Int)
    (h : staysBoundary m nb bn p = true) : ∃ y ∈ m.links p, nb y ≠ bn := by
  unfold staysBoundary at h
  cases hsc : tidyScan nb bn (m.links p) with
  | error e => rw [hsc] at h; cases h
  | ok v =>
    rw [hsc] at h
    cases v with
    | true => exact tidyScan_true _ _ _ hsc
    | false => cases h

theorem adjValid_links (m : Mesh) (h : AdjValid m) (n : Int) (hn : 0 ≤ n ∧ n < (m.nNodes : Int)) :
    ∀ y ∈ m.links n, 0 ≤ y ∧ y < (m.nNodes : Int) := by
  have := h n.toNat (List.mem_range.2 (by omega))
  rwa [Int.toNat_of_nonneg hn.1] at this

/-- C20 (counterexample): `tidyBoundaries` on a block that lists node 5 as interior while
node 5 has the free neighbour 4 returns with node 5 still in the interior list. -/
theorem tidyBoundaries_keeps_unsound_interior :
    AdjValid grid4 ∧
    ∃ f b', tidyBoundaries grid4 tidyScenario.nodeBlocks tidyScenario.flags
        (tidyScenario.blockAt 0) = .ok (f, b') ∧
      b'.intNodes = [5] ∧ b'.boundNodes = [1] ∧ (4 : Int) ∈ grid4.links 5 ∧
      tidyScenario.nodeBlocks 4 = -1 ∧
      ¬ AllOwned grid4 tidyScenario.nodeBlocks (tidyScenario.blockAt 0).blockNum b'.intNodes := by
  refine ⟨by decide!, ?_⟩
  refine ⟨(okOr (tidyBoundaries grid4 tidyScenario.nodeBlocks tidyScenario.flags
        (tidyScenario.blockAt 0)) (tidyScenario.flags, noBlock)).1,
      (okOr (tidyBoundaries grid4 tidyScenario.nodeBlocks tidyScenario.flags
        (tidyScenario.blockAt 0)) (tidyScenario.flags, noBlock)).2, rfl, ?_, ?_, ?_, ?_, ?_⟩
  all_goals decide!

/-- C20 (amended): for valid adjacency and a block whose boundary nodes are node ids and
whose interior nodes have only neighbours owned by the block, `tidyBoundaries` returns and
afterwards every node of the interior list has only neighbours owned by the block. -/
theorem tidyBoundaries_interior_sound (m : Mesh) (nb fl : Int → Int) (b : block)
    (hadj : AdjValid m) (hb : ∀ n ∈ b.boundNodes, 0 ≤ n ∧ n < (m.nNodes : Int))
    (hint : AllOwned m nb b.blockNum b.intNodes) :
    ∃ f b', tidyBoundaries m nb fl b = .ok (f, b') ∧ b'.blockNum = b.blockNum ∧
      AllOwned m nb b.blockNum b'.intNodes := by
  obtain ⟨f, b', h⟩ := tidyBoundaries_total m nb fl b
    (fun p hp y hy => (adjValid_links m hadj p (hb p hp) y hy).1)
  refine ⟨f, b', h, ?_, ?_⟩
  · rw [tidyBoundaries_ok _ _ _ _ _ _ h]
  · intro n hn
    rw [tidyBoundaries_ok _ _ _ _ _ _ h] at hn
    simp only [List.mem_append, List.mem_filter, Bool.not_eq_true'] at hn
    rcases hn with hn | ⟨hn, hs⟩
    · exact hint n hn
    · exact tidyBoundaries_promoted _ _ _ _ _ _ h n hn hs

theorem tidyBoundaries_interior_sound_witness :
    ∃ f b', tidyBoundaries grid4 splitScenario.nodeBlocks splitScenario.flags
        (mkBlock 0 [0] [1, 2, 3, 4, 5, 6, 7] (-1) (-1)) = .ok (f, b') ∧
      b'.blockNum = (mkBlock 0 [0] [1, 2, 3, 4, 5, 6, 7] (-1) (-1)).blockNum ∧
      AllOwned grid4 splitScenario.nodeBlocks
        (mkBlock 0 [0] [1, 2, 3, 4, 5, 6, 7] (-1) (-1)).blockNum b'.intNodes :=
  tidyBoundaries_interior_sound grid4 _ _ _ (by decide!) (by decide) (by decide!)

theorem ownedNodes_nodup (m : Mesh) (nb : Int → Int) (bn : Int) : (ownedNodes m nb bn).Nodup := by
  unfold ownedNodes
  apply List.Nodup.filter
  exact (List.nodup_range _).map (fun a b h => by exact_mod_cast h)

/-- C19: for valid adjacency, `redoLists` on `blocks[self]` returns, leaves the owner array
as it was, and afterwards the two lists of the block hold exactly the node ids `n` with
`owner[n] = blockNum`, each once; such a node is in the interior list iff all its
neighbours are owned by the block; interior nodes are flagged `1`, boundary nodes `2`. -/
theorem redoLists_rebuilds_lists (m : Mesh) (s : State) (self : Nat) (hadj : AdjValid m)
    (hself : self < s.blocks.length) :
    ∃ s', redoListsAt m s self = .ok s' ∧ s'.nodeBlocks = s.nodeBlocks ∧
      (s'.blockAt self).blockNum = (s.blockAt self).blockNum ∧
      (∀ n, n ∈ (s'.blockAt self).nodes ↔
        ((0 ≤ n ∧ n < (m.nNodes : Int)) ∧ s.nodeBlocks n = (s.blockAt self).blockNum)) ∧
      (s'.blockAt self).nodes.Nodup ∧
      (∀ n ∈ (s'.blockAt self).nodes,
        (n ∈ (s'.blockAt self).intNodes ↔
          ∀ y ∈ m.links n, s.nodeBlocks y = (s.blockAt self).blockNum)) ∧
      (∀ n ∈ (s'.blockAt self).intNodes, s'.flags n = 1) ∧
      (∀ n ∈ (s'.blockAt self).boundNodes, s'.flags n = 2) := by
  have hown : ∀ p ∈ ownedNodes m s.nodeBlocks (s.blockAt self).blockNum,
      ∀ y ∈ m.links p, 0 ≤ y := fun p hp y hy =>
    (adjValid_links m hadj p ((mem_ownedNodes _ _ _ _).1 hp).1 y hy).1
  obtain ⟨f, b', h⟩ : ∃ f b', redoLists m s.nodeBlocks s.flags (s.blockAt self) = .ok (f, b') :=
    tidyBoundaries_total m s.nodeBlocks _ _ hown
  have hb := redoLists_ok _ _ _ _ _ _ h
  have hat : ({ s with flags := f, blocks := s.blocks.set self b' } : State).blockAt self = b' := by
    simp only [State.blockAt, getD_set_block]
    rw [if_pos ⟨trivial, hself⟩]
  refine ⟨{ s with flags := f, blocks := s.blocks.set self b' }, ?_, rfl, ?_, ?_, ?_, ?_, ?_, ?_⟩
  · unfold redoListsAt; rw [h]
  · rw [hat, hb]
  · intro n; rw [hat]; exact redoLists_nodes _ _ _ _ _ _ h n
  · rw [hat, hb]
    simp only [block.nodes]
    refine List.Nodup.append ((ownedNodes_nodup _ _ _).filter _) ((ownedNodes_nodup _ _ _).filter _) ?_
    intro n h1 h2
    simp only [List.mem_filter, Bool.not_eq_true'] at h1 h2
    rw [h1.2] at h2
    exact Bool.false_ne_true h2.2
  · rw [hat]
    intro n hn
    constructor
    · intro hi
      rw [hb] at hi
      simp only [List.mem_filter, Bool.not_eq_true'] at hi
      exact tidyBoundaries_promoted _ _ _ _ _ _ h n hi.1 hi.2
    · intro hall
      rcases List.mem_append.1 hn with hi | hbd
      · exact hi
      · exfalso
        rw [hb] at hbd
        simp only [List.mem_filter] at hbd
        obtain ⟨y, hy, hne⟩ := staysBoundary_true _ _ _ _ hbd.2
        exact hne (hall y hy)
  · rw [hat]
    intro n hn
    rw [hb] at hn
    simp only [List.mem_filter, Bool.not_eq_true'] at hn
    show f n = 1
    rw [tidyBoundaries_flags _ _ _ _ _ _ h n]
    exact if_pos ⟨hn.1, hn.2⟩
  · rw [hat]
    intro n hn
    rw [hb] at hn
    simp only [List.mem_filter] at hn
    show f n = 2
    rw [tidyBoundaries_flags _ _ _ _ _ _ h n, if_neg (by simp [hn.2]), updAll_apply, if_pos hn.1]

theorem redoLists_rebuilds_lists_witness :
    ∃ s', redoListsAt grid4 joinScenario 1 = .ok s' ∧ s'.nodeBlocks = joinScenario.nodeBlocks ∧
      (s'.blockAt 1).blockNum = (joinScenario.blockAt 1).blockNum ∧
      (∀ n, n ∈ (s'.blockAt 1).nodes ↔
        ((0 ≤ n ∧ n < (grid4.nNodes : Int)) ∧
          joinScenario.nodeBlocks n = (joinScenario.blockAt 1).blockNum)) ∧
      (s'.blockAt 1).nodes.Nodup ∧
      (∀ n ∈ (s'.blockAt 1).nodes,
        (n ∈ (s'.blockAt 1).intNodes ↔
          ∀ y ∈ grid4.links n, joinScenario.nodeBlocks y = (joinScenario.blockAt 1).blockNum)) ∧
      (∀ n ∈ (s'.blockAt 1).intNodes, s'.flags n = 1) ∧
      (∀ n ∈ (s'.blockAt 1).boundNodes, s'.flags n = 2) :=
  redoLists_rebuilds_lists grid4 joinScenario 1 (by decide!) (by decide)

/-! ### `advanceGreedy`: scenario and the two caps -/

/-- C17: on the 4x4 grid with one active block (`max_size = 8`) seeded at node 5, the first
`advanceGreedy(-1)` returns 4 and leaves the block owning exactly `{5,1,4,6,9}`; the second
leaves it owning exactly the 8 nodes `{5,1,4,6,9,0,2,8}`; after each call `flag[5] = 1` and
every owned node with a free neighbour has flag `2`. -/
theorem greedy_scenario_two_advances :
    WellFormed grid4 greedySeed ∧
    advanceGreedy grid4 greedySeed 0 (-1) = .ok (4, greedyAfter1) ∧
    (∀ k ∈ List.range 16, (greedyAfter1.nodeBlocks (k : Int) = 0 ↔ (k : Int) ∈ [5, 1, 4, 6, 9])) ∧
    (∀ n, n ∈ (greedyAfter1.blockAt 0).nodes ↔ n ∈ [5, 1, 4, 6, 9]) ∧
    (∃ r, advanceGreedy grid4 greedyAfter1 0 (-1) = .ok (r, greedyAfter2)) ∧
    (∀ k ∈ List.range 16,
      (greedyAfter2.nodeBlocks (k : Int) = 0 ↔ (k : Int) ∈ [5, 1, 4, 6, 9, 0, 2, 8])) ∧
    (∀ n, n ∈ (greedyAfter2.blockAt 0).nodes ↔ n ∈ [5, 1, 4, 6, 9, 0, 2, 8]) ∧
    (greedyAfter2.blockAt 0).size = 8 ∧
    greedyAfter1.flags 5 = 1 ∧ greedyAfter2.flags 5 = 1 ∧
    (∀ k ∈ List.range 16, greedyAfter1.nodeBlocks (k : Int) = 0 →
      hasFreeNbr grid4 greedyAfter1 (k : Int) = true → greedyAfter1.flags (k : Int) = 2) ∧
    (∀ k ∈ List.range 16, greedyAfter2.nodeBlocks (k : Int) = 0 →
      hasFreeNbr grid4 greedyAfter2 (k : Int) = true → greedyAfter2.flags (k : Int) = 2) := by
  refine ⟨wellFormed_arr _ _ _ _ (by decide) (by decide) (by decide) (by decide!), rfl,
    by decide!, ?_, ⟨3, rfl⟩, by decide!, ?_, by decide!, by decide!, by decide!, by decide!,
    by decide!⟩
  · have h : (greedyAfter1.blockAt 0).nodes = [5, 1, 4, 6, 9] := by decide!
    intro n; rw [h]
  · have h : (greedyAfter2.blockAt 0).nodes = [5, 1, 4, 0, 6, 9, 2, 8] := by decide!
    intro n; rw [h]; simp only [List.mem_cons, List.mem_singleton, List.not_mem_nil, or_false]
    constructor <;> intro h <;> omega

/-- C12 (code defect): the size test of `advanceGreedy` is made only after a node was
claimed.  On the block owning `{0..7}` of the 4x4 grid, active and exactly at
`max_size = 8`, `advanceGreedy(-1)` claims node 8 and leaves the block with 9 nodes. -/
theorem advanceGreedy_grows_past_max_size :
    WellFormed grid4 splitScenario ∧
    (splitScenario.blockAt 0).isActive = true ∧ (splitScenario.blockAt 0).size = 8 ∧
    (splitScenario.blockAt 0).maxSize = 8 ∧
    ∃ s', advanceGreedy grid4 splitScenario 0 (-1) = .ok (1, s') ∧
      (s'.blockAt 0).size = 9 ∧ (s'.blockAt 0).maxSize = 8 ∧ s'.nodeBlocks 8 = 0 ∧
      (s'.blockAt 0).intNodes = [0, 1, 2, 3, 4] ∧ (s'.blockAt 0).boundNodes = [5, 6, 7, 8] := by
  refine ⟨wellFormed_arr _ _ _ _ (by decide) (by decide) (by decide) (by decide!),
    by decide, by decide, by decide,
    postState (advanceGreedy grid4 splitScenario 0 (-1)) splitScenario, ?_, ?_, ?_, ?_, ?_, ?_⟩
  · rfl
  all_goals decide!

/-- C14 (code defect): when the cap ends the scan of a neighbour row early, `isBoundary` is
still `false` and the node is moved to the interior list although unvisited neighbours
are free.  From the seed at node 5, `advanceGreedy(1)` claims node 1 and leaves node 5 in
the interior list with flag `1`, while its neighbours 4, 6 and 9 are free. -/
theorem advanceGreedy_cap_promotes_boundary_node :
    WellFormed grid4 greedySeed ∧
    ∃ s', advanceGreedy grid4 greedySeed 0 1 = .ok (1, s') ∧
      (s'.blockAt 0).intNodes = [5] ∧ (s'.blockAt 0).boundNodes = [1] ∧ s'.flags 5 = 1 ∧
      grid4.links 5 = [1, 4, 6, 9] ∧
      s'.nodeBlocks 4 = -1 ∧ s'.nodeBlocks 6 = -1 ∧ s'.nodeBlocks 9 = -1 ∧
      ¬ AllOwned grid4 s'.nodeBlocks (s'.blockAt 0).blockNum (s'.blockAt 0).intNodes := by
  refine ⟨wellFormed_arr _ _ _ _ (by decide) (by decide) (by decide) (by decide!),
    postState (advanceGreedy grid4 greedySeed 0 1) greedySeed, ?_, ?_, ?_, ?_, ?_, ?_, ?_, ?_, ?_⟩
  · rfl
  all_goals decide!

/-! ### `splitInLayer`: link order -/

theorem growVisit_blockNum (B : Int) (st : GrowSt) (l : Int) :
    (growVisit B st l).nb.blockNum = st.nb.blockNum := by
  unfold growVisit
  split <;> rfl

theorem layerSeed_blockNum (m : Mesh) (B : Int) (src : List Int) (ob fl : Int → Int)
    (nb : block) : (layerSeed m B src ob fl nb).nb.blockNum = nb.blockNum := by
  unfold layerSeed
  apply foldl_inv (fun st : GrowSt => st.nb.blockNum = nb.blockNum)
  · rfl
  · intro st p _ hst
    apply foldl_inv (fun st : GrowSt => st.nb.blockNum = nb.blockNum)
    · exact hst
    · intro st2 l _ h2
      rw [growVisit_blockNum]; exact h2

theorem layerSeeds_blockNum (m : Mesh) (s : State) (me nb0 nb1 : block) :
    (layerSeeds m s me nb0 nb1).nb1.blockNum = nb1.blockNum := by
  unfold layerSeeds
  simp only
  split
  · exact layerSeed_blockNum _ _ _ _ _ _
  · rfl

theorem layerDeepSeed_blockNum (m : Mesh) (me : block) (ob fl : Int → Int) (nb other : block)
    (ob' fl' : Int → Int) (nb' : block)
    (h : layerDeepSeed m me ob fl nb other = .ok (ob', fl', nb')) :
    nb'.blockNum = nb.blockNum := by
  unfold layerDeepSeed at h
  split at h
  · simp only at h
    split at h
    · cases h
    · simp only [Except.ok.injEq, Prod.mk.injEq] at h
      rw [← h.2.2]
  · simp only [Except.ok.injEq, Prod.mk.injEq] at h
    rw [← h.2.2]

theorem growPass_blockNum (m : Mesh) (B : Int) (ob fl : Int → Int) (nb : block) :
    (growPass m B ob fl nb).nb.blockNum = nb.blockNum :=
  (growPass_inv m B nb.blockNum nb.blockNum ob ob fl nb (Or.inl rfl) rfl (claimed_refl _ _ _)).1

theorem layerLoop_blockNum (m : Mesh) (B : Int) (lim : Bool) (fuel : Nat) :
    ∀ (t : Bool) (st : SplitSt),
      (layerLoop m B lim fuel t st).nb1.blockNum = st.nb1.blockNum := by
  induction fuel with
  | zero => intro t st; rfl
  | succ fuel ih =>
    intro t st
    unfold layerLoop
    split
    · split
      · exact ih _ _
      · simp only
        split
        · split
          · exact growPass_blockNum _ _ _ _ _
          · rw [ih]; exact growPass_blockNum _ _ _ _ _
        · rw [ih]; exact growPass_blockNum _ _ _ _ _
    · split
      · exact ih _ _
      · simp only
        split
        · split
          · rfl
          · rw [ih]
        · rw [ih]

/-- The new block built by the growth phase of `splitInLayer` carries the number
`blocks.size()`. -/
theorem layerGrow_blockNum (m : Mesh) (init : block) (s : State) (self : Nat) (lim : Bool)
    (g : SplitSt) (h : layerGrow m init s self lim = .ok g) :
    g.nb1.blockNum = (s.blocks.length : Int) := by
  unfold layerGrow at h
  simp only at h
  split at h
  · cases h
  · split at h
    · cases h
    · rename_i ob1 fl1 nb0 hd0
      split at h
      · cases h
      · rename_i ob2 fl2 nb1 hd1
        split at h
        · cases h
        · split at h
          · cases h
          · rename_i fl3 nb0t ht0
            split at h
            · cases h
            · rename_i fl4 nb1t ht1
              simp only [Except.ok.injEq] at h
              rw [← h]
              simp only
              rw [tidyBoundaries_ok _ _ _ _ _ _ ht1]
              simp only
              rw [layerLoop_blockNum, layerDeepSeed_blockNum _ _ _ _ _ _ _ _ _ hd1,
                layerSeeds_blockNum]
              simp [splitNew]

theorem layerFinish_ok (m : Mesh) (s : State) (self : Nat) (g : SplitSt) (r : Int)
    (s' : State) (h : layerFinish m s self g = .ok (r, s')) :
    ∃ fl me1,
      redoLists m (renumber g.nodeBlocks g.nb0 (s.blockAt self).blockNum).1 g.flags
        { s.blockAt self with modifiedTimes := (s.blockAt self).modifiedTimes + 1 } =
          .ok (fl, me1) ∧
      s' = splitLink
        { flags := fl, nodeBlocks := (renumber g.nodeBlocks g.nb0 (s.blockAt self).blockNum).1,
          blocks := s.blocks.set self me1 }
        self g.nb1 1 ∧
      r = (s.blocks.length : Int) := by
  unfold layerFinish at h
  simp only at h
  cases hr : redoLists m (renumber g.nodeBlocks g.nb0 (s.blockAt self).blockNum).1 g.flags
      { s.blockAt self with modifiedTimes := (s.blockAt self).modifiedTimes + 1 } with
  | error e => rw [hr] at h; cases h
  | ok x =>
    obtain ⟨fl, me1⟩ := x
    rw [hr] at h
    simp only [Except.ok.injEq, Prod.mk.injEq] at h
    refine ⟨fl, me1, rfl, h.2.symm, ?_⟩
    rw [← h.1, splitLink_length]
    simp

/-- C11: when `splitInLayer` on a chained block `blocks[self]` (numbered by its position,
links `-1` or indices of other blocks) returns an index `r` other than `-1`, then
`r` is the vector length before the call, `blocks[r].blockNum = r`, `self.prev` is
unchanged, `self.next = r`, `blocks[r].prev = self`, `blocks[r].next` is the old
`self.next`, and the old next block (when `>= 0`) has `prev = r`. -/
theorem splitInLayer_link_order (m : Mesh) (init : block) (xy : Int) (s : State) (self : Nat)
    (lim : Bool) (r : Int) (s' : State)
    (hself : self < s.blocks.length)
    (hnum : (s.blockAt self).blockNum = (self : Int))
    (hlinks : SelfLinksOk s self)
    (hchain : (s.blockAt self).prevBlock ≠ -1 ∨ (s.blockAt self).nextBlock ≠ -1)
    (h : splitInLayer m init xy s self lim = .ok (r, s')) (hr : r ≠ -1) :
    r = (s.blocks.length : Int) ∧ (s'.getB r).blockNum = r ∧
    (s'.blockAt self).prevBlock = (s.blockAt self).prevBlock ∧
    (s'.blockAt self).nextBlock = r ∧
    (s'.getB r).prevBlock = (self : Int) ∧
    (s'.getB r).nextBlock = (s.blockAt self).nextBlock ∧
    (0 ≤ (s.blockAt self).nextBlock →
      (s'.getB (s.blockAt self).nextBlock).prevBlock = r) := by
  unfold splitInLayer at h
  simp only at h
  split at h
  · simp only [Except.ok.injEq, Prod.mk.injEq] at h
    exact absurd h.1.symm hr
  · split at h
    · rename_i hboth
      rcases hchain with hc | hc
      · exact absurd hboth.1 hc
      · exact absurd hboth.2 hc
    · cases hg : layerGrow m init s self lim with
      | error e => rw [hg] at h; cases h
      | ok g =>
        rw [hg] at h
        simp only at h
        obtain ⟨fl, me1, hredo, hs', hret⟩ := layerFinish_ok m s self g r s' h
        have hnb := layerGrow_blockNum m init s self lim g hg
        have hme := redoLists_ok _ _ _ _ _ _ hredo
        have hat := blockAt_set_self fl (renumber g.nodeBlocks g.nb0 (s.blockAt self).blockNum).1
          s.blocks self me1 hself
        have hprev : me1.prevBlock = (s.blockAt self).prevBlock := by rw [hme]
        have hnext : me1.nextBlock = (s.blockAt self).nextBlock := by rw [hme]
        have hbn : me1.blockNum = (self : Int) := by rw [hme]; exact hnum
        have hp : (s.blockAt self).prevBlock ≠ (self : Int) := by
          rcases hlinks.2 with h1 | h1
          · rw [h1]; omega
          · exact h1.2.2
        have hn : (s.blockAt self).nextBlock ≠ (self : Int) := by
          rcases hlinks.1 with h1 | h1
          · rw [h1]; omega
          · exact h1.2.2
        have hsl := splitLink_self
          { flags := fl, nodeBlocks := (renumber g.nodeBlocks g.nb0 (s.blockAt self).blockNum).1,
            blocks := s.blocks.set self me1 } self g.nb1 1
          (by simpa using hself) (by rw [hat, hprev]; exact hp) (by rw [hat, hnext]; exact hn)
        have hnew := splitLink_blockAt_new
          { flags := fl, nodeBlocks := (renumber g.nodeBlocks g.nb0 (s.blockAt self).blockNum).1,
            blocks := s.blocks.set self me1 } self g.nb1 1
        simp only [List.length_set, if_true] at hnew
        rw [hat] at hnew hsl
        simp only [if_true] at hsl
        have hgr : s'.getB r = s'.blockAt s.blocks.length := by
          rw [hret, getB_natCast]
        rw [hgr, hs', hnew]
        refine ⟨hret, ?_, ?_, ?_, ?_, ?_, ?_⟩
        · simp only; rw [hnb, hret]
        · rw [hsl.1, hprev]
        · rw [hsl.2, hnb, hret]
        · simp only; exact hbn
        · simp only; exact hnext
        · intro h0
          rcases hlinks.1 with h1 | h1
          · rw [h1] at h0; omega
          · have hj : (s.blockAt self).nextBlock.toNat < s.blocks.length := by omega
            have hold := (splitLink_links_old
              { flags := fl,
                nodeBlocks := (renumber g.nodeBlocks g.nb0 (s.blockAt self).blockNum).1,
                blocks := s.blocks.set self me1 } self g.nb1 1
              (s.blockAt self).nextBlock.toNat (by simpa using hj)).2
            rw [hat, hnext] at hold
            simp only [if_true] at hold
            rw [if_pos (by omega)] at hold
            unfold State.getB
            rw [hold, hnb, hret]

theorem splitInLayer_link_order_witness :
    (3 : Int) = (splitChainScenario.blocks.length : Int) ∧ (layerChainAfter.getB 3).blockNum = 3 ∧
    (layerChainAfter.blockAt 0).prevBlock = (splitChainScenario.blockAt 0).prevBlock ∧
    (layerChainAfter.blockAt 0).nextBlock = 3 ∧
    (layerChainAfter.getB 3).prevBlock = ((0 : Nat) : Int) ∧
    (layerChainAfter.getB 3).nextBlock = (splitChainScenario.blockAt 0).nextBlock ∧
    (0 ≤ (splitChainScenario.blockAt 0).nextBlock →
      (layerChainAfter.getB (splitChainScenario.blockAt 0).nextBlock).prevBlock = 3) :=
  splitInLayer_link_order grid4 noBlock 8 splitChainScenario 0 false 3 layerChainAfter
    (by decide) (by decide) (by decide) (by decide) (by rfl) (by decide)

/-! ### `minimise` -/

theorem inactiveLinked_iff (m : Mesh) (s : State) (p : Int) :
    inactiveLinked m s p = true ↔ InactiveNbr m s p := by
  unfold inactiveLinked InactiveNbr
  simp only [List.any_eq_true, Bool.and_eq_true, decide_eq_true_eq, Bool.not_eq_true']

/-- While `minimise` runs on an active block, the test made on a boundary node gives the
same answer as on the state at the start of the call. -/
theorem inactiveLinked_released (m : Mesh) (s : State) (self : Nat) (st : State)
    (hact : (s.blockAt self).isActive = true) (hrel : Released s self st) (p : Int) :
    inactiveLinked m st p = decide (InactiveNbr m s p) := by
  have key : inactiveLinked m st p = true ↔ InactiveNbr m s p := by
    rw [inactiveLinked_iff]
    unfold InactiveNbr
    constructor
    · rintro ⟨y, hy, h0, h1⟩
      refine ⟨y, hy, ?_⟩
      rcases hrel.2 y with h | h
      · rw [← h]
        refine ⟨h0, ?_⟩
        have : st.getB (st.nodeBlocks y) = s.getB (st.nodeBlocks y) := by
          simp only [State.getB, State.blockAt, hrel.1]
        rw [← this]; exact h1
      · rw [h.2] at h0; omega
    · rintro ⟨y, hy, h0, h1⟩
      refine ⟨y, hy, ?_⟩
      rcases hrel.2 y with h | h
      · rw [h]
        refine ⟨h0, ?_⟩
        have : st.getB (s.nodeBlocks y) = s.getB (s.nodeBlocks y) := by
          simp only [State.getB, State.blockAt, hrel.1]
        rw [this]; exact h1
      · rw [h.1, getB_natCast, hact] at h1
        cases h1
  by_cases h : InactiveNbr m s p
  · rw [decide_eq_true h]; exact key.2 h
  · rw [decide_eq_false h]
    cases hv : inactiveLinked m st p
    · rfl
    · exact absurd (key.1 hv) h

/-- The second loop of `minimise`: the nodes with a neighbour in an inactive block are kept
and flagged `2`, the others are released. -/
theorem minimiseLoop_spec (m : Mesh) (s : State) (self : Nat)
    (hact : (s.blockAt self).isActive = true) (ps : List Int) :
    ∀ st : State, Released s self st → (∀ p ∈ ps, s.nodeBlocks p = (self : Int)) →
      (minimiseLoop m ps st).2 = ps.filter (fun p => decide (InactiveNbr m s p)) ∧
      (minimiseLoop m ps st).1.blocks = s.blocks ∧
      (∀ n, (minimiseLoop m ps st).1.nodeBlocks n =
        if n ∈ ps ∧ ¬ InactiveNbr m s n then -1 else st.nodeBlocks n) ∧
      (∀ n, (minimiseLoop m ps st).1.flags n =
        if n ∈ ps then (if InactiveNbr m s n then 2 else 0) else st.flags n) := by
  induction ps with
  | nil =>
    intro st hrel _
    refine ⟨rfl, hrel.1, ?_, ?_⟩ <;> intro n <;> simp [minimiseLoop]
  | cons p ps ih =>
    intro st hrel hown
    have hq := inactiveLinked_released m s self st hact hrel p
    have hown2 : ∀ q ∈ ps, s.nodeBlocks q = (self : Int) :=
      fun q hq => hown q (List.mem_cons_of_mem _ hq)
    unfold minimiseLoop
    by_cases hp : InactiveNbr m s p
    · rw [decide_eq_true hp] at hq
      rw [if_pos hq]
      have hrel2 : Released s self { st with flags := upd st.flags p 2 } := ⟨hrel.1, hrel.2⟩
      obtain ⟨e1, e2, e3, e4⟩ := ih _ hrel2 hown2
      refine ⟨?_, e2, ?_, ?_⟩
      · simp only [e1, List.filter_cons, decide_eq_true hp, if_true]
      · intro n
        simp only
        rw [e3 n]
        by_cases hn : n = p
        · subst hn; simp [hp]
        · simp [hn]
      · intro n
        simp only
        rw [e4 n]
        by_cases hn : n = p
        · subst hn; simp [hp, upd_apply]
        · simp [hn, upd_apply]
    · rw [decide_eq_false hp] at hq
      rw [if_neg (by rw [hq]; exact Bool.false_ne_true)]
      have hrel2 : Released s self
          { st with nodeBlocks := upd st.nodeBlocks p (-1), flags := upd st.flags p 0 } := by
        refine ⟨hrel.1, ?_⟩
        intro n
        simp only [upd_apply]
        by_cases hn : n = p
        · subst hn
          simp only [if_true]
          exact Or.inr ⟨hown n (List.mem_cons_self _ _), trivial⟩
        · simp only [hn, if_false]
          exact hrel.2 n
      obtain ⟨e1, e2, e3, e4⟩ := ih _ hrel2 hown2
      refine ⟨?_, e2, ?_, ?_⟩
      · simp only [e1, List.filter_cons, decide_eq_false hp]
        simp
      · intro n
        rw [e3 n]
        by_cases hn : n = p
        · subst hn; simp [hp, upd_apply]
        · simp [hn, upd_apply]
      · intro n
        rw [e4 n]
        by_cases hn : n = p
        · subst hn; simp [hp, upd_apply]
        · simp [hn, upd_apply]

theorem ownerLists_mem (s : State) (h : OwnerLists s) (self : Nat) (hself : self < s.blocks.length)
    (n : Int) : s.nodeBlocks n = (self : Int) ↔ n ∈ (s.blockAt self).nodes := by
  rw [h n self]
  exact ⟨fun h => h.2, fun h => ⟨hself, h⟩⟩

/-- C18: on an inactive block `minimise` changes nothing.  On an active block of a state
satisfying I1-I3 the interior list is empty afterwards; a node of the former boundary list
is in the boundary list afterwards iff it has a neighbour owned by an inactive block, and
the nodes of the new boundary list are former boundary nodes with flag `2` and owner
`self`; every other node formerly held by the block has owner `-1` and flag `0`; owner and
flag of every node not held by the block are unchanged. -/
theorem minimise_postcondition (m : Mesh) (s : State) (self : Nat)
    (hself : self < s.blocks.length) (hown : OwnerLists s) (hdis : ListsDisjoint s) :
    ((s.blockAt self).isActive = false → minimise m s self = s) ∧
    ((s.blockAt self).isActive = true →
      ((minimise m s self).blockAt self).intNodes = [] ∧
      (∀ n ∈ (s.blockAt self).boundNodes,
        (n ∈ ((minimise m s self).blockAt self).boundNodes ↔ InactiveNbr m s n)) ∧
      (∀ n ∈ ((minimise m s self).blockAt self).boundNodes,
        n ∈ (s.blockAt self).boundNodes ∧ (minimise m s self).flags n = 2 ∧
        (minimise m s self).nodeBlocks n = (self : Int)) ∧
      (∀ n ∈ (s.blockAt self).nodes, n ∉ ((minimise m s self).blockAt self).boundNodes →
        (minimise m s self).nodeBlocks n = -1 ∧ (minimise m s self).flags n = 0) ∧
      (∀ n, n ∉ (s.blockAt self).nodes →
        (minimise m s self).nodeBlocks n = s.nodeBlocks n ∧
        (minimise m s self).flags n = s.flags n)) := by
  constructor
  · intro hact
    unfold minimise
    simp [hact]
  · intro hact
    have hmem := ownerLists_mem s hown self hself
    have hrel : Released s self
        { s with nodeBlocks := updAll s.nodeBlocks (s.blockAt self).intNodes (-1),
                 flags := updAll s.flags (s.blockAt self).intNodes 0 } := by
      refine ⟨rfl, ?_⟩
      intro n
      simp only [updAll_apply]
      by_cases hn : n ∈ (s.blockAt self).intNodes
      · rw [if_pos hn]
        exact Or.inr ⟨(hmem n).2 (List.mem_append_left _ hn), rfl⟩
      · rw [if_neg hn]
        exact Or.inl rfl
    have hb : ∀ p ∈ (s.blockAt self).boundNodes, s.nodeBlocks p = (self : Int) :=
      fun p hp => (hmem p).2 (List.mem_append_right _ hp)
    obtain ⟨e1, e2, e3, e4⟩ := minimiseLoop_spec m s self hact (s.blockAt self).boundNodes _ hrel hb
    have hm : minimise m s self =
        (minimiseLoop m (s.blockAt self).boundNodes
          { s with nodeBlocks := updAll s.nodeBlocks (s.blockAt self).intNodes (-1),
                   flags := updAll s.flags (s.blockAt self).intNodes 0 }).1.modAt self
          (fun b => { b with intNodes := [], boundNodes :=
            (minimiseLoop m (s.blockAt self).boundNodes
              { s with nodeBlocks := updAll s.nodeBlocks (s.blockAt self).intNodes (-1),
                       flags := updAll s.flags (s.blockAt self).intNodes 0 }).2 }) := by
      unfold minimise
      simp [hact]
    generalize hR : minimiseLoop m (s.blockAt self).boundNodes
          { s with nodeBlocks := updAll s.nodeBlocks (s.blockAt self).intNodes (-1),
                   flags := updAll s.flags (s.blockAt self).intNodes 0 } = R at hm e1 e2 e3 e4
    have hat : (minimise m s self).blockAt self =
        { R.1.blockAt self with intNodes := [], boundNodes := R.2 } := by
      rw [hm, modAt_blockAt, if_pos ⟨rfl, by rw [e2]; exact hself⟩]
    have hob : (minimise m s self).nodeBlocks = R.1.nodeBlocks := by rw [hm]; rfl
    have hfl : (minimise m s self).flags = R.1.flags := by rw [hm]; rfl
    rw [hat, hob, hfl]
    simp only [e1, List.mem_filter, decide_eq_true_eq]
    simp only [updAll_apply] at e3 e4
    refine ⟨trivial, ?_, ?_, ?_, ?_⟩
    · intro n hn
      exact ⟨fun h => h.2, fun h => ⟨hn, h⟩⟩
    · rintro n ⟨hn, hq⟩
      refine ⟨hn, ?_, ?_⟩
      · rw [e4 n, if_pos hn, if_pos hq]
      · rw [e3 n, if_neg (fun h => h.2 hq), if_neg (fun hi => hdis self hself n ⟨hi, hn⟩)]
        exact hb n hn
    · intro n hn hnot
      rcases List.mem_append.1 hn with hi | hbd
      · by_cases hbd : n ∈ (s.blockAt self).boundNodes
        · exact absurd ⟨hi, hbd⟩ (hdis self hself n)
        · rw [e3 n, e4 n]
          simp only [hbd, hi, false_and, if_false, if_true, and_self]
      · have hq : ¬ InactiveNbr m s n := fun h => hnot ⟨hbd, h⟩
        rw [e3 n, e4 n, if_pos ⟨hbd, hq⟩, if_pos hbd, if_neg hq]
        exact ⟨rfl, rfl⟩
    · intro n hn
      have h1 : n ∉ (s.blockAt self).intNodes := fun h => hn (List.mem_append_left _ h)
      have h2 : n ∉ (s.blockAt self).boundNodes := fun h => hn (List.mem_append_right _ h)
      rw [e3 n, e4 n, if_neg (fun h => h2 h.1), if_neg h2, if_neg h1, if_neg h1]
      exact ⟨rfl, rfl⟩

theorem minimise_postcondition_witness :
    ((minimiseScenario.blockAt 0).isActive = false →
      minimise grid4 minimiseScenario 0 = minimiseScenario) ∧
    ((minimiseScenario.blockAt 0).isActive = true →
      ((minimise grid4 minimiseScenario 0).blockAt 0).intNodes = [] ∧
      (∀ n ∈ (minimiseScenario.blockAt 0).boundNodes,
        (n ∈ ((minimise grid4 minimiseScenario 0).blockAt 0).boundNodes ↔
          InactiveNbr grid4 minimiseScenario n)) ∧
      (∀ n ∈ ((minimise grid4 minimiseScenario 0).blockAt 0).boundNodes,
        n ∈ (minimiseScenario.blockAt 0).boundNodes ∧
        (minimise grid4 minimiseScenario 0).flags n = 2 ∧
        (minimise grid4 minimiseScenario 0).nodeBlocks n = ((0 : Nat) : Int)) ∧
      (∀ n ∈ (minimiseScenario.blockAt 0).nodes,
        n ∉ ((minimise grid4 minimiseScenario 0).blockAt 0).boundNodes →
        (minimise grid4 minimiseScenario 0).nodeBlocks n = -1 ∧
        (minimise grid4 minimiseScenario 0).flags n = 0) ∧
      (∀ n, n ∉ (minimiseScenario.blockAt 0).nodes →
        (minimise grid4 minimiseScenario 0).nodeBlocks n = minimiseScenario.nodeBlocks n ∧
        (minimise grid4 minimiseScenario 0).flags n = minimiseScenario.flags n)) :=
  minimise_postcondition grid4 minimiseScenario 0 (by decide)
    (ownerLists_arr _ _ _ (by decide) (by decide) (by decide)) (by decide)

theorem minimiseScenario_result :
    ((minimise grid4 minimiseScenario 0).blockAt 0).boundNodes = [1, 5] ∧
    (List.range 8).map (fun (k : Nat) => (minimise grid4 minimiseScenario 0).nodeBlocks (k : Int)) =
      [-1, 0, 1, 1, -1, 0, 1, 1] := by
  constructor <;> decide!

/-! ### `advanceGreedy`: loop invariant -/

theorem capHit_room (nAdded mx size maxSize : Int) (h : ¬ CapHit nAdded mx size maxSize) :
    0 < mx → nAdded < mx := by
  intro h0
  unfold CapHit at h
  by_contra hc
  exact h (Or.inl ⟨by omega, h0⟩)

theorem greedyInv_claim (m : Mesh) (B : Int) (fl0 ob0 : Int → Int) (int0 boundAll : List Int)
    (mx : Int) (st : GreedySt) (pend : List Int) (p l : Int) (hp : p ∈ boundAll)
    (hl : l ∈ m.links p) (h0 : st.flags l = 0)
    (h : GreedyInv m B fl0 ob0 int0 boundAll mx st pend) (hroom : 0 < mx → st.nAdded < mx) :
    GreedyInv m B fl0 ob0 int0 boundAll mx
      { st with flags := upd st.flags l 2, nodeBlocks := upd st.nodeBlocks l B,
                added := st.added ++ [l], nAdded := st.nAdded + 1, anyAdded := true } pend := by
  have hnot : l ∉ st.added ∧ fl0 l = 0 := by
    rcases h.flags l with h1 | h1 | h1
    · rw [h0] at h1; omega
    · exact ⟨h1.1, by rw [← h1.2]; exact h0⟩
    · rw [h0] at h1; omega
  refine ⟨?_, ?_, ?_, ?_, ?_, h.lists, ?_, ?_⟩
  · intro n
    simp only [upd_apply, List.mem_append, List.mem_singleton]
    by_cases hn : n = l
    · simp [hn]
    · simp only [hn, if_false, or_false]
      exact h.owner n
  · exact List.Nodup.append h.nodup (List.nodup_singleton l)
      (fun x hx hx2 => hnot.1 (by rw [← List.mem_singleton.1 hx2]; exact hx))
  · intro n hn
    rcases List.mem_append.1 hn with hn | hn
    · exact h.fresh n hn
    · rw [List.mem_singleton.1 hn]; exact hnot.2
  · intro n hn
    rcases List.mem_append.1 hn with hn | hn
    · exact h.linked n hn
    · rw [List.mem_singleton.1 hn]; exact ⟨p, hp, hl⟩
  · simp only [List.length_append, List.length_singleton, Nat.cast_add, Nat.cast_one]
    rw [h.count]
  · intro n
    simp only [upd_apply, List.mem_append, List.mem_singleton]
    by_cases hn : n = l
    · left; simp [hn]
    · simp only [hn, if_false, or_false]
      exact h.flags n
  · intro hm
    have := hroom hm
    show st.nAdded + 1 ≤ mx
    omega

theorem greedyScan_inv (m : Mesh) (b : block) (fl0 ob0 : Int → Int) (int0 boundAll : List Int)
    (mx : Int) (pendArg pend : List Int) (p : Int) (hp : p ∈ boundAll) (ls : List Int) :
    ∀ st : GreedySt, (∀ l ∈ ls, l ∈ m.links p) →
      GreedyInv m b.blockNum fl0 ob0 int0 boundAll mx st pend →
      (0 < mx → st.nAdded < mx) →
      GreedyInv m b.blockNum fl0 ob0 int0 boundAll mx (greedyScan b mx pendArg ls st) pend := by
  induction ls with
  | nil => intro st _ h _; exact h
  | cons l ls ih =>
    intro st hls h hroom
    have hls2 : ∀ x ∈ ls, x ∈ m.links p := fun x hx => hls x (List.mem_cons_of_mem _ hx)
    unfold greedyScan
    split
    · rename_i h0
      have h1 := greedyInv_claim m b.blockNum fl0 ob0 int0 boundAll mx st pend p l hp
        (hls l (List.mem_cons_self _ _)) h0 h hroom
      simp only
      split
      · exact h1
      · rename_i hc
        exact ih _ hls2 h1 (capHit_room _ _ _ _ hc)
    · split
      · exact ih _ hls2 ⟨h.owner, h.nodup, h.fresh, h.linked, h.count, h.lists, h.flags, h.cap⟩
          hroom
      · exact ih _ hls2 h hroom

theorem greedyInv_mem (m : Mesh) (B : Int) (fl0 ob0 : Int → Int) (int0 boundAll : List Int)
    (mx : Int) (st : GreedySt) (p : Int) (rest : List Int)
    (h : GreedyInv m B fl0 ob0 int0 boundAll mx st (p :: rest)) : p ∈ boundAll := by
  obtain ⟨pr, -, hperm⟩ := h.lists
  exact hperm.subset (by simp)

theorem greedyInv_keep (m : Mesh) (B : Int) (fl0 ob0 : Int → Int) (int0 boundAll : List Int)
    (mx : Int) (st : GreedySt) (p : Int) (rest : List Int)
    (h : GreedyInv m B fl0 ob0 int0 boundAll mx st (p :: rest)) :
    GreedyInv m B fl0 ob0 int0 boundAll mx { st with kept := st.kept ++ [p] } rest := by
  refine ⟨h.owner, h.nodup, h.fresh, h.linked, h.count, ?_, h.flags, h.cap⟩
  obtain ⟨pr, h1, h2⟩ := h.lists
  refine ⟨pr, h1, ?_⟩
  simpa using h2

theorem greedyInv_promote (m : Mesh) (B : Int) (fl0 ob0 : Int → Int) (int0 boundAll : List Int)
    (mx : Int) (st : GreedySt) (p : Int) (rest : List Int)
    (h : GreedyInv m B fl0 ob0 int0 boundAll mx st (p :: rest)) :
    GreedyInv m B fl0 ob0 int0 boundAll mx { st with intNodes := st.intNodes ++ [p] } rest := by
  refine ⟨h.owner, h.nodup, h.fresh, h.linked, h.count, ?_, h.flags, h.cap⟩
  obtain ⟨pr, h1, h2⟩ := h.lists
  refine ⟨pr ++ [p], ?_, ?_⟩
  · show st.intNodes ++ [p] = int0 ++ (pr ++ [p])
    rw [h1, List.append_assoc]
  · refine List.Perm.trans ?_ h2
    show (pr ++ [p] ++ (st.kept ++ rest)).Perm (pr ++ (st.kept ++ p :: rest))
    rw [List.append_assoc]
    apply List.Perm.append_left
    simpa using (@List.perm_middle Int p st.kept rest).symm

theorem greedyInv_flag (m : Mesh) (B : Int) (fl0 ob0 : Int → Int) (int0 boundAll : List Int)
    (mx : Int) (st : GreedySt) (pend : List Int) (p v : Int) (hp : p ∈ boundAll)
    (hv : v = 5 ∨ v = 1)
    (h : GreedyInv m B fl0 ob0 int0 boundAll mx st pend) :
    GreedyInv m B fl0 ob0 int0 boundAll mx { st with flags := upd st.flags p v } pend := by
  refine ⟨h.owner, h.nodup, h.fresh, h.linked, h.count, h.lists, ?_, h.cap⟩
  intro n
  simp only [upd_apply]
  by_cases hn : n = p
  · right; right
    rw [if_pos hn, hn]
    exact ⟨hp, hv⟩
  · rw [if_neg hn]
    exact h.flags n

theorem greedyInv_done (m : Mesh) (B : Int) (fl0 ob0 : Int → Int) (int0 boundAll : List Int)
    (mx : Int) (st : GreedySt) (rest : List Int)
    (h : GreedyInv m B fl0 ob0 int0 boundAll mx st rest) :
    GreedyInv m B fl0 ob0 int0 boundAll mx { st with kept := st.kept ++ rest } [] := by
  refine ⟨h.owner, h.nodup, h.fresh, h.linked, h.count, ?_, h.flags, h.cap⟩
  obtain ⟨pr, h1, h2⟩ := h.lists
  exact ⟨pr, h1, by simpa using h2⟩

theorem greedyLoop_inv (m : Mesh) (b : block) (fl0 ob0 : Int → Int) (int0 boundAll : List Int)
    (mx : Int) (pend : List Int) :
    ∀ st : GreedySt, GreedyInv m b.blockNum fl0 ob0 int0 boundAll mx st pend →
      (0 < mx → st.nAdded < mx) →
      GreedyInv m b.blockNum fl0 ob0 int0 boundAll mx (greedyLoop m b mx pend st) [] := by
  induction pend with
  | nil => intro st h _; exact h
  | cons p rest ih =>
    intro st h hroom
    have hp := greedyInv_mem _ _ _ _ _ _ _ _ _ _ h
    unfold greedyLoop
    split
    · exact ih _ (greedyInv_keep _ _ _ _ _ _ _ _ _ _ h) hroom
    · have hsc := greedyScan_inv m b fl0 ob0 int0 boundAll mx (p :: rest) (p :: rest) p hp
        (m.links p) { st with isBoundary := false, anyAdded := false } (fun l hl => hl)
        ⟨h.owner, h.nodup, h.fresh, h.linked, h.count, h.lists, h.flags, h.cap⟩ hroom
      simp only
      generalize greedyScan b mx (p :: rest) (m.links p)
        { st with isBoundary := false, anyAdded := false } = sc at hsc
      obtain ⟨f, o, i, k, a, n, ib, aa⟩ := sc
      have hfl : GreedyInv m b.blockNum fl0 ob0 int0 boundAll mx
          { flags := if aa = true then f else upd f p 5, nodeBlocks := o, intNodes := i,
            kept := k, added := a, nAdded := n, isBoundary := ib, anyAdded := aa }
          (p :: rest) := by
        cases aa
        · exact greedyInv_flag _ _ _ _ _ _ _ _ _ _ 5 hp (Or.inl rfl) hsc
        · exact hsc
      simp only
      generalize (if aa = true then f else upd f p 5) = fl1 at hfl
      cases ib
      · have h1 := greedyInv_promote _ _ _ _ _ _ _ _ _ _
          (greedyInv_flag _ _ _ _ _ _ _ _ _ _ 1 hp (Or.inr rfl) hfl)
        simp only [Bool.false_eq_true, if_false]
        split
        · rename_i hnil
          have hr : rest = [] := by
            have := congrArg List.length hnil
            simp only [List.length_append, List.length_nil] at this
            exact List.length_eq_zero.1 (by omega)
          subst hr
          exact h1
        · split
          · exact greedyInv_done _ _ _ _ _ _ _ _ _ h1
          · rename_i hc
            exact ih _ h1 (capHit_room _ _ _ _ hc)
      · have h1 := greedyInv_keep _ _ _ _ _ _ _ _ _ _ hfl
        simp only [if_true]
        split
        · exact greedyInv_done _ _ _ _ _ _ _ _ _ h1
        · rename_i hc
          exact ih _ h1 (capHit_room _ _ _ _ hc)

theorem greedyInit_inv (m : Mesh) (s : State) (me : block) (mx : Int) :
    GreedyInv m me.blockNum s.flags s.nodeBlocks me.intNodes me.boundNodes mx
      (greedyInit s me) me.boundNodes := by
  refine ⟨?_, List.nodup_nil, ?_, ?_, rfl, ⟨[], by simp [greedyInit], by simp [greedyInit]⟩,
    ?_, ?_⟩
  · intro n; simp [greedyInit]
  · intro n hn; simp [greedyInit] at hn
  · intro n hn; simp [greedyInit] at hn
  · intro n; right; left; simp [greedyInit]
  · intro h; simp only [greedyInit]; omega

theorem tidy_nodes_perm (ints l : List Int) (q : Int → Bool) :
    ((ints ++ l.filter (fun p => !q p)) ++ l.filter q).Perm (ints ++ l) := by
  rw [List.append_assoc]
  apply List.Perm.append_left
  exact (List.perm_append_comm).trans (List.filter_append_perm q l)

/-- What a returned `advanceGreedy` on an active block did. -/
theorem advanceGreedy_post (m : Mesh) (s : State) (self : Nat) (mx r : Int) (s' : State)
    (hself : self < s.blocks.length) (hact : (s.blockAt self).isActive = true)
    (h : advanceGreedy m s self mx = .ok (r, s')) :
    ∃ added, GreedyPost m s self mx r s' added := by
  unfold advanceGreedy at h
  simp only at h
  rw [if_neg (by rw [hact]; decide)] at h
  have hinv := greedyLoop_inv m (s.blockAt self) s.flags s.nodeBlocks (s.blockAt self).intNodes
    (s.blockAt self).boundNodes mx (s.blockAt self).boundNodes (greedyInit s (s.blockAt self))
    (greedyInit_inv m s (s.blockAt self) mx) (fun h0 => h0)
  generalize greedyLoop m (s.blockAt self) mx (s.blockAt self).boundNodes
    (greedyInit s (s.blockAt self)) = st at h hinv
  split at h
  · cases h
  · rename_i fl b1 ht
    simp only [Except.ok.injEq, Prod.mk.injEq] at h
    obtain ⟨hr, hs'⟩ := h
    have hb1 := tidyBoundaries_ok _ _ _ _ _ _ ht
    have hflg := tidyBoundaries_flags _ _ _ _ _ _ ht
    simp only at hb1 hflg
    obtain ⟨pr, hint, hperm⟩ := hinv.lists
    simp only [List.append_nil] at hperm
    have hat : s'.blockAt self = { b1 with lastAdvance := st.nAdded } := by
      rw [← hs']
      exact blockAt_set_self _ _ _ _ _ hself
    refine ⟨st.added, hinv.nodup, hinv.fresh, hinv.linked, ?_, ?_, ?_, ?_, ?_, ?_, ?_, ?_, ?_⟩
    · rw [← hr]; exact hinv.count
    · intro n; rw [← hs']; exact hinv.owner n
    · intro n
      have hfn : s'.flags n = fl n := by rw [← hs']
      rw [hfn, hflg n]
      by_cases hc : n ∈ st.kept ++ st.added ∧
          staysBoundary m st.nodeBlocks (s.blockAt self).blockNum n = false
      · rw [if_pos hc]
        rcases List.mem_append.1 hc.1 with hk | ha
        · right; right
          exact ⟨hperm.subset (List.mem_append_right _ hk), Or.inr rfl⟩
        · left; exact ⟨ha, Or.inr rfl⟩
      · rw [if_neg hc]
        rcases hinv.flags n with h1 | h1 | h1
        · left; exact ⟨h1.1, Or.inl h1.2⟩
        · right; left; exact h1
        · right; right; exact h1
    · rw [hat, hb1]
      simp only [block.nodes]
      refine (tidy_nodes_perm _ _ _).trans ?_
      rw [hint, List.append_assoc, List.append_assoc, ← List.append_assoc pr]
      exact List.Perm.append_left _ (List.Perm.append_right _ hperm)
    · rw [← hs']; simp
    · intro j hj
      rw [← hs']
      exact blockAt_set_ne _ _ _ _ _ _ (fun h => hj h.symm)
    · rw [hat, hr]
    · rw [hat, hb1]
    · rw [← hr]; exact hinv.cap

/-- For valid adjacency and a block whose nodes are node ids, `advanceGreedy` returns. -/
theorem advanceGreedy_total (m : Mesh) (s : State) (self : Nat) (mx : Int)
    (hadj : AdjValid m) (hval : NodesValid m s self) :
    ∃ r s', advanceGreedy m s self mx = .ok (r, s') := by
  unfold advanceGreedy
  simp only
  split
  · exact ⟨_, _, rfl⟩
  · have hinv := greedyLoop_inv m (s.blockAt self) s.flags s.nodeBlocks (s.blockAt self).intNodes
      (s.blockAt self).boundNodes mx (s.blockAt self).boundNodes (greedyInit s (s.blockAt self))
      (greedyInit_inv m s (s.blockAt self) mx) (fun h0 => h0)
    generalize greedyLoop m (s.blockAt self) mx (s.blockAt self).boundNodes
      (greedyInit s (s.blockAt self)) = st at hinv
    obtain ⟨pr, -, hperm⟩ := hinv.lists
    simp only [List.append_nil] at hperm
    have hbv : ∀ p ∈ (s.blockAt self).boundNodes, 0 ≤ p ∧ p < (m.nNodes : Int) :=
      fun p hp => hval p (List.mem_append_right _ hp)
    obtain ⟨f, b', ht⟩ := tidyBoundaries_total m st.nodeBlocks st.flags
      { s.blockAt self with intNodes := st.intNodes, boundNodes := st.kept ++ st.added }
      (by
        intro p hp y hy
        rcases List.mem_append.1 hp with hk | ha
        · exact (adjValid_links m hadj p
            (hbv p (hperm.subset (List.mem_append_right _ hk))) y hy).1
        · obtain ⟨q, hq, hpq⟩ := hinv.linked p ha
          exact (adjValid_links m hadj p (adjValid_links m hadj q (hbv q hq) p hpq) y hy).1)
    rw [ht]
    exact ⟨_, _, rfl⟩

theorem size_eq_length (b : block) : b.size = (b.nodes.length : Int) := by
  simp [block.size, block.nodes]

theorem greedyPost_size (m : Mesh) (s : State) (self : Nat) (mx r : Int) (s' : State)
    (added : List Int) (P : GreedyPost m s self mx r s' added) :
    (s'.blockAt self).size = (s.blockAt self).size + r := by
  rw [size_eq_length, size_eq_length, P.nodes.length_eq, P.ret]
  simp

/-- C13: for valid adjacency, on an active block numbered by its position in a state with
`flag[n] = FREE` iff `owner[n] = -1`, `advanceGreedy(max_add)` returns a value `r` such
that `size()` grew by `r`, exactly `r` nodes changed their owner from `-1` to the block,
`last_advance = r`, and `r <= max_add` when `max_add > 0`. -/
theorem advanceGreedy_return_value (m : Mesh) (s : State) (self : Nat) (mx : Int)
    (hadj : AdjValid m) (hval : NodesValid m s self) (hself : self < s.blocks.length)
    (hnum : (s.blockAt self).blockNum = (self : Int)) (hfree : FreeIff s)
    (hact : (s.blockAt self).isActive = true) :
    ∃ r s', advanceGreedy m s self mx = .ok (r, s') ∧
      (s'.blockAt self).size = (s.blockAt self).size + r ∧
      (∃ added : List Int, added.Nodup ∧ (added.length : Int) = r ∧
        ∀ n, n ∈ added ↔ (s.nodeBlocks n = -1 ∧ s'.nodeBlocks n = (self : Int))) ∧
      (s'.blockAt self).lastAdvance = r ∧
      (0 < mx → r ≤ mx) := by
  obtain ⟨r, s', h⟩ := advanceGreedy_total m s self mx hadj hval
  obtain ⟨added, P⟩ := advanceGreedy_post m s self mx r s' hself hact h
  refine ⟨r, s', h, greedyPost_size _ _ _ _ _ _ _ P, ⟨added, P.nodup, P.ret.symm, ?_⟩, P.last,
    P.cap⟩
  intro n
  constructor
  · intro hn
    refine ⟨(hfree n).1 (P.fresh n hn), ?_⟩
    rw [P.owner n, if_pos hn, hnum]
  · rintro ⟨h1, h2⟩
    by_contra hn
    rw [P.owner n, if_neg hn, h1] at h2
    omega

theorem freeIff_arr (fl ob : List Int) (bs : List block) (hlen : fl.length = ob.length)
    (h : ∀ k, k < fl.length → (fl.getD k 0 = 0 ↔ ob.getD k (-1) = -1)) :
    FreeIff { flags := arr fl 0, nodeBlocks := arr ob (-1), blocks := bs } := by
  intro n
  show arr fl 0 n = 0 ↔ arr ob (-1) n = -1
  by_cases hn : 0 ≤ n ∧ n < (fl.length : Int)
  · rw [arr_of_range _ _ _ hn.1, arr_of_range _ _ _ hn.1]
    exact h n.toNat (by omega)
  · rw [arr_of_not_range fl 0 n (by omega), arr_of_not_range ob (-1) n (by omega)]
    simp

theorem greedyPost_mem (m : Mesh) (s : State) (self : Nat) (mx r : Int) (s' : State)
    (added : List Int) (P : GreedyPost m s self mx r s' added) (n : Int) :
    n ∈ (s'.blockAt self).nodes ↔ (n ∈ (s.blockAt self).nodes ∨ n ∈ added) := by
  rw [P.nodes.mem_iff, List.mem_append]

/-- C15: in a state satisfying I1-I3 (with `block_num` of the block equal to its position)
and `flag[n] = FREE` iff `owner[n] = -1`, a returned `advanceGreedy` leaves I1-I3 and the
flag/owner agreement in force for all blocks, and no node owned by another block changes
owner or flag. -/
theorem advanceGreedy_preserves_lists (m : Mesh) (s : State) (self : Nat) (mx r : Int)
    (s' : State) (hself : self < s.blocks.length)
    (hnum : (s.blockAt self).blockNum = (self : Int))
    (hown : OwnerLists s) (hnd : NoDupLists s) (hfl : FlagsOk s) (hdis : ListsDisjoint s)
    (hfree : FreeIff s) (h : advanceGreedy m s self mx = .ok (r, s')) :
    OwnerLists s' ∧ NoDupLists s' ∧ FlagsOk s' ∧ ListsDisjoint s' ∧ FreeIff s' ∧
    (∀ n, 0 ≤ s.nodeBlocks n → s.nodeBlocks n ≠ (self : Int) →
      s'.nodeBlocks n = s.nodeBlocks n ∧ s'.flags n = s.flags n) := by
  by_cases hact : (s.blockAt self).isActive = true
  swap
  · unfold advanceGreedy at h
    simp only at h
    rw [if_pos (by simpa using hact)] at h
    simp only [Except.ok.injEq, Prod.mk.injEq] at h
    rw [← h.2]
    exact ⟨hown, hnd, hfl, hdis, hfree, fun n _ _ => ⟨rfl, rfl⟩⟩
  obtain ⟨added, P⟩ := advanceGreedy_post m s self mx r s' hself hact h
  have hmem := ownerLists_mem s hown self hself
  have hmem' := greedyPost_mem _ _ _ _ _ _ _ P
  have hnot : ∀ n ∈ added, ∀ b, b < s.blocks.length → n ∉ (s.blockAt b).nodes :=
    fun n hn b hb hin => hfl b hb n hin (P.fresh n hn)
  have hbn : ∀ n ∈ (s.blockAt self).boundNodes, n ∈ (s.blockAt self).nodes :=
    fun n hn => List.mem_append_right _ hn
  have hnd' : NoDupLists s' := by
    intro a ha
    by_cases hs : a = self
    · subst hs
      rw [P.nodes.nodup_iff]
      exact List.Nodup.append (hnd a hself) P.nodup (fun x hx hx2 => hnot x hx2 a hself hx)
    · rw [P.others a hs]
      exact hnd a (by rw [← P.len]; exact ha)
  refine ⟨?_, hnd', ?_, ?_, ?_, ?_⟩
  · intro n b
    rw [P.owner n, P.len, hnum]
    by_cases hb : b = self
    · subst hb
      rw [hmem']
      by_cases ha : n ∈ added
      · simp [ha, hself]
      · simp only [ha, if_false, or_false]
        exact hown n b
    · rw [P.others b hb]
      by_cases ha : n ∈ added
      · rw [if_pos ha]
        constructor
        · intro h1; exact absurd (by exact_mod_cast h1.symm) hb
        · intro h1; exact absurd h1.2 (hnot n ha b h1.1)
      · rw [if_neg ha]
        exact hown n b
  · intro a ha n hn
    rw [P.len] at ha
    by_cases hs : a = self
    · subst hs
      rcases P.flags n with h1 | h1 | h1
      · rcases h1.2 with h2 | h2 <;> rw [h2] <;> decide
      · rw [h1.2]
        rcases (hmem' n).1 hn with h3 | h3
        · exact hfl a hself n h3
        · exact absurd h3 h1.1
      · rcases h1.2 with h2 | h2 <;> rw [h2] <;> decide
    · rw [P.others a hs] at hn
      rcases P.flags n with h1 | h1 | h1
      · exact absurd hn (hnot n h1.1 a ha)
      · rw [h1.2]; exact hfl a ha n hn
      · exfalso
        have e1 := (hown n self).2 ⟨hself, hbn n h1.1⟩
        have e2 := (hown n a).2 ⟨ha, hn⟩
        rw [e1] at e2
        exact hs (by exact_mod_cast e2.symm)
  · intro b hb n hn
    have := hnd' b hb
    unfold block.nodes at this
    exact (List.disjoint_of_nodup_append this) hn.1 hn.2
  · intro n
    rw [P.owner n, hnum]
    rcases P.flags n with h1 | h1 | h1
    · rw [if_pos h1.1]
      constructor
      · intro h0; rcases h1.2 with h2 | h2 <;> rw [h2] at h0 <;> omega
      · intro h0; omega
    · rw [if_neg h1.1, h1.2]
      exact hfree n
    · have hs := (hmem n).2 (hbn n h1.1)
      constructor
      · intro h0; rcases h1.2 with h2 | h2 <;> rw [h2] at h0 <;> omega
      · intro h0
        split at h0
        · omega
        · rw [hs] at h0; omega
  · intro n h0 hne
    have ha : n ∉ added := by
      intro ha
      have := (hfree n).1 (P.fresh n ha)
      omega
    refine ⟨by rw [P.owner n, if_neg ha], ?_⟩
    rcases P.flags n with h1 | h1 | h1
    · exact absurd h1.1 ha
    · exact h1.2
    · exact absurd ((hmem n).2 (hbn n h1.1)) hne

/-- C16: in a state satisfying I1-I2 where the boundary nodes of the block are flagged
`BOUNDARY` or `EXHAUSTED_BOUNDARY`, a returned `advanceGreedy` does not decrease `size()`;
each flag is unchanged or makes one of the transitions `0 -> 2`, `0 -> 1`, `2 -> 1`,
`2 -> 5`, `5 -> 1`; no flag becomes `0`; no owned node changes owner. -/
theorem advanceGreedy_monotone (m : Mesh) (s : State) (self : Nat) (mx r : Int)
    (s' : State) (hself : self < s.blocks.length)
    (hown : OwnerLists s) (hfl : FlagsOk s) (hbf : BoundFlags s self)
    (h : advanceGreedy m s self mx = .ok (r, s')) :
    (s.blockAt self).size ≤ (s'.blockAt self).size ∧
    (∀ n, s'.flags n = s.flags n ∨ (s.flags n = 0 ∧ s'.flags n = 2) ∨
      (s.flags n = 0 ∧ s'.flags n = 1) ∨ (s.flags n = 2 ∧ s'.flags n = 1) ∨
      (s.flags n = 2 ∧ s'.flags n = 5) ∨ (s.flags n = 5 ∧ s'.flags n = 1)) ∧
    (∀ n, s.flags n ≠ 0 → s'.flags n ≠ 0) ∧
    (∀ n, 0 ≤ s.nodeBlocks n → s'.nodeBlocks n = s.nodeBlocks n) := by
  by_cases hact : (s.blockAt self).isActive = true
  swap
  · unfold advanceGreedy at h
    simp only at h
    rw [if_pos (by simpa using hact)] at h
    simp only [Except.ok.injEq, Prod.mk.injEq] at h
    rw [← h.2]
    exact ⟨le_refl _, fun n => Or.inl rfl, fun n hn => hn, fun n _ => rfl⟩
  obtain ⟨added, P⟩ := advanceGreedy_post m s self mx r s' hself hact h
  refine ⟨?_, ?_, ?_, ?_⟩
  · rw [greedyPost_size _ _ _ _ _ _ _ P, P.ret]
    omega
  · intro n
    rcases P.flags n with h1 | h1 | h1
    · have h0 := P.fresh n h1.1
      rcases h1.2 with h2 | h2
      · exact Or.inr (Or.inl ⟨h0, h2⟩)
      · exact Or.inr (Or.inr (Or.inl ⟨h0, h2⟩))
    · exact Or.inl h1.2
    · rcases hbf n h1.1 with h0 | h0 <;> rcases h1.2 with h2 | h2
      · exact Or.inr (Or.inr (Or.inr (Or.inr (Or.inl ⟨h0, h2⟩))))
      · exact Or.inr (Or.inr (Or.inr (Or.inl ⟨h0, h2⟩)))
      · exact Or.inl (by rw [h0, h2])
      · exact Or.inr (Or.inr (Or.inr (Or.inr (Or.inr ⟨h0, h2⟩))))
  · intro n hn h0
    rcases P.flags n with h1 | h1 | h1
    · rcases h1.2 with h2 | h2 <;> rw [h2] at h0 <;> omega
    · rw [h1.2] at h0; exact hn h0
    · rcases h1.2 with h2 | h2 <;> rw [h2] at h0 <;> omega
  · intro n h0
    have ha : n ∉ added := by
      intro ha
      have hk : s.nodeBlocks n = ((s.nodeBlocks n).toNat : Int) := by omega
      have := (hown n (s.nodeBlocks n).toNat).1 hk
      exact hfl _ this.1 n this.2 (P.fresh n ha)
    rw [P.owner n, if_neg ha]

theorem advanceGreedy_return_value_witness :
    ∃ r s', advanceGreedy grid4 joinSearchScenario 1 1 = .ok (r, s') ∧
      (s'.blockAt 1).size = (joinSearchScenario.blockAt 1).size + r ∧
      (∃ added : List Int, added.Nodup ∧ (added.length : Int) = r ∧
        ∀ n, n ∈ added ↔
          (joinSearchScenario.nodeBlocks n = -1 ∧ s'.nodeBlocks n = ((1 : Nat) : Int))) ∧
      (s'.blockAt 1).lastAdvance = r ∧
      (0 < (1 : Int) → r ≤ 1) :=
  advanceGreedy_return_value grid4 joinSearchScenario 1 1 (by decide!) (by decide)
    (by decide) (by decide) (freeIff_arr _ _ _ (by decide) (by decide)) (by decide)

theorem advanceGreedy_preserves_lists_witness :
    OwnerLists greedySearchAfter ∧ NoDupLists greedySearchAfter ∧ FlagsOk greedySearchAfter ∧
    ListsDisjoint greedySearchAfter ∧ FreeIff greedySearchAfter ∧
    (∀ n, 0 ≤ joinSearchScenario.nodeBlocks n →
      joinSearchScenario.nodeBlocks n ≠ ((1 : Nat) : Int) →
      greedySearchAfter.nodeBlocks n = joinSearchScenario.nodeBlocks n ∧
      greedySearchAfter.flags n = joinSearchScenario.flags n) :=
  advanceGreedy_preserves_lists grid4 joinSearchScenario 1 (-1) 1 greedySearchAfter
    (by decide) (by decide) (ownerLists_arr _ _ _ (by decide) (by decide) (by decide))
    (by decide) (by decide) (by decide) (freeIff_arr _ _ _ (by decide) (by decide)) (by rfl)

theorem advanceGreedy_monotone_witness :
    (greedySeed.blockAt 0).size ≤ (greedyAfter1.blockAt 0).size ∧
    (∀ n, greedyAfter1.flags n = greedySeed.flags n ∨
      (greedySeed.flags n = 0 ∧ greedyAfter1.flags n = 2) ∨
      (greedySeed.flags n = 0 ∧ greedyAfter1.flags n = 1) ∨
      (greedySeed.flags n = 2 ∧ greedyAfter1.flags n = 1) ∨
      (greedySeed.flags n = 2 ∧ greedyAfter1.flags n = 5) ∨
      (greedySeed.flags n = 5 ∧ greedyAfter1.flags n = 1)) ∧
    (∀ n, greedySeed.flags n ≠ 0 → greedyAfter1.flags n ≠ 0) ∧
    (∀ n, 0 ≤ greedySeed.nodeBlocks n → greedyAfter1.nodeBlocks n = greedySeed.nodeBlocks n) :=
  advanceGreedy_monotone grid4 greedySeed 0 (-1) 4 greedyAfter1 (by decide)
    (ownerLists_arr _ _ _ (by decide) (by decide) (by decide)) (by decide) (by decide) (by rfl)

/-! ### `advanceGreedy`: the size cap below `max_size` -/

theorem greedyInv_size (m : Mesh) (B : Int) (fl0 ob0 : Int → Int) (int0 boundAll : List Int)
    (mx : Int) (st : GreedySt) (pend : List Int)
    (h : GreedyInv m B fl0 ob0 int0 boundAll mx st pend) :
    st.size pend = (int0.length : Int) + (boundAll.length : Int) + st.nAdded := by
  obtain ⟨pr, h1, h2⟩ := h.lists
  have hl := h2.length_eq
  simp only [List.length_append] at hl
  unfold GreedySt.size
  rw [h1, h.count]
  simp only [List.length_append, Nat.cast_add]
  omega

theorem capHit_sizeRoom (nAdded mx size maxSize : Int) (h : ¬ CapHit nAdded mx size maxSize)
    (hmx : mx ≠ -2) : size < maxSize := by
  unfold CapHit at h
  by_contra hc
  exact h (Or.inr ⟨by omega, hmx⟩)

theorem greedyScan_size (m : Mesh) (b : block) (fl0 ob0 : Int → Int) (int0 boundAll : List Int)
    (mx : Int) (pend : List Int) (p : Int) (hp : p ∈ boundAll) (hmx : mx ≠ -2) (ls : List Int) :
    ∀ st : GreedySt, (∀ l ∈ ls, l ∈ m.links p) →
      GreedyInv m b.blockNum fl0 ob0 int0 boundAll mx st pend →
      (0 < mx → st.nAdded < mx) →
      (int0.length : Int) + (boundAll.length : Int) + st.nAdded < b.maxSize →
      (int0.length : Int) + (boundAll.length : Int) + (greedyScan b mx pend ls st).nAdded
        ≤ b.maxSize := by
  induction ls with
  | nil => intro st _ _ _ h; exact le_of_lt h
  | cons l ls ih =>
    intro st hls h hroom hsz
    have hls2 : ∀ x ∈ ls, x ∈ m.links p := fun x hx => hls x (List.mem_cons_of_mem _ hx)
    unfold greedyScan
    split
    · rename_i h0
      have h1 := greedyInv_claim m b.blockNum fl0 ob0 int0 boundAll mx st pend p l hp
        (hls l (List.mem_cons_self _ _)) h0 h hroom
      simp only
      split
      · show (int0.length : Int) + (boundAll.length : Int) + (st.nAdded + 1) ≤ b.maxSize
        omega
      · rename_i hc
        refine ih _ hls2 h1 (capHit_room _ _ _ _ hc) ?_
        have := capHit_sizeRoom _ _ _ _ hc hmx
        rw [greedyInv_size _ _ _ _ _ _ _ _ _ h1] at this
        exact this
    · split
      · exact ih _ hls2 ⟨h.owner, h.nodup, h.fresh, h.linked, h.count, h.lists, h.flags, h.cap⟩
          hroom hsz
      · exact ih _ hls2 h hroom hsz

theorem greedyLoop_size (m : Mesh) (b : block) (fl0 ob0 : Int → Int) (int0 boundAll : List Int)
    (mx : Int) (hmx : mx ≠ -2) (pend : List Int) :
    ∀ st : GreedySt, GreedyInv m b.blockNum fl0 ob0 int0 boundAll mx st pend →
      (0 < mx → st.nAdded < mx) →
      (int0.length : Int) + (boundAll.length : Int) + st.nAdded < b.maxSize →
      (int0.length : Int) + (boundAll.length : Int) + (greedyLoop m b mx pend st).nAdded
        ≤ b.maxSize := by
  induction pend with
  | nil => intro st _ _ h; exact le_of_lt h
  | cons p rest ih =>
    intro st h hroom hsz
    have hp := greedyInv_mem _ _ _ _ _ _ _ _ _ _ h
    unfold greedyLoop
    split
    · exact ih _ (greedyInv_keep _ _ _ _ _ _ _ _ _ _ h) hroom hsz
    · have h0 : GreedyInv m b.blockNum fl0 ob0 int0 boundAll mx
          { st with isBoundary := false, anyAdded := false } (p :: rest) :=
        ⟨h.owner, h.nodup, h.fresh, h.linked, h.count, h.lists, h.flags, h.cap⟩
      have hsc := greedyScan_inv m b fl0 ob0 int0 boundAll mx (p :: rest) (p :: rest) p hp
        (m.links p) _ (fun l hl => hl) h0 hroom
      have hss := greedyScan_size m b fl0 ob0 int0 boundAll mx (p :: rest) p hp hmx
        (m.links p) _ (fun l hl => hl) h0 hroom hsz
      simp only
      generalize greedyScan b mx (p :: rest) (m.links p)
        { st with isBoundary := false, anyAdded := false } = sc at hsc hss
      obtain ⟨f, o, i, k, a, n, ib, aa⟩ := sc
      have hfl : GreedyInv m b.blockNum fl0 ob0 int0 boundAll mx
          { flags := if aa = true then f else upd f p 5, nodeBlocks := o, intNodes := i,
            kept := k, added := a, nAdded := n, isBoundary := ib, anyAdded := aa }
          (p :: rest) := by
        cases aa
        · exact greedyInv_flag _ _ _ _ _ _ _ _ _ _ 5 hp (Or.inl rfl) hsc
        · exact hsc
      simp only at hss ⊢
      generalize (if aa = true then f else upd f p 5) = fl1 at hfl
      cases ib
      · have h1 := greedyInv_promote _ _ _ _ _ _ _ _ _ _
          (greedyInv_flag _ _ _ _ _ _ _ _ _ _ 1 hp (Or.inr rfl) hfl)
        simp only [Bool.false_eq_true, if_false]
        split
        · exact hss
        · split
          · exact hss
          · rename_i hc
            refine ih _ h1 (capHit_room _ _ _ _ hc) ?_
            have := capHit_sizeRoom _ _ _ _ hc hmx
            rw [greedyInv_size _ _ _ _ _ _ _ _ _ h1] at this
            exact this
      · have h1 := greedyInv_keep _ _ _ _ _ _ _ _ _ _ hfl
        simp only [if_true]
        split
        · exact hss
        · rename_i hc
          refine ih _ h1 (capHit_room _ _ _ _ hc) ?_
          have := capHit_sizeRoom _ _ _ _ hc hmx
          rw [greedyInv_size _ _ _ _ _ _ _ _ _ h1] at this
          exact this

/-- The size cap holds for a block that is below `max_size` when `advanceGreedy` starts
(`max_add != -2`): a returned call leaves `size() <= max_size`. -/
theorem advanceGreedy_below_cap (m : Mesh) (s : State) (self : Nat) (mx r : Int) (s' : State)
    (hself : self < s.blocks.length) (hmx : mx ≠ -2)
    (hlt : (s.blockAt self).size < (s.blockAt self).maxSize)
    (h : advanceGreedy m s self mx = .ok (r, s')) :
    (s'.blockAt self).size ≤ (s.blockAt self).maxSize ∧
    (s'.blockAt self).maxSize = (s.blockAt self).maxSize := by
  by_cases hact : (s.blockAt self).isActive = true
  swap
  · unfold advanceGreedy at h
    simp only at h
    rw [if_pos (by simpa using hact)] at h
    simp only [Except.ok.injEq, Prod.mk.injEq] at h
    rw [← h.2]
    exact ⟨le_of_lt hlt, rfl⟩
  obtain ⟨added, P⟩ := advanceGreedy_post m s self mx r s' hself hact h
  have hsz := greedyLoop_size m (s.blockAt self) s.flags s.nodeBlocks (s.blockAt self).intNodes
    (s.blockAt self).boundNodes mx hmx (s.blockAt self).boundNodes (greedyInit s (s.blockAt self))
    (greedyInit_inv m s (s.blockAt self) mx) (fun h0 => h0)
    (by simpa [greedyInit, block.size] using hlt)
  unfold advanceGreedy at h
  simp only at h
  rw [if_neg (by rw [hact]; decide)] at h
  split at h
  · cases h
  · rename_i fl b1 ht
    simp only [Except.ok.injEq, Prod.mk.injEq] at h
    have hb1 := tidyBoundaries_ok _ _ _ _ _ _ ht
    have hat : s'.blockAt self = { b1 with lastAdvance := r } := by
      rw [← h.2, ← h.1]
      exact blockAt_set_self _ _ _ _ _ hself
    constructor
    · rw [greedyPost_size _ _ _ _ _ _ _ P, ← h.1]
      unfold block.size
      exact hsz
    · rw [hat, hb1]

/-! ### `tidyBoundaries`: error 2401 -/

theorem tidyScan_error_code (nb : Int → Int) (bn : Int) (l : List Int) (e : Nat)
    (h : tidyScan nb bn l = .error e) : e = 2401 := by
  induction l with
  | nil => cases h
  | cons a l ih =>
    unfold tidyScan at h
    split at h
    · simp only [Except.error.injEq] at h; exact h.symm
    · split at h
      · cases h
      · exact ih h

theorem tidyScan_error_iff (nb : Int → Int) (bn : Int) (l : List Int) :
    tidyScan nb bn l = .error 2401 ↔ ScanRaises nb bn l := by
  constructor
  · intro h
    induction l with
    | nil => cases h
    | cons a l ih =>
      unfold tidyScan at h
      split at h
      · rename_i ha
        exact ⟨[], a, l, rfl, ha, fun y hy => absurd hy (List.not_mem_nil _)⟩
      · split at h
        · cases h
        · rename_i h2
          obtain ⟨pre, x, post, e1, e2, e3⟩ := ih h
          refine ⟨a :: pre, x, post, by rw [e1]; rfl, e2, ?_⟩
          intro y hy
          rcases List.mem_cons.1 hy with rfl | hy
          · exact not_not.1 h2
          · exact e3 y hy
  · rintro ⟨pre, x, post, e1, e2, e3⟩
    subst e1
    induction pre with
    | nil =>
      rw [List.nil_append]
      unfold tidyScan
      exact if_pos e2
    | cons a pre ih =>
      rw [List.cons_append]
      unfold tidyScan
      by_cases ha : a < 0
      · rw [if_pos ha]
      · rw [if_neg ha, if_neg (not_not.2 (e3 a (List.mem_cons_self _ _)))]
        exact ih (fun y hy => e3 y (List.mem_cons_of_mem _ hy))

theorem tidyLoop_error_iff (m : Mesh) (nb : Int → Int) (bn : Int) (ps : List Int) :
    ∀ (fl : Int → Int) (ints : List Int) (e : Nat),
      tidyLoop m nb bn ps fl ints = .error e ↔
        (e = 2401 ∧ ∃ p ∈ ps, tidyScan nb bn (m.links p) = .error 2401) := by
  induction ps with
  | nil =>
    intro fl ints e
    simp [tidyLoop]
  | cons p ps ih =>
    intro fl ints e
    unfold tidyLoop
    cases hsc : tidyScan nb bn (m.links p) with
    | error e' =>
      have he' := tidyScan_error_code _ _ _ _ hsc
      subst he'
      simp only [Except.error.injEq]
      constructor
      · intro h; exact ⟨h.symm, p, List.mem_cons_self _ _, hsc⟩
      · intro h; exact h.1.symm
    | ok v =>
      have hp : ¬ tidyScan nb bn (m.links p) = .error 2401 := by rw [hsc]; intro h; cases h
      cases v with
      | true =>
        simp only
        cases hrec : tidyLoop m nb bn ps fl ints with
        | error e' =>
          simp only [Except.error.injEq]
          have := (ih fl ints e').1 hrec
          constructor
          · intro h; subst h
            obtain ⟨h1, q, hq, hq2⟩ := this
            exact ⟨h1, q, List.mem_cons_of_mem _ hq, hq2⟩
          · intro h; rw [h.1, this.1]
        | ok r =>
          obtain ⟨f', i', bd'⟩ := r
          simp only [false_iff, not_and, reduceCtorEq]
          intro he
          rintro ⟨q, hq, hq2⟩
          rcases List.mem_cons.1 hq with rfl | hq
          · exact hp hq2
          · have := (ih fl ints e).2 ⟨he, q, hq, hq2⟩
            rw [hrec] at this
            cases this
      | false =>
        simp only
        rw [ih]
        constructor
        · rintro ⟨h1, q, hq, hq2⟩
          exact ⟨h1, q, List.mem_cons_of_mem _ hq, hq2⟩
        · rintro ⟨h1, q, hq, hq2⟩
          rcases List.mem_cons.1 hq with rfl | hq
          · exact absurd hq2 hp
          · exact ⟨h1, q, hq, hq2⟩

/-- C21 (counterexample): node 0 of the boundary list has the row `[1, -1]` with the free
neighbour 1 in front of the negative entry; `tidyBoundaries` returns without raising. -/
theorem tidyBoundaries_misses_negative_entry :
    (∃ p ∈ (mkBlock 0 [] [0] (-1) (-1)).boundNodes, ∃ y ∈ badRowMesh.links p, y < 0) ∧
    badRowMesh.links 0 = [1, -1] ∧
    ∃ f b', tidyBoundaries badRowMesh (arr [0, -1] (-1)) (arr [2, 0] 0)
      (mkBlock 0 [] [0] (-1) (-1)) = .ok (f, b') ∧ b'.boundNodes = [0] := by
  refine ⟨by decide, by decide, ?_⟩
  refine ⟨(okOr (tidyBoundaries badRowMesh (arr [0, -1] (-1)) (arr [2, 0] 0)
      (mkBlock 0 [] [0] (-1) (-1))) (fun _ => 0, noBlock)).1,
    (okOr (tidyBoundaries badRowMesh (arr [0, -1] (-1)) (arr [2, 0] 0)
      (mkBlock 0 [] [0] (-1) (-1))) (fun _ => 0, noBlock)).2, rfl, by decide⟩

/-- C21 (amended): `tidyBoundaries` raises exactly when the row of some boundary node has a
negative entry all of whose predecessors in the row are owned by the block, and the only
error it raises is 2401. -/
theorem tidyBoundaries_raises_iff (m : Mesh) (nb fl : Int → Int) (b : block) :
    (tidyBoundaries m nb fl b = .error 2401 ↔
      ∃ p ∈ b.boundNodes, ScanRaises nb b.blockNum (m.links p)) ∧
    (∀ e, tidyBoundaries m nb fl b = .error e → e = 2401) := by
  have key : ∀ e, tidyBoundaries m nb fl b = .error e ↔
      tidyLoop m nb b.blockNum b.boundNodes fl b.intNodes = .error e := by
    intro e
    unfold tidyBoundaries
    cases tidyLoop m nb b.blockNum b.boundNodes fl b.intNodes with
    | error e' => simp
    | ok r => obtain ⟨f, i, bd⟩ := r; simp
  constructor
  · rw [key, tidyLoop_error_iff]
    constructor
    · rintro ⟨-, p, hp, h⟩
      exact ⟨p, hp, (tidyScan_error_iff _ _ _).1 h⟩
    · rintro ⟨p, hp, h⟩
      exact ⟨rfl, p, hp, (tidyScan_error_iff _ _ _).2 h⟩
  · intro e he
    exact ((tidyLoop_error_iff _ _ _ _ _ _ _).1 ((key e).1 he)).1

/-! ### `separate` -/

theorem foldMax_spec (nb : Int → Int) (l : List Nat) :
    ∀ a : Int,
      a ≤ l.foldl (fun mb (k : Nat) => if mb < nb (k : Int) then nb (k : Int) else mb) a ∧
      (∀ k ∈ l, nb (k : Int) ≤
        l.foldl (fun mb (k : Nat) => if mb < nb (k : Int) then nb (k : Int) else mb) a) ∧
      (l.foldl (fun mb (k : Nat) => if mb < nb (k : Int) then nb (k : Int) else mb) a = a ∨
        ∃ k ∈ l, l.foldl (fun mb (k : Nat) => if mb < nb (k : Int) then nb (k : Int) else mb) a
          = nb (k : Int)) := by
  induction l with
  | nil => intro a; simp
  | cons x l ih =>
    intro a
    rw [List.foldl_cons]
    obtain ⟨h1, h2, h3⟩ := ih (if a < nb (x : Int) then nb (x : Int) else a)
    have hstep : a ≤ (if a < nb (x : Int) then nb (x : Int) else a) ∧
        nb (x : Int) ≤ (if a < nb (x : Int) then nb (x : Int) else a) := by
      split <;> constructor <;> omega
    refine ⟨le_trans hstep.1 h1, ?_, ?_⟩
    · intro k hk
      rcases List.mem_cons.1 hk with rfl | hk
      · exact le_trans hstep.2 h1
      · exact h2 k hk
    · rcases h3 with h3 | ⟨k, hk, h3⟩
      · by_cases hc : a < nb (x : Int)
        · rw [if_pos hc] at h3
          exact Or.inr ⟨x, List.mem_cons_self _ _, by rw [if_pos hc]; exact h3⟩
        · rw [if_neg hc] at h3
          exact Or.inl (by rw [if_neg hc]; exact h3)
      · exact Or.inr ⟨k, List.mem_cons_of_mem _ hk, h3⟩

theorem separateMax_spec (m : Mesh) (nb : Int → Int) :
    0 ≤ separateMax m nb ∧ (∀ k ∈ List.range m.nNodes, nb (k : Int) ≤ separateMax m nb) ∧
    (separateMax m nb = 0 ∨ ∃ k ∈ List.range m.nNodes, separateMax m nb = nb (k : Int)) :=
  foldMax_spec nb (List.range m.nNodes) 0

theorem separateNew_length (init : block) (mb : Int) :
    (separateNew init mb).length = (mb + 1).toNat := by
  simp [separateNew]

theorem separateNew_getD (init : block) (mb : Int) (j : Nat) (hj : j < (mb + 1).toNat) :
    ((separateNew init mb).getD j noBlock).blockNum = (j : Int) ∧
    ((separateNew init mb).getD j noBlock).intNodes = [] ∧
    ((separateNew init mb).getD j noBlock).boundNodes = [] := by
  unfold separateNew
  rw [List.getD_eq_getElem?_getD, List.getElem?_map, List.getElem?_range hj]
  exact ⟨rfl, rfl, rfl⟩

/-- The distribution loop of `separate`: it does not raise when no owner exceeds the last
block index, keeps the numbers and interior lists, and appends to the boundary list of
block `j` the nodes of the range owned by `j`, in order. -/
theorem separateFill_spec (nb : Int → Int) (cnts : List Nat) :
    ∀ (fl : Int → Int) (bs : List block),
      (∀ c ∈ cnts, nb (c : Int) ≤ (bs.length : Int) - 1) →
      ∃ fl' bs', separateFill nb cnts (fl, bs) = .ok (fl', bs') ∧ bs'.length = bs.length ∧
        ∀ j, j < bs.length →
          (bs'.getD j noBlock).blockNum = (bs.getD j noBlock).blockNum ∧
          (bs'.getD j noBlock).intNodes = (bs.getD j noBlock).intNodes ∧
          (bs'.getD j noBlock).boundNodes = (bs.getD j noBlock).boundNodes ++
            (cnts.filter (fun (c : Nat) => decide (nb (c : Int) = (j : Int)))).map
              (fun (c : Nat) => (c : Int)) := by
  induction cnts with
  | nil =>
    intro fl bs _
    exact ⟨fl, bs, rfl, rfl, fun j _ => ⟨rfl, rfl, by simp⟩⟩
  | cons c cnts ih =>
    intro fl bs hle
    have hle2 : ∀ x ∈ cnts, nb (x : Int) ≤ (bs.length : Int) - 1 :=
      fun x hx => hle x (List.mem_cons_of_mem _ hx)
    unfold separateFill
    by_cases h0 : nb (c : Int) ≥ 0
    · rw [if_pos h0, if_neg (not_lt.2 (hle c (List.mem_cons_self _ _)))]
      obtain ⟨fl', bs', e1, e2, e3⟩ := ih (upd fl (c : Int) 2)
        (bs.set (nb (c : Int)).toNat
          { bs.getD (nb (c : Int)).toNat noBlock with
            boundNodes := (bs.getD (nb (c : Int)).toNat noBlock).boundNodes ++ [(c : Int)] })
        (by simpa using hle2)
      refine ⟨fl', bs', e1, by simpa using e2, ?_⟩
      intro j hj
      obtain ⟨f1, f2, f3⟩ := e3 j (by simpa using hj)
      rw [f1, f2, f3]
      simp only [getD_set_block]
      by_cases hij : (nb (c : Int)).toNat = j
      · have hcj : nb (c : Int) = (j : Int) := by omega
        rw [if_pos ⟨hij, hj⟩, hij]
        simp only [List.filter_cons, decide_eq_true hcj, if_true, List.map_cons,
          List.append_assoc, List.singleton_append, and_self]
      · have hcj : ¬ nb (c : Int) = (j : Int) := by omega
        rw [if_neg (fun h => hij h.1)]
        simp only [List.filter_cons, decide_eq_false hcj, Bool.false_eq_true, if_false, and_self]
    · rw [if_neg h0]
      obtain ⟨fl', bs', e1, e2, e3⟩ := ih fl bs hle2
      refine ⟨fl', bs', e1, e2, ?_⟩
      intro j hj
      obtain ⟨f1, f2, f3⟩ := e3 j hj
      have hcj : ¬ nb (c : Int) = (j : Int) := by omega
      refine ⟨f1, f2, ?_⟩
      rw [f3]
      simp only [List.filter_cons, decide_eq_false hcj, Bool.false_eq_true, if_false]

/-- The tidy loop of `separate` over distinct block indices: it does not raise when the
rows of all boundary nodes are free of negative entries, and leaves block `j` as
`tidyBoundaries` leaves it when `j` is one of the indices, untouched otherwise. -/
theorem separateTidy_spec (m : Mesh) (nb : Int → Int) (ks : List Nat) :
    ∀ (fl : Int → Int) (bs : List block), ks.Nodup → (∀ k ∈ ks, k < bs.length) →
      (∀ k ∈ ks, ∀ p ∈ (bs.getD k noBlock).boundNodes, ∀ y ∈ m.links p, 0 ≤ y) →
      ∃ fl' bs', separateTidy m nb ks (fl, bs) = .ok (fl', bs') ∧ bs'.length = bs.length ∧
        ∀ j, j < bs.length →
          (bs'.getD j noBlock).blockNum = (bs.getD j noBlock).blockNum ∧
          (j ∉ ks → (bs'.getD j noBlock).intNodes = (bs.getD j noBlock).intNodes ∧
            (bs'.getD j noBlock).boundNodes = (bs.getD j noBlock).boundNodes) ∧
          (j ∈ ks →
            (bs'.getD j noBlock).intNodes = (bs.getD j noBlock).intNodes ++
              (bs.getD j noBlock).boundNodes.filter
                (fun p => !staysBoundary m nb (bs.getD j noBlock).blockNum p) ∧
            (bs'.getD j noBlock).boundNodes = (bs.getD j noBlock).boundNodes.filter
                (fun p => staysBoundary m nb (bs.getD j noBlock).blockNum p)) := by
  induction ks with
  | nil =>
    intro fl bs _ _ _
    exact ⟨fl, bs, rfl, rfl, fun j _ => ⟨rfl, fun _ => ⟨rfl, rfl⟩,
      fun h => absurd h (List.not_mem_nil _)⟩⟩
  | cons k ks ih =>
    intro fl bs hnd hlt hadj
    have hk : k < bs.length := hlt k (List.mem_cons_self _ _)
    have hkn : k ∉ ks := (List.nodup_cons.1 hnd).1
    obtain ⟨f1, b1, ht⟩ := tidyBoundaries_total m nb fl (bs.getD k noBlock)
      (hadj k (List.mem_cons_self _ _))
    have hb1 := tidyBoundaries_ok _ _ _ _ _ _ ht
    unfold separateTidy
    rw [ht]
    simp only
    have hget : ∀ j, j ≠ k → (bs.set k b1).getD j noBlock = bs.getD j noBlock := by
      intro j hj
      rw [getD_set_block, if_neg (fun h => hj h.1.symm)]
    obtain ⟨fl', bs', e1, e2, e3⟩ := ih f1 (bs.set k b1) (List.nodup_cons.1 hnd).2
      (fun x hx => by simpa using hlt x (List.mem_cons_of_mem _ hx))
      (fun x hx => by
        have hxk : x ≠ k := fun h => hkn (h ▸ hx)
        rw [hget x hxk]
        exact hadj x (List.mem_cons_of_mem _ hx))
    refine ⟨fl', bs', e1, by simpa using e2, ?_⟩
    intro j hj
    obtain ⟨g1, g2, g3⟩ := e3 j (by simpa using hj)
    by_cases hjk : j = k
    · subst hjk
      have hself : (bs.set j b1).getD j noBlock = b1 := by
        rw [getD_set_block, if_pos ⟨rfl, hj⟩]
      obtain ⟨g4, g5⟩ := g2 hkn
      rw [hself] at g1 g4 g5
      refine ⟨by rw [g1, hb1], fun h => absurd (List.mem_cons_self _ _) h, fun _ => ?_⟩
      rw [g4, g5, hb1]
      exact ⟨rfl, rfl⟩
    · rw [hget j hjk] at g1 g2 g3
      refine ⟨g1, fun h => g2 (fun h2 => h (List.mem_cons_of_mem _ h2)), fun h => ?_⟩
      rcases List.mem_cons.1 h with h | h
      · exact absurd h hjk
      · exact g3 h

theorem ownedNodes_eq_map (m : Mesh) (nb : Int → Int) (j : Int) :
    ((List.range m.nNodes).filter (fun (c : Nat) => decide (nb (c : Int) = j))).map
      (fun (c : Nat) => (c : Int)) = ownedNodes m nb j := by
  unfold ownedNodes
  rw [List.filter_map]
  rfl

/-- What `separate` builds, for valid adjacency: `maxBlock+1` blocks, block `j` numbered `j`
and holding the node ids owned by `j`, split by `tidyBoundaries`. -/
theorem separate_spec (m : Mesh) (init : block) (fl nb : Int → Int) (hadj : AdjValid m) :
    ∃ s', separate m init fl nb = .ok s' ∧ s'.nodeBlocks = nb ∧
      s'.blocks.length = (separateMax m nb + 1).toNat ∧
      ∀ j, j < s'.blocks.length →
        (s'.blockAt j).blockNum = (j : Int) ∧
        (s'.blockAt j).intNodes = (ownedNodes m nb (j : Int)).filter
          (fun p => !staysBoundary m nb (j : Int) p) ∧
        (s'.blockAt j).boundNodes = (ownedNodes m nb (j : Int)).filter
          (fun p => staysBoundary m nb (j : Int) p) := by
  obtain ⟨hm0, hm1, -⟩ := separateMax_spec m nb
  have hlen := separateNew_length init (separateMax m nb)
  obtain ⟨fl1, bs1, e1, e2, e3⟩ := separateFill_spec nb (List.range m.nNodes) fl
    (separateNew init (separateMax m nb))
    (fun c hc => by rw [hlen]; have := hm1 c hc; omega)
  have hb1 : ∀ j, j < bs1.length →
      (bs1.getD j noBlock).blockNum = (j : Int) ∧ (bs1.getD j noBlock).intNodes = [] ∧
      (bs1.getD j noBlock).boundNodes = ownedNodes m nb (j : Int) := by
    intro j hj
    rw [e2] at hj
    obtain ⟨f1, f2, f3⟩ := e3 j hj
    obtain ⟨n1, n2, n3⟩ := separateNew_getD init (separateMax m nb) j (by rw [← hlen]; exact hj)
    rw [f1, f2, f3, n1, n2, n3, ownedNodes_eq_map]
    exact ⟨rfl, rfl, rfl⟩
  obtain ⟨fl2, bs2, t1, t2, t3⟩ := separateTidy_spec m nb
    (List.range (separateMax m nb + 1).toNat) fl1 bs1 (List.nodup_range _)
    (fun k hk => by rw [e2, hlen]; exact List.mem_range.1 hk)
    (fun k hk p hp y hy => by
      have hk2 : k < bs1.length := by rw [e2, hlen]; exact List.mem_range.1 hk
      rw [(hb1 k hk2).2.2] at hp
      exact (adjValid_links m hadj p ((mem_ownedNodes _ _ _ _).1 hp).1 y hy).1)
  refine ⟨{ flags := fl2, nodeBlocks := nb, blocks := bs2 }, ?_, rfl, ?_, ?_⟩
  · unfold separate
    simp only [e1, t1]
  · show bs2.length = _
    rw [t2, e2, hlen]
  · intro j hj
    have hj1 : j < bs1.length := by
      have : j < bs2.length := hj
      rw [t2] at this; exact this
    obtain ⟨g1, -, g3⟩ := t3 j hj1
    obtain ⟨h1, h2, h3⟩ := hb1 j hj1
    have hmem : j ∈ List.range (separateMax m nb + 1).toNat := by
      rw [List.mem_range, ← hlen, ← e2]; exact hj1
    obtain ⟨g4, g5⟩ := g3 hmem
    show (bs2.getD j noBlock).blockNum = _ ∧ (bs2.getD j noBlock).intNodes = _ ∧
      (bs2.getD j noBlock).boundNodes = _
    rw [g1, g4, g5, h1, h2, h3]
    exact ⟨rfl, rfl, rfl⟩

theorem staysBoundary_false_valid (m : Mesh) (nb : Int → Int) (bn p : Int)
    (hl : ∀ y ∈ m.links p, 0 ≤ y) (h : staysBoundary m nb bn p = false) :
    ∀ y ∈ m.links p, nb y = bn := by
  obtain ⟨v, hv⟩ := tidyScan_total nb bn (m.links p) hl
  unfold staysBoundary at h
  rw [hv] at h
  cases v with
  | true => cases h
  | false => exact tidyScan_false _ _ _ hv

/-- C23 (counterexample): on the 4x4 grid with every owner `-1`, `separate` returns a
vector with one (empty) block, not an empty vector. -/
theorem separate_all_free_gives_one_block :
    ∃ s', separate grid4 noBlock (fun _ => 0) (fun _ => -1) = .ok s' ∧
      s'.blocks.length = 1 ∧ (s'.blockAt 0).nodes = [] ∧ (s'.blockAt 0).blockNum = 0 := by
  refine ⟨okOr (separate grid4 noBlock (fun _ => 0) (fun _ => -1))
    { flags := fun _ => 0, nodeBlocks := fun _ => -1, blocks := [] }, ?_, ?_, ?_, ?_⟩
  · rfl
  all_goals decide!

/-- C23 (amended): for valid adjacency and every owner array, `separate` returns a vector of
`k+1` blocks, where `k` is the largest owner of a node id or `0` when no owner is
positive, and the block at index `i` carries the number `i`. -/
theorem separate_block_count (m : Mesh) (init : block) (fl nb : Int → Int)
    (hadj : AdjValid m) :
    ∃ (s' : State) (k : Nat), separate m init fl nb = .ok s' ∧ s'.blocks.length = k + 1 ∧
      (∀ n ∈ List.range m.nNodes, nb (n : Int) ≤ (k : Int)) ∧
      (k = 0 ∨ ∃ n ∈ List.range m.nNodes, nb (n : Int) = (k : Int)) ∧
      ∀ i, i < s'.blocks.length → (s'.blockAt i).blockNum = (i : Int) := by
  obtain ⟨s', h1, -, h3, h4⟩ := separate_spec m init fl nb hadj
  obtain ⟨hm0, hm1, hm2⟩ := separateMax_spec m nb
  have hk : (separateMax m nb + 1).toNat = (separateMax m nb).toNat + 1 := by
    clear hm1 hm2 h4 h3 h1
    omega
  refine ⟨s', (separateMax m nb).toNat, h1, ?_, ?_, ?_, fun i hi => (h4 i hi).1⟩
  · rw [h3, hk]
  · intro n hn
    have := hm1 n hn
    omega
  · rcases hm2 with h | ⟨n, hn, h⟩
    · left; omega
    · right; exact ⟨n, hn, by omega⟩

theorem separate_block_count_witness :
    ∃ (s' : State) (k : Nat), separate grid4 noBlock joinScenario.flags joinScenario.nodeBlocks = .ok s' ∧
      s'.blocks.length = k + 1 ∧
      (∀ n ∈ List.range grid4.nNodes, joinScenario.nodeBlocks (n : Int) ≤ (k : Int)) ∧
      (k = 0 ∨ ∃ n ∈ List.range grid4.nNodes, joinScenario.nodeBlocks (n : Int) = (k : Int)) ∧
      ∀ i, i < s'.blocks.length → (s'.blockAt i).blockNum = (i : Int) :=
  separate_block_count grid4 noBlock joinScenario.flags joinScenario.nodeBlocks (by decide!)

/-- C22: for valid adjacency and a state satisfying P1, I4 and I7 whose blocks list node ids
only and whose last block is not empty, `separate` on the owner array returns a vector of
the same length in which block `b` is numbered `b` and has the same interior set and the
same boundary set as the original block `b`, without repetitions. -/
theorem separate_round_trip (m : Mesh) (init : block) (s : State) (hadj : AdjValid m)
    (hval : ∀ b, b < s.blocks.length → NodesValid m s b) (hown : OwnerLists s)
    (hint : InteriorOk m s) (hnum : NumOk s) (hpos : 0 < s.blocks.length)
    (hlast : (s.blockAt (s.blocks.length - 1)).nodes ≠ []) :
    ∃ s', separate m init s.flags s.nodeBlocks = .ok s' ∧
      s'.blocks.length = s.blocks.length ∧
      ∀ b, b < s.blocks.length →
        (s'.blockAt b).blockNum = (b : Int) ∧
        (∀ n, n ∈ (s'.blockAt b).intNodes ↔ n ∈ (s.blockAt b).intNodes) ∧
        (∀ n, n ∈ (s'.blockAt b).boundNodes ↔ n ∈ (s.blockAt b).boundNodes) ∧
        (s'.blockAt b).nodes.Nodup := by
  obtain ⟨s', h1, -, h3, h4⟩ := separate_spec m init s.flags s.nodeBlocks hadj
  obtain ⟨hm0, hm1, hm2⟩ := separateMax_spec m s.nodeBlocks
  have hmax : separateMax m s.nodeBlocks = (s.blocks.length : Int) - 1 := by
    apply le_antisymm
    · rcases hm2 with h | ⟨k, -, h⟩
      · omega
      · have hk : s.nodeBlocks (k : Int) = ((separateMax m s.nodeBlocks).toNat : Int) := by
          omega
        have := ((hown (k : Int) _).1 hk).1
        omega
    · obtain ⟨n, hn⟩ := List.exists_mem_of_ne_nil _ hlast
      have hv := hval (s.blocks.length - 1) (by omega) n hn
      have ho := (hown n (s.blocks.length - 1)).2 ⟨by omega, hn⟩
      have := hm1 n.toNat (List.mem_range.2 (by omega))
      rw [Int.toNat_of_nonneg hv.1, ho] at this
      omega
  have hlen : s'.blocks.length = s.blocks.length := by rw [h3, hmax]; omega
  refine ⟨s', h1, hlen, ?_⟩
  intro b hb
  obtain ⟨g1, g2, g3⟩ := h4 b (by rw [hlen]; exact hb)
  have hbn := hnum b hb
  have hmemo : ∀ n, n ∈ ownedNodes m s.nodeBlocks (b : Int) ↔ n ∈ (s.blockAt b).nodes := by
    intro n
    rw [mem_ownedNodes]
    constructor
    · intro h; exact ((hown n b).1 h.2).2
    · intro h; exact ⟨hval b hb n h, (hown n b).2 ⟨hb, h⟩⟩
  have hlinks : ∀ n ∈ (s.blockAt b).nodes, ∀ y ∈ m.links n, 0 ≤ y :=
    fun n hn y hy => (adjValid_links m hadj n (hval b hb n hn) y hy).1
  have hI := hint b hb
  rw [hbn] at hI
  refine ⟨g1, ?_, ?_, ?_⟩
  · intro n
    rw [g2, List.mem_filter, hmemo]
    simp only [Bool.not_eq_true']
    constructor
    · rintro ⟨hn, hs⟩
      rcases List.mem_append.1 hn with hi | hbd
      · exact hi
      · exfalso
        obtain ⟨y, hy, hne⟩ := hI.2 n hbd
        exact hne (staysBoundary_false_valid m _ _ n (hlinks n hn) hs y hy)
    · intro hi
      refine ⟨List.mem_append_left _ hi, ?_⟩
      cases hs : staysBoundary m s.nodeBlocks (b : Int) n
      · rfl
      · exfalso
        obtain ⟨y, hy, hne⟩ := staysBoundary_true _ _ _ _ hs
        exact hne (hI.1 n hi y hy)
  · intro n
    rw [g3, List.mem_filter, hmemo]
    constructor
    · rintro ⟨hn, hs⟩
      rcases List.mem_append.1 hn with hi | hbd
      · exfalso
        obtain ⟨y, hy, hne⟩ := staysBoundary_true _ _ _ _ hs
        exact hne (hI.1 n hi y hy)
      · exact hbd
    · intro hbd
      refine ⟨List.mem_append_right _ hbd, ?_⟩
      cases hs : staysBoundary m s.nodeBlocks (b : Int) n
      · exfalso
        obtain ⟨y, hy, hne⟩ := hI.2 n hbd
        exact hne (staysBoundary_false_valid m _ _ n
          (hlinks n (List.mem_append_right _ hbd)) hs y hy)
      · rfl
  · unfold block.nodes
    rw [g2, g3]
    refine List.Nodup.append ((ownedNodes_nodup _ _ _).filter _)
      ((ownedNodes_nodup _ _ _).filter _) ?_
    intro n h1 h2
    simp only [List.mem_filter, Bool.not_eq_true'] at h1 h2
    rw [h1.2] at h2
    exact Bool.false_ne_true h2.2

theorem separate_round_trip_witness :
    ∃ s', separate grid4 noBlock joinScenario.flags joinScenario.nodeBlocks = .ok s' ∧
      s'.blocks.length = joinScenario.blocks.length ∧
      ∀ b, b < joinScenario.blocks.length →
        (s'.blockAt b).blockNum = (b : Int) ∧
        (∀ n, n ∈ (s'.blockAt b).intNodes ↔ n ∈ (joinScenario.blockAt b).intNodes) ∧
        (∀ n, n ∈ (s'.blockAt b).boundNodes ↔ n ∈ (joinScenario.blockAt b).boundNodes) ∧
        (s'.blockAt b).nodes.Nodup :=
  separate_round_trip grid4 noBlock joinScenario (by decide!) (by decide)
    (ownerLists_arr _ _ _ (by decide) (by decide) (by decide)) (by decide!) (by decide)
    (by decide) (by decide)

/-! ### `getLinks`: membership -/

theorem mem_linkStep (nb : Int → Int) (bn : Int) (acc : List Int) (l x : Int) :
    x ∈ linkStep nb bn acc l ↔ (x ∈ acc ∨ (x = nb l ∧ 0 ≤ x ∧ x ≠ bn)) := by
  unfold linkStep
  simp only
  split
  · rename_i hc
    rw [List.mem_append, List.mem_singleton]
    constructor
    · rintro (h | h)
      · exact Or.inl h
      · exact Or.inr ⟨h, by rw [h]; exact hc.1, by rw [h]; exact hc.2.1⟩
    · rintro (h | h)
      · exact Or.inl h
      · exact Or.inr h.1
  · rename_i hc
    constructor
    · intro h; exact Or.inl h
    · rintro (h | ⟨h1, h2, h3⟩)
      · exact h
      · by_contra hx
        exact hc ⟨by rw [← h1]; exact h2, by rw [← h1]; exact h3, by rw [← h1]; exact hx⟩

theorem mem_foldl_linkStep (nb : Int → Int) (bn : Int) (ls : List Int) :
    ∀ (acc : List Int) (x : Int),
      x ∈ ls.foldl (linkStep nb bn) acc ↔
        (x ∈ acc ∨ (0 ≤ x ∧ x ≠ bn ∧ ∃ y ∈ ls, nb y = x)) := by
  induction ls with
  | nil => intro acc x; simp
  | cons l ls ih =>
    intro acc x
    rw [List.foldl_cons, ih, mem_linkStep]
    constructor
    · rintro ((h | ⟨h1, h2, h3⟩) | ⟨h1, h2, y, hy, h3⟩)
      · exact Or.inl h
      · exact Or.inr ⟨h2, h3, l, List.mem_cons_self _ _, h1.symm⟩
      · exact Or.inr ⟨h1, h2, y, List.mem_cons_of_mem _ hy, h3⟩
    · rintro (h | ⟨h1, h2, y, hy, h3⟩)
      · exact Or.inl (Or.inl h)
      · rcases List.mem_cons.1 hy with rfl | hy
        · exact Or.inl (Or.inr ⟨h3.symm, h1, h2⟩)
        · exact Or.inr ⟨h1, h2, y, hy, h3⟩

/-- `getLinks` lists exactly the non-negative owners, other than the block's number, of
the neighbours of the block's boundary nodes. -/
theorem mem_getLinks (m : Mesh) (nb : Int → Int) (b : block) (x : Int) :
    x ∈ getLinks m nb b ↔
      (0 ≤ x ∧ x ≠ b.blockNum ∧ ∃ p ∈ b.boundNodes, ∃ y ∈ m.links p, nb y = x) := by
  unfold getLinks
  suffices H : ∀ (ps : List Int) (acc : List Int),
      x ∈ ps.foldl (fun acc p => (m.links p).foldl (linkStep nb b.blockNum) acc) acc ↔
        (x ∈ acc ∨ (0 ≤ x ∧ x ≠ b.blockNum ∧ ∃ p ∈ ps, ∃ y ∈ m.links p, nb y = x)) by
    rw [H]; simp
  intro ps
  induction ps with
  | nil => intro acc; simp
  | cons p ps ih =>
    intro acc
    rw [List.foldl_cons, ih, mem_foldl_linkStep]
    constructor
    · rintro ((h | ⟨h1, h2, y, hy, h3⟩) | ⟨h1, h2, q, hq, y, hy, h3⟩)
      · exact Or.inl h
      · exact Or.inr ⟨h1, h2, p, List.mem_cons_self _ _, y, hy, h3⟩
      · exact Or.inr ⟨h1, h2, q, List.mem_cons_of_mem _ hq, y, hy, h3⟩
    · rintro (h | ⟨h1, h2, q, hq, y, hy, h3⟩)
      · exact Or.inl (Or.inl h)
      · rcases List.mem_cons.1 hq with rfl | hq
        · exact Or.inl (Or.inr ⟨h1, h2, y, hy, h3⟩)
        · exact Or.inr ⟨h1, h2, q, hq, y, hy, h3⟩

/-! ### `verify` -/

theorem sizeMinusOne_le (s : State) (h : 0 < s.blocks.length) :
    sizeMinusOne s ≤ (s.blocks.length : Int) - 1 := by
  unfold sizeMinusOne
  have h0 : (0 : Int) ≤ (s.blocks.length : Int) - 1 := by omega
  generalize (s.blocks.length : Int) - 1 = x at h0
  omega

/-- C25 (amended): on a block numbered by its position, `verify` returns `false` whenever
`blocks[a].next = b ≠ -1` with `blocks[b].prev ≠ a`, or `blocks[a].prev = c ≠ -1` with
`blocks[c].next ≠ a`. -/
theorem verify_rejects_broken_link (m : Mesh) (s : State) (a : Nat)
    (hnum : (s.blockAt a).blockNum = (a : Int))
    (h : ((s.blockAt a).nextBlock ≠ -1 ∧
            (s.getB (s.blockAt a).nextBlock).prevBlock ≠ (a : Int)) ∨
         ((s.blockAt a).prevBlock ≠ -1 ∧
            (s.getB (s.blockAt a).prevBlock).nextBlock ≠ (a : Int))) :
    verify m s a = false := by
  unfold verify
  simp only
  split_ifs with h1 h2 h3 h4 h5 h6
  all_goals first | rfl | skip
  exfalso
  rw [hnum] at h5 h6
  rcases h with h | h
  · exact h5 ⟨h.1, fun e => h.2 e.symm⟩
  · exact h6 ⟨h.1, fun e => h.2 e.symm⟩

theorem verify_rejects_broken_link_witness : verify grid4 brokenLinkScenario 0 = false :=
  verify_rejects_broken_link grid4 brokenLinkScenario 0 (by decide) (Or.inl (by decide))

/-- C26 (counterexample): `verify` returns `true` on a block that violates I4 (node 5 is
listed as interior and has the free neighbour 4), and on a block whose number differs
from its position. -/
theorem verify_accepts_without_I4_I7 :
    verify grid4 verifyScenario 0 = true ∧
    (5 : Int) ∈ (verifyScenario.blockAt 0).intNodes ∧ (4 : Int) ∈ grid4.links 5 ∧
    verifyScenario.nodeBlocks 4 = -1 ∧ ¬ InteriorOk grid4 verifyScenario ∧
    verify grid4 verifyNumScenario 0 = true ∧ (verifyNumScenario.blockAt 0).blockNum = 1 ∧
    ¬ NumOk verifyNumScenario := by
  refine ⟨?_, ?_, ?_, ?_, ?_, ?_, ?_, ?_⟩
  all_goals decide!

/-- C26 (amended): when `verify` returns `true` on `blocks[b]`, every listed node is owned
by `block_num` and not flagged `FREE` (I2), no node is in both lists (I3), the number of
node ids owned by `block_num` equals `size()`, both links are `-1` or a valid index, the
block each link points to points back to `block_num` (I5), and each link that is not `-1`
joins physically adjacent blocks (I6).  If in addition the lists hold node ids without
repetition, the block owns exactly its listed nodes (I1). -/
theorem verify_true_gives (m : Mesh) (s : State) (b : Nat) (hb : b < s.blocks.length)
    (h : verify m s b = true) :
    (∀ n ∈ (s.blockAt b).nodes, s.nodeBlocks n = (s.blockAt b).blockNum ∧ s.flags n ≠ 0) ∧
    (∀ n, ¬ (n ∈ (s.blockAt b).intNodes ∧ n ∈ (s.blockAt b).boundNodes)) ∧
    ((ownedNodes m s.nodeBlocks (s.blockAt b).blockNum).length : Int) = (s.blockAt b).size ∧
    validLink s (s.blockAt b).nextBlock ∧ validLink s (s.blockAt b).prevBlock ∧
    ((s.blockAt b).nextBlock ≠ -1 →
      (s.getB (s.blockAt b).nextBlock).prevBlock = (s.blockAt b).blockNum) ∧
    ((s.blockAt b).prevBlock ≠ -1 →
      (s.getB (s.blockAt b).prevBlock).nextBlock = (s.blockAt b).blockNum) ∧
    ((s.blockAt b).nextBlock ≠ -1 → Touches m s b (s.blockAt b).nextBlock) ∧
    ((s.blockAt b).prevBlock ≠ -1 → Touches m s b (s.blockAt b).prevBlock) ∧
    ((s.blockAt b).nodes.Nodup → NodesValid m s b →
      ∀ n, (0 ≤ n ∧ n < (m.nNodes : Int)) →
        (s.nodeBlocks n = (s.blockAt b).blockNum ↔ n ∈ (s.blockAt b).nodes)) := by
  unfold verify at h
  simp only at h
  split_ifs at h with h1 h2 h3 h4 h5 h6
  have hlists : ∀ n ∈ (s.blockAt b).nodes,
      s.nodeBlocks n = (s.blockAt b).blockNum ∧ s.flags n ≠ 0 := by
    intro n hn
    have hbad : verifyBadNode s (s.blockAt b).blockNum n = false := by
      rcases List.mem_append.1 hn with hi | hbd
      · by_contra hc
        exact h1 (List.any_eq_true.2 ⟨n, hi, by simpa using hc⟩)
      · by_contra hc
        exact h2 (List.any_eq_true.2 ⟨n, hbd, by simp [Bool.eq_true_of_not_eq_false hc]⟩)
    unfold verifyBadNode at hbad
    simp only [decide_eq_false_iff_not, not_or, not_not] at hbad
    exact hbad
  have hdis : ∀ n, ¬ (n ∈ (s.blockAt b).intNodes ∧ n ∈ (s.blockAt b).boundNodes) := by
    rintro n ⟨hi, hbd⟩
    exact h2 (List.any_eq_true.2 ⟨n, hbd, by
      rw [Bool.or_eq_true]; right
      exact List.any_eq_true.2 ⟨n, hi, by simp⟩⟩)
  have hcount : ((ownedNodes m s.nodeBlocks (s.blockAt b).blockNum).length : Int) =
      (s.blockAt b).size := not_not.1 h3
  have hle := sizeMinusOne_le s (by omega)
  simp only [not_or, not_and, not_lt, not_not] at h4
  obtain ⟨r1, r2, r3, r4⟩ := h4
  have hvn : validLink s (s.blockAt b).nextBlock := by
    by_cases hn : (s.blockAt b).nextBlock = -1
    · exact Or.inl hn
    · right
      have h0 : 0 ≤ (s.blockAt b).nextBlock := by
        by_contra hc; exact hn (r1 (by omega))
      omega
  have hvp : validLink s (s.blockAt b).prevBlock := by
    by_cases hn : (s.blockAt b).prevBlock = -1
    · exact Or.inl hn
    · right
      have h0 : 0 ≤ (s.blockAt b).prevBlock := by
        by_contra hc; exact hn (r2 (by omega))
      omega
  unfold verifyLinked at h
  simp only [Bool.and_eq_true, Bool.or_eq_true, decide_eq_true_eq, List.any_eq_true] at h
  have htouch : ∀ x, (∃ p ∈ getLinks m s.nodeBlocks (s.blockAt b), p = x) →
      Touches m s b x := by
    rintro x ⟨p, hp, rfl⟩
    exact ((mem_getLinks m s.nodeBlocks (s.blockAt b) p).1 hp).2.2
  refine ⟨hlists, hdis, hcount, hvn, hvp, ?_, ?_, ?_, ?_, ?_⟩
  · intro hn
    by_contra hc
    exact h5 ⟨hn, fun e => hc e.symm⟩
  · intro hn
    by_contra hc
    exact h6 ⟨hn, fun e => hc e.symm⟩
  · intro hn
    rcases h.2 with h7 | h7
    · exact absurd h7 hn
    · exact htouch _ h7
  · intro hn
    rcases h.1 with h7 | h7
    · exact absurd h7 hn
    · exact htouch _ h7
  · intro hnd hval n hn
    constructor
    · intro ho
      have hsub : (s.blockAt b).nodes ⊆ ownedNodes m s.nodeBlocks (s.blockAt b).blockNum := by
        intro x hx
        exact (mem_ownedNodes _ _ _ _).2 ⟨hval x hx, (hlists x hx).1⟩
      have hsp := List.subperm_of_subset hnd hsub
      have hlen : (ownedNodes m s.nodeBlocks (s.blockAt b).blockNum).length ≤
          (s.blockAt b).nodes.length := by
        have := hcount
        rw [size_eq_length] at this
        omega
      exact (hsp.perm_of_length_le hlen).mem_iff.2 ((mem_ownedNodes _ _ _ _).2 ⟨hn, ho⟩)
    · intro hx
      exact (hlists n hx).1

theorem verify_true_gives_witness :
    (∀ n ∈ (joinScenario.blockAt 1).nodes,
      joinScenario.nodeBlocks n = (joinScenario.blockAt 1).blockNum ∧
      joinScenario.flags n ≠ 0) ∧
    (∀ n, ¬ (n ∈ (joinScenario.blockAt 1).intNodes ∧ n ∈ (joinScenario.blockAt 1).boundNodes)) ∧
    ((ownedNodes grid4 joinScenario.nodeBlocks (joinScenario.blockAt 1).blockNum).length : Int)
      = (joinScenario.blockAt 1).size ∧
    validLink joinScenario (joinScenario.blockAt 1).nextBlock ∧
    validLink joinScenario (joinScenario.blockAt 1).prevBlock ∧
    ((joinScenario.blockAt 1).nextBlock ≠ -1 →
      (joinScenario.getB (joinScenario.blockAt 1).nextBlock).prevBlock =
        (joinScenario.blockAt 1).blockNum) ∧
    ((joinScenario.blockAt 1).prevBlock ≠ -1 →
      (joinScenario.getB (joinScenario.blockAt 1).prevBlock).nextBlock =
        (joinScenario.blockAt 1).blockNum) ∧
    ((joinScenario.blockAt 1).nextBlock ≠ -1 →
      Touches grid4 joinScenario 1 (joinScenario.blockAt 1).nextBlock) ∧
    ((joinScenario.blockAt 1).prevBlock ≠ -1 →
      Touches grid4 joinScenario 1 (joinScenario.blockAt 1).prevBlock) ∧
    ((joinScenario.blockAt 1).nodes.Nodup → NodesValid grid4 joinScenario 1 →
      ∀ n, (0 ≤ n ∧ n < (grid4.nNodes : Int)) →
        (joinScenario.nodeBlocks n = (joinScenario.blockAt 1).blockNum ↔
          n ∈ (joinScenario.blockAt 1).nodes)) :=
  verify_true_gives grid4 joinScenario 1 (by decide) (by decide!)

/-! ### `checkLinks` and `removeFalseLinks` -/

theorem state_ext (s t : State) (h1 : s.flags = t.flags) (h2 : s.nodeBlocks = t.nodeBlocks)
    (h3 : s.blocks.length = t.blocks.length)
    (h4 : ∀ j, j < s.blocks.length → s.blockAt j = t.blockAt j) : s = t := by
  obtain ⟨f, o, bs⟩ := s
  obtain ⟨f', o', bs'⟩ := t
  simp only at h1 h2 h3
  subst h1 h2
  have : bs = bs' := by
    apply List.ext_getElem h3
    intro i hi1 hi2
    have := h4 i hi1
    simp only [State.blockAt, List.getD_eq_getElem?_getD, List.getElem?_eq_getElem hi1,
      List.getElem?_eq_getElem hi2, Option.getD_some] at this
    exact this
  rw [this]

theorem getLinks_congr (m : Mesh) (nb : Int → Int) (b b' : block)
    (h1 : b'.boundNodes = b.boundNodes) (h2 : b'.blockNum = b.blockNum) :
    getLinks m nb b' = getLinks m nb b := by
  unfold getLinks
  rw [h1, h2]

theorem severPrev_blockAt (s : State) (self j : Nat) (hself : self < s.blocks.length)
    (hp : (s.blockAt self).prevBlock ≠ (self : Int)) :
    (severPrev s self).blockAt j =
      if j = self then { s.blockAt self with prevBlock := -1 }
      else if (s.blockAt self).prevBlock = (j : Int) ∧ j < s.blocks.length then
        { s.blockAt j with nextBlock := -1 }
      else s.blockAt j := by
  unfold severPrev
  rw [modAt_blockAt, modB_length, modB_blockAt]
  by_cases hj : j = self
  · subst hj
    rw [if_pos ⟨rfl, hself⟩, if_neg (fun h => hp h.1), if_pos rfl]
  · rw [if_neg (fun h => hj h.1.symm), if_neg hj]

theorem severNext_blockAt (s : State) (self j : Nat) (hself : self < s.blocks.length)
    (hn : (s.blockAt self).nextBlock ≠ (self : Int)) :
    (severNext s self).blockAt j =
      if j = self then { s.blockAt self with nextBlock := -1 }
      else if (s.blockAt self).nextBlock = (j : Int) ∧ j < s.blocks.length then
        { s.blockAt j with prevBlock := -1 }
      else s.blockAt j := by
  unfold severNext
  rw [modAt_blockAt, modB_length, modB_blockAt]
  by_cases hj : j = self
  · subst hj
    rw [if_pos ⟨rfl, hself⟩, if_neg (fun h => hn h.1), if_pos rfl]
  · rw [if_neg (fun h => hj h.1.symm), if_neg hj]

theorem severPrev_length (s : State) (self : Nat) :
    (severPrev s self).blocks.length = s.blocks.length := by
  unfold severPrev; rw [modAt_length, modB_length]

theorem severNext_length (s : State) (self : Nat) :
    (severNext s self).blocks.length = s.blocks.length := by
  unfold severNext; rw [modAt_length, modB_length]

theorem severPrev_arrays (s : State) (self : Nat) :
    (severPrev s self).flags = s.flags ∧ (severPrev s self).nodeBlocks = s.nodeBlocks := by
  unfold severPrev
  exact ⟨by rw [modAt_flags, modB_flags], by rw [modAt_nodeBlocks, modB_nodeBlocks]⟩

theorem severNext_arrays (s : State) (self : Nat) :
    (severNext s self).flags = s.flags ∧ (severNext s self).nodeBlocks = s.nodeBlocks := by
  unfold severNext
  exact ⟨by rw [modAt_flags, modB_flags], by rw [modAt_nodeBlocks, modB_nodeBlocks]⟩

/-- The two severances commute when neither link of the block points to itself. -/
theorem sever_comm (s : State) (self : Nat) (hself : self < s.blocks.length)
    (hp : (s.blockAt self).prevBlock ≠ (self : Int))
    (hn : (s.blockAt self).nextBlock ≠ (self : Int)) :
    severNext (severPrev s self) self = severPrev (severNext s self) self := by
  have a1 := severPrev_blockAt s self self hself hp
  have a2 := severNext_blockAt s self self hself hn
  rw [if_pos rfl] at a1 a2
  have hself1 : self < (severPrev s self).blocks.length := by rw [severPrev_length]; exact hself
  have hself2 : self < (severNext s self).blocks.length := by rw [severNext_length]; exact hself
  have hn1 : ((severPrev s self).blockAt self).nextBlock ≠ (self : Int) := by rw [a1]; exact hn
  have hp2 : ((severNext s self).blockAt self).prevBlock ≠ (self : Int) := by rw [a2]; exact hp
  apply state_ext
  · rw [(severNext_arrays _ _).1, (severPrev_arrays _ _).1, (severPrev_arrays _ _).1,
      (severNext_arrays _ _).1]
  · rw [(severNext_arrays _ _).2, (severPrev_arrays _ _).2, (severPrev_arrays _ _).2,
      (severNext_arrays _ _).2]
  · rw [severNext_length, severPrev_length, severPrev_length, severNext_length]
  · intro j _
    rw [severNext_blockAt _ _ _ hself1 hn1, severPrev_blockAt _ _ _ hself2 hp2,
      severPrev_length, severNext_length, a1, a2]
    by_cases hj : j = self
    · rw [if_pos hj, if_pos hj]
    · rw [if_neg hj, if_neg hj, severPrev_blockAt _ _ _ hself hp,
        severNext_blockAt _ _ _ hself hn, if_neg hj, if_neg hj]
      by_cases c1 : (s.blockAt self).nextBlock = (j : Int) ∧ j < s.blocks.length <;>
        by_cases c2 : (s.blockAt self).prevBlock = (j : Int) ∧ j < s.blocks.length
      · simp only [if_pos c1, if_pos c2]
      · simp only [if_pos c1, if_neg c2]
      · simp only [if_neg c1, if_pos c2]
      · simp only [if_neg c1, if_neg c2]

theorem checkLinks_nf (m : Mesh) (s : State) (self : Nat) (hself : self < s.blocks.length)
    (hp : (s.blockAt self).prevBlock ≠ (self : Int)) :
    checkLinks m s self =
      if (s.blockAt self).prevBlock ≠ -1 ∧
          (getLinks m s.nodeBlocks (s.blockAt self)).any
            (fun p => decide (p = (s.blockAt self).prevBlock)) = false then
        if (s.blockAt self).nextBlock ≠ -1 ∧
            (getLinks m s.nodeBlocks (s.blockAt self)).any
              (fun p => decide (p = (s.blockAt self).nextBlock)) = false then
          (false, severNext (severPrev s self) self)
        else (false, severPrev s self)
      else
        if (s.blockAt self).nextBlock ≠ -1 ∧
            (getLinks m s.nodeBlocks (s.blockAt self)).any
              (fun p => decide (p = (s.blockAt self).nextBlock)) = false then
          (false, severNext s self)
        else (true, s) := by
  have e1 : ((severPrev s self).blockAt self).nextBlock = (s.blockAt self).nextBlock := by
    rw [severPrev_blockAt _ _ _ hself hp, if_pos rfl]
  unfold checkLinks
  simp only
  by_cases cp : (s.blockAt self).prevBlock ≠ -1 ∧
      (getLinks m s.nodeBlocks (s.blockAt self)).any
        (fun p => decide (p = (s.blockAt self).prevBlock)) = false
  · simp only [if_pos cp, e1]
  · simp only [if_neg cp]

theorem removeFalseLinks_nf (m : Mesh) (s : State) (self : Nat) :
    removeFalseLinks m s self =
      if (s.blockAt self).prevBlock ≠ -1 ∧
          (getLinks m s.nodeBlocks (s.blockAt self)).any
            (fun p => decide (p = (s.blockAt self).prevBlock)) = false then
        if (s.blockAt self).nextBlock ≠ -1 ∧
            (getLinks m s.nodeBlocks (s.blockAt self)).any
              (fun p => decide (p = (s.blockAt self).nextBlock)) = false then
          (false, severPrev (severNext s self) self)
        else (false, severPrev s self)
      else
        if (s.blockAt self).nextBlock ≠ -1 ∧
            (getLinks m s.nodeBlocks (s.blockAt self)).any
              (fun p => decide (p = (s.blockAt self).nextBlock)) = false then
          (false, severNext s self)
        else (true, s) := by
  unfold removeFalseLinks
  simp only
  have hb : ∀ (x : Int) (v : Bool), ((decide (x = -1) || v) = false) ↔ (x ≠ -1 ∧ v = false) := by
    intro x v
    by_cases hx : x = -1 <;> cases v <;> simp [hx]
  by_cases cp : (s.blockAt self).prevBlock ≠ -1 ∧
      (getLinks m s.nodeBlocks (s.blockAt self)).any
        (fun p => decide (p = (s.blockAt self).prevBlock)) = false <;>
    by_cases cn : (s.blockAt self).nextBlock ≠ -1 ∧
      (getLinks m s.nodeBlocks (s.blockAt self)).any
        (fun p => decide (p = (s.blockAt self).nextBlock)) = false
  · rw [if_pos cp, if_pos cn, if_pos ((hb _ _).2 cn), if_pos ((hb _ _).2 cp),
      (hb _ _).2 cp, (hb _ _).2 cn]
    rfl
  · rw [if_pos cp, if_neg cn, if_neg (fun h => cn ((hb _ _).1 h)), if_pos ((hb _ _).2 cp),
      (hb _ _).2 cp]
    rfl
  · rw [if_neg cp, if_pos cn, if_pos ((hb _ _).2 cn), if_neg (fun h => cp ((hb _ _).1 h)),
      (hb _ _).2 cn]
    simp
  · rw [if_neg cp, if_neg cn, if_neg (fun h => cn ((hb _ _).1 h)),
      if_neg (fun h => cp ((hb _ _).1 h))]
    have h1 := Bool.eq_true_of_not_eq_false (fun h => cp ((hb _ _).1 h))
    have h2 := Bool.eq_true_of_not_eq_false (fun h => cn ((hb _ _).1 h))
    rw [h1, h2]
    rfl

/-- C27: when the links of `blocks[self]` are `-1` or indices of other blocks, `checkLinks`
and `removeFalseLinks` return the same value and leave the same state; the value is `true`
iff the state is unchanged; afterwards each link of the block is `-1` or listed by
`getLinks()`. -/
theorem checkLinks_eq_removeFalseLinks (m : Mesh) (s : State) (self : Nat)
    (hself : self < s.blocks.length) (hl : SelfLinksOk s self) :
    checkLinks m s self = removeFalseLinks m s self ∧
    ((checkLinks m s self).1 = true ↔ (checkLinks m s self).2 = s) ∧
    (((checkLinks m s self).2.blockAt self).prevBlock = -1 ∨
      ((checkLinks m s self).2.blockAt self).prevBlock ∈
        getLinks m (checkLinks m s self).2.nodeBlocks ((checkLinks m s self).2.blockAt self)) ∧
    (((checkLinks m s self).2.blockAt self).nextBlock = -1 ∨
      ((checkLinks m s self).2.blockAt self).nextBlock ∈
        getLinks m (checkLinks m s self).2.nodeBlocks ((checkLinks m s self).2.blockAt self)) := by
  have hp : (s.blockAt self).prevBlock ≠ (self : Int) := by
    rcases hl.2 with h | h
    · rw [h]; omega
    · exact h.2.2
  have hn : (s.blockAt self).nextBlock ≠ (self : Int) := by
    rcases hl.1 with h | h
    · rw [h]; omega
    · exact h.2.2
  have a1 := severPrev_blockAt s self self hself hp
  have a2 := severNext_blockAt s self self hself hn
  rw [if_pos rfl] at a1 a2
  have hself1 : self < (severPrev s self).blocks.length := by rw [severPrev_length]; exact hself
  have hn1 : ((severPrev s self).blockAt self).nextBlock ≠ (self : Int) := by rw [a1]; exact hn
  have a3 := severNext_blockAt (severPrev s self) self self hself1 hn1
  rw [if_pos rfl, a1] at a3
  have hany : ∀ x : Int, (getLinks m s.nodeBlocks (s.blockAt self)).any
      (fun p => decide (p = x)) ≠ false → x ∈ getLinks m s.nodeBlocks (s.blockAt self) := by
    intro x hx
    have := Bool.eq_true_of_not_eq_false hx
    rw [List.any_eq_true] at this
    obtain ⟨p, hp1, hp2⟩ := this
    simp only [decide_eq_true_eq] at hp2
    rw [← hp2]; exact hp1
  rw [checkLinks_nf m s self hself hp, removeFalseLinks_nf m s self,
    sever_comm s self hself hp hn]
  refine ⟨rfl, ?_⟩
  by_cases cp : (s.blockAt self).prevBlock ≠ -1 ∧
      (getLinks m s.nodeBlocks (s.blockAt self)).any
        (fun p => decide (p = (s.blockAt self).prevBlock)) = false <;>
    by_cases cn : (s.blockAt self).nextBlock ≠ -1 ∧
      (getLinks m s.nodeBlocks (s.blockAt self)).any
        (fun p => decide (p = (s.blockAt self).nextBlock)) = false
  · rw [if_pos cp, if_pos cn, ← sever_comm s self hself hp hn]
    refine ⟨⟨fun h => (by cases h), fun h => ?_⟩, Or.inl ?_, Or.inl ?_⟩
    · have := congrArg (fun t => (t.blockAt self).prevBlock) h
      simp only [a3] at this
      exact absurd this.symm cp.1
    · show ((severNext (severPrev s self) self).blockAt self).prevBlock = -1
      rw [a3]
    · show ((severNext (severPrev s self) self).blockAt self).nextBlock = -1
      rw [a3]
  · rw [if_pos cp, if_neg cn]
    refine ⟨⟨fun h => (by cases h), fun h => ?_⟩, Or.inl ?_, ?_⟩
    · have := congrArg (fun t => (t.blockAt self).prevBlock) h
      simp only [a1] at this
      exact absurd this.symm cp.1
    · show ((severPrev s self).blockAt self).prevBlock = -1
      rw [a1]
    · show ((severPrev s self).blockAt self).nextBlock = -1 ∨
        ((severPrev s self).blockAt self).nextBlock ∈
          getLinks m (severPrev s self).nodeBlocks ((severPrev s self).blockAt self)
      rw [a1, (severPrev_arrays _ _).2]
      by_cases h1 : (s.blockAt self).nextBlock = -1
      · exact Or.inl h1
      · right
        exact (mem_getLinks _ _ _ _).2 ((mem_getLinks _ _ _ _).1 (hany _ (fun h => cn ⟨h1, h⟩)))
  · rw [if_neg cp, if_pos cn]
    refine ⟨⟨fun h => (by cases h), fun h => ?_⟩, ?_, Or.inl ?_⟩
    · have := congrArg (fun t => (t.blockAt self).nextBlock) h
      simp only [a2] at this
      exact absurd this.symm cn.1
    · show ((severNext s self).blockAt self).prevBlock = -1 ∨
        ((severNext s self).blockAt self).prevBlock ∈
          getLinks m (severNext s self).nodeBlocks ((severNext s self).blockAt self)
      rw [a2, (severNext_arrays _ _).2]
      by_cases h1 : (s.blockAt self).prevBlock = -1
      · exact Or.inl h1
      · right
        exact (mem_getLinks _ _ _ _).2 ((mem_getLinks _ _ _ _).1 (hany _ (fun h => cp ⟨h1, h⟩)))
    · show ((severNext s self).blockAt self).nextBlock = -1
      rw [a2]
  · rw [if_neg cp, if_neg cn]
    refine ⟨⟨fun _ => rfl, fun _ => rfl⟩, ?_, ?_⟩
    · by_cases h1 : (s.blockAt self).prevBlock = -1
      · exact Or.inl h1
      · exact Or.inr (hany _ (fun h => cp ⟨h1, h⟩))
    · by_cases h1 : (s.blockAt self).nextBlock = -1
      · exact Or.inl h1
      · exact Or.inr (hany _ (fun h => cn ⟨h1, h⟩))

theorem checkLinks_eq_removeFalseLinks_witness :
    checkLinks grid4 splitChainAfter 0 = removeFalseLinks grid4 splitChainAfter 0 ∧
    ((checkLinks grid4 splitChainAfter 0).1 = true ↔
      (checkLinks grid4 splitChainAfter 0).2 = splitChainAfter) ∧
    (((checkLinks grid4 splitChainAfter 0).2.blockAt 0).prevBlock = -1 ∨
      ((checkLinks grid4 splitChainAfter 0).2.blockAt 0).prevBlock ∈
        getLinks grid4 (checkLinks grid4 splitChainAfter 0).2.nodeBlocks
          ((checkLinks grid4 splitChainAfter 0).2.blockAt 0)) ∧
    (((checkLinks grid4 splitChainAfter 0).2.blockAt 0).nextBlock = -1 ∨
      ((checkLinks grid4 splitChainAfter 0).2.blockAt 0).nextBlock ∈
        getLinks grid4 (checkLinks grid4 splitChainAfter 0).2.nodeBlocks
          ((checkLinks grid4 splitChainAfter 0).2.blockAt 0)) :=
  checkLinks_eq_removeFalseLinks grid4 splitChainAfter 0 (by decide!) (by decide!)

/-! ### C28: `deactivateRelink` and a neighbour at index 0 -/

/-- C28 (failing input): on the two-node path with the chain `0 <-> 1`, a state satisfying
all of I1-I7, `deactivateRelink` on block 1 (whose `prev` is block 0 and whose `next` is
`-1`) returns `false` with block 1 inactive and `prev = next = -1`, but the guard
`prevBlock > 0` skips block 0: `blocks[0].next` is still `1`, so a link to the deactivated
block remains and link symmetry I5 fails afterwards. -/
theorem deactivateRelink_leaves_dangling_link :
    WellFormed (pathMesh 2) joinLastScenario ∧
    (deactivateRelink (pathMesh 2) joinLastScenario 1).1 = false ∧
    (((deactivateRelink (pathMesh 2) joinLastScenario 1).2.blockAt 1).isActive = false ∧
     ((deactivateRelink (pathMesh 2) joinLastScenario 1).2.blockAt 1).prevBlock = -1 ∧
     ((deactivateRelink (pathMesh 2) joinLastScenario 1).2.blockAt 1).nextBlock = -1) ∧
    ((deactivateRelink (pathMesh 2) joinLastScenario 1).2.blockAt 0).nextBlock = 1 ∧
    ¬ LinkSym (deactivateRelink (pathMesh 2) joinLastScenario 1).2 := by
  refine ⟨wellFormed_arr _ _ _ _ (by decide) (by decide) (by decide) (by decide!), ?_⟩
  decide!

/-! ### C30: the contention loop of `genNewBlock` -/

/-- C30 (failing input): on the 4x4 grid with block 0 on the corner node 0 and block 1 on
node 5, a state satisfying I1-I7, `genNewBlock` on block 0 claims the free node 1 into the
new block 2 although node 1 has the non-free neighbour 5 owned by block 1: the contention
loop runs over the two slots given by the degree of the parent node 0 and never reads the
third slot of the row `[0, 2, 5]` of node 1. -/
theorem genNewBlock_claims_contended_node :
    WellFormed grid4 genScenario ∧
    (genScenario.blockAt 0).isActive = true ∧
    (0 : Int) ∈ (genScenario.blockAt 0).boundNodes ∧
    grid4.links 0 = [1, 4] ∧ grid4.links 1 = [0, 2, 5] ∧
    genScenario.flags 1 = 0 ∧
    (genScenario.flags 5 ≠ 0 ∧ genScenario.nodeBlocks 5 = 1) ∧
    (genNewBlock grid4 noBlock noBlock genScenario 0).2.boundNodes = [1] ∧
    (genNewBlock grid4 noBlock noBlock genScenario 0).2.blockNum = 2 ∧
    (genNewBlock grid4 noBlock noBlock genScenario 0).1.nodeBlocks 1 = 2 ∧
    (genNewBlock grid4 noBlock noBlock genScenario 0).1.flags 1 = 2 ∧
    (genNewBlock grid4 noBlock noBlock genScenario 0).1.nodeBlocks 5 = 1 ∧
    (genNewBlock grid4 noBlock noBlock genScenario 0).1.flags 5 = 2 := by
  refine ⟨wellFormed_arr _ _ _ _ (by decide) (by decide) (by decide) (by decide!), ?_⟩
  decide!

/-! ### `depthInBlock`: breadth-first depths -/

theorem foldl_inv_seen {α β : Type} (P : List α → β → Prop) (f : β → α → β) (l : List α) :
    ∀ (pre : List α) (init : β), P pre init →
      (∀ p st x, x ∈ l → P p st → P (p ++ [x]) (f st x)) → P (pre ++ l) (l.foldl f init) := by
  induction l with
  | nil => intro pre init h0 _; rw [List.append_nil]; exact h0
  | cons a l ih =>
    intro pre init h0 hstep
    rw [List.foldl_cons]
    have := ih (pre ++ [a]) (f init a) (hstep _ _ _ (List.mem_cons_self _ _) h0)
      (fun p st x hx hp => hstep p st x (List.mem_cons_of_mem _ hx) hp)
    rw [List.append_assoc, List.singleton_append] at this
    exact this

theorem pathLen_owned (m : Mesh) (nb : Int → Int) (B : Int) (depths0 : Int → Int)
    (hseed : ∀ n, depths0 n = 1 → nb n = B) :
    ∀ (k : Nat) (n : Int), PathLen m nb B depths0 k n → nb n = B := by
  intro k n h
  cases k with
  | zero => exact hseed n h
  | succ k => obtain ⟨x, -, -, h3⟩ := h; exact h3

theorem depthVisit_round (m : Mesh) (nb : Int → Int) (B : Int) (depths0 : Int → Int) (L : Nat)
    (D0 : Int → Int) (dn0 : Int) (done : List Int) (st : DepthSt) (x c : Int)
    (hx : PathLen m nb B depths0 L x) (hc : c ∈ m.links x)
    (h : RoundInv m nb B depths0 L D0 dn0 done st) :
    RoundInv m nb B depths0 L D0 dn0 done (depthVisit nb B ((L : Int) + 1 + 1) st c) ∧
    (nb c = B → (depthVisit nb B ((L : Int) + 1 + 1) st c).depths c ≠ 0) ∧
    (∀ y, st.depths y ≠ 0 → (depthVisit nb B ((L : Int) + 1 + 1) st c).depths y ≠ 0) := by
  unfold depthVisit
  by_cases hcond : st.depths c = 0 ∧ nb c = B
  · rw [if_pos hcond]
    have hD0 : D0 c = 0 := by
      rcases h.change c with e | ⟨e, -, -⟩
      · rw [← e]; exact hcond.1
      · exact e
    have hnew : ∀ y, st.depths y ≠ 0 → upd st.depths c ((L : Int) + 1 + 1) y ≠ 0 := by
      intro y hy
      rw [upd_apply]
      split
      · omega
      · exact hy
    refine ⟨⟨?_, ?_, ?_, ?_, ?_⟩, ?_, hnew⟩
    · intro n
      by_cases hn : n = c
      · subst hn
        refine Or.inr ⟨hD0, ?_, x, hx, hc, hcond.2⟩
        show upd st.depths n ((L : Int) + 1 + 1) n = _
        rw [upd_apply, if_pos rfl]; omega
      · have e : upd st.depths c ((L : Int) + 1 + 1) n = st.depths n := by
          rw [upd_apply, if_neg hn]
        rcases h.change n with a | ⟨a1, a2, a3⟩
        · exact Or.inl (e.trans a)
        · exact Or.inr ⟨a1, e.trans a2, a3⟩
    · intro y hy hy1 z hz hzB
      exact hnew z (h.expanded y hy hy1 z hz hzB)
    · show 0 ≤ st.updatePoints + 1
      have := h.up_nonneg; omega
    · intro e
      have := h.up_nonneg
      have e2 : st.updatePoints + 1 = 0 := e
      omega
    · intro _
      refine ⟨c, hD0, ?_⟩
      show upd st.depths c ((L : Int) + 1 + 1) c = _
      rw [upd_apply, if_pos rfl]; omega
    · intro _
      show upd st.depths c ((L : Int) + 1 + 1) c ≠ 0
      rw [upd_apply, if_pos rfl]; omega
  · rw [if_neg hcond]
    refine ⟨h, ?_, fun y hy => hy⟩
    intro hB h0
    exact hcond ⟨h0, hB⟩

theorem depthNode_round (m : Mesh) (nb : Int → Int) (B : Int) (depths0 : Int → Int) (L : Nat)
    (D0 : Int → Int) (dn0 : Int) (done : List Int) (st : DepthSt) (x : Int)
    (hlev : LevelInv m nb B depths0 L D0)
    (h : RoundInv m nb B depths0 L D0 dn0 done st) :
    RoundInv m nb B depths0 L D0 dn0 (done ++ [x]) (depthNode m nb B ((L : Int) + 1) st x) := by
  unfold depthNode
  have hD : st.depths x = (L : Int) + 1 ↔ D0 x = (L : Int) + 1 := by
    rcases h.change x with e | ⟨e0, e2, -⟩
    · rw [e]
    · rw [e0, e2]; constructor <;> intro e <;> omega
  by_cases hx : st.depths x = (L : Int) + 1
  · rw [if_pos hx]
    have hx0 := hD.1 hx
    have hpath : PathLen m nb B depths0 L x := by
      rcases hlev x with ⟨e, -⟩ | ⟨d, -, e, hp, -⟩
      · omega
      · have : d = L := by omega
        subst this; exact hp
    have key := foldl_inv_seen
      (fun (pre : List Int) (s : DepthSt) => RoundInv m nb B depths0 L D0 dn0 done s ∧
        ∀ y ∈ pre, nb y = B → s.depths y ≠ 0)
      (depthVisit nb B ((L : Int) + 1 + 1)) (m.links x) [] st
      ⟨h, fun y hy => absurd hy (List.not_mem_nil _)⟩
      (by
        intro p s c hc ⟨hs, hp⟩
        obtain ⟨a1, a2, a3⟩ := depthVisit_round m nb B depths0 L D0 dn0 done s x c hpath hc hs
        refine ⟨a1, ?_⟩
        intro y hy hyB
        rcases List.mem_append.1 hy with hy | hy
        · exact a3 y (hp y hy hyB)
        · rw [List.mem_singleton] at hy
          subst hy
          exact a2 hyB)
    rw [List.nil_append] at key
    obtain ⟨k1, k2⟩ := key
    refine ⟨k1.change, ?_, k1.up_nonneg, k1.up_zero, k1.up_pos⟩
    intro y hy hy1 z hz hzB
    rcases List.mem_append.1 hy with hy | hy
    · exact k1.expanded y hy hy1 z hz hzB
    · rw [List.mem_singleton] at hy
      subst hy
      exact k2 z hz hzB
  · rw [if_neg hx]
    refine ⟨h.change, ?_, h.up_nonneg, h.up_zero, h.up_pos⟩
    intro y hy hy1 z hz hzB
    rcases List.mem_append.1 hy with hy | hy
    · exact h.expanded y hy hy1 z hz hzB
    · rw [List.mem_singleton] at hy
      subst hy
      exact absurd (hD.2 hy1) hx

theorem depthRound_round (m : Mesh) (nb : Int → Int) (b : block) (depths0 : Int → Int)
    (L : Nat) (D0 : Int → Int) (dn0 : Int) (hlev : LevelInv m nb b.blockNum depths0 L D0) :
    RoundInv m nb b.blockNum depths0 L D0 dn0 b.nodes
      (depthRound m nb b ((L : Int) + 1) D0 dn0) := by
  unfold depthRound block.nodes
  apply foldl_inv_seen (fun pre s => RoundInv m nb b.blockNum depths0 L D0 dn0 pre s)
  · have := foldl_inv_seen (fun pre s => RoundInv m nb b.blockNum depths0 L D0 dn0 pre s)
      (depthNode m nb b.blockNum ((L : Int) + 1)) b.intNodes []
      { depths := D0, deepNode := dn0, updatePoints := 0 }
      ⟨fun n => Or.inl rfl, fun x hx => absurd hx (List.not_mem_nil _), le_refl _,
        fun _ => ⟨rfl, rfl⟩, fun h => absurd rfl h⟩
      (fun p st x _ hp => depthNode_round m nb b.blockNum depths0 L D0 dn0 p st x hlev hp)
    rw [List.nil_append] at this
    exact this
  · exact fun p st x _ hp => depthNode_round m nb b.blockNum depths0 L D0 dn0 p st x hlev hp

theorem levelInv_next (m : Mesh) (nb : Int → Int) (b : block) (depths0 : Int → Int)
    (L : Nat) (D0 : Int → Int) (dn0 : Int) (st : DepthSt)
    (hI1 : ∀ n, nb n = b.blockNum → n ∈ b.nodes)
    (hseed : ∀ n, depths0 n = 1 → nb n = b.blockNum)
    (hlev : LevelInv m nb b.blockNum depths0 L D0)
    (h : RoundInv m nb b.blockNum depths0 L D0 dn0 b.nodes st) :
    LevelInv m nb b.blockNum depths0 (L + 1) st.depths := by
  intro n
  rcases h.change n with e | ⟨e0, e2, hp⟩
  · rcases hlev n with ⟨z, hz⟩ | ⟨d, hd, hd1, hd2, hd3⟩
    · left
      refine ⟨e.trans z, ?_⟩
      intro j hj hpj
      by_cases hjL : j ≤ L
      · exact hz j hjL hpj
      · have hj1 : j = L + 1 := by omega
        subst hj1
        obtain ⟨x, hx, hnx, hnB⟩ := hpj
        have hxB := pathLen_owned m nb b.blockNum depths0 hseed L x hx
        rcases hlev x with ⟨-, hxz⟩ | ⟨d, hd, hd1, hd2, -⟩
        · exact hxz L (le_refl _) hx
        · by_cases hdL : d = L
          · subst hdL
            exact h.expanded x (hI1 x hxB) hd1 n hnx hnB (e.trans z)
          · exact hz (d + 1) (by omega) ⟨x, hd2, hnx, hnB⟩
    · right
      exact ⟨d, by omega, e.trans hd1, hd2, hd3⟩
  · right
    refine ⟨L + 1, le_refl _, ?_, hp, ?_⟩
    · rw [e2]; push_cast; omega
    · intro j hj
      rcases hlev n with ⟨-, hz⟩ | ⟨d, -, hd1, -, -⟩
      · exact hz j (by omega)
      · omega

theorem levelInv_final (m : Mesh) (nb : Int → Int) (b : block) (depths0 : Int → Int)
    (L : Nat) (D0 : Int → Int) (dn0 : Int) (st : DepthSt)
    (hI1 : ∀ n, nb n = b.blockNum → n ∈ b.nodes)
    (hseed : ∀ n, depths0 n = 1 → nb n = b.blockNum)
    (hlev : LevelInv m nb b.blockNum depths0 L D0)
    (h : RoundInv m nb b.blockNum depths0 L D0 dn0 b.nodes st) (hst : st.depths = D0) :
    ∀ (j : Nat) (n : Int), D0 n = 0 → ¬ PathLen m nb b.blockNum depths0 j n := by
  intro j
  induction j with
  | zero =>
    intro n hn
    rcases hlev n with ⟨-, hz⟩ | ⟨d, -, hd1, -, -⟩
    · exact hz 0 (Nat.zero_le _)
    · omega
  | succ k ih =>
    intro n hn hpj
    obtain ⟨x, hx, hnx, hnB⟩ := hpj
    have hxB := pathLen_owned m nb b.blockNum depths0 hseed k x hx
    have hnz : ∀ j, j ≤ L → ¬ PathLen m nb b.blockNum depths0 j n := by
      rcases hlev n with ⟨-, hz⟩ | ⟨d, -, hd1, -, -⟩
      · exact hz
      · omega
    rcases hlev x with ⟨hx0, -⟩ | ⟨d, hd, hd1, hd2, -⟩
    · exact ih x hx0 hx
    · by_cases hdL : d = L
      · subst hdL
        have := h.expanded x (hI1 x hxB) hd1 n hnx hnB
        rw [hst] at this
        exact this hn
      · exact hnz (d + 1) (by omega) ⟨x, hd2, hnx, hnB⟩

theorem filter_length_lt {α : Type} (p q : α → Bool) (l : List α)
    (hqp : ∀ x ∈ l, q x = true → p x = true) (hx : ∃ x ∈ l, p x = true ∧ q x = false) :
    (l.filter q).length < (l.filter p).length := by
  induction l with
  | nil => obtain ⟨x, hx, -⟩ := hx; cases hx
  | cons a l ih =>
    have hle : ∀ (l : List α), (∀ x ∈ l, q x = true → p x = true) →
        (l.filter q).length ≤ (l.filter p).length := by
      intro l
      induction l with
      | nil => intro _; exact le_refl _
      | cons c l ih2 =>
        intro hh
        have i2 := ih2 (fun x hx => hh x (List.mem_cons_of_mem _ hx))
        have hc := hh c (List.mem_cons_self _ _)
        rw [List.filter_cons, List.filter_cons]
        cases hq : q c with
        | true =>
          rw [hc hq]
          simp only [if_true, List.length_cons]; omega
        | false =>
          cases hpc : p c with
          | true => simp only [if_true, Bool.false_eq_true, if_false, List.length_cons]; omega
          | false => simp only [Bool.false_eq_true, if_false]; exact i2
    have hl := hle l (fun x hx => hqp x (List.mem_cons_of_mem _ hx))
    have ha := hqp a (List.mem_cons_self _ _)
    rw [List.filter_cons, List.filter_cons]
    obtain ⟨x, hxm, hxp, hxq⟩ := hx
    rcases List.mem_cons.1 hxm with e | hxl
    · subst e
      rw [hxp, hxq]
      simp only [if_true, Bool.false_eq_true, if_false, List.length_cons]; omega
    · have i1 := ih (fun x hx => hqp x (List.mem_cons_of_mem _ hx)) ⟨x, hxl, hxp, hxq⟩
      cases hq : q a with
      | true =>
        rw [ha hq]
        simp only [if_true, List.length_cons]; omega
      | false =>
        cases hpa : p a with
        | true => simp only [if_true, Bool.false_eq_true, if_false, List.length_cons]; omega
        | false => simp only [Bool.false_eq_true, if_false]; exact i1

theorem unvisited_lt (m : Mesh) (nb : Int → Int) (b : block) (depths0 : Int → Int)
    (L : Nat) (D0 : Int → Int) (dn0 : Int) (st : DepthSt)
    (hI1 : ∀ n, nb n = b.blockNum → n ∈ b.nodes)
    (hval : ∀ n ∈ b.nodes, 0 ≤ n ∧ n < (m.nNodes : Int))
    (h : RoundInv m nb b.blockNum depths0 L D0 dn0 b.nodes st) (hup : st.updatePoints ≠ 0) :
    unvisited m nb b.blockNum st.depths < unvisited m nb b.blockNum D0 := by
  unfold unvisited
  apply filter_length_lt
  · intro k _ hk
    rw [decide_eq_true_eq] at hk ⊢
    refine ⟨hk.1, ?_⟩
    rcases h.change (k : Int) with e | ⟨e0, -, -⟩
    · rw [← e]; exact hk.2
    · exact e0
  · obtain ⟨n, hn0, hn2⟩ := h.up_pos hup
    have hnB : nb n = b.blockNum := by
      rcases h.change n with e | ⟨-, -, hp⟩
      · rw [hn2, hn0] at e; omega
      · obtain ⟨x, -, -, hB⟩ := hp; exact hB
    have hv := hval n (hI1 n hnB)
    refine ⟨n.toNat, List.mem_range.2 (by omega), ?_, ?_⟩
    · rw [decide_eq_true_eq, Int.toNat_of_nonneg hv.1]
      exact ⟨hnB, hn0⟩
    · rw [decide_eq_false_iff_not, Int.toNat_of_nonneg hv.1]
      intro hh
      rw [hn2] at hh
      omega

theorem depthLoop_bfs (m : Mesh) (nb : Int → Int) (b : block) (depths0 : Int → Int)
    (hI1 : ∀ n, nb n = b.blockNum → n ∈ b.nodes)
    (hval : ∀ n ∈ b.nodes, 0 ≤ n ∧ n < (m.nNodes : Int))
    (hseed : ∀ n, depths0 n = 1 → nb n = b.blockNum) :
    ∀ (f L : Nat) (D : Int → Int) (dn : Int),
      LevelInv m nb b.blockNum depths0 L D →
      ((∃ n, depths0 n = 1) → ∃ n, D n = (L : Int) + 1) →
      unvisited m nb b.blockNum D < f →
      (∀ k, depthLoop m nb b (f + k) ((L : Int) + 1) D dn =
        depthLoop m nb b f ((L : Int) + 1) D dn) ∧
      (∀ n, ((depthLoop m nb b f ((L : Int) + 1) D dn).1 n = 0 ∧
            ∀ k, ¬ PathLen m nb b.blockNum depths0 k n) ∨
          ∃ d : Nat, (depthLoop m nb b f ((L : Int) + 1) D dn).1 n = (d : Int) + 1 ∧
            PathLen m nb b.blockNum depths0 d n ∧
            ∀ j, j < d → ¬ PathLen m nb b.blockNum depths0 j n) ∧
      (∀ n, (depthLoop m nb b f ((L : Int) + 1) D dn).1 n ≤
        (depthLoop m nb b f ((L : Int) + 1) D dn).2.1) ∧
      1 ≤ (depthLoop m nb b f ((L : Int) + 1) D dn).2.1 ∧
      ((∃ n, depths0 n = 1) → ∃ n, (depthLoop m nb b f ((L : Int) + 1) D dn).1 n =
        (depthLoop m nb b f ((L : Int) + 1) D dn).2.1) := by
  intro f
  induction f with
  | zero => intro L D dn _ _ h; omega
  | succ f ih =>
    intro L D dn hlev hmax hfuel
    have hr := depthRound_round m nb b depths0 L D dn hlev
    have hk : ∀ k, f + 1 + k = (f + k) + 1 := by intro k; omega
    by_cases hup : (depthRound m nb b ((L : Int) + 1) D dn).updatePoints = 0
    · have e1 : ∀ g, depthLoop m nb b (g + 1) ((L : Int) + 1) D dn =
          ((depthRound m nb b ((L : Int) + 1) D dn).depths, (L : Int) + 1,
            (depthRound m nb b ((L : Int) + 1) D dn).deepNode) := by
        intro g
        show (if (depthRound m nb b ((L : Int) + 1) D dn).updatePoints = 0 then _ else _) = _
        rw [if_pos hup]
      have hst := (hr.up_zero hup).1
      have hfin := levelInv_final m nb b depths0 L D dn _ hI1 hseed hlev hr hst
      refine ⟨fun k => by rw [hk, e1, e1], ?_, ?_, ?_, ?_⟩
      all_goals rw [e1]
      · intro n
        show ((depthRound m nb b ((L : Int) + 1) D dn).depths n = 0 ∧ _) ∨ _
        rw [hst]
        rcases hlev n with ⟨z, -⟩ | ⟨d, hd, hd1, hd2, hd3⟩
        · exact Or.inl ⟨z, fun k => hfin k n z⟩
        · exact Or.inr ⟨d, hd1, hd2, hd3⟩
      · intro n
        show (depthRound m nb b ((L : Int) + 1) D dn).depths n ≤ (L : Int) + 1
        rw [hst]
        rcases hlev n with ⟨z, -⟩ | ⟨d, hd, hd1, -, -⟩
        · omega
        · omega
      · show (1 : Int) ≤ (L : Int) + 1
        omega
      · intro hs
        obtain ⟨n, hn⟩ := hmax hs
        refine ⟨n, ?_⟩
        show (depthRound m nb b ((L : Int) + 1) D dn).depths n = (L : Int) + 1
        rw [hst]; exact hn
    · have e1 : ∀ g, depthLoop m nb b (g + 1) ((L : Int) + 1) D dn =
          depthLoop m nb b g (((L + 1 : Nat) : Int) + 1)
            (depthRound m nb b ((L : Int) + 1) D dn).depths
            (depthRound m nb b ((L : Int) + 1) D dn).deepNode := by
        intro g
        show (if (depthRound m nb b ((L : Int) + 1) D dn).updatePoints = 0 then _ else _) = _
        rw [if_neg hup]
        push_cast
        rfl
      have hlt := unvisited_lt m nb b depths0 L D dn _ hI1 hval hr hup
      have hnext := levelInv_next m nb b depths0 L D dn _ hI1 hseed hlev hr
      have hmax2 : (∃ n, depths0 n = 1) →
          ∃ n, (depthRound m nb b ((L : Int) + 1) D dn).depths n = ((L + 1 : Nat) : Int) + 1 := by
        intro _
        obtain ⟨n, -, hn⟩ := hr.up_pos hup
        exact ⟨n, by rw [hn]; push_cast; omega⟩
      have := ih (L + 1) _ (depthRound m nb b ((L : Int) + 1) D dn).deepNode hnext hmax2
        (by omega)
      obtain ⟨i1, i2⟩ := this
      refine ⟨fun k => by rw [hk, e1, e1]; exact i1 k, ?_⟩
      rw [e1]
      exact i2

theorem depthLoop_cap (m : Mesh) (nb : Int → Int) (b : block) (depths0 : Int → Int)
    (hI1 : ∀ n, nb n = b.blockNum → n ∈ b.nodes)
    (hval : ∀ n ∈ b.nodes, 0 ≤ n ∧ n < (m.nNodes : Int))
    (hseed : ∀ n, depths0 n = 1 → nb n = b.blockNum)
    (hlev : LevelInv m nb b.blockNum depths0 0 depths0) (k : Nat) :
    depthLoop m nb b (m.nNodes * 2 + k) 1 depths0 (-1) =
      depthLoop m nb b (m.nNodes + 1) 1 depths0 (-1) := by
  have hle : unvisited m nb b.blockNum depths0 ≤ m.nNodes := by
    unfold unvisited
    exact le_trans (List.length_filter_le _ _) (le_of_eq (List.length_range _))
  have hb := (depthLoop_bfs m nb b depths0 hI1 hval hseed (m.nNodes + 1) 0 depths0 (-1) hlev
    (fun ⟨n, hn⟩ => ⟨n, by rw [hn]; rfl⟩) (by omega)).1
  have c0 : ((0 : Nat) : Int) + 1 = 1 := rfl
  rw [c0] at hb
  by_cases hN : m.nNodes * 2 + k = 0
  · have hN0 : m.nNodes = 0 := by omega
    rw [hN, hN0]
    have hr := depthRound_round m nb b depths0 0 depths0 (-1) hlev
    rw [c0] at hr
    by_cases hup : (depthRound m nb b 1 depths0 (-1)).updatePoints = 0
    · obtain ⟨a1, a2⟩ := hr.up_zero hup
      show (depths0, (1 : Int), (-1 : Int)) =
        (if (depthRound m nb b 1 depths0 (-1)).updatePoints = 0 then _ else _)
      rw [if_pos hup, a1, a2]
    · have := unvisited_lt m nb b depths0 0 depths0 (-1) _ hI1 hval hr hup
      omega
  · have e : m.nNodes * 2 + k = (m.nNodes + 1) + (m.nNodes * 2 + k - (m.nNodes + 1)) := by
      omega
    rw [e]
    exact hb _

/-- C29: for a block that owns exactly its listed nodes, all of them node ids, and initial
depths in `{0, 1}` whose seeds are nodes of the block, `depthInBlock` gives every owned node
`1 +` the length of its shortest path from a seed inside the block, or `0` when there is no
such path; depths of nodes not owned by the block are unchanged; no depth exceeds the
returned `deepVal`, which is attained when a seed exists; and the result does not change
when the `2*nNodes` round cap is raised. -/
theorem depthInBlock_bfs (m : Mesh) (nb : Int → Int) (b : block) (depths0 : Int → Int)
    (hI1 : ∀ n, nb n = b.blockNum ↔ n ∈ b.nodes)
    (hval : ∀ n ∈ b.nodes, 0 ≤ n ∧ n < (m.nNodes : Int))
    (h01 : ∀ n, depths0 n = 0 ∨ depths0 n = 1)
    (hseed : ∀ n, depths0 n = 1 → n ∈ b.nodes) :
    (∀ n, nb n = b.blockNum →
      ((depthInBlock m nb b depths0).1 n = 0 ∧ ∀ k, ¬ PathLen m nb b.blockNum depths0 k n) ∨
      ∃ d : Nat, (depthInBlock m nb b depths0).1 n = (d : Int) + 1 ∧
        PathLen m nb b.blockNum depths0 d n ∧
        ∀ j, j < d → ¬ PathLen m nb b.blockNum depths0 j n) ∧
    (∀ n, nb n ≠ b.blockNum → (depthInBlock m nb b depths0).1 n = depths0 n) ∧
    (∀ n, (depthInBlock m nb b depths0).1 n ≤ (depthInBlock m nb b depths0).2.1) ∧
    ((∃ n, depths0 n = 1) →
      ∃ n, nb n = b.blockNum ∧
        (depthInBlock m nb b depths0).1 n = (depthInBlock m nb b depths0).2.1) ∧
    (∀ k, depthLoop m nb b (m.nNodes * 2 + k) 1 depths0 (-1) =
      depthInBlock m nb b depths0) := by
  have hown : ∀ n, nb n = b.blockNum → n ∈ b.nodes := fun n h => (hI1 n).1 h
  have hs : ∀ n, depths0 n = 1 → nb n = b.blockNum := fun n h => (hI1 n).2 (hseed n h)
  have hlev : LevelInv m nb b.blockNum depths0 0 depths0 := by
    intro n
    rcases h01 n with h | h
    · left
      refine ⟨h, ?_⟩
      intro j hj hp
      have : j = 0 := by omega
      subst this
      have h1 : depths0 n = 1 := hp
      omega
    · right
      exact ⟨0, le_refl _, by rw [h]; rfl, h, fun j hj => by omega⟩
  have hle : unvisited m nb b.blockNum depths0 ≤ m.nNodes := by
    unfold unvisited
    exact le_trans (List.length_filter_le _ _) (le_of_eq (List.length_range _))
  have hcap := depthLoop_cap m nb b depths0 hown hval hs hlev
  have hdef : depthInBlock m nb b depths0 =
      depthLoop m nb b (m.nNodes + 1) 1 depths0 (-1) := hcap 0
  obtain ⟨-, p1, p2, p3, p4⟩ := depthLoop_bfs m nb b depths0 hown hval hs (m.nNodes + 1) 0
    depths0 (-1) hlev (fun ⟨n, hn⟩ => ⟨n, by rw [hn]; rfl⟩) (by omega)
  have c0 : ((0 : Nat) : Int) + 1 = 1 := rfl
  rw [c0] at p1 p2 p3 p4
  rw [hdef]
  refine ⟨fun n _ => p1 n, ?_, p2, ?_, fun k => hcap k⟩
  · intro n hn
    rcases p1 n with ⟨z, -⟩ | ⟨d, -, hp, -⟩
    · rw [z]
      rcases h01 n with h | h
      · exact h.symm
      · exact absurd (hs n h) hn
    · exact absurd (pathLen_owned m nb b.blockNum depths0 hs d n hp) hn
  · intro hex
    obtain ⟨n, hn⟩ := p4 hex
    refine ⟨n, ?_, hn⟩
    rcases p1 n with ⟨z, -⟩ | ⟨d, -, hp, -⟩
    · rw [hn] at z; omega
    · exact pathLen_owned m nb b.blockNum depths0 hs d n hp

theorem depthInBlock_bfs_witness :
    (∀ n, splitScenario.nodeBlocks n = (splitScenario.blockAt 0).blockNum →
      ((depthInBlock grid4 splitScenario.nodeBlocks (splitScenario.blockAt 0)
          (upd (fun _ => 0) 0 1)).1 n = 0 ∧
        ∀ k, ¬ PathLen grid4 splitScenario.nodeBlocks (splitScenario.blockAt 0).blockNum
          (upd (fun _ => 0) 0 1) k n) ∨
      ∃ d : Nat,
        (depthInBlock grid4 splitScenario.nodeBlocks (splitScenario.blockAt 0)
          (upd (fun _ => 0) 0 1)).1 n = (d : Int) + 1 ∧
        PathLen grid4 splitScenario.nodeBlocks (splitScenario.blockAt 0).blockNum
          (upd (fun _ => 0) 0 1) d n ∧
        ∀ j, j < d → ¬ PathLen grid4 splitScenario.nodeBlocks (splitScenario.blockAt 0).blockNum
          (upd (fun _ => 0) 0 1) j n) ∧
    (∀ n, splitScenario.nodeBlocks n ≠ (splitScenario.blockAt 0).blockNum →
      (depthInBlock grid4 splitScenario.nodeBlocks (splitScenario.blockAt 0)
          (upd (fun _ => 0) 0 1)).1 n = upd (fun _ => 0) 0 1 n) ∧
    (∀ n,
      (depthInBlock grid4 splitScenario.nodeBlocks (splitScenario.blockAt 0)
          (upd (fun _ => 0) 0 1)).1 n ≤
      (depthInBlock grid4 splitScenario.nodeBlocks (splitScenario.blockAt 0)
          (upd (fun _ => 0) 0 1)).2.1) ∧
    ((∃ n, upd (fun _ => 0) 0 1 n = 1) →
      ∃ n, splitScenario.nodeBlocks n = (splitScenario.blockAt 0).blockNum ∧
        (depthInBlock grid4 splitScenario.nodeBlocks (splitScenario.blockAt 0)
          (upd (fun _ => 0) 0 1)).1 n =
        (depthInBlock grid4 splitScenario.nodeBlocks (splitScenario.blockAt 0)
          (upd (fun _ => 0) 0 1)).2.1) ∧
    (∀ k, depthLoop grid4 splitScenario.nodeBlocks (splitScenario.blockAt 0)
        (grid4.nNodes * 2 + k) 1 (upd (fun _ => 0) 0 1) (-1) =
      depthInBlock grid4 splitScenario.nodeBlocks (splitScenario.blockAt 0)
        (upd (fun _ => 0) 0 1)) :=
  depthInBlock_bfs grid4 splitScenario.nodeBlocks (splitScenario.blockAt 0)
    (upd (fun _ => 0) 0 1)
    (fun n => by
      have h := ownerLists_arr splitScenario.flags [0, 0, 0, 0, 0, 0, 0, 0]
        splitScenario.blocks (by decide) (by decide) (by decide) n 0
      constructor
      · intro e; exact (h.1 e).2
      · intro e; exact h.2 ⟨by decide, e⟩)
    (by decide)
    (fun n => by
      rw [upd_apply]
      by_cases h : n = 0
      · rw [if_pos h]; exact Or.inr rfl
      · rw [if_neg h]; exact Or.inl rfl)
    (fun n hn => by
      rw [upd_apply] at hn
      by_cases h : n = 0
      · subst h; decide
      · rw [if_neg h] at hn; cases hn)

/-! ### `separateUnjoined`: reachability inside a block -/

theorem reach_symm (m : Mesh) (nb : Int → Int) (B : Int) (hsym : MeshSymm m)
    (hval : ∀ x, nb x = B → 0 ≤ x ∧ x < (m.nNodes : Int)) (x y : Int) (hx : nb x = B)
    (h : Reach m nb B x y) : Reach m nb B y x := by
  induction h with
  | refl => exact Relation.ReflTransGen.refl
  | tail hxy hstep ih =>
    rename_i y z
    have hy : nb y = B := reach_owner m nb B x y hxy hx
    have hv := hval y hy
    have hmem : y ∈ m.links z := by
      have := hsym y.toNat (List.mem_range.2 (by omega))
      rw [Int.toNat_of_nonneg hv.1] at this
      exact this z hstep.1
    exact Relation.ReflTransGen.head ⟨hmem, hy⟩ ih

theorem reach_mono (m : Mesh) (nb nb2 : Int → Int) (B : Int)
    (h : ∀ x, nb x = B → nb2 x = B) (x y : Int) (hr : Reach m nb B x y) :
    Reach m nb2 B x y := by
  induction hr with
  | refl => exact Relation.ReflTransGen.refl
  | tail _ hstep ih => exact Relation.ReflTransGen.tail ih ⟨hstep.1, h _ hstep.2⟩

theorem pathLen_reach (m : Mesh) (nb : Int → Int) (B c : Int) :
    ∀ (k : Nat) (n : Int), PathLen m nb B (upd (fun _ => 0) c 1) k n → Reach m nb B c n := by
  intro k
  induction k with
  | zero =>
    intro n h
    have h1 : upd (fun _ => 0) c 1 n = 1 := h
    rw [upd_apply] at h1
    by_cases e : n = c
    · rw [e]; exact Relation.ReflTransGen.refl
    · rw [if_neg e] at h1; cases h1
  | succ k ih =>
    intro n h
    obtain ⟨x, hx, hn, hB⟩ := h
    exact Relation.ReflTransGen.tail (ih x hx) ⟨hn, hB⟩

theorem reach_pathLen (m : Mesh) (nb : Int → Int) (B c n : Int) (h : Reach m nb B c n) :
    ∃ k, PathLen m nb B (upd (fun _ => 0) c 1) k n := by
  induction h with
  | refl => exact ⟨0, by show upd (fun _ => 0) c 1 c = 1; rw [upd_apply, if_pos rfl]⟩
  | tail _ hstep ih =>
    obtain ⟨k, hk⟩ := ih
    exact ⟨k + 1, _, hk, hstep.1, hstep.2⟩

/-- After `depthInBlock` from the single seed `c`, a node has a non-zero depth exactly when
it is reachable from `c` inside the block. -/
theorem depthInBlock_reach (m : Mesh) (nb : Int → Int) (b : block) (c : Int)
    (hI1 : ∀ n, nb n = b.blockNum ↔ n ∈ b.nodes)
    (hval : ∀ n ∈ b.nodes, 0 ≤ n ∧ n < (m.nNodes : Int)) (hc : c ∈ b.nodes) (x : Int) :
    (depthInBlock m nb b (upd (fun _ => 0) c 1)).1 x ≠ 0 ↔ Reach m nb b.blockNum c x := by
  have hown : ∀ n, nb n = b.blockNum → n ∈ b.nodes := fun n h => (hI1 n).1 h
  have hs : ∀ n, upd (fun _ => 0) c 1 n = 1 → nb n = b.blockNum := by
    intro n h
    rw [upd_apply] at h
    by_cases e : n = c
    · rw [e]; exact (hI1 c).2 hc
    · rw [if_neg e] at h; cases h
  have hlev : LevelInv m nb b.blockNum (upd (fun _ => 0) c 1) 0 (upd (fun _ => 0) c 1) := by
    intro n
    by_cases e : n = c
    · right
      refine ⟨0, le_refl _, ?_, ?_, fun j hj => by omega⟩
      · rw [upd_apply, if_pos e]; rfl
      · show upd (fun _ => 0) c 1 n = 1
        rw [upd_apply, if_pos e]
    · left
      have h0 : upd (fun _ => 0) c 1 n = 0 := by rw [upd_apply, if_neg e]
      refine ⟨h0, ?_⟩
      intro j hj hp
      have : j = 0 := by omega
      subst this
      have h1 : upd (fun _ => 0) c 1 n = 1 := hp
      omega
  have hle : unvisited m nb b.blockNum (upd (fun _ => 0) c 1) ≤ m.nNodes := by
    unfold unvisited
    exact le_trans (List.length_filter_le _ _) (le_of_eq (List.length_range _))
  have hdef : depthInBlock m nb b (upd (fun _ => 0) c 1) =
      depthLoop m nb b (m.nNodes + 1) 1 (upd (fun _ => 0) c 1) (-1) :=
    depthLoop_cap m nb b _ hown hval hs hlev 0
  obtain ⟨-, p1, -⟩ := depthLoop_bfs m nb b _ hown hval hs (m.nNodes + 1) 0
    (upd (fun _ => 0) c 1) (-1) hlev (fun ⟨n, hn⟩ => ⟨n, by rw [hn]; rfl⟩) (by omega)
  have c0 : ((0 : Nat) : Int) + 1 = 1 := rfl
  rw [c0] at p1
  rw [hdef]
  rcases p1 x with ⟨z, hz⟩ | ⟨d, hd, hp, -⟩
  · constructor
    · intro h; exact absurd z h
    · intro h
      obtain ⟨k, hk⟩ := reach_pathLen m nb b.blockNum c x h
      exact absurd hk (hz k)
  · constructor
    · intro _; exact pathLen_reach m nb b.blockNum c d x hp
    · intro _; rw [hd]; omega

/-! ### `separateUnjoined`: the extraction loop -/

theorem sepVisit_pass (m : Mesh) (B newNum : Int) (nbU flU dU : Int → Int) (nbI : block)
    (cnt : Int) (st0 : SepSt) (pre pl : List Int) (st : SepSt) (p y : Int)
    (hne : newNum ≠ B) (hI : nbI.blockNum = newNum) (hp : p ∈ st.nb.boundNodes)
    (hy : y ∈ m.links p)
    (h : PassInv m B newNum nbU flU dU nbI cnt st0 pre pl st) :
    PassInv m B newNum nbU flU dU nbI cnt st0 pre (pl ++ [y]) (sepVisit B st y) := by
  unfold sepVisit
  by_cases hc : st.nodeBlocks y = B
  · rw [if_pos hc]
    have hyn : y ∉ st.nb.boundNodes := by
      intro hm
      have := h.inv.own y
      rw [if_pos hm, hc] at this
      exact hne this.symm
    have hyU : nbU y = B := by
      have := h.inv.own y
      rw [if_neg hyn, hc] at this
      exact this.symm
    have hnum : st.nb.blockNum = newNum := by
      have e := h.inv.rest
      have e2 := congrArg block.blockNum e
      exact e2.trans hI
    have hcy : y ≠ cnt := fun e => hyn (e ▸ h.inv.seed)
    have hmem : ∀ x, x ≠ y → (x ∈ st.nb.boundNodes ++ [y] ↔ x ∈ st.nb.boundNodes) := by
      intro x hx
      rw [List.mem_append, List.mem_singleton]
      exact ⟨fun hh => hh.resolve_right hx, Or.inl⟩
    have hmy : y ∈ st.nb.boundNodes ++ [y] :=
      List.mem_append_right _ (List.mem_singleton.2 rfl)
    refine ⟨⟨?_, ?_, ?_, ?_, ?_, ?_, ?_⟩, ?_, ?_, ?_, ?_, ?_⟩
    · intro x
      show upd st.nodeBlocks y st.nb.blockNum x =
        if x ∈ st.nb.boundNodes ++ [y] then newNum else nbU x
      rw [upd_apply]
      by_cases hx : x = y
      · rw [if_pos hx, hx, if_pos hmy, hnum]
      · rw [if_neg hx, h.inv.own x]
        by_cases hb : x ∈ st.nb.boundNodes
        · rw [if_pos hb, if_pos ((hmem x hx).2 hb)]
        · rw [if_neg hb, if_neg (fun hh => hb ((hmem x hx).1 hh))]
    · intro x
      show upd st.flags y 2 x = if x ∈ st.nb.boundNodes ++ [y] then 2 else flU x
      rw [upd_apply]
      by_cases hx : x = y
      · rw [if_pos hx, hx, if_pos hmy]
      · rw [if_neg hx, h.inv.fl x]
        by_cases hb : x ∈ st.nb.boundNodes
        · rw [if_pos hb, if_pos ((hmem x hx).2 hb)]
        · rw [if_neg hb, if_neg (fun hh => hb ((hmem x hx).1 hh))]
    · intro x
      show upd st.depths y 1 x = if x ∈ st.nb.boundNodes ++ [y] ∧ x ≠ cnt then 1 else dU x
      rw [upd_apply]
      by_cases hx : x = y
      · rw [if_pos hx, hx, if_pos ⟨hmy, hcy⟩]
      · rw [if_neg hx, h.inv.dep x]
        by_cases hb : x ∈ st.nb.boundNodes ∧ x ≠ cnt
        · rw [if_pos hb, if_pos ⟨(hmem x hx).2 hb.1, hb.2⟩]
        · rw [if_neg hb, if_neg (fun hh => hb ⟨(hmem x hx).1 hh.1, hh.2⟩)]
    · intro x hx
      have hx2 : x ∈ st.nb.boundNodes ++ [y] := hx
      rcases List.mem_append.1 hx2 with hb | hb
      · exact h.inv.src x hb
      · rw [List.mem_singleton] at hb
        rw [hb]
        exact Relation.ReflTransGen.tail (h.inv.src p hp) ⟨hy, hyU⟩
    · show (st.nb.boundNodes ++ [y]).Nodup
      rw [List.nodup_append]
      refine ⟨h.inv.nodup, List.nodup_singleton y, ?_⟩
      intro a ha hb
      rw [List.mem_singleton] at hb
      exact hyn (hb ▸ ha)
    · exact List.mem_append_left _ h.inv.seed
    · have e := h.inv.rest
      show { st.nb with boundNodes := st.nb.boundNodes ++ [y] } =
        { nbI with boundNodes := st.nb.boundNodes ++ [y] }
      rw [e]
    · intro x hx
      exact List.mem_append_left _ (h.mono x hx)
    · show 0 ≤ st.nAdded + 1
      have := h.nn; omega
    · intro hz
      have := h.nn
      have hz2 : st.nAdded + 1 = 0 := hz
      omega
    · intro _
      refine ⟨y, h.sub y hc, ?_⟩
      show upd st.nodeBlocks y st.nb.blockNum y ≠ B
      rw [upd_apply, if_pos rfl, hnum]; exact hne
    · intro z hz
      have hz2 : upd st.nodeBlocks y st.nb.blockNum z = B := hz
      rw [upd_apply] at hz2
      by_cases hx : z = y
      · rw [if_pos hx, hnum] at hz2; exact absurd hz2 hne
      · rw [if_neg hx] at hz2; exact h.sub z hz2
  · rw [if_neg hc]
    refine ⟨h.inv, h.mono, h.nn, ?_, h.pos, h.sub⟩
    intro hz
    obtain ⟨z1, z2, z3⟩ := h.zero hz
    refine ⟨z1, z2, ?_⟩
    intro w hw
    rcases List.mem_append.1 hw with hw | hw
    · exact z3 w hw
    · rw [List.mem_singleton] at hw
      rw [hw, ← z1]; exact hc

theorem sepPass_inv (m : Mesh) (B newNum : Int) (nbU flU dU : Int → Int) (nbI : block)
    (cnt : Int) (st : SepSt) (hne : newNum ≠ B) (hI : nbI.blockNum = newNum)
    (h : SepInv m B newNum nbU flU dU nbI cnt st) :
    PassInv m B newNum nbU flU dU nbI cnt { st with nAdded := 0 } st.nb.boundNodes []
      (sepPass m B st) := by
  unfold sepPass
  have h0 : PassInv m B newNum nbU flU dU nbI cnt { st with nAdded := 0 } [] []
      { st with nAdded := 0 } :=
    ⟨⟨h.own, h.fl, h.dep, h.src, h.nodup, h.seed, h.rest⟩, fun _ hx => hx, le_refl _,
      fun _ => ⟨rfl, fun p hp => absurd hp (List.not_mem_nil _),
        fun y hy => absurd hy (List.not_mem_nil _)⟩,
      fun hh => absurd rfl hh, fun _ hz => hz⟩
  have key := foldl_inv_seen
    (fun (pre : List Int) (s : SepSt) =>
      PassInv m B newNum nbU flU dU nbI cnt { st with nAdded := 0 } pre [] s)
    (fun s p => (m.links p).foldl (sepVisit B) s) st.nb.boundNodes [] { st with nAdded := 0 } h0
    (by
      intro pre s p hp hs
      have inner := foldl_inv_seen
        (fun (pl : List Int) (s2 : SepSt) =>
          PassInv m B newNum nbU flU dU nbI cnt { st with nAdded := 0 } pre pl s2)
        (sepVisit B) (m.links p) [] s hs
        (fun pl s2 y hy hs2 =>
          sepVisit_pass m B newNum nbU flU dU nbI cnt _ pre pl s2 p y hne hI
            (hs2.mono p hp) hy hs2)
      rw [List.nil_append] at inner
      refine ⟨inner.inv, inner.mono, inner.nn, ?_, inner.pos, inner.sub⟩
      intro hz
      obtain ⟨z1, z2, z3⟩ := inner.zero hz
      refine ⟨z1, ?_, fun y hy => absurd hy (List.not_mem_nil _)⟩
      intro q hq
      rcases List.mem_append.1 hq with hq | hq
      · exact z2 q hq
      · rw [List.mem_singleton] at hq
        rw [hq]; exact z3)
  rw [List.nil_append] at key
  exact key

/-- Re-owning a node of block `B` lowers the number of node ids owned by `B`. -/
theorem ownedNodes_length_lt (m : Mesh) (nb nb2 : Int → Int) (B : Int)
    (hsub : ∀ z, nb2 z = B → nb z = B)
    (hy : ∃ y, (0 ≤ y ∧ y < (m.nNodes : Int)) ∧ nb y = B ∧ nb2 y ≠ B) :
    (ownedNodes m nb2 B).length < (ownedNodes m nb B).length := by
  unfold ownedNodes
  apply filter_length_lt
  · intro x _ hx
    rw [decide_eq_true_eq] at hx ⊢
    exact hsub x hx
  · obtain ⟨y, hv, h1, h2⟩ := hy
    refine ⟨y, ?_, ?_, ?_⟩
    · rw [List.mem_map]
      exact ⟨y.toNat, List.mem_range.2 (by omega), Int.toNat_of_nonneg hv.1⟩
    · rw [decide_eq_true_eq]; exact h1
    · rw [decide_eq_false_iff_not]; exact h2

theorem sepLoop_spec (m : Mesh) (B newNum : Int) (nbU flU dU : Int → Int) (nbI : block)
    (cnt : Int) (hne : newNum ≠ B) (hI : nbI.blockNum = newNum)
    (hvU : ∀ x, nbU x = B → 0 ≤ x ∧ x < (m.nNodes : Int)) :
    ∀ (f : Nat) (st : SepSt), SepInv m B newNum nbU flU dU nbI cnt st →
      (ownedNodes m st.nodeBlocks B).length < f →
      ∃ g, (∀ k, sepLoop m B (f + k) st = some g) ∧
        SepInv m B newNum nbU flU dU nbI cnt g ∧
        ∀ p ∈ g.nb.boundNodes, ∀ y ∈ m.links p, g.nodeBlocks y ≠ B := by
  intro f
  induction f with
  | zero => intro st _ h; omega
  | succ f ih =>
    intro st hst hf
    have hp := sepPass_inv m B newNum nbU flU dU nbI cnt st hne hI hst
    have hk : ∀ k, f + 1 + k = (f + k) + 1 := by intro k; omega
    by_cases hz : (sepPass m B st).nAdded = 0
    · refine ⟨sepPass m B st, ?_, hp.inv, ?_⟩
      · intro k
        rw [hk]
        show (if (sepPass m B st).nAdded = 0 then some (sepPass m B st) else _) = _
        rw [if_pos hz]
      · obtain ⟨z1, z2, -⟩ := hp.zero hz
        rw [z1]
        exact z2
    · have hlt : (ownedNodes m (sepPass m B st).nodeBlocks B).length <
          (ownedNodes m st.nodeBlocks B).length := by
        apply ownedNodes_length_lt m _ _ B hp.sub
        obtain ⟨y, hy1, hy2⟩ := hp.pos hz
        refine ⟨y, ?_, hy1, hy2⟩
        apply hvU
        have := hst.own y
        have hy1b : st.nodeBlocks y = B := hy1
        by_cases hb : y ∈ st.nb.boundNodes
        · rw [if_pos hb, hy1b] at this; exact absurd this.symm hne
        · rw [if_neg hb, hy1b] at this; exact this.symm
      obtain ⟨g, g1, g2, g3⟩ := ih (sepPass m B st) hp.inv (by omega)
      refine ⟨g, ?_, g2, g3⟩
      intro k
      rw [hk]
      show (if (sepPass m B st).nAdded = 0 then _ else sepLoop m B (f + k) (sepPass m B st)) = _
      rw [if_neg hz]
      exact g1 k

/-! ### `separateUnjoined`: attaching the new block -/

theorem sepLinkStep_same (self : Nat) (s1 : State) (nb1 : block) (acc : State × block)
    (p : Int)
    (h : SameLists s1 acc.1 ∧ acc.1.flags = s1.flags ∧ acc.2.intNodes = nb1.intNodes ∧
      acc.2.boundNodes = nb1.boundNodes ∧ acc.2.blockNum = nb1.blockNum) :
    SameLists s1 (sepLinkStep self acc p).1 ∧ (sepLinkStep self acc p).1.flags = s1.flags ∧
      (sepLinkStep self acc p).2.intNodes = nb1.intNodes ∧
      (sepLinkStep self acc p).2.boundNodes = nb1.boundNodes ∧
      (sepLinkStep self acc p).2.blockNum = nb1.blockNum := by
  have step1 : ∀ (a : State × block),
      (SameLists s1 a.1 ∧ a.1.flags = s1.flags ∧ a.2.intNodes = nb1.intNodes ∧
        a.2.boundNodes = nb1.boundNodes ∧ a.2.blockNum = nb1.blockNum) →
      ∀ (i : Int) (f g : block → block) (b2 : block),
        (∀ b, (f b).intNodes = b.intNodes ∧ (f b).boundNodes = b.boundNodes ∧
          (f b).blockNum = b.blockNum) →
        (∀ b, (g b).intNodes = b.intNodes ∧ (g b).boundNodes = b.boundNodes ∧
          (g b).blockNum = b.blockNum) →
        (b2.intNodes = a.2.intNodes ∧ b2.boundNodes = a.2.boundNodes ∧
          b2.blockNum = a.2.blockNum) →
        SameLists s1 ((a.1.modB i f).modAt self g) ∧
          ((a.1.modB i f).modAt self g).flags = s1.flags ∧ b2.intNodes = nb1.intNodes ∧
          b2.boundNodes = nb1.boundNodes ∧ b2.blockNum = nb1.blockNum := by
    intro a ha i f g b2 hf hg hb
    refine ⟨sameLists_step_modAt _ _ _ _ hg (sameLists_step_modB _ _ _ _ hf ha.1), ?_,
      hb.1.trans ha.2.2.1, hb.2.1.trans ha.2.2.2.1, hb.2.2.trans ha.2.2.2.2⟩
    rw [modAt_flags, modB_flags]; exact ha.2.1
  unfold sepLinkStep
  simp only
  by_cases c1 : p = (acc.1.blockAt self).prevBlock
  · rw [if_pos c1]
    have h1 := step1 acc h (acc.1.blockAt self).prevBlock
      (fun b => { b with nextBlock := acc.2.blockNum }) (fun b => { b with prevBlock := -1 })
      { acc.2 with prevBlock := p } (fun _ => ⟨rfl, rfl, rfl⟩) (fun _ => ⟨rfl, rfl, rfl⟩)
      ⟨rfl, rfl, rfl⟩
    split
    · exact step1 _ h1 _ _ _ _ (fun _ => ⟨rfl, rfl, rfl⟩) (fun _ => ⟨rfl, rfl, rfl⟩)
        ⟨rfl, rfl, rfl⟩
    · exact h1
  · rw [if_neg c1]
    split
    · exact step1 _ h _ _ _ _ (fun _ => ⟨rfl, rfl, rfl⟩) (fun _ => ⟨rfl, rfl, rfl⟩)
        ⟨rfl, rfl, rfl⟩
    · exact h

theorem sepLink_same (self : Nat) (s1 : State) (nb1 : block) (l : List Int) :
    SameLists s1 (l.foldl (sepLinkStep self) (s1, nb1)).1 ∧
      (l.foldl (sepLinkStep self) (s1, nb1)).1.flags = s1.flags ∧
      (l.foldl (sepLinkStep self) (s1, nb1)).2.intNodes = nb1.intNodes ∧
      (l.foldl (sepLinkStep self) (s1, nb1)).2.boundNodes = nb1.boundNodes ∧
      (l.foldl (sepLinkStep self) (s1, nb1)).2.blockNum = nb1.blockNum := by
  apply foldl_inv
    (fun (acc : State × block) => SameLists s1 acc.1 ∧ acc.1.flags = s1.flags ∧
      acc.2.intNodes = nb1.intNodes ∧ acc.2.boundNodes = nb1.boundNodes ∧
      acc.2.blockNum = nb1.blockNum)
  · exact ⟨sameLists_refl s1, rfl, rfl, rfl, rfl⟩
  · intro acc p _ h
    exact sepLinkStep_same self s1 nb1 acc p h

/-! ### `separateUnjoined`: the loop over the boundary list -/

theorem unjoinInv_extract (m : Mesh) (s : State) (self : Nat) (c cnt : Int) (rest : List Int)
    (u : UnjoinSt) (t : State) (d : Int → Int) (bound : List Int)
    (hadj : AdjValid m) (hsym : MeshSymm m) (hself : self < s.blocks.length)
    (hnum : (s.blockAt self).blockNum = (self : Int))
    (hown : ∀ x, s.nodeBlocks x = (s.blockAt self).blockNum → 0 ≤ x ∧ x < (m.nNodes : Int))
    (hlt : ∀ x, s.nodeBlocks x < (s.blocks.length : Int))
    (hnr : cnt ∉ rest)
    (h : UnjoinInv m s self c (cnt :: rest) u)
    (hUc : u.s.nodeBlocks cnt = (s.blockAt self).blockNum)
    (hnotR : ¬ Reach m s.nodeBlocks (s.blockAt self).blockNum c cnt)
    (hE : ∀ x, x ∈ bound ↔ Reach m s.nodeBlocks (s.blockAt self).blockNum cnt x)
    (hnd : bound.Nodup)
    (hown2 : ∀ x, t.nodeBlocks x =
      if x ∈ bound then (u.s.blocks.length : Int) else u.s.nodeBlocks x)
    (hfl2 : ∀ x, t.flags x =
      if x ∈ bound ∧ staysBoundary m t.nodeBlocks (u.s.blocks.length : Int) x = false then 1
      else if x ∈ bound then 2 else u.s.flags x)
    (hd2 : ∀ x, d x = if x ∈ bound ∧ x ≠ cnt then 1 else u.depths x)
    (hlen2 : t.blocks.length = u.s.blocks.length + 1)
    (hold : ∀ j, j < u.s.blocks.length →
      (t.blockAt j).intNodes = (u.s.blockAt j).intNodes ∧
      (t.blockAt j).boundNodes = (u.s.blockAt j).boundNodes ∧
      (t.blockAt j).blockNum = (u.s.blockAt j).blockNum)
    (hnew : (t.blockAt u.s.blocks.length).blockNum = (u.s.blocks.length : Int) ∧
      (t.blockAt u.s.blocks.length).intNodes =
        bound.filter (fun p => !staysBoundary m t.nodeBlocks (u.s.blocks.length : Int) p) ∧
      (t.blockAt u.s.blocks.length).boundNodes =
        bound.filter (fun p => staysBoundary m t.nodeBlocks (u.s.blocks.length : Int) p)) :
    UnjoinInv m s self c rest { s := t, depths := d, changed := true } := by
  have hlen := h.len
  have hsubU : ∀ x, u.s.nodeBlocks x = (s.blockAt self).blockNum →
      s.nodeBlocks x = (s.blockAt self).blockNum := by
    intro x hx
    by_contra hne
    rw [h.other x hne] at hx
    exact hne hx
  have hB0c := hsubU cnt hUc
  have hbB : ∀ x ∈ bound, s.nodeBlocks x = (s.blockAt self).blockNum :=
    fun x hx => reach_owner m _ _ cnt x ((hE x).1 hx) hB0c
  have hbU : ∀ x ∈ bound, u.s.nodeBlocks x = (s.blockAt self).blockNum := by
    intro x hx
    rw [h.comp cnt x hB0c ((hE x).1 hx)]
    exact hUc
  have hneB : (u.s.blocks.length : Int) ≠ (s.blockAt self).blockNum := by
    rw [hnum]; omega
  have hcnb : cnt ∈ bound := (hE cnt).2 Relation.ReflTransGen.refl
  have hnoNew : ∀ x, u.s.nodeBlocks x ≠ (u.s.blocks.length : Int) := by
    intro x
    by_cases hx : s.nodeBlocks x = (s.blockAt self).blockNum
    · rcases h.range x hx with e | ⟨-, e⟩
      · rw [e]; exact fun hh => hneB hh.symm
      · omega
    · rw [h.other x hx]
      have := hlt x
      omega
  have hin : ∀ x, x ∈ bound → t.nodeBlocks x = (u.s.blocks.length : Int) := by
    intro x hx
    rw [hown2 x, if_pos hx]
  have hout : ∀ x, x ∉ bound → t.nodeBlocks x = u.s.nodeBlocks x := by
    intro x hx
    rw [hown2 x, if_neg hx]
  have hnotB : ∀ x, u.s.nodeBlocks x ≠ (s.blockAt self).blockNum → x ∉ bound :=
    fun x hx hb => hx (hbU x hb)
  refine ⟨?_, ?_, ?_, ?_, ?_, ?_, ?_, ?_, ?_, ?_, ?_, ?_⟩
  · show s.blocks.length ≤ t.blocks.length
    omega
  · intro x hx
    show t.nodeBlocks x = _
    rw [hout x (fun hb => hx (hbB x hb))]
    exact h.other x hx
  · intro x hx
    show t.nodeBlocks x = _ ∨ (_ ≤ t.nodeBlocks x ∧ t.nodeBlocks x < (t.blocks.length : Int))
    by_cases hb : x ∈ bound
    · right
      rw [hin x hb, hlen2]
      push_cast
      omega
    · rw [hout x hb, hlen2]
      rcases h.range x hx with e | ⟨e1, e2⟩
      · exact Or.inl e
      · right
        push_cast
        omega
  · intro x y hx hr
    show t.nodeBlocks y = t.nodeBlocks x
    by_cases hb : x ∈ bound
    · have hyb : y ∈ bound := (hE y).2 (Relation.ReflTransGen.trans ((hE x).1 hb) hr)
      rw [hin x hb, hin y hyb]
    · have hyb : y ∉ bound := by
        intro hyb
        have h1 := (hE y).1 hyb
        have h2 := reach_symm m _ _ hsym hown x y hx hr
        exact hb ((hE x).2 (Relation.ReflTransGen.trans h1 h2))
      rw [hout x hb, hout y hyb]
      exact h.comp x y hx hr
  · intro x y hx hy heq hne
    have heq2 : t.nodeBlocks x = t.nodeBlocks y := heq
    have hne2 : t.nodeBlocks x ≠ _ := hne
    by_cases hb : x ∈ bound
    · have hyb : y ∈ bound := by
        by_contra hyb
        rw [hin x hb, hout y hyb] at heq2
        exact hnoNew y heq2.symm
      have h1 := reach_symm m _ _ hsym hown cnt x hB0c ((hE x).1 hb)
      exact Relation.ReflTransGen.trans h1 ((hE y).1 hyb)
    · have hyb : y ∉ bound := by
        intro hyb
        rw [hout x hb, hin y hyb] at heq2
        exact hnoNew x heq2
      rw [hout x hb] at hne2
      rw [hout x hb, hout y hyb] at heq2
      exact h.sep x y hx hy heq2 hne2
  · intro x hx
    have hx2 : t.nodeBlocks x = _ := hx
    have hb : x ∉ bound := by
      intro hb
      rw [hin x hb] at hx2
      exact hneB hx2
    rw [hout x hb] at hx2
    show d x ≠ 0 ↔ _
    rw [hd2 x, if_neg (fun hh => hb hh.1)]
    exact h.kept x hx2
  · intro x hx hne
    have hne2 : t.nodeBlocks x ≠ _ := hne
    show d x ≠ 0
    rw [hd2 x]
    by_cases hb : x ∈ bound
    · rw [if_pos ⟨hb, fun e => hnr (e ▸ hx)⟩]
      omega
    · rw [if_neg (fun hh => hb hh.1)]
      rw [hout x hb] at hne2
      exact h.todo x (List.mem_cons_of_mem _ hx) hne2
  · intro y hy hyr
    show t.nodeBlocks y ≠ _ ∨ _
    by_cases e : y = cnt
    · left
      rw [e, hin cnt hcnb]
      exact hneB
    · rcases h.seen y hy (fun hh => (List.mem_cons.1 hh).elim e hyr) with h1 | h1
      · left
        rw [hout y (hnotB y h1)]
        exact h1
      · exact Or.inr h1
  · show t.nodeBlocks c = _
    have hb : c ∉ bound := by
      intro hb
      exact hnotR (reach_symm m _ _ hsym hown cnt c hB0c ((hE c).1 hb))
    rw [hout c hb]
    exact h.front
  · intro hh
    have hh2 : true = false := hh
    cases hh2
  · show (t.blockAt self).blockNum = _
    rw [(hold self (by omega)).2.2]
    exact h.selfNum
  · intro j hj1 hj2
    have hj3 : j < u.s.blocks.length + 1 := by
      have : j < t.blocks.length := hj2
      omega
    show BlockOk m t j ∧ (t.blockAt j).nodes ≠ []
    by_cases hj : j < u.s.blocks.length
    · obtain ⟨ok, ne⟩ := h.newOk j hj1 hj
      have hnodes : (t.blockAt j).nodes = (u.s.blockAt j).nodes := by
        unfold block.nodes
        rw [(hold j hj).1, (hold j hj).2.1]
      have hjB : ((j : Nat) : Int) ≠ (s.blockAt self).blockNum := by
        rw [hnum]; omega
      have hjout : ∀ x, u.s.nodeBlocks x = (j : Int) → x ∉ bound := by
        intro x hx
        apply hnotB
        rw [hx]; exact hjB
      refine ⟨⟨?_, ?_, ?_, ?_, ?_, ?_⟩, ?_⟩
      · rw [(hold j hj).2.2]; exact ok.num
      · intro x
        rw [hnodes, ← ok.owns x]
        by_cases hb : x ∈ bound
        · rw [hin x hb, hbU x hb]
          constructor
          · intro e; omega
          · intro e; exact absurd e.symm hjB
        · rw [hout x hb]
      · rw [hnodes]; exact ok.nodup
      · intro x hx
        rw [hnodes] at hx
        have hb := hjout x ((ok.owns x).2 hx)
        rw [hfl2 x, if_neg (fun hh => hb hh.1), if_neg hb]
        exact ok.flags x hx
      · intro n hn y hy
        rw [(hold j hj).1] at hn
        have := ok.inter n hn y hy
        rw [hout y (hjout y this)]
        exact this
      · intro n hn
        rw [(hold j hj).2.1] at hn
        obtain ⟨y, hy, hyne⟩ := ok.bound n hn
        refine ⟨y, hy, ?_⟩
        by_cases hb : y ∈ bound
        · rw [hin y hb]; omega
        · rw [hout y hb]; exact hyne
      · rw [hnodes]; exact ne
    · have hje : j = u.s.blocks.length := by omega
      subst hje
      have hmemn : ∀ x, x ∈ (t.blockAt u.s.blocks.length).nodes ↔ x ∈ bound := by
        intro x
        unfold block.nodes
        rw [hnew.2.1, hnew.2.2, List.mem_append, List.mem_filter, List.mem_filter]
        cases staysBoundary m t.nodeBlocks (u.s.blocks.length : Int) x <;> simp
      refine ⟨⟨hnew.1, ?_, ?_, ?_, ?_, ?_⟩, ?_⟩
      · intro x
        rw [hmemn]
        constructor
        · intro e
          by_contra hb
          rw [hout x hb] at e
          exact hnoNew x e
        · exact hin x
      · have hp := tidy_nodes_perm [] bound
          (fun p => staysBoundary m t.nodeBlocks (u.s.blocks.length : Int) p)
        rw [List.nil_append, List.nil_append] at hp
        unfold block.nodes
        rw [hnew.2.1, hnew.2.2]
        exact hp.nodup_iff.2 hnd
      · intro x hx
        have hb := (hmemn x).1 hx
        rw [hfl2 x]
        by_cases hs : x ∈ bound ∧
            staysBoundary m t.nodeBlocks (u.s.blocks.length : Int) x = false
        · rw [if_pos hs]; omega
        · rw [if_neg hs, if_pos hb]; omega
      · intro n hn y hy
        rw [hnew.2.1, List.mem_filter] at hn
        have hv := hown n (hbB n hn.1)
        have hl : ∀ z ∈ m.links n, 0 ≤ z := fun z hz => (adjValid_links m hadj n hv z hz).1
        have hs : staysBoundary m t.nodeBlocks (u.s.blocks.length : Int) n = false := by
          have := hn.2
          simpa using this
        exact staysBoundary_false_valid m _ _ n hl hs y hy
      · intro n hn
        rw [hnew.2.2, List.mem_filter] at hn
        exact staysBoundary_true m _ _ n hn.2
      · intro e
        have := (hmemn cnt).2 hcnb
        rw [e] at this
        exact absurd this (List.not_mem_nil _)

theorem ownedNodes_length_le (m : Mesh) (nb : Int → Int) (B : Int) :
    (ownedNodes m nb B).length ≤ m.nNodes := by
  unfold ownedNodes
  refine le_trans (List.length_filter_le _ _) ?_
  rw [List.length_map, List.length_range]

theorem unjoinStep_eq (m : Mesh) (init : block) (fuel : Nat) (self : Nat) (B : Int)
    (u : UnjoinSt) (cnt : Int) (g : SepSt) (fl : Int → Int) (nbt : block)
    (hd : u.depths cnt = 0)
    (hg : sepLoop m B fuel
        { nodeBlocks := upd u.s.nodeBlocks cnt (u.s.blocks.length : Int),
          flags := upd u.s.flags cnt 2, depths := u.depths,
          nb := { init with blockNum := (u.s.blocks.length : Int), intNodes := [],
                            boundNodes := [cnt] },
          nAdded := 0 } = some g)
    (ht : tidyBoundaries m g.nodeBlocks g.flags g.nb = .ok (fl, nbt)) :
    unjoinStep m init fuel self B u cnt =
      .ok { s := { ((getLinks m g.nodeBlocks { nbt with prevBlock := -1, nextBlock := -1 }).foldl
            (sepLinkStep self)
            ({ flags := fl, nodeBlocks := g.nodeBlocks, blocks := u.s.blocks },
              { nbt with prevBlock := -1, nextBlock := -1 })).1 with
                   blocks := ((getLinks m g.nodeBlocks { nbt with prevBlock := -1, nextBlock := -1 }).foldl
            (sepLinkStep self)
            ({ flags := fl, nodeBlocks := g.nodeBlocks, blocks := u.s.blocks },
              { nbt with prevBlock := -1, nextBlock := -1 })).1.blocks ++
            [((getLinks m g.nodeBlocks { nbt with prevBlock := -1, nextBlock := -1 }).foldl
            (sepLinkStep self)
            ({ flags := fl, nodeBlocks := g.nodeBlocks, blocks := u.s.blocks },
              { nbt with prevBlock := -1, nextBlock := -1 })).2] },
            depths := g.depths, changed := true } := by
  unfold unjoinStep
  rw [if_pos hd]
  simp only [hg, ht]

theorem unjoinStep_inv (m : Mesh) (init : block) (s : State) (self : Nat)
    (c cnt : Int) (rest : List Int) (u : UnjoinSt)
    (hadj : AdjValid m) (hsym : MeshSymm m)
    (hself : self < s.blocks.length)
    (hnum : (s.blockAt self).blockNum = (self : Int))
    (hown : ∀ x, s.nodeBlocks x = (s.blockAt self).blockNum → 0 ≤ x ∧ x < (m.nNodes : Int))
    (hlt : ∀ x, s.nodeBlocks x < (s.blocks.length : Int))
    (hnr : cnt ∉ rest)
    (h : UnjoinInv m s self c (cnt :: rest) u) :
    ∃ u2, (∀ fuel, m.nNodes < fuel →
        unjoinStep m init fuel self (s.blockAt self).blockNum u cnt = .ok u2) ∧
      UnjoinInv m s self c rest u2 := by
  by_cases hd : u.depths cnt = 0
  swap
  · refine ⟨u, ?_, ?_⟩
    · intro fuel _
      unfold unjoinStep; rw [if_neg hd]
    · refine ⟨h.len, h.other, h.range, h.comp, h.sep, h.kept,
        fun x hx => h.todo x (List.mem_cons_of_mem _ hx), ?_, h.front, h.same, h.selfNum,
        h.newOk⟩
      intro y hy hyr
      by_cases e : y = cnt
      · by_cases hb : u.s.nodeBlocks y = (s.blockAt self).blockNum
        · right
          rw [e] at hb ⊢
          exact (h.kept cnt hb).1 hd
        · exact Or.inl hb
      · exact h.seen y hy (fun hh => (List.mem_cons.1 hh).elim e hyr)
  · have hlen := h.len
    have hUc : u.s.nodeBlocks cnt = (s.blockAt self).blockNum := by
      by_contra hne
      exact h.todo cnt (List.mem_cons_self _ _) hne hd
    have hnotR : ¬ Reach m s.nodeBlocks (s.blockAt self).blockNum c cnt :=
      fun hr => (h.kept cnt hUc).2 hr hd
    have hsubU : ∀ x, u.s.nodeBlocks x = (s.blockAt self).blockNum →
        s.nodeBlocks x = (s.blockAt self).blockNum := by
      intro x hx
      by_contra hne
      rw [h.other x hne] at hx
      exact hne hx
    have hB0c := hsubU cnt hUc
    have hneB : (u.s.blocks.length : Int) ≠ (s.blockAt self).blockNum := by
      rw [hnum]; omega
    have hvU : ∀ x, u.s.nodeBlocks x = (s.blockAt self).blockNum →
        0 ≤ x ∧ x < (m.nNodes : Int) := fun x hx => hown x (hsubU x hx)
    have hst0 : SepInv m (s.blockAt self).blockNum (u.s.blocks.length : Int) u.s.nodeBlocks
        u.s.flags u.depths
        { init with blockNum := (u.s.blocks.length : Int), intNodes := [], boundNodes := [cnt] }
        cnt
        { nodeBlocks := upd u.s.nodeBlocks cnt (u.s.blocks.length : Int),
          flags := upd u.s.flags cnt 2, depths := u.depths,
          nb := { init with blockNum := (u.s.blocks.length : Int), intNodes := [],
                            boundNodes := [cnt] },
          nAdded := 0 } := by
      refine ⟨?_, ?_, ?_, ?_, ?_, ?_, rfl⟩
      · intro x
        show upd u.s.nodeBlocks cnt _ x = if x ∈ [cnt] then _ else _
        rw [upd_apply]
        by_cases e : x = cnt
        · rw [if_pos e, if_pos (List.mem_singleton.2 e)]
        · rw [if_neg e, if_neg (fun hh => e (List.mem_singleton.1 hh))]
      · intro x
        show upd u.s.flags cnt 2 x = if x ∈ [cnt] then _ else _
        rw [upd_apply]
        by_cases e : x = cnt
        · rw [if_pos e, if_pos (List.mem_singleton.2 e)]
        · rw [if_neg e, if_neg (fun hh => e (List.mem_singleton.1 hh))]
      · intro x
        show u.depths x = if x ∈ [cnt] ∧ x ≠ cnt then _ else _
        rw [if_neg (fun hh => hh.2 (List.mem_singleton.1 hh.1))]
      · intro x hx
        have hx2 : x ∈ [cnt] := hx
        rw [List.mem_singleton.1 hx2]
        exact Relation.ReflTransGen.refl
      · exact List.nodup_singleton cnt
      · exact List.mem_singleton.2 rfl
    obtain ⟨g, hg, hgi, hgc⟩ := sepLoop_spec m (s.blockAt self).blockNum
      (u.s.blocks.length : Int) u.s.nodeBlocks u.s.flags u.depths _ cnt hneB rfl hvU
      (m.nNodes + 1) _ hst0
      (Nat.lt_succ_of_le (ownedNodes_length_le m _ _))
    have hg2 : ∀ fuel, m.nNodes < fuel → sepLoop m (s.blockAt self).blockNum fuel
        { nodeBlocks := upd u.s.nodeBlocks cnt (u.s.blocks.length : Int),
          flags := upd u.s.flags cnt 2, depths := u.depths,
          nb := { init with blockNum := (u.s.blocks.length : Int), intNodes := [],
                            boundNodes := [cnt] },
          nAdded := 0 } = some g := by
      intro fuel hfuel
      have := hg (fuel - (m.nNodes + 1))
      rw [show m.nNodes + 1 + (fuel - (m.nNodes + 1)) = fuel by omega] at this
      exact this
    have hE : ∀ x, x ∈ g.nb.boundNodes ↔
        Reach m s.nodeBlocks (s.blockAt self).blockNum cnt x := by
      intro x
      constructor
      · intro hx
        exact reach_mono m _ _ _ hsubU cnt x (hgi.src x hx)
      · intro hr
        induction hr with
        | refl => exact hgi.seed
        | tail hxy hstep ih =>
          rename_i y z
          by_contra hz
          have h1 := hgc y ih z hstep.1
          have h2 := hgi.own z
          rw [if_neg hz] at h2
          rw [h2] at h1
          have h3 := h.comp cnt z hB0c (Relation.ReflTransGen.tail hxy hstep)
          rw [hUc] at h3
          exact h1 h3
    have hnbn : g.nb.blockNum = (u.s.blocks.length : Int) := congrArg block.blockNum hgi.rest
    have hnbi : g.nb.intNodes = [] := congrArg block.intNodes hgi.rest
    have hvb : ∀ p ∈ g.nb.boundNodes, 0 ≤ p ∧ p < (m.nNodes : Int) :=
      fun p hp => hown p (reach_owner m _ _ cnt p ((hE p).1 hp) hB0c)
    obtain ⟨fl, nbt, ht⟩ := tidyBoundaries_total m g.nodeBlocks g.flags g.nb
      (fun p hp y hy => (adjValid_links m hadj p (hvb p hp) y hy).1)
    have hnbt := tidyBoundaries_ok m g.nodeBlocks g.flags g.nb fl nbt ht
    have hflags := tidyBoundaries_flags m g.nodeBlocks g.flags g.nb fl nbt ht
    rw [hnbn] at hflags
    rw [hnbn, hnbi, List.nil_append] at hnbt
    have hr := sepLink_same self
      { flags := fl, nodeBlocks := g.nodeBlocks, blocks := u.s.blocks }
      { nbt with prevBlock := -1, nextBlock := -1 }
      (getLinks m g.nodeBlocks { nbt with prevBlock := -1, nextBlock := -1 })
    refine ⟨_, fun fuel hfuel =>
      unjoinStep_eq m init fuel self _ u cnt g fl nbt hd (hg2 fuel hfuel) ht, ?_⟩
    · obtain ⟨r1, r2, r3, r4, r5⟩ := hr
      obtain ⟨q1, q2, q3⟩ := r1
      have q2f : ∀ x, _ = g.nodeBlocks x := fun x => congrFun q2 x
      apply unjoinInv_extract m s self c cnt rest u _ _ g.nb.boundNodes hadj hsym hself hnum
        hown hlt hnr h hUc hnotR hE hgi.nodup
      · intro x
        exact (q2f x).trans (hgi.own x)
      · intro x
        show _ = if x ∈ g.nb.boundNodes ∧ staysBoundary m _ _ x = false then _ else _
        have e1 := congrFun r2 x
        have e3 : fl x = _ := hflags x
        rw [hgi.fl x] at e3
        have e4 : staysBoundary m _ (u.s.blocks.length : Int) x =
            staysBoundary m g.nodeBlocks (u.s.blocks.length : Int) x :=
          congrArg (fun nb => staysBoundary m nb (u.s.blocks.length : Int) x) q2
        rw [e4]
        exact e1.trans e3
      · exact hgi.dep
      · show (_ ++ [_]).length = _
        rw [List.length_append, List.length_singleton, q1]
      · intro j hj
        have e := blockAt_push
          ((getLinks m g.nodeBlocks { nbt with prevBlock := -1, nextBlock := -1 }).foldl
            (sepLinkStep self)
            ({ flags := fl, nodeBlocks := g.nodeBlocks, blocks := u.s.blocks },
              { nbt with prevBlock := -1, nextBlock := -1 })).1
          ((getLinks m g.nodeBlocks { nbt with prevBlock := -1, nextBlock := -1 }).foldl
            (sepLinkStep self)
            ({ flags := fl, nodeBlocks := g.nodeBlocks, blocks := u.s.blocks },
              { nbt with prevBlock := -1, nextBlock := -1 })).2 j
        rw [if_pos (hj.trans_eq q1.symm)] at e
        have e2 := q3 j
        exact ⟨(congrArg block.intNodes e).trans e2.1,
          (congrArg block.boundNodes e).trans e2.2.1,
          (congrArg block.blockNum e).trans e2.2.2⟩
      · have e := blockAt_push
          ((getLinks m g.nodeBlocks { nbt with prevBlock := -1, nextBlock := -1 }).foldl
            (sepLinkStep self)
            ({ flags := fl, nodeBlocks := g.nodeBlocks, blocks := u.s.blocks },
              { nbt with prevBlock := -1, nextBlock := -1 })).1
          ((getLinks m g.nodeBlocks { nbt with prevBlock := -1, nextBlock := -1 }).foldl
            (sepLinkStep self)
            ({ flags := fl, nodeBlocks := g.nodeBlocks, blocks := u.s.blocks },
              { nbt with prevBlock := -1, nextBlock := -1 })).2 u.s.blocks.length
        rw [if_neg (fun hh => lt_irrefl _ (hh.trans_eq q1)), if_pos q1.symm] at e
        have hn1 : nbt.blockNum = (u.s.blocks.length : Int) := by rw [hnbt]
        have hn2 : nbt.intNodes = List.filter
            (fun p => !staysBoundary m g.nodeBlocks (u.s.blocks.length : Int) p)
            g.nb.boundNodes := by rw [hnbt]
        have hn3 : nbt.boundNodes = List.filter
            (fun p => staysBoundary m g.nodeBlocks (u.s.blocks.length : Int) p)
            g.nb.boundNodes := by rw [hnbt]
        exact ⟨(congrArg block.blockNum e).trans (r5.trans hn1),
          (congrArg block.intNodes e).trans (r3.trans (hn2.trans
            (congrArg (fun nb => List.filter
              (fun p => !staysBoundary m nb (u.s.blocks.length : Int) p) g.nb.boundNodes)
              q2.symm))),
          (congrArg block.boundNodes e).trans (r4.trans (hn3.trans
            (congrArg (fun nb => List.filter
              (fun p => staysBoundary m nb (u.s.blocks.length : Int) p) g.nb.boundNodes)
              q2.symm)))⟩

theorem unjoinLoop_inv (m : Mesh) (init : block) (s : State) (self : Nat) (c : Int)
    (hadj : AdjValid m) (hsym : MeshSymm m) (hself : self < s.blocks.length)
    (hnum : (s.blockAt self).blockNum = (self : Int))
    (hown : ∀ x, s.nodeBlocks x = (s.blockAt self).blockNum → 0 ≤ x ∧ x < (m.nNodes : Int))
    (hlt : ∀ x, s.nodeBlocks x < (s.blocks.length : Int)) :
    ∀ (l : List Int) (u : UnjoinSt), l.Nodup → UnjoinInv m s self c l u →
      ∃ u2, (∀ fuel, m.nNodes < fuel →
          unjoinLoop m init fuel self (s.blockAt self).blockNum l u = .ok u2) ∧
        UnjoinInv m s self c [] u2 := by
  intro l
  induction l with
  | nil => intro u _ h; exact ⟨u, fun _ _ => rfl, h⟩
  | cons cnt rest ih =>
    intro u hnd h
    rw [List.nodup_cons] at hnd
    obtain ⟨u1, h1, hi1⟩ := unjoinStep_inv m init s self c cnt rest u hadj hsym hself hnum
      hown hlt hnd.1 h
    obtain ⟨u2, h2, hi2⟩ := ih u1 hnd.2 hi1
    refine ⟨u2, ?_, hi2⟩
    intro fuel hf
    show (match unjoinStep m init fuel self (s.blockAt self).blockNum u cnt with
      | .error e => Except.error e
      | .ok u1 => unjoinLoop m init fuel self (s.blockAt self).blockNum rest u1) = _
    rw [h1 fuel hf]
    exact h2 fuel hf

theorem unjoinLoop_noop (m : Mesh) (init : block) (fuel : Nat) (self : Nat) (B : Int)
    (s : State) (d : Int → Int) :
    ∀ (l : List Int), (∀ x ∈ l, d x ≠ 0) →
      unjoinLoop m init fuel self B l { s := s, depths := d, changed := false } =
        .ok { s := s, depths := d, changed := false } := by
  intro l
  induction l with
  | nil => intro _; rfl
  | cons cnt rest ih =>
    intro h
    have h1 : unjoinStep m init fuel self B { s := s, depths := d, changed := false } cnt =
        .ok { s := s, depths := d, changed := false } := by
      unfold unjoinStep
      rw [if_neg (h cnt (List.mem_cons_self _ _))]
    show (match unjoinStep m init fuel self B { s := s, depths := d, changed := false } cnt with
      | .error e => Except.error e
      | .ok u1 => unjoinLoop m init fuel self B rest u1) = _
    rw [h1]
    exact ih (fun x hx => h x (List.mem_cons_of_mem _ hx))

/-- After `redoLists` on the block at position `j`, numbered `j`, the block satisfies
`BlockOk`, and the flags of nodes not owned by it are unchanged. -/
theorem redoLists_blockOk (m : Mesh) (nb fl : Int → Int) (bs : List block) (j : Nat)
    (fl2 : Int → Int) (b2 : block) (hadj : AdjValid m) (hj : j < bs.length)
    (hnum : (bs.getD j noBlock).blockNum = (j : Int))
    (hval : ∀ x, nb x = (j : Int) → 0 ≤ x ∧ x < (m.nNodes : Int))
    (h : redoLists m nb fl (bs.getD j noBlock) = .ok (fl2, b2)) :
    BlockOk m { flags := fl2, nodeBlocks := nb, blocks := bs.set j b2 } j ∧
    ∀ x, nb x ≠ (j : Int) → fl2 x = fl x := by
  have hb := redoLists_ok m nb fl _ fl2 b2 h
  rw [hnum] at hb
  have hfl : ∀ n, fl2 n = if n ∈ ownedNodes m nb (j : Int) ∧
      staysBoundary m nb (j : Int) n = false then 1
      else updAll fl (ownedNodes m nb (j : Int)) 2 n := by
    intro n
    have := tidyBoundaries_flags m nb (updAll fl (ownedNodes m nb (bs.getD j noBlock).blockNum) 2)
      { bs.getD j noBlock with
        boundNodes := ownedNodes m nb (bs.getD j noBlock).blockNum, intNodes := [] } fl2 b2 h n
    rw [hnum] at this
    exact this
  have hat : State.blockAt { flags := fl2, nodeBlocks := nb, blocks := bs.set j b2 } j = b2 :=
    blockAt_set_self fl2 nb bs j b2 hj
  have hi : b2.intNodes = (ownedNodes m nb (j : Int)).filter
      (fun p => !staysBoundary m nb (j : Int) p) := by rw [hb]
  have hbd : b2.boundNodes = (ownedNodes m nb (j : Int)).filter
      (fun p => staysBoundary m nb (j : Int) p) := by rw [hb]
  have hn : b2.blockNum = (j : Int) := by rw [hb]
  have hmem : ∀ x, x ∈ b2.nodes ↔ x ∈ ownedNodes m nb (j : Int) := by
    intro x
    unfold block.nodes
    rw [hi, hbd, List.mem_append, List.mem_filter, List.mem_filter]
    cases staysBoundary m nb (j : Int) x <;> simp
  refine ⟨⟨?_, ?_, ?_, ?_, ?_, ?_⟩, ?_⟩
  · rw [hat]; exact hn
  · intro x
    rw [hat, hmem, mem_ownedNodes]
    exact ⟨fun e => ⟨hval x e, e⟩, fun e => e.2⟩
  · rw [hat]
    have hp := tidy_nodes_perm [] (ownedNodes m nb (j : Int))
      (fun p => staysBoundary m nb (j : Int) p)
    rw [List.nil_append, List.nil_append] at hp
    unfold block.nodes
    rw [hi, hbd]
    exact hp.nodup_iff.2 (ownedNodes_nodup m nb (j : Int))
  · intro x hx
    rw [hat] at hx
    have hx2 := (hmem x).1 hx
    show fl2 x ≠ 0
    rw [hfl x]
    by_cases hs : x ∈ ownedNodes m nb (j : Int) ∧ staysBoundary m nb (j : Int) x = false
    · rw [if_pos hs]; omega
    · rw [if_neg hs, updAll_apply, if_pos hx2]; omega
  · intro n hn2 y hy
    rw [hat, hi, List.mem_filter] at hn2
    have hv := ((mem_ownedNodes m nb (j : Int) n).1 hn2.1).1
    have hl : ∀ z ∈ m.links n, 0 ≤ z := fun z hz => (adjValid_links m hadj n hv z hz).1
    have hs : staysBoundary m nb (j : Int) n = false := by
      have := hn2.2
      simpa using this
    exact staysBoundary_false_valid m _ _ n hl hs y hy
  · intro n hn2
    rw [hat, hbd, List.mem_filter] at hn2
    exact staysBoundary_true m _ _ n hn2.2
  · intro x hx
    have hx2 : x ∉ ownedNodes m nb (j : Int) := fun hh => hx ((mem_ownedNodes m nb _ x).1 hh).2
    rw [hfl x, if_neg (fun hh => hx2 hh.1), updAll_apply, if_neg hx2]

theorem blockOk_congr (m : Mesh) (t t2 : State) (j : Nat)
    (hb : t2.blockAt j = t.blockAt j) (hnb : t2.nodeBlocks = t.nodeBlocks)
    (hfl : ∀ x ∈ (t.blockAt j).nodes, t2.flags x = t.flags x) (h : BlockOk m t j) :
    BlockOk m t2 j := by
  refine ⟨?_, ?_, ?_, ?_, ?_, ?_⟩
  · rw [hb]; exact h.num
  · rw [hb, hnb]; exact h.owns
  · rw [hb]; exact h.nodup
  · rw [hb]
    intro x hx
    rw [hfl x hx]
    exact h.flags x hx
  · rw [hb, hnb]; exact h.inter
  · rw [hb, hnb]; exact h.bound

theorem separateUnjoined_eq (m : Mesh) (init : block) (fuel : Nat) (s : State) (self : Nat)
    (c : Int) (tl : List Int) (u : UnjoinSt)
    (hc : (s.blockAt self).boundNodes = c :: tl)
    (hu : unjoinLoop m init fuel self (s.blockAt self).blockNum (c :: tl)
      { s := s, depths := (depthInBlock m s.nodeBlocks (s.blockAt self)
          (upd (fun _ => 0) c 1)).1, changed := false } = .ok u) :
    separateUnjoined m init fuel s self =
      if u.changed then
        match redoLists m u.s.nodeBlocks u.s.flags (u.s.blockAt self) with
        | .error e => .error e
        | .ok (fl, b) => .ok { u.s with flags := fl, blocks := u.s.blocks.set self b }
      else .ok u.s := by
  unfold separateUnjoined
  simp only [hc, hu]

theorem ownerLists_lt (s : State) (h : OwnerLists s) (x : Int) :
    s.nodeBlocks x < (s.blocks.length : Int) := by
  by_contra hge
  have h0 : 0 ≤ s.nodeBlocks x := by omega
  have e : s.nodeBlocks x = ((s.nodeBlocks x).toNat : Int) := (Int.toNat_of_nonneg h0).symm
  have := ((h x (s.nodeBlocks x).toNat).1 e).1
  omega

theorem blockOk_of_invariants (m : Mesh) (s : State) (self : Nat)
    (hself : self < s.blocks.length) (hnum : (s.blockAt self).blockNum = (self : Int))
    (hown : OwnerLists s) (hnd : NoDupLists s) (hfl : FlagsOk s) (hint : InteriorOk m s) :
    BlockOk m s self := by
  refine ⟨hnum, ?_, hnd self hself, hfl self hself, ?_, ?_⟩
  · intro x
    rw [hown x self]
    exact ⟨fun e => e.2, fun e => ⟨hself, e⟩⟩
  · have := (hint self hself).1
    rw [hnum] at this
    exact this
  · have := (hint self hself).2
    rw [hnum] at this
    exact this

theorem separateUnjoined_spec (m : Mesh) (init : block) (s : State) (self : Nat) (c : Int)
    (tl : List Int) (hadj : AdjValid m) (hsym : MeshSymm m) (hself : self < s.blocks.length)
    (hnum : (s.blockAt self).blockNum = (self : Int))
    (hown : OwnerLists s) (hnd : NoDupLists s) (hfl : FlagsOk s) (hint : InteriorOk m s)
    (hval : NodesValid m s self) (hc : (s.blockAt self).boundNodes = c :: tl)
    (hbd : ∀ x, s.nodeBlocks x = (s.blockAt self).blockNum →
      ∃ y ∈ (s.blockAt self).boundNodes,
        Reach m s.nodeBlocks (s.blockAt self).blockNum y x) :
    ∃ t, (∀ fuel, m.nNodes < fuel → separateUnjoined m init fuel s self = .ok t) ∧
      UnjoinPost m s self c t ∧
      ((∀ x, s.nodeBlocks x = (s.blockAt self).blockNum →
        Reach m s.nodeBlocks (s.blockAt self).blockNum c x) → t = s) := by
  have hI1 : ∀ n, s.nodeBlocks n = (s.blockAt self).blockNum ↔ n ∈ (s.blockAt self).nodes := by
    intro n
    rw [hnum, hown n self]
    exact ⟨fun e => e.2, fun e => ⟨hself, e⟩⟩
  have hownv : ∀ x, s.nodeBlocks x = (s.blockAt self).blockNum →
      0 ≤ x ∧ x < (m.nNodes : Int) := fun x hx => hval x ((hI1 x).1 hx)
  have hlt := ownerLists_lt s hown
  have hbn : ∀ x ∈ (s.blockAt self).boundNodes, x ∈ (s.blockAt self).nodes :=
    fun x hx => List.mem_append_right _ hx
  have hcb : c ∈ (s.blockAt self).boundNodes := by rw [hc]; exact List.mem_cons_self _ _
  have hcm := hbn c hcb
  have hcB := (hI1 c).2 hcm
  have hD := depthInBlock_reach m s.nodeBlocks (s.blockAt self) c hI1 hval hcm
  have hsymm : ∀ x y, s.nodeBlocks x = (s.blockAt self).blockNum →
      Reach m s.nodeBlocks (s.blockAt self).blockNum x y →
      Reach m s.nodeBlocks (s.blockAt self).blockNum y x :=
    fun x y hx => reach_symm m _ _ hsym hownv x y hx
  have hinit : UnjoinInv m s self c (c :: tl)
      { s := s, depths := (depthInBlock m s.nodeBlocks (s.blockAt self)
          (upd (fun _ => 0) c 1)).1, changed := false } := by
    refine ⟨le_refl _, fun _ _ => rfl, fun x hx => Or.inl hx, ?_, ?_, ?_, ?_, ?_, hcB,
      fun _ => rfl, rfl, ?_⟩
    · intro x y hx hr
      show s.nodeBlocks y = s.nodeBlocks x
      rw [hx]
      exact reach_owner m _ _ x y hr hx
    · intro x y hx _ _ hne
      exact absurd hx hne
    · intro x _
      exact hD x
    · intro x hx hne
      rw [← hc] at hx
      exact absurd ((hI1 x).2 (hbn x hx)) hne
    · intro y hy hyr
      rw [← hc] at hyr
      exact absurd hy hyr
    · intro j hj1 hj2
      have : j < s.blocks.length := hj2
      omega
  have hndb : (c :: tl).Nodup := by
    rw [← hc]
    exact (List.nodup_append.1 (hnd self hself)).2.1
  obtain ⟨u, hu, hinv⟩ := unjoinLoop_inv m init s self c hadj hsym hself hnum hownv hlt
    (c :: tl) _ hndb hinit
  have hsubU : ∀ x, u.s.nodeBlocks x = (s.blockAt self).blockNum →
      s.nodeBlocks x = (s.blockAt self).blockNum := by
    intro x hx
    by_contra hne
    rw [hinv.other x hne] at hx
    exact hne hx
  have hkeep : ∀ x, s.nodeBlocks x = (s.blockAt self).blockNum →
      u.s.nodeBlocks x = (s.blockAt self).blockNum →
      Reach m s.nodeBlocks (s.blockAt self).blockNum c x := by
    intro x hx hux
    obtain ⟨y, hy, hyx⟩ := hbd x hx
    have hyB := (hI1 y).2 (hbn y hy)
    have h1 := hinv.comp y x hyB hyx
    rw [hux] at h1
    rcases hinv.seen y hy (List.not_mem_nil _) with h2 | h2
    · exact absurd h1.symm h2
    · exact Relation.ReflTransGen.trans h2 hyx
  have hcomp : ∀ x y, s.nodeBlocks x = (s.blockAt self).blockNum →
      s.nodeBlocks y = (s.blockAt self).blockNum →
      (u.s.nodeBlocks x = u.s.nodeBlocks y ↔
        Reach m s.nodeBlocks (s.blockAt self).blockNum x y) := by
    intro x y hx hy
    constructor
    · intro e
      by_cases hb : u.s.nodeBlocks x = (s.blockAt self).blockNum
      · have h1 := hkeep x hx hb
        have h2 := hkeep y hy (e ▸ hb)
        exact Relation.ReflTransGen.trans (hsymm c x hcB h1) h2
      · exact hinv.sep x y hx hy e hb
    · intro hr
      exact (hinv.comp x y hx hr).symm
  have hnoop : (∀ x, s.nodeBlocks x = (s.blockAt self).blockNum →
      Reach m s.nodeBlocks (s.blockAt self).blockNum c x) →
      u = { s := s, depths := (depthInBlock m s.nodeBlocks (s.blockAt self)
          (upd (fun _ => 0) c 1)).1, changed := false } := by
    intro hall
    have h1 := unjoinLoop_noop m init (m.nNodes + 1) self (s.blockAt self).blockNum s
      (depthInBlock m s.nodeBlocks (s.blockAt self) (upd (fun _ => 0) c 1)).1 (c :: tl)
      (by
        intro x hx
        rw [← hc] at hx
        exact (hD x).2 (hall x ((hI1 x).2 (hbn x hx))))
    have h2 := hu (m.nNodes + 1) (Nat.lt_succ_self _)
    rw [h1] at h2
    exact (Except.ok.inj h2).symm
  by_cases hch : u.changed = true
  · have hselfU : self < u.s.blocks.length := lt_of_lt_of_le hself hinv.len
    have hnumU : (u.s.blocks.getD self noBlock).blockNum = (self : Int) :=
      hinv.selfNum.trans hnum
    have hvalU : ∀ x, u.s.nodeBlocks x = (self : Int) → 0 ≤ x ∧ x < (m.nNodes : Int) := by
      intro x hx
      rw [← hnum] at hx
      exact hownv x (hsubU x hx)
    obtain ⟨fl2, b2, hr⟩ : ∃ fl2 b2, redoLists m u.s.nodeBlocks u.s.flags (u.s.blockAt self) =
        .ok (fl2, b2) := by
      unfold redoLists
      apply tidyBoundaries_total
      intro p hp y hy
      have hp2 : p ∈ ownedNodes m u.s.nodeBlocks (u.s.blockAt self).blockNum := hp
      exact (adjValid_links m hadj p ((mem_ownedNodes m _ _ p).1 hp2).1 y hy).1
    obtain ⟨hok, hflo⟩ := redoLists_blockOk m u.s.nodeBlocks u.s.flags u.s.blocks self fl2 b2
      hadj hselfU hnumU hvalU hr
    refine ⟨{ u.s with flags := fl2, blocks := u.s.blocks.set self b2 }, ?_, ?_, ?_⟩
    · intro fuel hf
      rw [separateUnjoined_eq m init fuel s self c tl u hc (hu fuel hf), if_pos hch, hr]
    · have hlen2 : (u.s.blocks.set self b2).length = u.s.blocks.length := List.length_set _ _ _
      refine ⟨?_, hinv.other, ?_, hcomp, hinv.front, hok, ?_⟩
      · show s.blocks.length ≤ (u.s.blocks.set self b2).length
        rw [hlen2]; exact hinv.len
      · intro x hx
        show _ ∨ (_ ∧ u.s.nodeBlocks x < ((u.s.blocks.set self b2).length : Int))
        rw [hlen2]
        exact hinv.range x hx
      · intro j hj1 hj2
        have hj3 : j < u.s.blocks.length := by
          have : j < (u.s.blocks.set self b2).length := hj2
          rw [hlen2] at this
          exact this
        obtain ⟨ok, ne⟩ := hinv.newOk j hj1 hj3
        have hb := blockAt_set_ne fl2 u.s.nodeBlocks u.s.blocks self j b2 (by omega)
        refine ⟨blockOk_congr m u.s _ j hb rfl ?_ ok, ?_⟩
        · intro x hx
          apply hflo
          rw [(ok.owns x).2 hx]
          omega
        · rw [hb]; exact ne
    · intro hall
      have := hnoop hall
      rw [this] at hch
      cases hch
  · have hcf : u.changed = false := by
      cases hh : u.changed with
      | true => exact absurd hh hch
      | false => rfl
    have hus := hinv.same hcf
    refine ⟨u.s, ?_, ?_, fun _ => hus⟩
    · intro fuel hf
      rw [separateUnjoined_eq m init fuel s self c tl u hc (hu fuel hf), if_neg hch]
    · refine ⟨hinv.len, hinv.other, hinv.range, hcomp, hinv.front, ?_, hinv.newOk⟩
      rw [hus]
      exact blockOk_of_invariants m s self hself hnum hown hnd hfl hint

theorem unjoinPost_count (m : Mesh) (s : State) (self : Nat) (c : Int) (t : State)
    (hpost : UnjoinPost m s self c t) (hself : self < s.blocks.length)
    (hnum : (s.blockAt self).blockNum = (self : Int))
    (hlt : ∀ x, s.nodeBlocks x < (s.blocks.length : Int))
    (hcB : s.nodeBlocks c = (s.blockAt self).blockNum) (reps : List Int)
    (hr1 : ∀ r ∈ reps, s.nodeBlocks r = (s.blockAt self).blockNum)
    (hr2 : reps.Pairwise (fun a b => ¬ Reach m s.nodeBlocks (s.blockAt self).blockNum a b))
    (hr3 : ∀ x, s.nodeBlocks x = (s.blockAt self).blockNum →
      ∃ r ∈ reps, Reach m s.nodeBlocks (s.blockAt self).blockNum r x) :
    t.blocks.length + 1 = s.blocks.length + reps.length := by
  have hlen := hpost.len
  have hLnd : (reps.map t.nodeBlocks).Nodup := by
    unfold List.Nodup
    rw [List.pairwise_map]
    apply List.Pairwise.imp_of_mem _ hr2
    intro a b ha hb hab e
    exact hab ((hpost.comp a b (hr1 a ha) (hr1 b hb)).1 e)
  have hTnd : ((s.blockAt self).blockNum ::
      (List.range' s.blocks.length (t.blocks.length - s.blocks.length)).map
        (fun (k : Nat) => (k : Int))).Nodup := by
    rw [List.nodup_cons]
    constructor
    · intro hm
      rw [List.mem_map] at hm
      obtain ⟨k, hk, e⟩ := hm
      rw [List.mem_range'_1] at hk
      rw [hnum] at e
      omega
    · exact List.Nodup.map (fun a b e => by exact_mod_cast e) (List.nodup_range' _ _)
  have hmem : ∀ v, v ∈ reps.map t.nodeBlocks ↔
      v ∈ ((s.blockAt self).blockNum ::
        (List.range' s.blocks.length (t.blocks.length - s.blocks.length)).map
          (fun (k : Nat) => (k : Int))) := by
    intro v
    rw [List.mem_map, List.mem_cons, List.mem_map]
    constructor
    · rintro ⟨r, hr, e⟩
      rcases hpost.range r (hr1 r hr) with h1 | ⟨h1, h2⟩
      · left; rw [← e]; exact h1
      · right
        refine ⟨v.toNat, ?_, ?_⟩
        · rw [List.mem_range'_1]; omega
        · omega
    · rintro (e | ⟨k, hk, e⟩)
      · obtain ⟨r, hr, hrc⟩ := hr3 c hcB
        refine ⟨r, hr, ?_⟩
        rw [(hpost.comp r c (hr1 r hr) hcB).2 hrc, e]
        exact hpost.front
      · rw [List.mem_range'_1] at hk
        obtain ⟨ok, ne⟩ := hpost.newOk k hk.1 (by omega)
        obtain ⟨x, hx⟩ := List.exists_mem_of_ne_nil _ ne
        have hxk := (ok.owns x).2 hx
        have hxB : s.nodeBlocks x = (s.blockAt self).blockNum := by
          by_contra hne
          have := hpost.other x hne
          have := hlt x
          omega
        obtain ⟨r, hr, hrx⟩ := hr3 x hxB
        refine ⟨r, hr, ?_⟩
        rw [(hpost.comp r x (hr1 r hr) hxB).2 hrx, hxk, e]
  have hperm := (List.perm_ext_iff_of_nodup hLnd hTnd).2 hmem
  have hl := hperm.length_eq
  rw [List.length_map, List.length_cons, List.length_map, List.length_range'] at hl
  omega

/-- C24: in a state satisfying I1-I4 over a mesh with valid, symmetric adjacency, let
`blocks[self]` be numbered `self`, list node ids only and have the first boundary node `c`,
and let `reps` hold one boundary node from each of its `k` connected components (no two
of them connected inside the block, every node of the block connected to one of them).
Then `separateUnjoined` returns (for every bound above `nNodes` on the passes of an
extraction); afterwards the vector has `k - 1` more blocks; owners outside the block are
unchanged; two nodes of the block have the same owner exactly when they are connected
inside the original block, so `blocks[self]` and each new block own exactly one component;
`c` stays in `blocks[self]`; every new block is non-empty and numbered by its index; I1-I4
hold for `blocks[self]` and the new blocks; and for `k = 1` the state is unchanged. -/
theorem separateUnjoined_extracts_components (m : Mesh) (init : block) (s : State)
    (self : Nat) (c : Int) (tl reps : List Int)
    (hadj : AdjValid m) (hsym : MeshSymm m) (hself : self < s.blocks.length)
    (hnum : (s.blockAt self).blockNum = (self : Int))
    (hown : OwnerLists s) (hnd : NoDupLists s) (hfl : FlagsOk s) (hint : InteriorOk m s)
    (hval : NodesValid m s self) (hc : (s.blockAt self).boundNodes = c :: tl)
    (hr1 : ∀ r ∈ reps, r ∈ (s.blockAt self).boundNodes)
    (hr2 : reps.Pairwise (fun a b => ¬ Reach m s.nodeBlocks (s.blockAt self).blockNum a b))
    (hr3 : ∀ x, s.nodeBlocks x = (s.blockAt self).blockNum →
      ∃ r ∈ reps, Reach m s.nodeBlocks (s.blockAt self).blockNum r x) :
    ∃ t, (∀ fuel, m.nNodes < fuel → separateUnjoined m init fuel s self = .ok t) ∧
      t.blocks.length + 1 = s.blocks.length + reps.length ∧
      UnjoinPost m s self c t ∧
      (reps.length = 1 → t = s) := by
  have hI1 : ∀ n, s.nodeBlocks n = (s.blockAt self).blockNum ↔ n ∈ (s.blockAt self).nodes := by
    intro n
    rw [hnum, hown n self]
    exact ⟨fun e => e.2, fun e => ⟨hself, e⟩⟩
  have hbB : ∀ x ∈ (s.blockAt self).boundNodes, s.nodeBlocks x = (s.blockAt self).blockNum :=
    fun x hx => (hI1 x).2 (List.mem_append_right _ hx)
  have hcB : s.nodeBlocks c = (s.blockAt self).blockNum :=
    hbB c (by rw [hc]; exact List.mem_cons_self _ _)
  obtain ⟨t, h1, h2, h3⟩ := separateUnjoined_spec m init s self c tl hadj hsym hself hnum hown
    hnd hfl hint hval hc
    (fun x hx => by
      obtain ⟨r, hr, hrx⟩ := hr3 x hx
      exact ⟨r, hr1 r hr, hrx⟩)
  refine ⟨t, h1, ?_, h2, ?_⟩
  · exact unjoinPost_count m s self c t h2 hself hnum (ownerLists_lt s hown) hcB reps
      (fun r hr => hbB r (hr1 r hr)) hr2 hr3
  · intro hk
    apply h3
    intro x hx
    obtain ⟨r, hr, hrx⟩ := hr3 x hx
    obtain ⟨r2, hr2m, hrc⟩ := hr3 c hcB
    have e : r2 = r := by
      match reps, hk, hr, hr2m with
      | [a], _, hr, hr2m =>
        rw [List.mem_singleton] at hr hr2m
        rw [hr, hr2m]
    rw [e] at hrc
    have hsymm := reach_symm m _ _ hsym
      (fun y hy => hval y ((hI1 y).1 hy)) r c (hbB r (hr1 r hr)) hrc
    exact Relation.ReflTransGen.trans hsymm hrx

theorem separateUnjoined_extracts_components_witness :
    ∃ t, (∀ fuel, grid4.nNodes < fuel →
        separateUnjoined grid4 noBlock fuel unjoinScenario 0 = .ok t) ∧
      t.blocks.length + 1 = unjoinScenario.blocks.length + [(1 : Int), 10].length ∧
      UnjoinPost grid4 unjoinScenario 0 1 t ∧
      ([(1 : Int), 10].length = 1 → t = unjoinScenario) := by
  have hown : OwnerLists unjoinScenario :=
    ownerLists_arr _ _ _ (by decide) (by decide) (by decide)
  have hI1 : ∀ n, unjoinScenario.nodeBlocks n = (unjoinScenario.blockAt 0).blockNum ↔
      n ∈ (unjoinScenario.blockAt 0).nodes := by
    intro n
    have h := hown n 0
    exact ⟨fun e => (h.1 e).2, fun e => h.2 ⟨by decide, e⟩⟩
  have hD1 := depthInBlock_reach grid4 unjoinScenario.nodeBlocks (unjoinScenario.blockAt 0) 1
    hI1 (by decide) (by decide)
  have hD10 := depthInBlock_reach grid4 unjoinScenario.nodeBlocks (unjoinScenario.blockAt 0) 10
    hI1 (by decide) (by decide)
  have hall : ∀ x ∈ (unjoinScenario.blockAt 0).nodes,
      (depthInBlock grid4 unjoinScenario.nodeBlocks (unjoinScenario.blockAt 0)
        (upd (fun _ => 0) 1 1)).1 x ≠ 0 ∨
      (depthInBlock grid4 unjoinScenario.nodeBlocks (unjoinScenario.blockAt 0)
        (upd (fun _ => 0) 10 1)).1 x ≠ 0 := by
    decide!
  exact separateUnjoined_extracts_components grid4 noBlock unjoinScenario 0 1
    [4, 5, 10, 11, 14] [1, 10] (by decide!) (by decide!) (by decide) (by decide) hown
    (by decide) (by decide) (by decide!) (by decide) rfl (by decide)
    (List.pairwise_pair.2 (fun hr => (hD1 10).2 hr (by decide!)))
    (fun x hx => by
      rcases hall x ((hI1 x).1 hx) with h | h
      · exact ⟨1, by decide, (hD1 x).1 h⟩
      · exact ⟨10, by decide, (hD10 x).1 h⟩)

/-! ### C25: `verify` compares the back link with `blockNum` -/

/-- C25 (counterexample): `blocks[0]` is numbered 2, `blocks[0].next = 1` and
`blocks[1].prev = 2`, which is not the position `0`; `verify` on `blocks[0]` returns
`true`, because it compares `blocks[1].prev` with the number of the block, not with its
position. -/
theorem verify_accepts_asymmetric_link :
    (verifyLinkScenario.blockAt 0).nextBlock = 1 ∧
    (verifyLinkScenario.blockAt 1).prevBlock ≠ 0 ∧
    (verifyLinkScenario.blockAt 0).blockNum = 2 ∧
    verify grid4 verifyLinkScenario 0 = true := by
  decide!

/-! ### C31: what `tidyBoundaries` moves -/

theorem staysBoundary_iff (m : Mesh) (nb : Int → Int) (bn p : Int)
    (hl : ∀ y ∈ m.links p, 0 ≤ y) :
    staysBoundary m nb bn p = true ↔ ∃ y ∈ m.links p, nb y ≠ bn := by
  constructor
  · exact staysBoundary_true m nb bn p
  · rintro ⟨y, hy, hne⟩
    cases h : staysBoundary m nb bn p with
    | true => rfl
    | false => exact absurd (staysBoundary_false_valid m nb bn p hl h y hy) hne

/-- C31: for valid adjacency and a boundary list of node ids, `tidyBoundaries` returns; a
node is in the boundary list afterwards iff it was there before and has a neighbour not
owned by the block, the kept nodes keeping their order; every other former boundary node
is in the interior list with flag `1`; the interior list is the former one followed by the
moved nodes; the two lists together hold the same nodes with the same multiplicities; the
flags of all nodes that were not moved, and every other field of the block, are unchanged.
(The owner array is only read.) -/
theorem tidyBoundaries_moves_enclosed (m : Mesh) (nb fl : Int → Int) (b : block)
    (hadj : AdjValid m) (hb : ∀ n ∈ b.boundNodes, 0 ≤ n ∧ n < (m.nNodes : Int)) :
    ∃ f b', tidyBoundaries m nb fl b = .ok (f, b') ∧
      (∀ x, x ∈ b'.boundNodes ↔ x ∈ b.boundNodes ∧ ∃ y ∈ m.links x, nb y ≠ b.blockNum) ∧
      b'.boundNodes.Sublist b.boundNodes ∧
      (∀ x ∈ b.boundNodes, (∀ y ∈ m.links x, nb y = b.blockNum) →
        x ∈ b'.intNodes ∧ f x = 1) ∧
      (∃ moved, b'.intNodes = b.intNodes ++ moved ∧
        ∀ x, x ∈ moved ↔ x ∈ b.boundNodes ∧ ∀ y ∈ m.links x, nb y = b.blockNum) ∧
      b'.nodes.Perm b.nodes ∧
      (∀ x, ¬ (x ∈ b.boundNodes ∧ ∀ y ∈ m.links x, nb y = b.blockNum) → f x = fl x) ∧
      b' = { b with intNodes := b'.intNodes, boundNodes := b'.boundNodes } := by
  have hl : ∀ p ∈ b.boundNodes, ∀ y ∈ m.links p, 0 ≤ y :=
    fun p hp y hy => (adjValid_links m hadj p (hb p hp) y hy).1
  obtain ⟨f, b', h⟩ := tidyBoundaries_total m nb fl b hl
  have hok := tidyBoundaries_ok m nb fl b f b' h
  have hfl := tidyBoundaries_flags m nb fl b f b' h
  have hbd : b'.boundNodes =
      b.boundNodes.filter (fun p => staysBoundary m nb b.blockNum p) := by rw [hok]
  have hint : b'.intNodes = b.intNodes ++
      b.boundNodes.filter (fun p => !staysBoundary m nb b.blockNum p) := by rw [hok]
  have hfalse : ∀ x ∈ b.boundNodes,
      (staysBoundary m nb b.blockNum x = false ↔ ∀ y ∈ m.links x, nb y = b.blockNum) := by
    intro x hx
    have := staysBoundary_iff m nb b.blockNum x (hl x hx)
    constructor
    · intro hs y hy
      by_contra hne
      have := this.2 ⟨y, hy, hne⟩
      rw [hs] at this
      cases this
    · intro hall
      cases hs : staysBoundary m nb b.blockNum x with
      | false => rfl
      | true =>
        obtain ⟨y, hy, hne⟩ := this.1 hs
        exact absurd (hall y hy) hne
  have hmoved : ∀ x, x ∈ b.boundNodes.filter (fun p => !staysBoundary m nb b.blockNum p) ↔
      x ∈ b.boundNodes ∧ ∀ y ∈ m.links x, nb y = b.blockNum := by
    intro x
    rw [List.mem_filter]
    constructor
    · rintro ⟨hx, hs⟩
      refine ⟨hx, (hfalse x hx).1 ?_⟩
      simpa using hs
    · rintro ⟨hx, hall⟩
      refine ⟨hx, ?_⟩
      rw [(hfalse x hx).2 hall]
      rfl
  refine ⟨f, b', h, ?_, ?_, ?_, ⟨_, hint, hmoved⟩, ?_, ?_, ?_⟩
  · intro x
    rw [hbd, List.mem_filter]
    constructor
    · rintro ⟨hx, hs⟩
      exact ⟨hx, (staysBoundary_iff m nb b.blockNum x (hl x hx)).1 hs⟩
    · rintro ⟨hx, hy⟩
      exact ⟨hx, (staysBoundary_iff m nb b.blockNum x (hl x hx)).2 hy⟩
  · rw [hbd]
    exact List.filter_sublist _
  · intro x hx hall
    have hs := (hfalse x hx).2 hall
    refine ⟨?_, ?_⟩
    · rw [hint]
      exact List.mem_append_right _ ((hmoved x).2 ⟨hx, hall⟩)
    · rw [hfl x, if_pos ⟨hx, hs⟩]
  · unfold block.nodes
    rw [hint, hbd]
    exact tidy_nodes_perm b.intNodes b.boundNodes (fun p => staysBoundary m nb b.blockNum p)
  · intro x hx
    rw [hfl x, if_neg]
    rintro ⟨h1, h2⟩
    exact hx ⟨h1, (hfalse x h1).1 h2⟩
  · rw [hok]

/-- C31, instance: the block listing `{0..7}` of the 4x4 grid as boundary nodes, with the
owner and flag arrays of scenario 2. -/
theorem tidyBoundaries_moves_enclosed_witness :
    ∃ f b', tidyBoundaries grid4 splitScenario.nodeBlocks splitScenario.flags
        (mkBlock 0 [] [0, 1, 2, 3, 4, 5, 6, 7] (-1) (-1)) = .ok (f, b') ∧
      (∀ x, x ∈ b'.boundNodes ↔ x ∈ (mkBlock 0 [] [0, 1, 2, 3, 4, 5, 6, 7] (-1) (-1)).boundNodes ∧
        ∃ y ∈ grid4.links x, splitScenario.nodeBlocks y ≠
          (mkBlock 0 [] [0, 1, 2, 3, 4, 5, 6, 7] (-1) (-1)).blockNum) ∧
      b'.boundNodes.Sublist (mkBlock 0 [] [0, 1, 2, 3, 4, 5, 6, 7] (-1) (-1)).boundNodes ∧
      (∀ x ∈ (mkBlock 0 [] [0, 1, 2, 3, 4, 5, 6, 7] (-1) (-1)).boundNodes,
        (∀ y ∈ grid4.links x, splitScenario.nodeBlocks y =
          (mkBlock 0 [] [0, 1, 2, 3, 4, 5, 6, 7] (-1) (-1)).blockNum) →
        x ∈ b'.intNodes ∧ f x = 1) ∧
      (∃ moved, b'.intNodes =
          (mkBlock 0 [] [0, 1, 2, 3, 4, 5, 6, 7] (-1) (-1)).intNodes ++ moved ∧
        ∀ x, x ∈ moved ↔ x ∈ (mkBlock 0 [] [0, 1, 2, 3, 4, 5, 6, 7] (-1) (-1)).boundNodes ∧
          ∀ y ∈ grid4.links x, splitScenario.nodeBlocks y =
            (mkBlock 0 [] [0, 1, 2, 3, 4, 5, 6, 7] (-1) (-1)).blockNum) ∧
      b'.nodes.Perm (mkBlock 0 [] [0, 1, 2, 3, 4, 5, 6, 7] (-1) (-1)).nodes ∧
      (∀ x, ¬ (x ∈ (mkBlock 0 [] [0, 1, 2, 3, 4, 5, 6, 7] (-1) (-1)).boundNodes ∧
          ∀ y ∈ grid4.links x, splitScenario.nodeBlocks y =
            (mkBlock 0 [] [0, 1, 2, 3, 4, 5, 6, 7] (-1) (-1)).blockNum) →
        f x = splitScenario.flags x) ∧
      b' = { mkBlock 0 [] [0, 1, 2, 3, 4, 5, 6, 7] (-1) (-1) with
             intNodes := b'.intNodes, boundNodes := b'.boundNodes } :=
  tidyBoundaries_moves_enclosed grid4 _ _ _ (by decide!) (by decide)

/-! ### C32: the error raised by `findFurthest` for an isolated seed -/

theorem depthVisit_count (nb : Int → Int) (B nd dn0 : Int) (st : DepthSt) (c : Int)
    (h : 0 ≤ st.updatePoints ∧ (st.updatePoints = 0 → st.deepNode = dn0)) :
    0 ≤ (depthVisit nb B nd st c).updatePoints ∧
      ((depthVisit nb B nd st c).updatePoints = 0 → (depthVisit nb B nd st c).deepNode = dn0) := by
  unfold depthVisit
  split
  · refine ⟨?_, ?_⟩
    · show 0 ≤ st.updatePoints + 1
      omega
    · intro e
      have e2 : st.updatePoints + 1 = 0 := e
      omega
  · exact h

theorem depthNode_count (m : Mesh) (nb : Int → Int) (B cd dn0 : Int) (st : DepthSt) (x : Int)
    (h : 0 ≤ st.updatePoints ∧ (st.updatePoints = 0 → st.deepNode = dn0)) :
    0 ≤ (depthNode m nb B cd st x).updatePoints ∧
      ((depthNode m nb B cd st x).updatePoints = 0 → (depthNode m nb B cd st x).deepNode = dn0) := by
  unfold depthNode
  split
  · exact foldl_inv
      (fun (s : DepthSt) => 0 ≤ s.updatePoints ∧ (s.updatePoints = 0 → s.deepNode = dn0))
      _ _ _ h (fun s c _ hs => depthVisit_count nb B _ dn0 s c hs)
  · exact h

theorem depthRound_count (m : Mesh) (nb : Int → Int) (b : block) (cd : Int) (D : Int → Int)
    (dn : Int) :
    (depthRound m nb b cd D dn).updatePoints = 0 → (depthRound m nb b cd D dn).deepNode = dn := by
  unfold depthRound
  have h := foldl_inv
    (fun (s : DepthSt) => 0 ≤ s.updatePoints ∧ (s.updatePoints = 0 → s.deepNode = dn))
    (depthNode m nb b.blockNum cd) b.boundNodes
    (b.intNodes.foldl (depthNode m nb b.blockNum cd)
      { depths := D, deepNode := dn, updatePoints := 0 })
    (foldl_inv
      (fun (s : DepthSt) => 0 ≤ s.updatePoints ∧ (s.updatePoints = 0 → s.deepNode = dn))
      (depthNode m nb b.blockNum cd) b.intNodes
      { depths := D, deepNode := dn, updatePoints := 0 }
      ⟨le_refl _, fun _ => rfl⟩
      (fun s x _ hs => depthNode_count m nb b.blockNum cd dn s x hs))
    (fun s x _ hs => depthNode_count m nb b.blockNum cd dn s x hs)
  exact h.2

theorem depthLoop_deepVal (m : Mesh) (nb : Int → Int) (b : block) :
    ∀ (fuel : Nat) (cd : Int) (D : Int → Int) (dn : Int),
      cd ≤ (depthLoop m nb b fuel cd D dn).2.1 ∧
      ((depthLoop m nb b fuel cd D dn).2.1 = cd → (depthLoop m nb b fuel cd D dn).2.2 = dn) := by
  intro fuel
  induction fuel with
  | zero => intro cd D dn; exact ⟨le_refl _, fun _ => rfl⟩
  | succ f ih =>
    intro cd D dn
    by_cases hup : (depthRound m nb b cd D dn).updatePoints = 0
    · have e : depthLoop m nb b (f + 1) cd D dn =
          ((depthRound m nb b cd D dn).depths, cd, (depthRound m nb b cd D dn).deepNode) := by
        show (if (depthRound m nb b cd D dn).updatePoints = 0 then _ else _) = _
        rw [if_pos hup]
      rw [e]
      exact ⟨le_refl _, fun _ => depthRound_count m nb b cd D dn hup⟩
    · have e : depthLoop m nb b (f + 1) cd D dn =
          depthLoop m nb b f (cd + 1) (depthRound m nb b cd D dn).depths
            (depthRound m nb b cd D dn).deepNode := by
        show (if (depthRound m nb b cd D dn).updatePoints = 0 then _ else _) = _
        rw [if_neg hup]
      rw [e]
      have := (ih (cd + 1) (depthRound m nb b cd D dn).depths
        (depthRound m nb b cd D dn).deepNode).1
      exact ⟨by omega, fun h => by omega⟩

/-- When `depthInBlock` returns `deepVal = 1` it returns `deepNode = -1`. -/
theorem depthInBlock_one (m : Mesh) (nb : Int → Int) (b : block) (D : Int → Int)
    (h : (depthInBlock m nb b D).2.1 = 1) : (depthInBlock m nb b D).2.2 = -1 :=
  (depthLoop_deepVal m nb b (m.nNodes * 2) 1 D (-1)).2 h

theorem findFurthestLoop_codes (m : Mesh) (nb : Int → Int) (b : block) :
    ∀ (fuel cnt : Nat) (st : FurthestSt),
      findFurthestLoop m nb b fuel cnt st ≠ .error 2404 := by
  intro fuel
  induction fuel with
  | zero => intro cnt st h; cases h
  | succ f ih =>
    intro cnt st
    unfold findFurthestLoop
    simp only
    split_ifs with h1 h2 h3 h4 h5 h6 h7
    all_goals first
      | exact ih _ _
      | (intro h; cases h; done)
      | exact absurd (depthInBlock_one m nb b _ h2) h1

theorem findFurthest_isolated (m : Mesh) (nb : Int → Int) (b : block) (c : Int)
    (h : (depthInBlock m nb b (upd (fun _ => 0) c 1)).2.1 = 1) :
    findFurthest m nb b c = .error 2403 := by
  unfold findFurthest findFurthestLoop
  simp only
  rw [if_pos (depthInBlock_one m nb b _ h)]

/-- C32 (counterexample): the block owns the corners 0 and 15 of the 4x4 grid; the seed
chosen by `split` is node 15, the depth projection from it gives `maxDepth = 1`, and
`split` fails with error 2403, not 2404. -/
theorem split_isolated_seed_not_2404 :
    WellFormed grid4 isolatedScenario ∧
    splitSeed grid4 isolatedScenario.nodeBlocks (isolatedScenario.blockAt 0).blockNum
      (isolatedScenario.blockAt 0).boundNodes (-1) = 15 ∧
    (∀ y ∈ grid4.links 15, isolatedScenario.nodeBlocks y ≠ 0) ∧
    (depthInBlock grid4 isolatedScenario.nodeBlocks (isolatedScenario.blockAt 0)
      (upd (fun _ => 0) 15 1)).2.1 = 1 ∧
    split grid4 noBlock isolatedScenario 0 = .error 2403 ∧
    split grid4 noBlock isolatedScenario 0 ≠ .error 2404 := by
  have e : split grid4 noBlock isolatedScenario 0 = .error 2403 := by rfl
  refine ⟨wellFormed_arr _ _ _ _ (by decide) (by decide) (by decide) (by decide!),
    by decide!, by decide!, by decide!, e, ?_⟩
  rw [e]
  intro h
  cases h

/-- C32 (amended): when the block does not have exactly one node, a seed is found and the
depth projection from it gives `maxDepth = 1`, `split` fails with error 2403; `findFurthest`
never raises 2404, because `depthInBlock` returns `deepestNode = -1` whenever it returns
`maxDepth = 1`, and the test for `-1` comes first. -/
theorem split_isolated_seed_raises_2403 (m : Mesh) (init : block) (s : State) (self : Nat)
    (hsize : (s.blockAt self).size ≠ 1)
    (hseed : splitSeed m s.nodeBlocks (s.blockAt self).blockNum
      (s.blockAt self).boundNodes (-1) ≠ -1)
    (hiso : (depthInBlock m s.nodeBlocks (s.blockAt self)
      (upd (fun _ => 0)
        (splitSeed m s.nodeBlocks (s.blockAt self).blockNum (s.blockAt self).boundNodes (-1))
        1)).2.1 = 1) :
    split m init s self = .error 2403 ∧
    ∀ c, findFurthest m s.nodeBlocks (s.blockAt self) c ≠ .error 2404 := by
  refine ⟨?_, fun c => findFurthestLoop_codes m _ _ _ _ _⟩
  unfold split
  rw [if_neg hsize]
  unfold splitGrow
  simp only
  rw [if_neg hseed, findFurthest_isolated m _ _ _ hiso]

/-- C32 (amended), instance: the block owning the corners 0 and 15 of the 4x4 grid. -/
theorem split_isolated_seed_raises_2403_witness :
    split grid4 noBlock isolatedScenario 0 = .error 2403 ∧
    ∀ c, findFurthest grid4 isolatedScenario.nodeBlocks (isolatedScenario.blockAt 0) c ≠
      .error 2404 :=
  split_isolated_seed_raises_2403 grid4 noBlock isolatedScenario 0 (by decide) (by decide!)
    (by decide!)

/-! ### C33: `verify` on valid states -/

/-- On a vector of at least two (and at most `2^64`) blocks, `verify` returns `true` on
every block of a state satisfying I1-I7 whose lists hold node ids and whose links do not
point to the block itself. -/
theorem verify_accepts_valid (m : Mesh) (s : State) (b : Nat) (hb : b < s.blocks.length)
    (h2 : 2 ≤ s.blocks.length) (hmax : (s.blocks.length : Int) ≤ 2 ^ 64)
    (hwf : WellFormed m s) (hval : NodesValid m s b)
    (hns : (s.blockAt b).nextBlock ≠ (b : Int) ∧ (s.blockAt b).prevBlock ≠ (b : Int)) :
    verify m s b = true := by
  obtain ⟨hown, hnd, hfl, hdis, -, hsym, hlv, hadj, hnum⟩ := hwf
  have hn := hnum b hb
  have hmem : ∀ n, n ∈ (s.blockAt b).nodes → s.nodeBlocks n = (s.blockAt b).blockNum := by
    intro n hx
    rw [hn]
    exact (hown n b).2 ⟨hb, hx⟩
  have hgood : ∀ n, n ∈ (s.blockAt b).nodes →
      verifyBadNode s (s.blockAt b).blockNum n = false := by
    intro n hx
    unfold verifyBadNode
    rw [decide_eq_false_iff_not]
    rintro (h | h)
    · exact h (hmem n hx)
    · exact hfl b hb n hx h
  have hsz : sizeMinusOne s = (s.blocks.length : Int) - 1 := by
    unfold sizeMinusOne
    apply Int.emod_eq_of_lt
    · omega
    · omega
  have hlink : ∀ l : Int, validLink s l → l ≠ -1 → 0 ≤ l ∧ l < (s.blocks.length : Int) := by
    intro l hl hne
    rcases hl with h | h
    · exact absurd h hne
    · exact h
  have hrange : ∀ l : Int, validLink s l → ¬ ((l.natAbs : Int) > sizeMinusOne s) := by
    intro l hl
    rw [hsz]
    rcases hl with h | h
    · rw [h]
      have : ((-1 : Int).natAbs : Int) = 1 := rfl
      omega
    · omega
  unfold verify
  simp only
  split_ifs with h1 h2 h3 h4 h5 h6
  · exfalso
    rw [List.any_eq_true] at h1
    obtain ⟨n, hx, hbad⟩ := h1
    rw [hgood n (List.mem_append_left _ hx)] at hbad
    cases hbad
  · exfalso
    rw [List.any_eq_true] at h2
    obtain ⟨n, hx, hbad⟩ := h2
    rw [hgood n (List.mem_append_right _ hx), Bool.false_or, List.any_eq_true] at hbad
    obtain ⟨q, hq, e⟩ := hbad
    rw [decide_eq_true_eq] at e
    exact hdis b hb n ⟨e ▸ hq, hx⟩
  · exfalso
    apply h3
    have hp : (ownedNodes m s.nodeBlocks (s.blockAt b).blockNum).Perm (s.blockAt b).nodes := by
      apply (List.perm_ext_iff_of_nodup (ownedNodes_nodup m _ _) (hnd b hb)).2
      intro x
      rw [mem_ownedNodes]
      constructor
      · intro hx
        rw [hn] at hx
        exact ((hown x b).1 hx.2).2
      · intro hx
        exact ⟨hval x hx, hmem x hx⟩
    rw [hp.length_eq]
    unfold block.size block.nodes
    rw [List.length_append]
    push_cast
    rfl
  · exfalso
    rcases h4 with h | h | h | h
    · rcases (hlv b hb).2 with e | e
      · exact h.2 e
      · omega
    · rcases (hlv b hb).1 with e | e
      · exact h.2 e
      · omega
    · exact hrange _ (hlv b hb).2 h
    · exact hrange _ (hlv b hb).1 h
  · exfalso
    have hl := hlink _ (hlv b hb).2 h5.1
    exact h5.2 (by rw [hn]; exact ((hsym b hb).1 hl.1).symm)
  · exfalso
    have hl := hlink _ (hlv b hb).1 h6.1
    exact h6.2 (by rw [hn]; exact ((hsym b hb).2 hl.1).symm)
  · unfold verifyLinked
    simp only
    have hin : ∀ l : Int, validLink s l → l ≠ (b : Int) → (l ≠ -1 → Touches m s b l) →
        (decide (l = -1) ||
          (getLinks m s.nodeBlocks (s.blockAt b)).any (fun p => decide (p = l))) = true := by
      intro l hl hlb ht
      by_cases e : l = -1
      · rw [decide_eq_true e]; rfl
      · rw [decide_eq_false e, Bool.false_or, List.any_eq_true]
        refine ⟨l, ?_, decide_eq_true rfl⟩
        rw [mem_getLinks]
        obtain ⟨x, hx, y, hy, hxy⟩ := ht e
        exact ⟨(hlink l hl e).1, by rw [hn]; exact hlb, x, hx, y, hy, hxy⟩
    rw [hin _ (hlv b hb).1 hns.2 (hadj b hb).2, hin _ (hlv b hb).2 hns.1 (hadj b hb).1]
    rfl

/-- On a vector holding a single block, `verify` returns `false` as soon as one of the two
links of the block is `-1`. -/
theorem verify_single_block (m : Mesh) (s : State) (hlen : s.blocks.length = 1)
    (h : (s.blockAt 0).nextBlock = -1 ∨ (s.blockAt 0).prevBlock = -1) :
    verify m s 0 = false := by
  have hsz : sizeMinusOne s = 0 := by
    unfold sizeMinusOne
    rw [hlen]
    rfl
  unfold verify
  simp only
  split_ifs with h1 h2 h3 h4 h5 h6
  all_goals first | rfl | skip
  exfalso
  apply h4
  rw [hsz]
  rcases h with e | e
  · right; right; left
    rw [e]
    decide
  · right; right; right
    rw [e]
    decide

/-- C33 (failing input): the state with the single block owning `{0..7}` of the 4x4 grid
satisfies I1-I7 and the block has `prev = next = -1`, but `verify` returns `false`: the
range test `abs(nextBlock) > blocks.size()-1` compares `abs(-1) = 1` with `0`. -/
theorem verify_rejects_single_block :
    WellFormed grid4 splitScenario ∧ NodesValid grid4 splitScenario 0 ∧
    splitScenario.blocks.length = 1 ∧
    (splitScenario.blockAt 0).prevBlock = -1 ∧ (splitScenario.blockAt 0).nextBlock = -1 ∧
    ((splitScenario.blockAt 0).nextBlock.natAbs : Int) > sizeMinusOne splitScenario ∧
    verify grid4 splitScenario 0 = false := by
  refine ⟨wellFormed_arr _ _ _ _ (by decide) (by decide) (by decide) (by decide!), ?_⟩
  decide!

/-! ### C34: what the compaction of `join` leaves in the slot of `self` -/

theorem joinInto_merged (m : Mesh) (s : State) (self : Nat) (j bn bp : Int) :
    joinInto m s self j bn bp =
      match joinMerged m s self j bn bp with
      | .error e => .error e
      | .ok t => joinFinish m t self j := by
  unfold joinInto joinMerged
  cases combineFrom m (s.modAt self (fun b => { b with modifiedTimes := b.modifiedTimes + 1 }))
      j.toNat self with
  | error e => rfl
  | ok s2 => rfl

/-- The blocks and owners after `combineFrom` on two different blocks of the vector. -/
theorem combineFrom_shape (m : Mesh) (s s2 : State) (dst src : Nat)
    (hd : dst < s.blocks.length) (hsrc : src < s.blocks.length) (hne : dst ≠ src)
    (h : combineFrom m s dst src = .ok s2) :
    s2.blocks.length = s.blocks.length ∧
    s2.blockAt src = { s.blockAt src with intNodes := [], boundNodes := [] } ∧
    (∀ i, i ≠ dst → i ≠ src → s2.blockAt i = s.blockAt i) ∧
    ((s2.blockAt dst).blockNum = (s.blockAt dst).blockNum ∧
      (s2.blockAt dst).prevBlock = (s.blockAt dst).prevBlock ∧
      (s2.blockAt dst).nextBlock = (s.blockAt dst).nextBlock ∧
      (s2.blockAt dst).isActive = (s.blockAt dst).isActive ∧
      (s2.blockAt dst).maxSize = (s.blockAt dst).maxSize) ∧
    (∀ n, n ∈ (s2.blockAt dst).nodes ↔ n ∈ (s.blockAt src).nodes ∨ n ∈ (s.blockAt dst).nodes) ∧
    (∀ n, s2.nodeBlocks n =
      if n ∈ (s.blockAt src).nodes then (s.blockAt dst).blockNum else s.nodeBlocks n) := by
  unfold combineFrom at h
  simp only at h
  generalize hT1 : ({ (s.blockAt dst) with
      modifiedTimes := if (s.blockAt src).modifiedTimes > (s.blockAt dst).modifiedTimes
        then (s.blockAt src).modifiedTimes else (s.blockAt dst).modifiedTimes,
      intNodes := (s.blockAt src).intNodes ++ (s.blockAt dst).intNodes,
      boundNodes := (s.blockAt src).boundNodes ++ (s.blockAt dst).boundNodes } : block) = t1 at h
  cases ht : tidyBoundaries m
      (updAll (updAll s.nodeBlocks (s.blockAt src).intNodes (s.blockAt dst).blockNum)
        (s.blockAt src).boundNodes (s.blockAt dst).blockNum) s.flags t1 with
  | error e => rw [ht] at h; cases h
  | ok x =>
    obtain ⟨fl, t2⟩ := x
    rw [ht] at h
    simp only [Except.ok.injEq] at h
    have ht2 := tidyBoundaries_ok _ _ _ _ _ _ ht
    have ht1i : t1.intNodes = (s.blockAt src).intNodes ++ (s.blockAt dst).intNodes := by
      rw [← hT1]
    have ht1b : t1.boundNodes = (s.blockAt src).boundNodes ++ (s.blockAt dst).boundNodes := by
      rw [← hT1]
    have hatd : s2.blockAt dst = t2 := by
      rw [← h]
      simp [State.blockAt, getD_set_block, hd]
    have hats : s2.blockAt src = { s.blockAt src with intNodes := [], boundNodes := [] } := by
      rw [← h]
      simp only [State.blockAt, getD_set_block, List.length_set]
      rw [if_neg (fun e => hne e.1), if_pos ⟨trivial, hsrc⟩]
    have hato : ∀ j, j ≠ dst → j ≠ src → s2.blockAt j = s.blockAt j := by
      intro j h1 h2
      have h1' : ¬ dst = j := fun e => h1 e.symm
      have h2' : ¬ src = j := fun e => h2 e.symm
      rw [← h]
      simp [State.blockAt, getD_set_block, h1', h2']
    refine ⟨by rw [← h]; simp, hats, hato, ?_, ?_, ?_⟩
    · rw [hatd, ht2, ← hT1]
      exact ⟨rfl, rfl, rfl, rfl, rfl⟩
    · intro n
      rw [hatd, tidyBoundaries_nodes _ _ _ _ _ _ ht n]
      unfold block.nodes
      rw [ht1i, ht1b]
      simp only [List.mem_append]
      tauto
    · intro n
      rw [← h]
      simp only [updAll_apply, block.nodes, List.mem_append]
      by_cases h1 : n ∈ (s.blockAt src).boundNodes
      · simp [h1]
      · by_cases h2 : n ∈ (s.blockAt src).intNodes
        · simp [h1, h2]
        · simp [h1, h2]

/-- The link fields of `blocks[i]` after step `#1` of `join`; the other fields are kept. -/
theorem joinRelink_links (u : State) (j bn bp : Int) (i : Nat) :
    ((joinRelink u j bn bp).blockAt i).nextBlock =
      (if 0 ≤ (if bp = j then -1 else bp) ∧ (if bp = j then -1 else bp) = (i : Int) ∧
          i < u.blocks.length then j
       else if j = (i : Int) ∧ i < u.blocks.length then (if bn = j then -1 else bn)
       else (u.blockAt i).nextBlock) ∧
    ((joinRelink u j bn bp).blockAt i).prevBlock =
      (if 0 ≤ (if bn = j then -1 else bn) ∧ (if bn = j then -1 else bn) = (i : Int) ∧
          i < u.blocks.length then j
       else if j = (i : Int) ∧ i < u.blocks.length then (if bp = j then -1 else bp)
       else (u.blockAt i).prevBlock) ∧
    ((joinRelink u j bn bp).blockAt i).isActive = (u.blockAt i).isActive ∧
    ((joinRelink u j bn bp).blockAt i).maxSize = (u.blockAt i).maxSize := by
  unfold joinRelink
  simp only
  generalize (if bn = j then -1 else bn) = bN
  generalize (if bp = j then -1 else bp) = bP
  by_cases hN : 0 ≤ bN <;> by_cases hP : 0 ≤ bP
  · rw [if_pos hN, if_pos hP]
    simp only [modB_blockAt, modB_length]
    split_ifs <;> first | exact ⟨rfl, rfl, rfl, rfl⟩ | (exfalso; omega)
  · rw [if_pos hN, if_neg hP]
    simp only [modB_blockAt, modB_length]
    split_ifs <;> first | exact ⟨rfl, rfl, rfl, rfl⟩ | (exfalso; omega)
  · rw [if_neg hN, if_pos hP]
    simp only [modB_blockAt, modB_length]
    split_ifs <;> first | exact ⟨rfl, rfl, rfl, rfl⟩ | (exfalso; omega)
  · rw [if_neg hN, if_neg hP]
    simp only [modB_blockAt, modB_length]
    split_ifs <;> first | exact ⟨rfl, rfl, rfl, rfl⟩ | (exfalso; omega)

theorem joinTarget_sel (m : Mesh) (s : State) (self : Nat) (j bn bp : Int)
    (h : joinTarget m s self = some (j, bn, bp)) :
    ((s.blockAt self).nextBlock ≠ -1 →
      j = (s.blockAt self).nextBlock ∧ bp = (s.blockAt self).prevBlock) ∧
    ((s.blockAt self).nextBlock = -1 → (s.blockAt self).prevBlock ≠ -1 →
      j = (s.blockAt self).prevBlock) := by
  unfold joinTarget at h
  simp only at h
  constructor
  · intro h1
    rw [if_pos h1, if_neg h1] at h
    simp only [Option.some.injEq, Prod.mk.injEq] at h
    exact ⟨h.1.symm, h.2.2.symm⟩
  · intro h1 h2
    rw [if_neg (show ¬ ((s.blockAt self).nextBlock ≠ -1) from fun hh => hh h1)] at h
    simp only at h
    rw [if_neg h2] at h
    simp only [Option.some.injEq, Prod.mk.injEq] at h
    exact h.1.symm

/-- Step `#2` of `join` seen from the slot of `self`: when the lists of `blocks[self]` are
empty and the last block does not link to `self`, the slot takes the nodes and the links
of the last block, renumbers the nodes, and keeps its own `isActive`, `maxSize` and
`blockNum`. -/
theorem joinCompact_self (m : Mesh) (t s6 : State) (self L : Nat) (hself : self < L)
    (hlen : t.blocks.length = L + 1) (hempty : (t.blockAt self).nodes = [])
    (hnx : (t.blockAt L).nextBlock ≠ (self : Int))
    (hpv : (t.blockAt L).prevBlock ≠ (self : Int))
    (h : joinCompact m t self (L : Int) = .ok s6) :
    s6.blocks.length = L + 1 ∧
    (s6.blockAt self).nextBlock = (t.blockAt L).nextBlock ∧
    (s6.blockAt self).prevBlock = (t.blockAt L).prevBlock ∧
    (s6.blockAt self).isActive = (t.blockAt self).isActive ∧
    (s6.blockAt self).maxSize = (t.blockAt self).maxSize ∧
    (s6.blockAt self).blockNum = (t.blockAt self).blockNum ∧
    (∀ x, x ∈ (s6.blockAt self).nodes ↔ x ∈ (t.blockAt L).nodes) ∧
    (∀ x ∈ (t.blockAt L).nodes, s6.nodeBlocks x = (t.blockAt self).blockNum) := by
  have hsL : self ≠ L := by omega
  have hLs : L ≠ self := by omega
  have hs1 : self < t.blocks.length := by omega
  have hL1 : L < t.blocks.length := by omega
  unfold joinCompact at h
  simp only [Int.toNat_ofNat] at h
  cases hc : combineFrom m (t.modAt self (fun b => { b with modifiedTimes := 0 })) self L with
  | error e => rw [hc] at h; cases h
  | ok s2 =>
    rw [hc] at h
    simp only [Except.ok.injEq, getB_natCast] at h
    have h0len := modAt_length t self (fun b => { b with modifiedTimes := 0 })
    obtain ⟨c1, c2, c3, c4, c5, c6⟩ := combineFrom_shape m _ s2 self L
      (by rw [h0len]; exact hs1) (by rw [h0len]; exact hL1) hsL hc
    have a0 : (t.modAt self (fun b => { b with modifiedTimes := 0 })).blockAt self =
        { t.blockAt self with modifiedTimes := 0 } := by
      rw [modAt_blockAt, if_pos ⟨rfl, hs1⟩]
    have aL : (t.modAt self (fun b => { b with modifiedTimes := 0 })).blockAt L =
        t.blockAt L := by
      rw [modAt_blockAt, if_neg (fun hh => hsL hh.1)]
    rw [a0] at c4 c5 c6
    rw [aL] at c2 c5 c6
    have hs2len : s2.blocks.length = L + 1 := by rw [c1, h0len, hlen]
    have hs2s : self < s2.blocks.length := by omega
    have e3L : ((s2.modAt self
        (fun b => { b with nextBlock := (s2.blockAt L).nextBlock })).blockAt L) =
        s2.blockAt L := by
      rw [modAt_blockAt, if_neg (fun hh => hsL hh.1)]
    rw [e3L] at h
    have hN : (s2.blockAt L).nextBlock = (t.blockAt L).nextBlock := by rw [c2]
    have hP : (s2.blockAt L).prevBlock = (t.blockAt L).prevBlock := by rw [c2]
    rw [hN, hP] at h
    generalize (t.blockAt L).nextBlock = N at h hnx hN ⊢
    generalize (t.blockAt L).prevBlock = P at h hpv hP ⊢
    have e4 : ((s2.modAt self (fun b => { b with nextBlock := N })).modAt
        self (fun b => { b with prevBlock := P })).blockAt self =
        { s2.blockAt self with nextBlock := N, prevBlock := P } := by
      rw [modAt_blockAt, modAt_length, if_pos ⟨rfl, hs2s⟩, modAt_blockAt,
        if_pos ⟨rfl, hs2s⟩]
    have key : s6.blocks.length = L + 1 ∧ s6.nodeBlocks = s2.nodeBlocks ∧
        s6.blockAt self = { s2.blockAt self with nextBlock := N, prevBlock := P } := by
      simp only [modB_guard] at h
      rw [e4] at h
      simp only at h
      have e5 : ∀ g, (((s2.modAt self (fun b => { b with nextBlock := N })).modAt
          self (fun b => { b with prevBlock := P })).modB N g).blockAt self =
          { s2.blockAt self with nextBlock := N, prevBlock := P } := by
        intro g
        rw [modB_blockAt, if_neg (fun hh => hnx hh.1), e4]
      rw [e5] at h
      simp only at h
      rw [← h]
      refine ⟨?_, ?_, ?_⟩
      · rw [modB_length, modB_length, modAt_length, modAt_length, hs2len]
      · rw [modB_nodeBlocks, modB_nodeBlocks, modAt_nodeBlocks, modAt_nodeBlocks]
      · rw [modB_blockAt, if_neg (fun hh => hpv hh.1), e5]
    obtain ⟨k1, k2, k3⟩ := key
    refine ⟨k1, ?_, ?_, ?_, ?_, ?_, ?_, ?_⟩
    · rw [k3]
    · rw [k3]
    · rw [k3]; exact c4.2.2.2.1
    · rw [k3]; exact c4.2.2.2.2
    · rw [k3]; exact c4.1
    · intro x
      have : (s6.blockAt self).nodes = (s2.blockAt self).nodes := by rw [k3]; rfl
      rw [this, c5 x]
      have he : (({ t.blockAt self with modifiedTimes := 0 } : block)).nodes =
          (t.blockAt self).nodes := rfl
      rw [he, hempty]
      simp
    · intro x hx
      rw [k2, c6 x, if_pos hx]

theorem joinTarget_nonneg (m : Mesh) (s : State) (self : Nat) (j bn bp : Int)
    (hl : SelfLinksOk s self) (h : joinTarget m s self = some (j, bn, bp)) : 0 ≤ j := by
  unfold joinTarget at h
  simp only at h
  obtain ⟨hn, hp⟩ := hl
  by_cases h1 : (s.blockAt self).nextBlock = -1
  · simp only [h1, ne_eq, not_true_eq_false, if_false] at h
    by_cases h2 : (s.blockAt self).prevBlock = -1
    · simp only [h2, if_true] at h
      by_cases h3 : joinCandidate m s self = -1
      · simp [h3] at h
      · have hm := (firstActive_mem s _ h3).1
        obtain ⟨g0, _, _⟩ := getLinks_mem m s.nodeBlocks (s.blockAt self) _ hm
        have hjc : joinCandidate m s self = j := by
          simp only [h3, ne_eq, not_false_eq_true, if_true] at h
          split at h
          · simp only [Option.some.injEq, Prod.mk.injEq] at h; exact h.1
          · split at h
            · simp only [Option.some.injEq, Prod.mk.injEq] at h; exact h.1
            · cases h
        unfold joinCandidate at hjc
        rw [hjc] at g0
        exact g0
    · simp only [h2, if_false, Option.some.injEq, Prod.mk.injEq] at h
      rcases hp with hp | hp
      · exact absurd hp h2
      · rw [← h.1]; exact hp.1
  · simp only [h1, ne_eq, not_false_eq_true, if_true, if_false, Option.some.injEq,
      Prod.mk.injEq] at h
    rcases hn with hn | hn
    · exact absurd hn h1
    · rw [← h.1]; exact hn.1

theorem joinUnloop_idem (x b j : Int) :
    (if joinUnloop x b j = j then -1 else joinUnloop x b j) = joinUnloop x b j := by
  unfold joinUnloop
  by_cases h : x = b ∨ x = j
  · simp only [h, if_true]
    split <;> rfl
  · simp only [h, if_false]
    rw [if_neg (fun e => h (Or.inr e))]

theorem joinUnloop_ne (x b j : Int) (hb : 0 ≤ b) : joinUnloop x b j ≠ b := by
  unfold joinUnloop
  by_cases h : x = b ∨ x = j
  · simp only [h, if_true]; omega
  · simp only [h, if_false]
    exact fun e => h (Or.inl e)

/-- The blocks of the vector after the merge and step `#1` of `join`, in terms of the state
before the call: the slot of `self` has empty lists and keeps its other fields, every other
block keeps its nodes (the target gains the nodes of `self`) and has the links that step
`#1` leaves. -/
theorem joinMerged_shape (m : Mesh) (s t : State) (self : Nat) (j bn bp : Int)
    (hself : self < s.blocks.length) (hj0 : 0 ≤ j) (hj : j.toNat < s.blocks.length)
    (hjs : j.toNat ≠ self) (h : joinMerged m s self j bn bp = .ok t) :
    t.blocks.length = s.blocks.length ∧
    (t.blockAt self).nodes = [] ∧
    (t.blockAt self).blockNum = (s.blockAt self).blockNum ∧
    (t.blockAt self).isActive = (s.blockAt self).isActive ∧
    (t.blockAt self).maxSize = (s.blockAt self).maxSize ∧
    ∀ i : Nat, i < s.blocks.length → i ≠ self →
      (∀ x, x ∈ (t.blockAt i).nodes ↔
        x ∈ (s.blockAt i).nodes ∨ (j = (i : Int) ∧ x ∈ (s.blockAt self).nodes)) ∧
      (t.blockAt i).nextBlock =
        (if joinUnloop bp (s.blockAt self).blockNum j = (i : Int) then j
         else if j = (i : Int) then joinUnloop bn (s.blockAt self).blockNum j
         else (s.blockAt i).nextBlock) ∧
      (t.blockAt i).prevBlock =
        (if joinUnloop bn (s.blockAt self).blockNum j = (i : Int) then j
         else if j = (i : Int) then joinUnloop bp (s.blockAt self).blockNum j
         else (s.blockAt i).prevBlock) := by
  unfold joinMerged at h
  cases hc : combineFrom m
      (s.modAt self (fun b => { b with modifiedTimes := b.modifiedTimes + 1 })) j.toNat self with
  | error e => rw [hc] at h; cases h
  | ok u =>
    rw [hc] at h
    simp only [Except.ok.injEq] at h
    have h0len := modAt_length s self (fun b => { b with modifiedTimes := b.modifiedTimes + 1 })
    obtain ⟨c1, c2, c3, c4, c5, c6⟩ := combineFrom_shape m _ u j.toNat self
      (by rw [h0len]; exact hj) (by rw [h0len]; exact hself) hjs hc
    have a0 : (s.modAt self (fun b => { b with modifiedTimes := b.modifiedTimes + 1 })).blockAt
        self = { s.blockAt self with modifiedTimes := (s.blockAt self).modifiedTimes + 1 } := by
      rw [modAt_blockAt, if_pos ⟨rfl, hself⟩]
    have ao : ∀ i, i ≠ self →
        (s.modAt self (fun b => { b with modifiedTimes := b.modifiedTimes + 1 })).blockAt i =
          s.blockAt i := by
      intro i hi
      rw [modAt_blockAt, if_neg (fun hh => hi hh.1.symm)]
    rw [a0] at c2 c5
    rw [ao _ hjs] at c4 c5
    have hul : u.blocks.length = s.blocks.length := by rw [c1, h0len]
    have hsl := joinRelink_sameLists u j (joinUnloop bn (s.blockAt self).blockNum j)
      (joinUnloop bp (s.blockAt self).blockNum j)
    rw [h] at hsl
    have hlk := fun i => joinRelink_links u j (joinUnloop bn (s.blockAt self).blockNum j)
      (joinUnloop bp (s.blockAt self).blockNum j) i
    rw [h] at hlk
    simp only [joinUnloop_idem] at hlk
    refine ⟨by rw [hsl.1, hul], ?_, ?_, ?_, ?_, ?_⟩
    · rw [sameLists_nodes _ _ hsl, c2]; rfl
    · rw [(hsl.2.2 self).2.2, c2]
    · rw [(hlk self).2.2.1, c2]
    · rw [(hlk self).2.2.2, c2]
    · intro i hi his
      have hiu : i < u.blocks.length := by rw [hul]; exact hi
      have hji : j = (i : Int) ↔ j.toNat = i := by omega
      have hui : (u.blockAt i).nextBlock = (s.blockAt i).nextBlock ∧
          (u.blockAt i).prevBlock = (s.blockAt i).prevBlock := by
        by_cases hd : i = j.toNat
        · rw [hd]; exact ⟨c4.2.2.1, c4.2.1⟩
        · rw [c3 i hd his, ao i his]; exact ⟨rfl, rfl⟩
      refine ⟨?_, ?_, ?_⟩
      · intro x
        rw [sameLists_nodes _ _ hsl]
        by_cases hd : i = j.toNat
        · rw [hd, c5 x]
          have he : (({ s.blockAt self with
              modifiedTimes := (s.blockAt self).modifiedTimes + 1 } : block)).nodes =
              (s.blockAt self).nodes := rfl
          rw [he]
          have : j = ((j.toNat : Nat) : Int) := by omega
          constructor
          · rintro (hx | hx)
            · exact Or.inr ⟨this, hx⟩
            · exact Or.inl hx
          · rintro (hx | hx)
            · exact Or.inr hx
            · exact Or.inl hx.2
        · rw [c3 i hd his, ao i his]
          constructor
          · exact fun hx => Or.inl hx
          · rintro (hx | hx)
            · exact hx
            · exact absurd (hji.1 hx.1).symm hd
      · rw [(hlk i).1, hui.1]
        by_cases hb : joinUnloop bp (s.blockAt self).blockNum j = (i : Int)
        · rw [if_pos ⟨by rw [hb]; omega, hb, hiu⟩, if_pos hb]
        · rw [if_neg (fun hh => hb hh.2.1), if_neg hb]
          by_cases hd : j = (i : Int)
          · rw [if_pos ⟨hd, hiu⟩, if_pos hd]
          · rw [if_neg (fun hh => hd hh.1), if_neg hd]
      · rw [(hlk i).2.1, hui.2]
        by_cases hb : joinUnloop bn (s.blockAt self).blockNum j = (i : Int)
        · rw [if_pos ⟨by rw [hb]; omega, hb, hiu⟩, if_pos hb]
        · rw [if_neg (fun hh => hb hh.2.1), if_neg hb]
          by_cases hd : j = (i : Int)
          · rw [if_pos ⟨hd, hiu⟩, if_pos hd]
          · rw [if_neg (fun hh => hd hh.1), if_neg hd]

/-- After the merge and step `#1` no link of the last block points to `self`, when the links
were symmetric before the call. -/
theorem joinMerged_last_links (m : Mesh) (s : State) (self L : Nat) (j bn bp N P : Int)
    (hL : s.blocks.length = L + 1) (hself : self < L)
    (hnum : (s.blockAt self).blockNum = (self : Int)) (hsym : LinkSym s)
    (hj0 : 0 ≤ j) (hjs : j.toNat ≠ self) (ht : joinTarget m s self = some (j, bn, bp))
    (hN : N = (if joinUnloop bp (s.blockAt self).blockNum j = (L : Int) then j
         else if j = (L : Int) then joinUnloop bn (s.blockAt self).blockNum j
         else (s.blockAt L).nextBlock))
    (hP : P = (if joinUnloop bn (s.blockAt self).blockNum j = (L : Int) then j
         else if j = (L : Int) then joinUnloop bp (s.blockAt self).blockNum j
         else (s.blockAt L).prevBlock)) :
    N ≠ (self : Int) ∧ P ≠ (self : Int) := by
  have hjne : j ≠ (self : Int) := by omega
  have hun : ∀ x, joinUnloop x (s.blockAt self).blockNum j ≠ (self : Int) := by
    intro x e
    exact joinUnloop_ne x (s.blockAt self).blockNum j (by rw [hnum]; omega) (e.trans hnum.symm)
  obtain ⟨sel1, sel2⟩ := joinTarget_sel m s self j bn bp ht
  obtain ⟨sy1, sy2⟩ := hsym L (by omega)
  constructor
  · rw [hN]
    by_cases hb : joinUnloop bp (s.blockAt self).blockNum j = (L : Int)
    · rw [if_pos hb]; exact hjne
    · rw [if_neg hb]
      by_cases hd : j = (L : Int)
      · rw [if_pos hd]; exact hun bn
      · rw [if_neg hd]
        intro hx
        have h1 := sy1 (by rw [hx]; omega)
        rw [hx, getB_natCast] at h1
        by_cases hn : (s.blockAt self).nextBlock = -1
        · have := sel2 hn (by rw [h1]; omega)
          rw [h1] at this
          exact hd this
        · have hbp := (sel1 hn).2
          have hjn := (sel1 hn).1
          apply hb
          unfold joinUnloop
          rw [hbp, h1, hnum, if_neg]
          rintro (e | e)
          · omega
          · exact hd e.symm
  · rw [hP]
    by_cases hb : joinUnloop bn (s.blockAt self).blockNum j = (L : Int)
    · rw [if_pos hb]; exact hjne
    · rw [if_neg hb]
      by_cases hd : j = (L : Int)
      · rw [if_pos hd]; exact hun bp
      · rw [if_neg hd]
        intro hx
        have h1 := sy2 (by rw [hx]; omega)
        rw [hx, getB_natCast] at h1
        have hn : (s.blockAt self).nextBlock ≠ -1 := by rw [h1]; omega
        have hjn := (sel1 hn).1
        rw [h1] at hjn
        exact hd hjn

/-- C34: `join` compaction keeps the metadata of the slot of `self`.  For a state with P1,
I3, I5 and I7 and a block `self` that is not in the last slot `L` and whose links are `-1`
or the index of another block, a `join` that returns a value other than `-1` leaves in
`blocks[self]` exactly the nodes of the last block as it stands after the merge (the nodes
the last block had before the call, together with the nodes of `self` when the last block
was the target), these are exactly the nodes whose owner is `self`, and `blocks[self]` has
that block's `prev` and `next` as the merge step leaves them, while `isActive` and `maxSize`
are the values `blocks[self]` had before the call. -/
theorem join_compaction_keeps_slot_metadata (m : Mesh) (s : State) (self L : Nat) (r : Int)
    (s' : State) (hL : s.blocks.length = L + 1) (hself : self < L)
    (hP1 : OwnerLists s) (hdis : ListsDisjoint s) (hP5 : NumOk s) (hsym : LinkSym s)
    (hlinks : SelfLinksOk s self)
    (hj : join m s self = .ok (r, s')) (hr : r ≠ -1) :
    ∃ j bn bp t, joinTarget m s self = some (j, bn, bp) ∧
      joinMerged m s self j bn bp = .ok t ∧ r = j ∧
      s'.blocks.length = L ∧
      (∀ x, x ∈ (s'.blockAt self).nodes ↔ x ∈ (t.blockAt L).nodes) ∧
      (∀ x, s'.nodeBlocks x = (self : Int) ↔ x ∈ (t.blockAt L).nodes) ∧
      (∀ x, x ∈ (t.blockAt L).nodes ↔
        x ∈ (s.blockAt L).nodes ∨ (j = (L : Int) ∧ x ∈ (s.blockAt self).nodes)) ∧
      (s'.blockAt self).nextBlock = (t.blockAt L).nextBlock ∧
      (s'.blockAt self).prevBlock = (t.blockAt L).prevBlock ∧
      (t.blockAt L).nextBlock =
        (if joinUnloop bp (s.blockAt self).blockNum j = (L : Int) then j
         else if j = (L : Int) then joinUnloop bn (s.blockAt self).blockNum j
         else (s.blockAt L).nextBlock) ∧
      (t.blockAt L).prevBlock =
        (if joinUnloop bn (s.blockAt self).blockNum j = (L : Int) then j
         else if j = (L : Int) then joinUnloop bp (s.blockAt self).blockNum j
         else (s.blockAt L).prevBlock) ∧
      (s'.blockAt self).isActive = (s.blockAt self).isActive ∧
      (s'.blockAt self).maxSize = (s.blockAt self).maxSize ∧
      (s'.blockAt self).blockNum = (self : Int) := by
  have hself1 : self < s.blocks.length := by omega
  have hnum : (s.blockAt self).blockNum = (self : Int) := hP5 self hself1
  unfold join at hj
  cases ht : joinTarget m s self with
  | none =>
    rw [ht] at hj
    simp only [Except.ok.injEq, Prod.mk.injEq] at hj
    exact absurd hj.1.symm hr
  | some x =>
    obtain ⟨j, bn, bp⟩ := x
    rw [ht] at hj
    simp only at hj
    have hv := joinTarget_valid m s self j bn bp hself1 ⟨hP1, hdis, hP5⟩ hlinks ht
    have hj0 := joinTarget_nonneg m s self j bn bp hlinks ht
    have hpart := joinInto_partOk m s s' self j bn bp r hself1 hv.1 hv.2 ⟨hP1, hdis, hP5⟩ hj
    rw [joinInto_merged] at hj
    cases hm : joinMerged m s self j bn bp with
    | error e => rw [hm] at hj; cases hj
    | ok t =>
      rw [hm] at hj
      simp only at hj
      obtain ⟨t1, t2, t3, t4, t5, t6⟩ := joinMerged_shape m s t self j bn bp hself1 hj0 hv.1 hv.2 hm
      obtain ⟨n1, n2, n3⟩ := t6 L (by omega) (by omega)
      obtain ⟨f1, f2⟩ := joinMerged_last_links m s self L j bn bp _ _ hL hself hnum hsym hj0
        hv.2 ht n2 n3
      have hcast : ((t.blocks.length : Nat) : Int) - 1 = (L : Int) := by rw [t1, hL]; omega
      unfold joinFinish at hj
      rw [hcast, t3, hnum, if_pos (by omega)] at hj
      cases hc : joinCompact m t self (L : Int) with
      | error e => rw [hc] at hj; cases hj
      | ok s4 =>
        rw [hc] at hj
        simp only [Except.ok.injEq, Prod.mk.injEq] at hj
        obtain ⟨hr1, hs4⟩ := hj
        obtain ⟨k1, k2, k3, k4, k5, k6, k7, k8⟩ := joinCompact_self m t s4 self L hself
          (t1.trans hL) t2 f1 f2 hc
        have hat : s'.blockAt self = s4.blockAt self := by
          rw [← hs4]
          simp only [State.blockAt, getD_dropLast_block]
          rw [if_pos (by omega)]
        have hlen : s'.blocks.length = L := by have := hpart.2.1; omega
        refine ⟨j, bn, bp, t, rfl, hm, hr1.symm, hlen, ?_, ?_, n1, ?_, ?_, n2, n3, ?_, ?_, ?_⟩
        · intro x; rw [hat]; exact k7 x
        · intro x
          rw [hpart.1.1 x self, hat, k7 x, hlen]
          exact ⟨fun h => h.2, fun h => ⟨hself, h⟩⟩
        · rw [hat]; exact k2
        · rw [hat]; exact k3
        · rw [hat, k4]; exact t4
        · rw [hat, k5]; exact t5
        · rw [hat, k6, t3]; exact hnum

/-- C34, instance: blocks `A = 0` (inactive, `maxSize = 5`), `B = 1`, `C = 2` on the 4x4
grid; `join` on `A` merges it into `B` and moves `C` into slot `0`, which keeps
`isActive = false` and `maxSize = 5` although `C` was active with `maxSize = 8`. -/
theorem join_compaction_keeps_slot_metadata_witness :
    joinMetaScenario.blocks.length = 2 + 1 ∧ OwnerLists joinMetaScenario ∧
    ListsDisjoint joinMetaScenario ∧ NumOk joinMetaScenario ∧ LinkSym joinMetaScenario ∧
    SelfLinksOk joinMetaScenario 0 ∧
    join grid4 joinMetaScenario 0 = .ok (1, joinMetaScenarioAfter) ∧
    ((joinMetaScenario.blockAt 2).isActive, (joinMetaScenario.blockAt 2).maxSize) = (true, 8) ∧
    (joinMetaScenarioAfter.blockAt 0).view =
      (0, [12, 13, 14, 15], [8, 9, 10, 11], 1, -1) ∧
    ∃ j bn bp t, joinTarget grid4 joinMetaScenario 0 = some (j, bn, bp) ∧
      joinMerged grid4 joinMetaScenario 0 j bn bp = .ok t ∧ (1 : Int) = j ∧
      joinMetaScenarioAfter.blocks.length = 2 ∧
      (∀ x, x ∈ (joinMetaScenarioAfter.blockAt 0).nodes ↔ x ∈ (t.blockAt 2).nodes) ∧
      (∀ x, joinMetaScenarioAfter.nodeBlocks x = ((0 : Nat) : Int) ↔ x ∈ (t.blockAt 2).nodes) ∧
      (∀ x, x ∈ (t.blockAt 2).nodes ↔
        x ∈ (joinMetaScenario.blockAt 2).nodes ∨
          (j = ((2 : Nat) : Int) ∧ x ∈ (joinMetaScenario.blockAt 0).nodes)) ∧
      (joinMetaScenarioAfter.blockAt 0).nextBlock = (t.blockAt 2).nextBlock ∧
      (joinMetaScenarioAfter.blockAt 0).prevBlock = (t.blockAt 2).prevBlock ∧
      (t.blockAt 2).nextBlock =
        (if joinUnloop bp (joinMetaScenario.blockAt 0).blockNum j = ((2 : Nat) : Int) then j
         else if j = ((2 : Nat) : Int) then joinUnloop bn (joinMetaScenario.blockAt 0).blockNum j
         else (joinMetaScenario.blockAt 2).nextBlock) ∧
      (t.blockAt 2).prevBlock =
        (if joinUnloop bn (joinMetaScenario.blockAt 0).blockNum j = ((2 : Nat) : Int) then j
         else if j = ((2 : Nat) : Int) then joinUnloop bp (joinMetaScenario.blockAt 0).blockNum j
         else (joinMetaScenario.blockAt 2).prevBlock) ∧
      (joinMetaScenarioAfter.blockAt 0).isActive = (joinMetaScenario.blockAt 0).isActive ∧
      (joinMetaScenarioAfter.blockAt 0).maxSize = (joinMetaScenario.blockAt 0).maxSize ∧
      (joinMetaScenarioAfter.blockAt 0).blockNum = ((0 : Nat) : Int) :=
  ⟨rfl, ownerLists_arr _ _ _ (by decide) (by decide) (by decide), by decide, by decide,
   by decide, by decide, by rfl, by decide, by decide!,
   join_compaction_keeps_slot_metadata grid4 joinMetaScenario 0 2 1 joinMetaScenarioAfter rfl
     (by decide) (ownerLists_arr _ _ _ (by decide) (by decide) (by decide)) (by decide)
     (by decide) (by decide) (by decide) (by rfl) (by decide)⟩

/-- The role of I5 in the compaction of `join`: in a state where
`blocks[2].next = 0` is a stale link (`blocks[0].prev = -1`), step `#2` of `join` on block `0`
writes `blocks[0].prevBlock = 0` through that link after copying the links of the last
block, so the slot ends with `prev = 0` while the last block had `prev = -1`. -/
theorem join_compaction_stale_link :
    OwnerLists joinStaleLinkScenario ∧ ListsDisjoint joinStaleLinkScenario ∧
    NumOk joinStaleLinkScenario ∧ SelfLinksOk joinStaleLinkScenario 0 ∧
    ¬ LinkSym joinStaleLinkScenario ∧
    join (pathMesh 3) joinStaleLinkScenario 0 = .ok (1, joinStaleLinkScenarioAfter) ∧
    (joinStaleLinkScenario.blockAt 2).view = (2, [], [2], -1, 0) ∧
    ((okOr (joinMerged (pathMesh 3) joinStaleLinkScenario 0 1 (-1) (-1))
      joinStaleLinkScenario).blockAt 2).view = (2, [], [2], -1, 0) ∧
    (joinStaleLinkScenarioAfter.blockAt 0).view = (0, [], [2], 0, 0) ∧
    ((joinStaleLinkScenarioAfter.blockAt 0).isActive,
      (joinStaleLinkScenarioAfter.blockAt 0).maxSize) = (false, 5) :=
  ⟨ownerLists_arr _ _ _ (by decide) (by decide) (by decide), by decide, by decide, by decide,
   by decide, by rfl, by decide, by decide!, by decide!, by decide!⟩

end Blocker
